import Mathlib

/-!
A tree-walking interpreter for a small imperative language.

Shallow embedding of the lexer (`src/lexer.cpp`), the recursive-descent parser
(`src/parser.cpp`) and the evaluator (`src/interpreter.cpp`).

Modelling conventions
* `int` is the 32-bit two's-complement machine integer: values are `Int`s and every
  arithmetic result is reduced by `wrapInt`.
* A C++ exception is the `error` side of `Except`; the constructors of `Error` name the
  messages of the source. Behaviour the C++ standard leaves undefined (reading an
  indeterminate member, indexing a vector out of range, dereferencing a null pointer)
  is the distinguished error `Error.undefinedBehavior`.
* A null `Node*` is the constructor `Node.null`.
* Source positions of AST nodes only feed diagnostics and are not stored in `Node`;
  the scanner keeps its line and column.
* Loops and the mutually recursive parser take a fuel argument; `Error.outOfFuel` is
  produced only when the fuel runs out and is not an error of the program.
-/

/-! ## Values -/

/-- The two data types of the language (`enum class Type`). -/
inductive Ty
  | INT
  | BOOL
  deriving DecidableEq, Repr

/-- Reduction of an integer to the range of a 32-bit two's-complement `int`. -/
def wrapInt (x : Int) : Int := (x + 2147483648) % 4294967296 - 2147483648

/-- Result of evaluating an expression: a type tag and the value stored as an `int`. -/
structure Result where
  type : Ty
  value : Int
  deriving DecidableEq, Repr

/-- Constructor `Result(int value)`. -/
def Result.ofInt (value : Int) : Result := ⟨Ty.INT, value⟩

/-- Constructor `Result(bool value)`: the boolean is stored as 0 or 1. -/
def Result.ofBool (value : Bool) : Result := ⟨Ty.BOOL, if value then 1 else 0⟩

/-- The conversion `(bool) r.value`. -/
def Result.asBool (r : Result) : Bool := decide (r.value ≠ 0)

/-! ## Tokens -/

/-- The token kinds of the scanner (`Lexer::Token`). -/
inductive Token
  | NUM | ID | INT | BOOLEAN | TRUE | FALSE | LBRACE | RBRACE
  | LBRACKET | RBRACKET | LPARENTHESIS | RPARENTHESIS | SEMICOLON
  | IF | ELSE | WHILE | DO | BREAK | PRINT | EQ | NEQ | AND | OR | LESS
  | LESSEQ | GREATER | GREATEREQ | ASSIGN | PLUS | MINUS | MULTIPLY
  | DIVIDE | NOT | END | ERROR
  deriving DecidableEq, Repr

/-! ## Errors -/

/-- The exceptions the program can throw, one constructor per message of the source. -/
inductive Error
  /-- `Variable::size`: "Variable is not an array". -/
  | notAnArray
  /-- `SymbolMap::getVariable`: "Variable <name> not initialized" (the name is not declared). -/
  | notDeclared (name : String)
  /-- `assignValue`: "Invalid assignment". -/
  | invalidAssignment
  /-- `assignValue`: "Value mismatch". -/
  | valueMismatch
  /-- `assignValue`: "Array index out of bounds 0<=idx<size". -/
  | arrayIndexOutOfBounds (idx size : Int)
  /-- `assignValue`: "Invalid array assignment". -/
  | invalidArrayAssignment
  /-- `assignValue`: "Invalid location node in assignment". -/
  | invalidLocationNode
  /-- `interpret`: "Program should start with a ProgramNode". -/
  | programShouldStart
  /-- `executeBlock`: "Invalid block node". -/
  | invalidBlockNode
  /-- `executeDecls`: "Invalid declarations node". -/
  | invalidDeclarationsNode
  /-- `executeDecl`: "Unknown basic type <name>". -/
  | unknownBasicType (name : String)
  /-- `executeDecl`: "Unknown array base type <name>". -/
  | unknownArrayBaseType (name : String)
  /-- `executeDecl`: "Invalid array type". -/
  | invalidArrayType
  /-- `executeDecl`: "Invalid type node in declaration". -/
  | invalidTypeNode
  /-- `executeDecl`: "Invalid declaration node". -/
  | invalidDeclarationNode
  /-- `executeStmts`: "Invalid statements node". -/
  | invalidStatementsNode
  /-- `executeStmt`: "Unknown statement type". -/
  | unknownStatementType
  /-- `evaluateExpr`: "Impossible dividing by 0". -/
  | divisionByZero
  /-- `evaluateExpr`: "Value type mismatch". -/
  | valueTypeMismatch
  /-- `evaluateExpr`: "Mismatched unary operation type". -/
  | mismatchedUnary
  /-- `evaluateExpr`: "Variable<id> not initialized yet". -/
  | variableNotInitialized (name : String)
  /-- `evaluateExpr`: "Array <id> value at <index> not initialized yet". -/
  | arrayNotInitialized (name : String) (index : Int)
  /-- `evaluateExpr`: "Node interpretation not implemented yet". -/
  | notImplemented
  /-- `Parser::match`: "Unexpected token <actual> at line/column. Expected <expected>". -/
  | unexpectedToken (actual expected : Token) (line column : Nat)
  /-- `Parser::parseBasic`: "Expected 'int' or 'bool' at line/column. Found <actual>". -/
  | expectedBasic (actual : Token) (line column : Nat)
  /-- `Parser::parseStmt`: "Invalid statement at line/column". -/
  | invalidStatement (line column : Nat)
  /-- `Parser::parseFactor`: "Unexpected token <actual> at line/column". -/
  | unexpectedFactorToken (actual : Token) (line column : Nat)
  /-- The `BreakException` thrown by a break statement. -/
  | breakException
  /-- The `std::length_error` of `vector::resize` with a negative size. -/
  | lengthError
  /-- Undefined behaviour of the C++ program. -/
  | undefinedBehavior
  /-- The fuel of the model ran out. -/
  | outOfFuel
  deriving DecidableEq, Repr

/-! ## Abstract syntax tree -/

/-- Operators of a relational node (`RelNode::Op`). -/
inductive RelOp
  | LESS | LESSEQ | GREATER | GREATEREQ
  deriving DecidableEq, Repr

/-- Operators of a unary node (`UnaryNode::Op`). -/
inductive UnaryOp
  | NOT | NEG
  deriving DecidableEq, Repr

/-- Kinds of a factor node (`FactorNode::Type`). -/
inductive FactorType
  | BOOL | INT | ID
  deriving DecidableEq, Repr

/-- The node classes of `ast.h`; `null` stands for a null pointer. -/
inductive Node
  | null
  | ProgramNode (block : Node)
  | BlockNode (decls stmts : Node)
  | DeclsNode (decl next : Node)
  | StmtsNode (stmt next : Node)
  | DeclNode (type : Node) (id : String)
  | BasicTypeNode (typeName : String)
  | ArrayTypeNode (type : Node) (arraySize : Int)
  | IdNode (id : String)
  | AssignNode (loc expr : Node)
  | ArrayAccessNode (index : Node) (id : String)
  | OrNode (left right : Node)
  | AndNode (left right : Node)
  | EqualityNode (left right : Node) (isEqual : Bool)
  | RelNode (left right : Node) (op : RelOp)
  | AddNode (left right : Node) (isAddition : Bool)
  | MulNode (left right : Node) (isMultiplication : Bool)
  | UnaryNode (operand : Node) (op : UnaryOp)
  | FactorNode (type : FactorType) (intValue : Int) (boolValue : Bool) (loc : Node)
  | IfNode (condition ifStmt : Node)
  | IfElseNode (condition ifStmt elseStmt : Node)
  | WhileNode (condition body : Node)
  | DoWhileNode (body condition : Node)
  | PrintNode (expr : Node)
  | BreakNode
  deriving DecidableEq, Repr

/-! ## Variables and the symbol table -/

/-- A variable of the program (`class Variable`). The member `initialized` is `none`
while it holds the indeterminate value the default constructor leaves in it. -/
structure Variable where
  type : Ty
  intValue : Int
  boolValue : Bool
  isArray : Bool
  intArray : List Int
  boolArray : List Bool
  initialized : Option Bool
  arrayInitialized : List Bool
  deriving DecidableEq, Repr

/-- The default constructor `Variable() : isArray(false), intValue(0), boolValue(false) {}`
followed by the assignment of `type`; `initialized` is not in the initializer list. -/
def Variable.mk0 (type : Ty) : Variable :=
  { type := type, intValue := 0, boolValue := false, isArray := false,
    intArray := [], boolArray := [], initialized := none, arrayInitialized := [] }

/-- Method `Variable::size`. -/
def Variable.size (v : Variable) : Except Error Int :=
  if v.isArray = false then
    Except.error Error.notAnArray
  else
    Except.ok (max v.intArray.length v.boolArray.length : Nat)

/-- The symbol table: the entries of the `unordered_map`, with unique keys. -/
structure SymbolMap where
  map : List (String × Variable)
  deriving DecidableEq, Repr

namespace SymbolMap

/-- The entry of `name` (`map.find(name)`). -/
def find (sm : SymbolMap) (name : String) : Option Variable :=
  (sm.map.find? (fun p => p.1 == name)).map Prod.snd

/-- Method `SymbolMap::isDeclared`. -/
def isDeclared (sm : SymbolMap) (name : String) : Bool :=
  (sm.find name).isSome

/-- The call `map.erase(name)`. -/
def erase (sm : SymbolMap) (name : String) : SymbolMap :=
  ⟨sm.map.filter (fun p => !(p.1 == name))⟩

/-- The call `map.insert({name, var})`: nothing is stored when the key is present. -/
def insert (sm : SymbolMap) (name : String) (var : Variable) : SymbolMap :=
  if sm.isDeclared name then sm else ⟨(name, var) :: sm.map⟩

/-- A write through the reference returned by `getVariable`. -/
def store (sm : SymbolMap) (name : String) (var : Variable) : SymbolMap :=
  ⟨sm.map.map (fun p => if p.1 == name then (p.1, var) else p)⟩

/-- The call `vector::resize(arraySize, value)` on an empty vector. -/
def resize {α : Type} (arraySize : Int) (value : α) : Except Error (List α) :=
  if arraySize < 0 then Except.error Error.lengthError
  else Except.ok (List.replicate arraySize.toNat value)

/-- Method `SymbolMap::declareVariable`. -/
def declareVariable (sm : SymbolMap) (name : String) (type : Ty)
    (isArray : Bool) (arraySize : Int) : Except Error SymbolMap := do
  let sm1 := if sm.isDeclared name then sm.erase name else sm
  let var := Variable.mk0 type
  let var := { var with isArray := isArray }
  if isArray then
    if type = Ty.INT then
      let a ← resize arraySize (0 : Int)
      let f ← resize arraySize false
      pure (sm1.insert name { var with intArray := a, arrayInitialized := f })
    else
      let a ← resize arraySize false
      let f ← resize arraySize false
      pure (sm1.insert name { var with boolArray := a, arrayInitialized := f })
  else
    pure (sm1.insert name var)

/-- Method `SymbolMap::getVariable`. -/
def getVariable (sm : SymbolMap) (name : String) : Except Error Variable :=
  match sm.find name with
  | none => Except.error (Error.notDeclared name)
  | some v => Except.ok v

end SymbolMap

/-- Element access `v[i]` of a vector: undefined outside of `[0, size)`. -/
def vecGet {α : Type} (v : List α) (i : Int) : Except Error α :=
  if i < 0 then Except.error Error.undefinedBehavior
  else
    match v.get? i.toNat with
    | some x => Except.ok x
    | none => Except.error Error.undefinedBehavior

/-- The write `v[i] = x` into a vector: undefined outside of `[0, size)`. -/
def vecSet {α : Type} (v : List α) (i : Int) (x : α) : Except Error (List α) :=
  if i < 0 ∨ (v.length : Int) ≤ i then Except.error Error.undefinedBehavior
  else Except.ok (v.set i.toNat x)

/-- The call `v.insert(v.begin() + i, x)`: undefined outside of `[0, size]`. -/
def vecInsert {α : Type} (v : List α) (i : Int) (x : α) : Except Error (List α) :=
  if i < 0 ∨ (v.length : Int) < i then Except.error Error.undefinedBehavior
  else Except.ok (v.take i.toNat ++ x :: v.drop i.toNat)

/-! ## The evaluator -/

namespace Interpreter

/-- Method `Interpreter::throwError` (the name is taken in Lean): the message reads `node->line`, so that a null
node is dereferenced before anything is thrown. -/
def throwErr (message : Error) (node : Node) : Error :=
  match node with
  | Node.null => Error.undefinedBehavior
  | _ => message

/-- Method `Interpreter::evaluateExpr`. It reads the symbol table and never writes it. -/
def evaluateExpr (sm : SymbolMap) : Node → Except Error Result
  | Node.MulNode left right isMultiplication => do
    let leftValue ← evaluateExpr sm left
    let rightValue ← evaluateExpr sm right
    if isMultiplication = false ∧
        ((rightValue.type = Ty.INT ∧ rightValue.value = 0) ∨
         (rightValue.type = Ty.BOOL ∧ rightValue.asBool = false)) then
      throw (throwErr Error.divisionByZero (Node.MulNode left right isMultiplication))
    if leftValue.type ≠ rightValue.type then
      throw (throwErr Error.valueTypeMismatch (Node.MulNode left right isMultiplication))
    if leftValue.type = Ty.INT then
      pure (Result.ofInt (if isMultiplication then wrapInt (leftValue.value * rightValue.value)
                          else wrapInt (Int.tdiv leftValue.value rightValue.value)))
    else
      pure (Result.ofBool (if isMultiplication then (leftValue.asBool && rightValue.asBool)
                           else leftValue.asBool))
  | Node.AddNode left right isAddition => do
    let leftValue ← evaluateExpr sm left
    let rightValue ← evaluateExpr sm right
    if leftValue.type ≠ rightValue.type then
      throw (throwErr Error.valueTypeMismatch (Node.AddNode left right isAddition))
    if leftValue.type = Ty.INT then
      pure (Result.ofInt (if isAddition then wrapInt (leftValue.value + rightValue.value)
                          else wrapInt (leftValue.value - rightValue.value)))
    else
      pure (Result.ofBool (if isAddition then (leftValue.asBool || rightValue.asBool)
                           else (leftValue.asBool != rightValue.asBool)))
  | Node.UnaryNode operand op => do
    let operandValue ← evaluateExpr sm operand
    if op = UnaryOp.NOT ∧ operandValue.type = Ty.BOOL then
      pure (Result.ofBool (!operandValue.asBool))
    else if op = UnaryOp.NEG ∧ operandValue.type = Ty.INT then
      pure (Result.ofInt (wrapInt (-operandValue.value)))
    else
      throw (throwErr Error.mismatchedUnary (Node.UnaryNode operand op))
  | Node.FactorNode type intValue boolValue loc =>
    match type with
    | FactorType.BOOL => pure (Result.ofBool boolValue)
    | FactorType.INT => pure (Result.ofInt intValue)
    | FactorType.ID => evaluateExpr sm loc
  | Node.OrNode left right => do
    let leftValue ← evaluateExpr sm left
    if leftValue.asBool then
      pure (Result.ofBool true)
    else
      let rightValue ← evaluateExpr sm right
      pure (Result.ofBool rightValue.asBool)
  | Node.AndNode left right => do
    let leftValue ← evaluateExpr sm left
    if leftValue.asBool then
      let rightValue ← evaluateExpr sm right
      pure (Result.ofBool rightValue.asBool)
    else
      pure (Result.ofBool false)
  | Node.EqualityNode left right isEqual => do
    let leftValue ← evaluateExpr sm left
    let rightValue ← evaluateExpr sm right
    if leftValue.type ≠ rightValue.type then
      -- the source passes `addNode`, which is null in this branch
      throw (throwErr Error.valueTypeMismatch Node.null)
    if leftValue.type = Ty.INT then
      pure (Result.ofBool (isEqual == decide (leftValue.value = rightValue.value)))
    else
      pure (Result.ofBool (isEqual == (leftValue.asBool == rightValue.asBool)))
  | Node.RelNode left right op => do
    let leftValue ← evaluateExpr sm left
    let rightValue ← evaluateExpr sm right
    match op with
    | RelOp.LESS => pure (Result.ofBool (decide (leftValue.value < rightValue.value)))
    | RelOp.LESSEQ => pure (Result.ofBool (decide (leftValue.value ≤ rightValue.value)))
    | RelOp.GREATER => pure (Result.ofBool (decide (leftValue.value > rightValue.value)))
    | RelOp.GREATEREQ => pure (Result.ofBool (decide (leftValue.value ≥ rightValue.value)))
  | Node.IdNode id => do
    let var ← sm.getVariable id
    match var.initialized with
    | none => throw Error.undefinedBehavior
    | some false => throw (throwErr (Error.variableNotInitialized id) (Node.IdNode id))
    | some true =>
      pure (if var.type = Ty.INT then Result.ofInt var.intValue
            else Result.ofBool var.boolValue)
  | Node.ArrayAccessNode index id => do
    let var ← sm.getVariable id
    let indexValue ← evaluateExpr sm index
    let idx := indexValue.value
    let flag ← vecGet var.arrayInitialized idx
    if flag = false then
      throw (throwErr (Error.arrayNotInitialized id idx) (Node.ArrayAccessNode index id))
    if var.type = Ty.INT then
      let x ← vecGet var.intArray idx
      pure (Result.ofInt x)
    else
      let x ← vecGet var.boolArray idx
      pure (Result.ofBool x)
  | node => throw (throwErr Error.notImplemented node)

/-- An exception of the evaluator thrown while the symbol table is `sm`. -/
def raiseAt {σ α : Type} (sm : σ) (x : Except Error α) : Except (Error × σ) α :=
  match x with
  | Except.ok a => Except.ok a
  | Except.error e => Except.error (e, sm)

/-- Method `Interpreter::assignValue`. An error carries the symbol table as it is when
the exception is thrown. -/
def assignValue (sm : SymbolMap) (locNode exprNode : Node) :
    Except (Error × SymbolMap) SymbolMap :=
  match locNode with
  | Node.IdNode id => do
    let var ← raiseAt sm (sm.getVariable id)
    let value ← raiseAt sm (evaluateExpr sm exprNode)
    if var.type = value.type then
      if var.type = Ty.INT ∧ var.isArray = false then
        pure (sm.store id { var with intValue := value.value, initialized := some true })
      else if var.type = Ty.BOOL ∧ var.isArray = false then
        pure (sm.store id { var with boolValue := value.asBool, initialized := some true })
      else
        throw (throwErr Error.invalidAssignment locNode, sm)
    else
      throw (throwErr Error.valueMismatch locNode, sm)
  | Node.ArrayAccessNode indexNode id => do
    let var ← raiseAt sm (sm.getVariable id)
    let index ← raiseAt sm (evaluateExpr sm indexNode)
    let value ← raiseAt sm (evaluateExpr sm exprNode)
    let idx : Int := if index.type = Ty.INT then index.value else (if index.asBool then 1 else 0)
    -- `variable.size()` is called on both sides of `idx < 0 || idx >= variable.size()`:
    -- in the comparison, or else in the text of the message
    let size ← raiseAt sm var.size
    if idx < 0 ∨ idx ≥ size then
      throw (throwErr (Error.arrayIndexOutOfBounds idx size) locNode, sm)
    else
      if var.type = value.type then
        if var.type = Ty.INT ∧ var.isArray = true then
          let a ← raiseAt sm (vecSet var.intArray idx value.value)
          let f ← raiseAt sm (vecInsert var.arrayInitialized index.value true)
          pure (sm.store id { var with intArray := a, arrayInitialized := f })
        else if var.type = Ty.BOOL ∧ var.isArray = true then
          let a ← raiseAt sm (vecSet var.boolArray idx value.asBool)
          let f ← raiseAt sm (vecInsert var.arrayInitialized index.value true)
          pure (sm.store id { var with boolArray := a, arrayInitialized := f })
        else
          throw (throwErr Error.invalidArrayAssignment locNode, sm)
      else
        throw (throwErr Error.valueMismatch locNode, sm)
  | _ => throw (throwErr Error.invalidLocationNode locNode, sm)

/-- Method `Interpreter::executeDecl`. -/
def executeDecl (sm : SymbolMap) (declNode : Node) : Except Error SymbolMap :=
  match declNode with
  | Node.DeclNode type id =>
    match type with
    | Node.BasicTypeNode typeName =>
      if typeName = "integer" then sm.declareVariable id Ty.INT false 0
      else if typeName = "boolean" then sm.declareVariable id Ty.BOOL false 0
      else throw (throwErr (Error.unknownBasicType typeName) type)
    | Node.ArrayTypeNode baseType arraySize =>
      match baseType with
      | Node.BasicTypeNode typeName =>
        if typeName = "integer" then sm.declareVariable id Ty.INT true arraySize
        else if typeName = "boolean" then sm.declareVariable id Ty.BOOL true arraySize
        else throw (throwErr (Error.unknownArrayBaseType typeName) baseType)
      | _ => throw (throwErr Error.invalidArrayType type)
    | _ => throw (throwErr Error.invalidTypeNode declNode)
  | _ => throw (throwErr Error.invalidDeclarationNode declNode)

/-- Method `Interpreter::executeDecls`. -/
def executeDecls (sm : SymbolMap) : Node → Except Error SymbolMap
  | Node.DeclsNode decl next => do
    let sm1 ← executeDecl sm decl
    match next with
    | Node.null => pure sm1
    | _ => executeDecls sm1 next
  | node => throw (throwErr Error.invalidDeclarationsNode node)

end Interpreter

/-- The state of the interpreter: the symbol table and the lines written to the
standard output. -/
structure Interpreter where
  symbolMap : SymbolMap
  cout : List String
  deriving DecidableEq, Repr

namespace Interpreter

/-- The line `std::cout << ... << std::endl` of a print statement. -/
def printLine (result : Result) : String :=
  if result.type = Ty.INT then toString result.value
  else if result.asBool then "true" else "false"

mutual

/-- Method `Interpreter::executeBlock`. -/
def executeBlock : Nat → Interpreter → Node → Except (Error × Interpreter) Interpreter
  | 0, st, _ => throw (Error.outOfFuel, st)
  | fuel + 1, st, Node.BlockNode decls stmts => do
    let st1 ← match decls with
      | Node.null => pure st
      | _ => (raiseAt st (executeDecls st.symbolMap decls)).map
               (fun sm => { st with symbolMap := sm })
    match stmts with
    | Node.null => pure st1
    | _ => executeStmts fuel st1 stmts
  | _ + 1, st, node => throw (throwErr Error.invalidBlockNode node, st)

/-- Method `Interpreter::executeStmts`. -/
def executeStmts : Nat → Interpreter → Node → Except (Error × Interpreter) Interpreter
  | 0, st, _ => throw (Error.outOfFuel, st)
  | fuel + 1, st, Node.StmtsNode stmt next => do
    let st1 ← executeStmt fuel st stmt
    match next with
    | Node.null => pure st1
    | _ => executeStmts fuel st1 next
  | _ + 1, st, node => throw (throwErr Error.invalidStatementsNode node, st)

/-- The loop `while (cond) body` of `executeStmt`, without its `catch`. -/
def whileLoop : Nat → Interpreter → Node → Node → Except (Error × Interpreter) Interpreter
  | 0, st, _, _ => throw (Error.outOfFuel, st)
  | fuel + 1, st, condition, body => do
    let c ← raiseAt st (evaluateExpr st.symbolMap condition)
    if c.asBool then
      let st1 ← executeStmt fuel st body
      whileLoop fuel st1 condition body
    else
      pure st

/-- The loop `do body while (cond)` of `executeStmt`, without its `catch`. -/
def doWhileLoop : Nat → Interpreter → Node → Node → Except (Error × Interpreter) Interpreter
  | 0, st, _, _ => throw (Error.outOfFuel, st)
  | fuel + 1, st, body, condition => do
    let st1 ← executeStmt fuel st body
    let c ← raiseAt st1 (evaluateExpr st1.symbolMap condition)
    if c.asBool then
      doWhileLoop fuel st1 body condition
    else
      pure st1

/-- Method `Interpreter::executeStmt`. -/
def executeStmt : Nat → Interpreter → Node → Except (Error × Interpreter) Interpreter
  | 0, st, _ => throw (Error.outOfFuel, st)
  | _ + 1, st, Node.AssignNode loc expr =>
    match assignValue st.symbolMap loc expr with
    | Except.ok sm => pure { st with symbolMap := sm }
    | Except.error (e, sm) => throw (e, { st with symbolMap := sm })
  | fuel + 1, st, Node.IfNode condition ifStmt => do
    let c ← raiseAt st (evaluateExpr st.symbolMap condition)
    if c.asBool then executeStmt fuel st ifStmt else pure st
  | fuel + 1, st, Node.IfElseNode condition ifStmt elseStmt => do
    let c ← raiseAt st (evaluateExpr st.symbolMap condition)
    if c.asBool then executeStmt fuel st ifStmt else executeStmt fuel st elseStmt
  | fuel + 1, st, Node.WhileNode condition body =>
    match whileLoop fuel st condition body with
    | Except.error (Error.breakException, st1) => pure st1
    | r => r
  | fuel + 1, st, Node.DoWhileNode body condition =>
    match doWhileLoop fuel st body condition with
    | Except.error (Error.breakException, st1) => pure st1
    | r => r
  | _ + 1, st, Node.PrintNode expr => do
    let result ← raiseAt st (evaluateExpr st.symbolMap expr)
    pure { st with cout := st.cout ++ [printLine result] }
  | _ + 1, st, Node.BreakNode => throw (Error.breakException, st)
  | fuel + 1, st, Node.BlockNode decls stmts => executeBlock fuel st (Node.BlockNode decls stmts)
  | _ + 1, st, node => throw (throwErr Error.unknownStatementType node, st)

end

/-- Method `Interpreter::interpret`, run on a fresh interpreter. In the failing branch
the source passes `programNode`, which is null there, to `throwError`. -/
def interpret (fuel : Nat) (node : Node) : Except (Error × Interpreter) Interpreter :=
  match node with
  | Node.ProgramNode block => executeBlock fuel ⟨⟨[]⟩, []⟩ block
  | _ => throw (throwErr Error.programShouldStart Node.null, ⟨⟨[]⟩, []⟩)

end Interpreter

/-! ## The scanner -/

/-- The C function `isspace` on the characters of the "C" locale. -/
def isspace (c : Char) : Bool :=
  c = ' ' || c = '\t' || c = '\n' || c = Char.ofNat 11 || c = Char.ofNat 12 || c = '\r'

/-- The C function `isdigit`. -/
def isdigit (c : Char) : Bool := c.isDigit

/-- The C function `isalpha` on the characters of the "C" locale. -/
def isalpha (c : Char) : Bool := c.isAlpha

/-- The C function `isalnum` on the characters of the "C" locale. -/
def isalnum (c : Char) : Bool := c.isAlpha || c.isDigit

/-- The scanner (`class Lexer`): the characters not yet read from the stream and the
members of the class. -/
structure Lexer where
  input : List Char
  currentCharacter : Char
  line : Nat
  column : Nat
  numberValue : Int
  identifierValue : String
  deriving DecidableEq, Repr

namespace Lexer

/-- The table of reserved words built by the constructor. -/
def keywords (word : String) : Option Token :=
  if word = "int" then some Token.INT
  else if word = "boolean" then some Token.BOOLEAN
  else if word = "true" then some Token.TRUE
  else if word = "false" then some Token.FALSE
  else if word = "if" then some Token.IF
  else if word = "else" then some Token.ELSE
  else if word = "while" then some Token.WHILE
  else if word = "do" then some Token.DO
  else if word = "break" then some Token.BREAK
  else if word = "print" then some Token.PRINT
  else none

/-- Method `Lexer::advance`. -/
def advance (l : Lexer) : Lexer :=
  match l.input with
  | c :: rest =>
    if c = '\n' then
      { l with input := rest, currentCharacter := c, line := l.line + 1, column := 0 }
    else
      { l with input := rest, currentCharacter := c, column := l.column + 1 }
  | [] => { l with currentCharacter := Char.ofNat 0 }

/-- The constructor `Lexer::Lexer`. The members `numberValue` and `currentCharacter`
have no initializer in the source; no token reads them before they are written. -/
def new (input : List Char) : Lexer :=
  advance { input := input, currentCharacter := Char.ofNat 0, line := 1, column := 0,
            numberValue := 0, identifierValue := "" }

/-- The loop of `Lexer::skipWhitespace`, at most `n` iterations. -/
def skipWhitespaceLoop : Nat → Lexer → Lexer
  | 0, l => l
  | n + 1, l => if isspace l.currentCharacter then skipWhitespaceLoop n (advance l) else l

/-- Method `Lexer::skipWhitespace`. The loop stops at the latest when the stream is
empty, since the null character is not a space. -/
def skipWhitespace (l : Lexer) : Lexer := skipWhitespaceLoop (l.input.length + 1) l

/-- The loop of `Lexer::scanNumber`, at most `n` iterations. -/
def scanNumberLoop : Nat → Lexer → Lexer
  | 0, l => l
  | n + 1, l =>
    if isdigit l.currentCharacter then
      scanNumberLoop n (advance { l with
        numberValue := wrapInt (l.numberValue * 10 + (l.currentCharacter.toNat - 48 : Int)) })
    else l

/-- Method `Lexer::scanNumber`. -/
def scanNumber (l : Lexer) : Token × Lexer :=
  (Token.NUM, scanNumberLoop (l.input.length + 1) { l with numberValue := 0 })

/-- The loop of `Lexer::scanIdentifierOrKeyword`, at most `n` iterations. -/
def scanIdentifierLoop : Nat → Lexer → Lexer
  | 0, l => l
  | n + 1, l =>
    if isalnum l.currentCharacter then
      scanIdentifierLoop n (advance { l with
        identifierValue := l.identifierValue.push l.currentCharacter })
    else l

/-- Method `Lexer::scanIdentifierOrKeyword`. -/
def scanIdentifierOrKeyword (l : Lexer) : Token × Lexer :=
  let l1 := scanIdentifierLoop (l.input.length + 1) { l with identifierValue := "" }
  match keywords l1.identifierValue with
  | some keyword => (keyword, l1)
  | none => (Token.ID, l1)

/-- The cases `=`, `!`, `<`, `>`, `&`, `|` of `nextToken`: the first character is
consumed, then the next one decides between the two tokens. -/
def twoCharacters (l : Lexer) (second : Char) (both single : Token) : Token × Lexer :=
  let l1 := advance l
  if l1.currentCharacter = second then (both, advance l1) else (single, l1)

/-- Method `Lexer::nextToken`. -/
def nextToken (l0 : Lexer) : Token × Lexer :=
  let l := skipWhitespace l0
  let c := l.currentCharacter
  if isdigit c then scanNumber l
  else if isalpha c then scanIdentifierOrKeyword l
  else if c = '+' then (Token.PLUS, advance l)
  else if c = '-' then (Token.MINUS, advance l)
  else if c = '*' then (Token.MULTIPLY, advance l)
  else if c = '/' then (Token.DIVIDE, advance l)
  else if c = '=' then twoCharacters l '=' Token.EQ Token.ASSIGN
  else if c = '!' then twoCharacters l '=' Token.NEQ Token.NOT
  else if c = '<' then twoCharacters l '=' Token.LESSEQ Token.LESS
  else if c = '>' then twoCharacters l '=' Token.GREATEREQ Token.GREATER
  else if c = '&' then twoCharacters l '&' Token.AND Token.ERROR
  else if c = '|' then twoCharacters l '|' Token.OR Token.ERROR
  else if c = ';' then (Token.SEMICOLON, advance l)
  else if c = '{' then (Token.LBRACE, advance l)
  else if c = '}' then (Token.RBRACE, advance l)
  else if c = '[' then (Token.LBRACKET, advance l)
  else if c = ']' then (Token.RBRACKET, advance l)
  else if c = '(' then (Token.LPARENTHESIS, advance l)
  else if c = ')' then (Token.RPARENTHESIS, advance l)
  else if c = Char.ofNat 0 then (Token.END, l)
  else (Token.ERROR, l)

end Lexer

/-! ## The parser -/

/-- The parser (`class Parser`): its scanner and the current token. -/
structure Parser where
  lexer : Lexer
  currentToken : Token
  deriving DecidableEq, Repr

namespace Parser

/-- Method `Parser::advance`. -/
def advance (p : Parser) : Parser :=
  let r := p.lexer.nextToken
  { lexer := r.2, currentToken := r.1 }

/-- The constructor `Parser::Parser`: it loads the first token. -/
def new (lexer : Lexer) : Parser := advance { lexer := lexer, currentToken := Token.END }

/-- Method `Parser::match` (the name is taken in Lean). -/
def matchToken (p : Parser) (expected : Token) : Except Error Parser :=
  if p.currentToken = expected then pure (advance p)
  else throw (Error.unexpectedToken p.currentToken expected p.lexer.line p.lexer.column)

/-- Method `Parser::parseBasic`. -/
def parseBasic (p : Parser) : Except Error (Node × Parser) :=
  if p.currentToken = Token.INT then do
    let p ← p.matchToken Token.INT
    pure (Node.BasicTypeNode "integer", p)
  else if p.currentToken = Token.BOOLEAN then do
    let p ← p.matchToken Token.BOOLEAN
    pure (Node.BasicTypeNode "boolean", p)
  else throw (Error.expectedBasic p.currentToken p.lexer.line p.lexer.column)

/-- Method `Parser::parseType`. -/
def parseType (p : Parser) : Except Error (Node × Parser) := do
  let (basicType, p) ← parseBasic p
  if p.currentToken = Token.LBRACKET then
    let p ← p.matchToken Token.LBRACKET
    let arraySize := p.lexer.numberValue
    let p ← p.matchToken Token.NUM
    let p ← p.matchToken Token.RBRACKET
    pure (Node.ArrayTypeNode basicType arraySize, p)
  else
    pure (basicType, p)

/-- Method `Parser::parseDecl`. -/
def parseDecl (p : Parser) : Except Error (Node × Parser) := do
  let (type, p) ← parseType p
  let id := p.lexer.identifierValue
  let p ← p.matchToken Token.ID
  let p ← p.matchToken Token.SEMICOLON
  pure (Node.DeclNode type id, p)

/-- Method `Parser::parseDecls`. -/
def parseDecls : Nat → Parser → Except Error (Node × Parser)
  | 0, _ => throw Error.outOfFuel
  | fuel + 1, p =>
    if p.currentToken = Token.INT ∨ p.currentToken = Token.BOOLEAN then do
      let (decl, p) ← parseDecl p
      let (next, p) ← parseDecls fuel p
      pure (Node.DeclsNode decl next, p)
    else
      pure (Node.null, p)

/-- The tokens that start a statement (the cases of the `switch` of `parseStmts`). -/
def startsStmt (t : Token) : Bool :=
  t = Token.ID || t = Token.IF || t = Token.WHILE || t = Token.DO || t = Token.BREAK
    || t = Token.PRINT || t = Token.LBRACE

/-- The operator of a relational token, if it is one (the `switch` of `parseRel`). -/
def relOp (t : Token) : Option RelOp :=
  match t with
  | Token.LESS => some RelOp.LESS
  | Token.LESSEQ => some RelOp.LESSEQ
  | Token.GREATER => some RelOp.GREATER
  | Token.GREATEREQ => some RelOp.GREATEREQ
  | _ => none

mutual

/-- Method `Parser::parseBlock`. -/
def parseBlock : Nat → Parser → Except Error (Node × Parser)
  | 0, _ => throw Error.outOfFuel
  | fuel + 1, p => do
    let p ← p.matchToken Token.LBRACE
    let (decls, p) ← parseDecls fuel p
    let (stmts, p) ← parseStmts fuel p
    let p ← p.matchToken Token.RBRACE
    pure (Node.BlockNode decls stmts, p)

/-- Method `Parser::parseStmts`. -/
def parseStmts : Nat → Parser → Except Error (Node × Parser)
  | 0, _ => throw Error.outOfFuel
  | fuel + 1, p =>
    if startsStmt p.currentToken then do
      let (stmt, p) ← parseStmt fuel p
      let (next, p) ← parseStmts fuel p
      pure (Node.StmtsNode stmt next, p)
    else
      pure (Node.null, p)

/-- Method `Parser::parseStmt`. -/
def parseStmt : Nat → Parser → Except Error (Node × Parser)
  | 0, _ => throw Error.outOfFuel
  | fuel + 1, p =>
    match p.currentToken with
    | Token.ID => do
      let (loc, p) ← parseLoc fuel p
      let p ← p.matchToken Token.ASSIGN
      let (expr, p) ← parseBool fuel p
      let p ← p.matchToken Token.SEMICOLON
      pure (Node.AssignNode loc expr, p)
    | Token.IF => do
      let p ← p.matchToken Token.IF
      let p ← p.matchToken Token.LPARENTHESIS
      let (condition, p) ← parseBool fuel p
      let p ← p.matchToken Token.RPARENTHESIS
      let (ifStmt, p) ← parseStmt fuel p
      if p.currentToken = Token.ELSE then
        let p ← p.matchToken Token.ELSE
        let (elseStmt, p) ← parseStmt fuel p
        pure (Node.IfElseNode condition ifStmt elseStmt, p)
      else
        pure (Node.IfNode condition ifStmt, p)
    | Token.WHILE => do
      let p ← p.matchToken Token.WHILE
      let p ← p.matchToken Token.LPARENTHESIS
      let (condition, p) ← parseBool fuel p
      let p ← p.matchToken Token.RPARENTHESIS
      let (body, p) ← parseStmt fuel p
      pure (Node.WhileNode condition body, p)
    | Token.DO => do
      let p ← p.matchToken Token.DO
      let (body, p) ← parseStmt fuel p
      let p ← p.matchToken Token.WHILE
      let p ← p.matchToken Token.LPARENTHESIS
      let (condition, p) ← parseBool fuel p
      let p ← p.matchToken Token.RPARENTHESIS
      let p ← p.matchToken Token.SEMICOLON
      pure (Node.DoWhileNode body condition, p)
    | Token.BREAK => do
      let p ← p.matchToken Token.BREAK
      let p ← p.matchToken Token.SEMICOLON
      pure (Node.BreakNode, p)
    | Token.PRINT => do
      let p ← p.matchToken Token.PRINT
      let p ← p.matchToken Token.LPARENTHESIS
      let (expr, p) ← parseBool fuel p
      let p ← p.matchToken Token.RPARENTHESIS
      let p ← p.matchToken Token.SEMICOLON
      pure (Node.PrintNode expr, p)
    | Token.LBRACE => parseBlock fuel p
    | _ => throw (Error.invalidStatement p.lexer.line p.lexer.column)

/-- Method `Parser::parseLoc`. -/
def parseLoc : Nat → Parser → Except Error (Node × Parser)
  | 0, _ => throw Error.outOfFuel
  | fuel + 1, p => do
    let id := p.lexer.identifierValue
    let p ← p.matchToken Token.ID
    if p.currentToken = Token.LBRACKET then
      let p ← p.matchToken Token.LBRACKET
      let (indexExpr, p) ← parseBool fuel p
      let p ← p.matchToken Token.RBRACKET
      pure (Node.ArrayAccessNode indexExpr id, p)
    else
      pure (Node.IdNode id, p)

/-- Method `Parser::parseBool`. -/
def parseBool : Nat → Parser → Except Error (Node × Parser)
  | 0, _ => throw Error.outOfFuel
  | fuel + 1, p => do
    let (left, p) ← parseJoin fuel p
    parseBoolLoop fuel left p

/-- The `while` loop of `parseBool`. -/
def parseBoolLoop : Nat → Node → Parser → Except Error (Node × Parser)
  | 0, _, _ => throw Error.outOfFuel
  | fuel + 1, left, p =>
    if p.currentToken = Token.OR then do
      let p ← p.matchToken Token.OR
      let (right, p) ← parseJoin fuel p
      parseBoolLoop fuel (Node.OrNode left right) p
    else
      pure (left, p)

/-- Method `Parser::parseJoin`. -/
def parseJoin : Nat → Parser → Except Error (Node × Parser)
  | 0, _ => throw Error.outOfFuel
  | fuel + 1, p => do
    let (left, p) ← parseEquality fuel p
    parseJoinLoop fuel left p

/-- The `while` loop of `parseJoin`. -/
def parseJoinLoop : Nat → Node → Parser → Except Error (Node × Parser)
  | 0, _, _ => throw Error.outOfFuel
  | fuel + 1, left, p =>
    if p.currentToken = Token.AND then do
      let p ← p.matchToken Token.AND
      let (right, p) ← parseEquality fuel p
      parseJoinLoop fuel (Node.AndNode left right) p
    else
      pure (left, p)

/-- Method `Parser::parseEquality`. -/
def parseEquality : Nat → Parser → Except Error (Node × Parser)
  | 0, _ => throw Error.outOfFuel
  | fuel + 1, p => do
    let (left, p) ← parseRel fuel p
    parseEqualityLoop fuel left p

/-- The `while` loop of `parseEquality`. -/
def parseEqualityLoop : Nat → Node → Parser → Except Error (Node × Parser)
  | 0, _, _ => throw Error.outOfFuel
  | fuel + 1, left, p =>
    if p.currentToken = Token.EQ ∨ p.currentToken = Token.NEQ then do
      let isEqual := decide (p.currentToken = Token.EQ)
      let p ← p.matchToken p.currentToken
      let (right, p) ← parseRel fuel p
      parseEqualityLoop fuel (Node.EqualityNode left right isEqual) p
    else
      pure (left, p)

/-- Method `Parser::parseRel`. -/
def parseRel : Nat → Parser → Except Error (Node × Parser)
  | 0, _ => throw Error.outOfFuel
  | fuel + 1, p => do
    let (left, p) ← parseExpr fuel p
    match relOp p.currentToken with
    | some op =>
      let p ← p.matchToken p.currentToken
      let (right, p) ← parseExpr fuel p
      pure (Node.RelNode left right op, p)
    | none => pure (left, p)

/-- Method `Parser::parseExpr`. -/
def parseExpr : Nat → Parser → Except Error (Node × Parser)
  | 0, _ => throw Error.outOfFuel
  | fuel + 1, p => do
    let (left, p) ← parseTerm fuel p
    parseExprLoop fuel left p

/-- The `while` loop of `parseExpr`. -/
def parseExprLoop : Nat → Node → Parser → Except Error (Node × Parser)
  | 0, _, _ => throw Error.outOfFuel
  | fuel + 1, left, p =>
    if p.currentToken = Token.PLUS ∨ p.currentToken = Token.MINUS then do
      let isAddition := decide (p.currentToken = Token.PLUS)
      let p ← p.matchToken p.currentToken
      let (right, p) ← parseTerm fuel p
      parseExprLoop fuel (Node.AddNode left right isAddition) p
    else
      pure (left, p)

/-- Method `Parser::parseTerm`. -/
def parseTerm : Nat → Parser → Except Error (Node × Parser)
  | 0, _ => throw Error.outOfFuel
  | fuel + 1, p => do
    let (left, p) ← parseUnary fuel p
    parseTermLoop fuel left p

/-- The `while` loop of `parseTerm`. -/
def parseTermLoop : Nat → Node → Parser → Except Error (Node × Parser)
  | 0, _, _ => throw Error.outOfFuel
  | fuel + 1, left, p =>
    if p.currentToken = Token.MULTIPLY ∨ p.currentToken = Token.DIVIDE then do
      let isMultiplication := decide (p.currentToken = Token.MULTIPLY)
      let p ← p.matchToken p.currentToken
      let (right, p) ← parseUnary fuel p
      parseTermLoop fuel (Node.MulNode left right isMultiplication) p
    else
      pure (left, p)

/-- Method `Parser::parseUnary`. -/
def parseUnary : Nat → Parser → Except Error (Node × Parser)
  | 0, _ => throw Error.outOfFuel
  | fuel + 1, p =>
    if p.currentToken = Token.NOT then do
      let p ← p.matchToken Token.NOT
      let (operand, p) ← parseUnary fuel p
      pure (Node.UnaryNode operand UnaryOp.NOT, p)
    else if p.currentToken = Token.MINUS then do
      let p ← p.matchToken Token.MINUS
      let (operand, p) ← parseUnary fuel p
      pure (Node.UnaryNode operand UnaryOp.NEG, p)
    else
      parseFactor fuel p

/-- Method `Parser::parseFactor`. -/
def parseFactor : Nat → Parser → Except Error (Node × Parser)
  | 0, _ => throw Error.outOfFuel
  | fuel + 1, p =>
    match p.currentToken with
    | Token.LPARENTHESIS => do
      let p ← p.matchToken Token.LPARENTHESIS
      let (expr, p) ← parseBool fuel p
      let p ← p.matchToken Token.RPARENTHESIS
      pure (expr, p)
    | Token.ID => do
      let id := p.lexer.identifierValue
      let p ← p.matchToken Token.ID
      if p.currentToken = Token.LBRACKET then
        let p ← p.matchToken Token.LBRACKET
        let (expr, p) ← parseBool fuel p
        let p ← p.matchToken Token.RBRACKET
        pure (Node.ArrayAccessNode expr id, p)
      else
        pure (Node.IdNode id, p)
    | Token.NUM => do
      let value := p.lexer.numberValue
      let p ← p.matchToken Token.NUM
      pure (Node.FactorNode FactorType.INT value false Node.null, p)
    | Token.TRUE => do
      let p ← p.matchToken Token.TRUE
      pure (Node.FactorNode FactorType.BOOL 0 true Node.null, p)
    | Token.FALSE => do
      let p ← p.matchToken Token.FALSE
      pure (Node.FactorNode FactorType.BOOL 0 false Node.null, p)
    | _ => throw (Error.unexpectedFactorToken p.currentToken p.lexer.line p.lexer.column)

end

/-- Method `Parser::parseProgram`. -/
def parseProgram (fuel : Nat) (p : Parser) : Except Error (Node × Parser) := do
  let (block, p) ← parseBlock fuel p
  pure (Node.ProgramNode block, p)

/-- Method `Parser::parse`. -/
def parse (fuel : Nat) (p : Parser) : Except Error Node :=
  (parseProgram fuel p).map Prod.fst

end Parser

/-! ## The whole pipeline -/

/-- What a run leaves behind: the lines on the standard output and, when an exception
reached `main`, the exception whose message goes to the standard error. -/
structure Run where
  cout : List String
  cerr : Option Error
  deriving DecidableEq, Repr

/-- The body of `main` on the text of the source file: scanner, parser, interpreter,
and the handler that reports the exception. -/
def runSource (fuel : Nat) (source : String) : Run :=
  match Parser.parse fuel (Parser.new (Lexer.new source.toList)) with
  | Except.error e => { cout := [], cerr := some e }
  | Except.ok ast =>
    match Interpreter.interpret fuel ast with
    | Except.ok st => { cout := st.cout, cerr := none }
    | Except.error (e, st) => { cout := st.cout, cerr := some e }

/-! ## Auxiliary definitions for the statements -/

/-- A result is well formed when a boolean is stored as 0 or 1. -/
def Result.WF (r : Result) : Prop := r.type = Ty.BOOL → Result.ofBool r.asBool = r

/-- The variable is an array of `N` elements of its type, as `declareVariable` builds it:
`size()` is `N`, the vector of its type has `N` elements and every index below `N` has a
flag. -/
def Variable.IsArrayOf (var : Variable) (N : Nat) : Prop :=
  var.isArray = true ∧ max var.intArray.length var.boolArray.length = N ∧
  (if var.type = Ty.INT then var.intArray.length = N else var.boolArray.length = N) ∧
  N ≤ var.arrayInitialized.length

instance (var : Variable) (N : Nat) : Decidable (var.IsArrayOf N) := by
  unfold Variable.IsArrayOf; infer_instance

/-- The integer literal `n` as the parser builds it. -/
def intLit (n : Int) : Node := Node.FactorNode FactorType.INT n false Node.null

/-- The boolean literal `b` as the parser builds it. -/
def boolLit (b : Bool) : Node := Node.FactorNode FactorType.BOOL 0 b Node.null

/-- The expression `1/0 == 0`. -/
def divByZeroExpr : Node :=
  Node.EqualityNode (Node.MulNode (intLit 1) (intLit 0) false) (intLit 0) true

/-- The symbol table after the declaration `int[3] a;`. -/
def tableIntArray3 : SymbolMap :=
  ⟨[("a", { type := Ty.INT, intValue := 0, boolValue := false, isArray := true,
            intArray := [0, 0, 0], boolArray := [], initialized := none,
            arrayInitialized := [false, false, false] })]⟩

/-- The symbol table of the counting programs when `i` holds `k`. -/
def counterTable (k : Int) : SymbolMap :=
  ⟨[("i", { type := Ty.INT, intValue := k, boolValue := false, isArray := false,
            intArray := [], boolArray := [], initialized := some true,
            arrayInitialized := [] })]⟩

/-- The tree of the condition `i < n`. -/
def countingCondition (n : Int) : Node :=
  Node.RelNode (Node.IdNode "i") (intLit n) RelOp.LESS

/-- The tree of the statements `print(i); i = i + 1;`. -/
def printAndIncrement : Node :=
  Node.StmtsNode (Node.PrintNode (Node.IdNode "i"))
    (Node.StmtsNode
      (Node.AssignNode (Node.IdNode "i") (Node.AddNode (Node.IdNode "i") (intLit 1) true))
      Node.null)

/-- The tree of the body `{ print(i); i = i + 1; }`. -/
def countingBody : Node := Node.BlockNode Node.null printAndIncrement

/-- The tree of `{int i; i = 0; while (i < n) { print(i); i = i + 1; }}`. -/
def countingProgram (n : Int) : Node :=
  Node.ProgramNode (Node.BlockNode
    (Node.DeclsNode (Node.DeclNode (Node.BasicTypeNode "integer") "i") Node.null)
    (Node.StmtsNode (Node.AssignNode (Node.IdNode "i") (intLit 0))
      (Node.StmtsNode (Node.WhileNode (countingCondition n) countingBody) Node.null)))

/-- The tree of the statement `if (i == k) { break; }`. -/
def breakAtStmt (k : Int) : Node :=
  Node.IfNode (Node.EqualityNode (Node.IdNode "i") (intLit k) true)
    (Node.BlockNode Node.null (Node.StmtsNode Node.BreakNode Node.null))

/-- The tree of the body `{ if (i == k) { break; } print(i); i = i + 1; }`. -/
def breakingBody (k : Int) : Node :=
  Node.BlockNode Node.null (Node.StmtsNode (breakAtStmt k) printAndIncrement)

/-- The tree of
`{int i; i = 0; while (i < n) { if (i == k) { break; } print(i); i = i + 1; }}`. -/
def breakingProgram (n k : Int) : Node :=
  Node.ProgramNode (Node.BlockNode
    (Node.DeclsNode (Node.DeclNode (Node.BasicTypeNode "integer") "i") Node.null)
    (Node.StmtsNode (Node.AssignNode (Node.IdNode "i") (intLit 0))
      (Node.StmtsNode (Node.WhileNode (countingCondition n) (breakingBody k)) Node.null)))

/-! ## Auxiliary definitions for the scanner and the parser -/

/-- The decimal value of a run of digits, most significant digit first. -/
def decimalValue (ds : List Char) : Int :=
  ds.foldl (fun acc c => acc * 10 + ((c.toNat : Int) - 48)) 0

/-! ## Lemmas on the scanner -/

/-- The result `x1`, computed with more fuel, is the result `x` as soon as `x` is not the
exhaustion of the fuel. -/
structure Stab {α : Type} (x1 x : Except Error α) : Prop where
  out : x ≠ Except.error Error.outOfFuel → x1 = x

/-- Every function of the parser, run with `fuel + 1`, returns what it returns with
`fuel`, unless that is the exhaustion of the fuel. -/
structure Parser.StableAt (fuel : Nat) : Prop where
  block : ∀ p, Stab (Parser.parseBlock (fuel + 1) p) (Parser.parseBlock fuel p)
  stmts : ∀ p, Stab (Parser.parseStmts (fuel + 1) p) (Parser.parseStmts fuel p)
  stmt : ∀ p, Stab (Parser.parseStmt (fuel + 1) p) (Parser.parseStmt fuel p)
  loc : ∀ p, Stab (Parser.parseLoc (fuel + 1) p) (Parser.parseLoc fuel p)
  bool : ∀ p, Stab (Parser.parseBool (fuel + 1) p) (Parser.parseBool fuel p)
  boolLoop : ∀ left p,
    Stab (Parser.parseBoolLoop (fuel + 1) left p) (Parser.parseBoolLoop fuel left p)
  join : ∀ p, Stab (Parser.parseJoin (fuel + 1) p) (Parser.parseJoin fuel p)
  joinLoop : ∀ left p,
    Stab (Parser.parseJoinLoop (fuel + 1) left p) (Parser.parseJoinLoop fuel left p)
  equality : ∀ p, Stab (Parser.parseEquality (fuel + 1) p) (Parser.parseEquality fuel p)
  equalityLoop : ∀ left p,
    Stab (Parser.parseEqualityLoop (fuel + 1) left p) (Parser.parseEqualityLoop fuel left p)
  rel : ∀ p, Stab (Parser.parseRel (fuel + 1) p) (Parser.parseRel fuel p)
  expr : ∀ p, Stab (Parser.parseExpr (fuel + 1) p) (Parser.parseExpr fuel p)
  exprLoop : ∀ left p,
    Stab (Parser.parseExprLoop (fuel + 1) left p) (Parser.parseExprLoop fuel left p)
  term : ∀ p, Stab (Parser.parseTerm (fuel + 1) p) (Parser.parseTerm fuel p)
  termLoop : ∀ left p,
    Stab (Parser.parseTermLoop (fuel + 1) left p) (Parser.parseTermLoop fuel left p)
  unary : ∀ p, Stab (Parser.parseUnary (fuel + 1) p) (Parser.parseUnary fuel p)
  factor : ∀ p, Stab (Parser.parseFactor (fuel + 1) p) (Parser.parseFactor fuel p)

/-- The five layers of binary operators that `Parser` builds with a loop. -/
inductive Layer
  | or
  | and
  | equality
  | additive
  | multiplicative
  deriving DecidableEq, Repr

namespace Layer

/-- The method of `Parser` that parses the layer. -/
def parse : Layer → Nat → Parser → Except Error (Node × Parser)
  | or => Parser.parseBool
  | and => Parser.parseJoin
  | equality => Parser.parseEquality
  | additive => Parser.parseExpr
  | multiplicative => Parser.parseTerm

/-- The `while` loop of that method. -/
def loop : Layer → Nat → Node → Parser → Except Error (Node × Parser)
  | or => Parser.parseBoolLoop
  | and => Parser.parseJoinLoop
  | equality => Parser.parseEqualityLoop
  | additive => Parser.parseExprLoop
  | multiplicative => Parser.parseTermLoop

/-- The method that parses the operands of the layer: the next higher layer. -/
def operand : Layer → Nat → Parser → Except Error (Node × Parser)
  | or => Parser.parseJoin
  | and => Parser.parseEquality
  | equality => Parser.parseRel
  | additive => Parser.parseTerm
  | multiplicative => Parser.parseUnary

/-- The operator tokens of the layer: the condition of its `while` loop. -/
def isOp : Layer → Token → Bool
  | or, t => decide (t = Token.OR)
  | and, t => decide (t = Token.AND)
  | equality, t => decide (t = Token.EQ ∨ t = Token.NEQ)
  | additive, t => decide (t = Token.PLUS ∨ t = Token.MINUS)
  | multiplicative, t => decide (t = Token.MULTIPLY ∨ t = Token.DIVIDE)

/-- The node that the loop of the layer builds from the tree so far, the operand just read
and the operator token that stood between them. -/
def node : Layer → Node → Node → Token → Node
  | or, left, right, _ => Node.OrNode left right
  | and, left, right, _ => Node.AndNode left right
  | equality, left, right, t => Node.EqualityNode left right (decide (t = Token.EQ))
  | additive, left, right, t => Node.AddNode left right (decide (t = Token.PLUS))
  | multiplicative, left, right, t => Node.MulNode left right (decide (t = Token.MULTIPLY))

end Layer

/-- With enough fuel, the parsing function `f` run from the state `p` returns the node `n`
and the state `q`. -/
def Parser.Parses (f : Nat → Parser → Except Error (Node × Parser)) (p : Parser) (n : Node)
    (q : Parser) : Prop :=
  ∃ fuel0, ∀ fuel, fuel0 ≤ fuel → f fuel p = Except.ok (n, q)

/-- A chain of operators of the layer `L` that starts in the state `p`, whose current token is
the first operator, and ends in the state `q`, whose current token is no operator of the
layer: the list holds each operator token with the operand read after it. -/
inductive Parser.Chain (L : Layer) : Parser → List (Token × Node) → Parser → Prop
  | nil (p : Parser) : L.isOp p.currentToken = false → Parser.Chain L p [] p
  | cons (p p1 q : Parser) (x : Node) (rest : List (Token × Node)) :
      L.isOp p.currentToken = true →
      Parser.Parses L.operand p.advance x p1 →
      Parser.Chain L p1 rest q →
      Parser.Chain L p ((p.currentToken, x) :: rest) q

/-- The left-nested tree `((x0 op1 x1) op2 x2) ... opn xn` of the layer `L`. -/
def Layer.leftNested (L : Layer) (x0 : Node) (items : List (Token × Node)) : Node :=
  items.foldl (fun acc item => L.node acc item.2 item.1) x0

/-- The tokens that are no binary operator: after one of them every loop of the expression
parser stops. -/
def Parser.endsExpr (t : Token) : Bool :=
  !(decide (t = Token.OR) || decide (t = Token.AND) || decide (t = Token.EQ)
    || decide (t = Token.NEQ) || decide (t = Token.LESS) || decide (t = Token.LESSEQ)
    || decide (t = Token.GREATER) || decide (t = Token.GREATEREQ) || decide (t = Token.PLUS)
    || decide (t = Token.MINUS) || decide (t = Token.MULTIPLY) || decide (t = Token.DIVIDE))

/-- The number of characters the scanner has not consumed yet, the current one included;
the null character stands for the end of the stream. -/
def Lexer.remaining (l : Lexer) : Nat :=
  if l.currentCharacter = Char.ofNat 0 then 0 else l.input.length + 1

/-- The tokens END and ERROR weigh nothing, every other token weighs one. -/
def Token.weight (t : Token) : Nat :=
  if t = Token.END ∨ t = Token.ERROR then 0 else 1

/-- The measure of a state of the parser: the characters not yet consumed by the scanner and
the weight of the current token. -/
def Parser.measure (p : Parser) : Nat := p.lexer.remaining + p.currentToken.weight

/-- The exceptions thrown by the parser: the syntax errors. -/
def Error.isSyntax : Error → Bool
  | Error.unexpectedToken _ _ _ _ => true
  | Error.expectedBasic _ _ _ => true
  | Error.invalidStatement _ _ => true
  | Error.unexpectedFactorToken _ _ _ => true
  | _ => false

/-- The states that the parser reaches from `p0` by matching tokens: every step is
`Parser.advance` from a state whose current token is neither END nor ERROR. -/
inductive Parser.Reach (p0 : Parser) : Parser → Prop
  | refl : Parser.Reach p0 p0
  | step (q : Parser) : Parser.Reach p0 q → q.currentToken ≠ Token.END →
      q.currentToken ≠ Token.ERROR → Parser.Reach p0 q.advance

/-- The computation `x` ends with a value that satisfies `R` or with a syntax error; it
does not run out of fuel. -/
structure Parser.Total {α : Type} (R : α → Prop) (x : Except Error α) : Prop where
  ok : ∀ r, x = Except.ok r → R r
  err : ∀ e, x = Except.error e → e.isSyntax = true

/-- With the fuel `fuel`, every function of the parser, started in a state `p` that was
reached from `p0` and whose measure the fuel covers, ends in a state reached from `p0` whose
measure is smaller (not larger, for the loops and for `parseStmts`), or with a syntax
error. -/
structure Parser.TotalAt (fuel : Nat) : Prop where
  block : ∀ (p0 p : Parser) (R : Node × Parser → Prop), Parser.Reach p0 p →
    12 * p.measure + 9 ≤ fuel →
    (∀ n q, Parser.Reach p0 q → q.measure < p.measure → R (n, q)) →
    Parser.Total R (Parser.parseBlock fuel p)
  stmts : ∀ (p0 p : Parser) (R : Node × Parser → Prop), Parser.Reach p0 p →
    12 * p.measure + 11 ≤ fuel →
    (∀ n q, Parser.Reach p0 q → q.measure ≤ p.measure → R (n, q)) →
    Parser.Total R (Parser.parseStmts fuel p)
  stmt : ∀ (p0 p : Parser) (R : Node × Parser → Prop), Parser.Reach p0 p →
    12 * p.measure + 10 ≤ fuel →
    (∀ n q, Parser.Reach p0 q → q.measure < p.measure → R (n, q)) →
    Parser.Total R (Parser.parseStmt fuel p)
  loc : ∀ (p0 p : Parser) (R : Node × Parser → Prop), Parser.Reach p0 p →
    12 * p.measure + 9 ≤ fuel →
    (∀ n q, Parser.Reach p0 q → q.measure < p.measure → R (n, q)) →
    Parser.Total R (Parser.parseLoc fuel p)
  bool : ∀ (p0 p : Parser) (R : Node × Parser → Prop), Parser.Reach p0 p →
    12 * p.measure + 8 ≤ fuel →
    (∀ n q, Parser.Reach p0 q → q.measure < p.measure → R (n, q)) →
    Parser.Total R (Parser.parseBool fuel p)
  boolLoop : ∀ (p0 : Parser) (left : Node) (p : Parser) (R : Node × Parser → Prop),
    Parser.Reach p0 p → 12 * p.measure + 7 ≤ fuel →
    (∀ n q, Parser.Reach p0 q → q.measure ≤ p.measure → R (n, q)) →
    Parser.Total R (Parser.parseBoolLoop fuel left p)
  join : ∀ (p0 p : Parser) (R : Node × Parser → Prop), Parser.Reach p0 p →
    12 * p.measure + 7 ≤ fuel →
    (∀ n q, Parser.Reach p0 q → q.measure < p.measure → R (n, q)) →
    Parser.Total R (Parser.parseJoin fuel p)
  joinLoop : ∀ (p0 : Parser) (left : Node) (p : Parser) (R : Node × Parser → Prop),
    Parser.Reach p0 p → 12 * p.measure + 6 ≤ fuel →
    (∀ n q, Parser.Reach p0 q → q.measure ≤ p.measure → R (n, q)) →
    Parser.Total R (Parser.parseJoinLoop fuel left p)
  equality : ∀ (p0 p : Parser) (R : Node × Parser → Prop), Parser.Reach p0 p →
    12 * p.measure + 6 ≤ fuel →
    (∀ n q, Parser.Reach p0 q → q.measure < p.measure → R (n, q)) →
    Parser.Total R (Parser.parseEquality fuel p)
  equalityLoop : ∀ (p0 : Parser) (left : Node) (p : Parser) (R : Node × Parser → Prop),
    Parser.Reach p0 p → 12 * p.measure + 5 ≤ fuel →
    (∀ n q, Parser.Reach p0 q → q.measure ≤ p.measure → R (n, q)) →
    Parser.Total R (Parser.parseEqualityLoop fuel left p)
  rel : ∀ (p0 p : Parser) (R : Node × Parser → Prop), Parser.Reach p0 p →
    12 * p.measure + 5 ≤ fuel →
    (∀ n q, Parser.Reach p0 q → q.measure < p.measure → R (n, q)) →
    Parser.Total R (Parser.parseRel fuel p)
  expr : ∀ (p0 p : Parser) (R : Node × Parser → Prop), Parser.Reach p0 p →
    12 * p.measure + 4 ≤ fuel →
    (∀ n q, Parser.Reach p0 q → q.measure < p.measure → R (n, q)) →
    Parser.Total R (Parser.parseExpr fuel p)
  exprLoop : ∀ (p0 : Parser) (left : Node) (p : Parser) (R : Node × Parser → Prop),
    Parser.Reach p0 p → 12 * p.measure + 3 ≤ fuel →
    (∀ n q, Parser.Reach p0 q → q.measure ≤ p.measure → R (n, q)) →
    Parser.Total R (Parser.parseExprLoop fuel left p)
  term : ∀ (p0 p : Parser) (R : Node × Parser → Prop), Parser.Reach p0 p →
    12 * p.measure + 3 ≤ fuel →
    (∀ n q, Parser.Reach p0 q → q.measure < p.measure → R (n, q)) →
    Parser.Total R (Parser.parseTerm fuel p)
  termLoop : ∀ (p0 : Parser) (left : Node) (p : Parser) (R : Node × Parser → Prop),
    Parser.Reach p0 p → 12 * p.measure + 2 ≤ fuel →
    (∀ n q, Parser.Reach p0 q → q.measure ≤ p.measure → R (n, q)) →
    Parser.Total R (Parser.parseTermLoop fuel left p)
  unary : ∀ (p0 p : Parser) (R : Node × Parser → Prop), Parser.Reach p0 p →
    12 * p.measure + 2 ≤ fuel →
    (∀ n q, Parser.Reach p0 q → q.measure < p.measure → R (n, q)) →
    Parser.Total R (Parser.parseUnary fuel p)
  factor : ∀ (p0 p : Parser) (R : Node × Parser → Prop), Parser.Reach p0 p →
    12 * p.measure + 1 ≤ fuel →
    (∀ n q, Parser.Reach p0 q → q.measure < p.measure → R (n, q)) →
    Parser.Total R (Parser.parseFactor fuel p)

/-- The state of the parser on the text `source` after `k` calls of `advance`: its current
token is the token number `k` of the text, counted from zero. -/
def Parser.tokenState (source : String) (k : Nat) : Parser :=
  Parser.advance^[k] (Parser.new (Lexer.new source.toList))

/-! ## Auxiliary definitions for the evaluator in state-passing style -/

/-- The call `map[name]` of `std::unordered_map`: it returns the entry of `name`, and when
there is none it first inserts a default-constructed variable (whose type is left
indeterminate by the constructor; the model takes `INT`). -/
def SymbolMap.subscript (sm : SymbolMap) (name : String) : Variable × SymbolMap :=
  match sm.find name with
  | some v => (v, sm)
  | none => (Variable.mk0 Ty.INT, sm.insert name (Variable.mk0 Ty.INT))

/-- Method `SymbolMap::getVariable` with the symbol table it leaves behind. -/
def SymbolMap.getVariableRef (sm : SymbolMap) (name : String) :
    Except Error Variable × SymbolMap :=
  if sm.isDeclared name = false then (Except.error (Error.notDeclared name), sm)
  else ((sm.subscript name).1 |> Except.ok, (sm.subscript name).2)

/-- A computation of the interpreter in state-passing style: from the state before, the
value or the exception, and the state after. -/
def Eval (α : Type) : Type := Interpreter → Except Error α × Interpreter

namespace Eval

/-- A value, the state untouched. -/
def ret {α : Type} (a : α) : Eval α := fun st => (Except.ok a, st)

/-- An exception thrown in the current state. -/
def raise {α : Type} (e : Error) : Eval α := fun st => (Except.error e, st)

/-- Sequencing: the second computation runs in the state the first one left, unless the
first one threw. -/
def andThen {α β : Type} (x : Eval α) (f : α → Eval β) : Eval β := fun st =>
  match x st with
  | (Except.ok a, st1) => f a st1
  | (Except.error e, st1) => (Except.error e, st1)

/-- A computation that does not touch the state, such as an access to a local vector. -/
def ofExcept {α : Type} (x : Except Error α) : Eval α := fun st => (x, st)

/-- The call `symbolMap.getVariable(name)` on the symbol table of the interpreter. -/
def getVariable (name : String) : Eval Variable := fun st =>
  ((st.symbolMap.getVariableRef name).1,
    { st with symbolMap := (st.symbolMap.getVariableRef name).2 })

end Eval

instance : Monad Eval where
  pure := Eval.ret
  bind := Eval.andThen

/-- Method `Interpreter::evaluateExpr` in state-passing style: every step receives the
state of the interpreter that the step before it left. -/
def Interpreter.evaluateExprSt : Node → Eval Result
  | Node.MulNode left right isMultiplication => do
    let leftValue ← evaluateExprSt left
    let rightValue ← evaluateExprSt right
    if isMultiplication = false ∧
        ((rightValue.type = Ty.INT ∧ rightValue.value = 0) ∨
         (rightValue.type = Ty.BOOL ∧ rightValue.asBool = false)) then
      Eval.raise (throwErr Error.divisionByZero (Node.MulNode left right isMultiplication))
    else if leftValue.type ≠ rightValue.type then
      Eval.raise (throwErr Error.valueTypeMismatch (Node.MulNode left right isMultiplication))
    else if leftValue.type = Ty.INT then
      pure (Result.ofInt (if isMultiplication then wrapInt (leftValue.value * rightValue.value)
                          else wrapInt (Int.tdiv leftValue.value rightValue.value)))
    else
      pure (Result.ofBool (if isMultiplication then (leftValue.asBool && rightValue.asBool)
                           else leftValue.asBool))
  | Node.AddNode left right isAddition => do
    let leftValue ← evaluateExprSt left
    let rightValue ← evaluateExprSt right
    if leftValue.type ≠ rightValue.type then
      Eval.raise (throwErr Error.valueTypeMismatch (Node.AddNode left right isAddition))
    else if leftValue.type = Ty.INT then
      pure (Result.ofInt (if isAddition then wrapInt (leftValue.value + rightValue.value)
                          else wrapInt (leftValue.value - rightValue.value)))
    else
      pure (Result.ofBool (if isAddition then (leftValue.asBool || rightValue.asBool)
                           else (leftValue.asBool != rightValue.asBool)))
  | Node.UnaryNode operand op => do
    let operandValue ← evaluateExprSt operand
    if op = UnaryOp.NOT ∧ operandValue.type = Ty.BOOL then
      pure (Result.ofBool (!operandValue.asBool))
    else if op = UnaryOp.NEG ∧ operandValue.type = Ty.INT then
      pure (Result.ofInt (wrapInt (-operandValue.value)))
    else
      Eval.raise (throwErr Error.mismatchedUnary (Node.UnaryNode operand op))
  | Node.FactorNode type intValue boolValue loc =>
    match type with
    | FactorType.BOOL => pure (Result.ofBool boolValue)
    | FactorType.INT => pure (Result.ofInt intValue)
    | FactorType.ID => evaluateExprSt loc
  | Node.OrNode left right => do
    let leftValue ← evaluateExprSt left
    if leftValue.asBool then
      pure (Result.ofBool true)
    else
      let rightValue ← evaluateExprSt right
      pure (Result.ofBool rightValue.asBool)
  | Node.AndNode left right => do
    let leftValue ← evaluateExprSt left
    if leftValue.asBool then
      let rightValue ← evaluateExprSt right
      pure (Result.ofBool rightValue.asBool)
    else
      pure (Result.ofBool false)
  | Node.EqualityNode left right isEqual => do
    let leftValue ← evaluateExprSt left
    let rightValue ← evaluateExprSt right
    if leftValue.type ≠ rightValue.type then
      Eval.raise (throwErr Error.valueTypeMismatch Node.null)
    else if leftValue.type = Ty.INT then
      pure (Result.ofBool (isEqual == decide (leftValue.value = rightValue.value)))
    else
      pure (Result.ofBool (isEqual == (leftValue.asBool == rightValue.asBool)))
  | Node.RelNode left right op => do
    let leftValue ← evaluateExprSt left
    let rightValue ← evaluateExprSt right
    match op with
    | RelOp.LESS => pure (Result.ofBool (decide (leftValue.value < rightValue.value)))
    | RelOp.LESSEQ => pure (Result.ofBool (decide (leftValue.value ≤ rightValue.value)))
    | RelOp.GREATER => pure (Result.ofBool (decide (leftValue.value > rightValue.value)))
    | RelOp.GREATEREQ => pure (Result.ofBool (decide (leftValue.value ≥ rightValue.value)))
  | Node.IdNode id => do
    let var ← Eval.getVariable id
    match var.initialized with
    | none => Eval.raise Error.undefinedBehavior
    | some false => Eval.raise (throwErr (Error.variableNotInitialized id) (Node.IdNode id))
    | some true =>
      pure (if var.type = Ty.INT then Result.ofInt var.intValue
            else Result.ofBool var.boolValue)
  | Node.ArrayAccessNode index id => do
    let var ← Eval.getVariable id
    let indexValue ← evaluateExprSt index
    let idx := indexValue.value
    let flag ← Eval.ofExcept (vecGet var.arrayInitialized idx)
    if flag = false then
      Eval.raise (throwErr (Error.arrayNotInitialized id idx) (Node.ArrayAccessNode index id))
    else if var.type = Ty.INT then do
      let x ← Eval.ofExcept (vecGet var.intArray idx)
      pure (Result.ofInt x)
    else do
      let x ← Eval.ofExcept (vecGet var.boolArray idx)
      pure (Result.ofBool x)
  | node => Eval.raise (throwErr Error.notImplemented node)

/-- Whenever the computation `x` throws, the exception carries the symbol table `sm`. -/
structure Interpreter.FailsAt {α : Type} (sm : SymbolMap) (x : Except (Error × SymbolMap) α) :
    Prop where
  out : ∀ e s, x = Except.error (e, s) → s = sm

/-! ## Auxiliary definitions for a text followed by more characters -/

/-- The scanner has read the whole stream: nothing is left and the current character is the
null character that stands for the end. -/
def Lexer.AtEnd (l : Lexer) : Prop := l.input = [] ∧ l.currentCharacter = Char.ofNat 0

/-- The scanner `l1` is the scanner `l` on a stream that goes on with the characters `t`
after the last character of the stream of `l`. -/
def Lexer.Ext (t : List Char) (l l1 : Lexer) : Prop := l1 = { l with input := l.input ++ t }

/-- The tokens whose scan reads on until a character that does not fit: when the stream
ends there, more characters after the end can give another token. The tokens of one fixed
character and the complete operators of two characters are not among them. -/
def Token.fragile (t : Token) : Bool :=
  match t with
  | Token.LBRACE | Token.RBRACE | Token.LBRACKET | Token.RBRACKET | Token.LPARENTHESIS
  | Token.RPARENTHESIS | Token.SEMICOLON | Token.EQ | Token.NEQ | Token.AND | Token.OR
  | Token.LESSEQ | Token.GREATEREQ | Token.PLUS | Token.MINUS | Token.MULTIPLY
  | Token.DIVIDE => false
  | _ => true

/-- Two results of `nextToken`, on a stream and on the stream followed by `t`: either the
tokens and their texts and numbers are the same and the scanners go on alike, apart from the
end of the shorter stream, or the scan on the shorter stream ran into its end on a token that
more characters could change. -/
def Lexer.Sim (t : List Char) (r r1 : Token × Lexer) : Prop :=
  (r.1 = r1.1 ∧ r.2.identifierValue = r1.2.identifierValue ∧
    r.2.numberValue = r1.2.numberValue ∧ (Lexer.Ext t r.2 r1.2 ∨ r.2.AtEnd)) ∨
  (r.2.AtEnd ∧ r.1.fragile = true)

/-- Two states of the parser, on a text and on the text followed by `t`, that show the
parser the same: the same current token with the same text and number, and scanners that
go on alike, unless the scanner of the shorter text has reached its end. -/
def Parser.Rel (t : List Char) (p p1 : Parser) : Prop :=
  p.currentToken = p1.currentToken ∧ p.lexer.identifierValue = p1.lexer.identifierValue ∧
    p.lexer.numberValue = p1.lexer.numberValue ∧
    (Lexer.Ext t p.lexer p1.lexer ∨ p.lexer.AtEnd)

/-- A state from which no block can be closed any more: the scanner has reached the end of
the text and the current token is one that the end of the text may have cut short. -/
def Parser.Doomed (p : Parser) : Prop := p.lexer.AtEnd ∧ p.currentToken.fragile = true

/-- Whenever the computation `x` returns, it returns a doomed state. -/
structure Parser.Esc (x : Except Error (Node × Parser)) : Prop where
  out : ∀ n q, x = Except.ok (n, q) → Parser.Doomed q

/-- The computation `x` returns no result. -/
structure Parser.Never (x : Except Error (Node × Parser)) : Prop where
  out : ∀ r, x ≠ Except.ok r

/-- Whenever the computation `x`, on the text, returns a node and a state, either `x1`, on
the text followed by `t`, returns the same node and a state that shows the same, or the
state that `x` returns is doomed. -/
structure Parser.Cpl (t : List Char) (x x1 : Except Error (Node × Parser)) : Prop where
  out : ∀ n q, x = Except.ok (n, q) →
    (∃ q1, x1 = Except.ok (n, q1) ∧ Parser.Rel t q q1) ∨ Parser.Doomed q

/-- Whenever the computation `x`, on the text, returns a node, `x1`, on the text followed by
`t`, returns the same node. -/
structure Parser.SameNode (x x1 : Except Error (Node × Parser)) : Prop where
  out : ∀ n q, x = Except.ok (n, q) → ∃ q1, x1 = Except.ok (n, q1)

/-- From a doomed state, every function of the parser returns a doomed state, if it
returns. -/
structure Parser.EscAt (fuel : Nat) : Prop where
  block : ∀ p : Parser, Parser.Doomed p → Parser.Esc (Parser.parseBlock fuel p)
  stmts : ∀ p : Parser, Parser.Doomed p → Parser.Esc (Parser.parseStmts fuel p)
  stmt : ∀ p : Parser, Parser.Doomed p → Parser.Esc (Parser.parseStmt fuel p)
  loc : ∀ p : Parser, Parser.Doomed p → Parser.Esc (Parser.parseLoc fuel p)
  bool : ∀ p : Parser, Parser.Doomed p → Parser.Esc (Parser.parseBool fuel p)
  boolLoop : ∀ (left : Node) (p : Parser), Parser.Doomed p → Parser.Esc (Parser.parseBoolLoop fuel left p)
  join : ∀ p : Parser, Parser.Doomed p → Parser.Esc (Parser.parseJoin fuel p)
  joinLoop : ∀ (left : Node) (p : Parser), Parser.Doomed p → Parser.Esc (Parser.parseJoinLoop fuel left p)
  equality : ∀ p : Parser, Parser.Doomed p → Parser.Esc (Parser.parseEquality fuel p)
  equalityLoop : ∀ (left : Node) (p : Parser), Parser.Doomed p → Parser.Esc (Parser.parseEqualityLoop fuel left p)
  rel : ∀ p : Parser, Parser.Doomed p → Parser.Esc (Parser.parseRel fuel p)
  expr : ∀ p : Parser, Parser.Doomed p → Parser.Esc (Parser.parseExpr fuel p)
  exprLoop : ∀ (left : Node) (p : Parser), Parser.Doomed p → Parser.Esc (Parser.parseExprLoop fuel left p)
  term : ∀ p : Parser, Parser.Doomed p → Parser.Esc (Parser.parseTerm fuel p)
  termLoop : ∀ (left : Node) (p : Parser), Parser.Doomed p → Parser.Esc (Parser.parseTermLoop fuel left p)
  unary : ∀ p : Parser, Parser.Doomed p → Parser.Esc (Parser.parseUnary fuel p)
  factor : ∀ p : Parser, Parser.Doomed p → Parser.Esc (Parser.parseFactor fuel p)

/-- From two states that show the same, every function of the parser returns the same node
and states that show the same, unless it returns a doomed state on the shorter text. -/
structure Parser.CplAt (t : List Char) (fuel : Nat) : Prop where
  block : ∀ p p1 : Parser, Parser.Rel t p p1 →
    Parser.Cpl t (Parser.parseBlock fuel p) (Parser.parseBlock fuel p1)
  stmts : ∀ p p1 : Parser, Parser.Rel t p p1 →
    Parser.Cpl t (Parser.parseStmts fuel p) (Parser.parseStmts fuel p1)
  stmt : ∀ p p1 : Parser, Parser.Rel t p p1 →
    Parser.Cpl t (Parser.parseStmt fuel p) (Parser.parseStmt fuel p1)
  loc : ∀ p p1 : Parser, Parser.Rel t p p1 →
    Parser.Cpl t (Parser.parseLoc fuel p) (Parser.parseLoc fuel p1)
  bool : ∀ p p1 : Parser, Parser.Rel t p p1 →
    Parser.Cpl t (Parser.parseBool fuel p) (Parser.parseBool fuel p1)
  boolLoop : ∀ (left : Node) (p p1 : Parser), Parser.Rel t p p1 →
    Parser.Cpl t (Parser.parseBoolLoop fuel left p) (Parser.parseBoolLoop fuel left p1)
  join : ∀ p p1 : Parser, Parser.Rel t p p1 →
    Parser.Cpl t (Parser.parseJoin fuel p) (Parser.parseJoin fuel p1)
  joinLoop : ∀ (left : Node) (p p1 : Parser), Parser.Rel t p p1 →
    Parser.Cpl t (Parser.parseJoinLoop fuel left p) (Parser.parseJoinLoop fuel left p1)
  equality : ∀ p p1 : Parser, Parser.Rel t p p1 →
    Parser.Cpl t (Parser.parseEquality fuel p) (Parser.parseEquality fuel p1)
  equalityLoop : ∀ (left : Node) (p p1 : Parser), Parser.Rel t p p1 →
    Parser.Cpl t (Parser.parseEqualityLoop fuel left p) (Parser.parseEqualityLoop fuel left p1)
  rel : ∀ p p1 : Parser, Parser.Rel t p p1 →
    Parser.Cpl t (Parser.parseRel fuel p) (Parser.parseRel fuel p1)
  expr : ∀ p p1 : Parser, Parser.Rel t p p1 →
    Parser.Cpl t (Parser.parseExpr fuel p) (Parser.parseExpr fuel p1)
  exprLoop : ∀ (left : Node) (p p1 : Parser), Parser.Rel t p p1 →
    Parser.Cpl t (Parser.parseExprLoop fuel left p) (Parser.parseExprLoop fuel left p1)
  term : ∀ p p1 : Parser, Parser.Rel t p p1 →
    Parser.Cpl t (Parser.parseTerm fuel p) (Parser.parseTerm fuel p1)
  termLoop : ∀ (left : Node) (p p1 : Parser), Parser.Rel t p p1 →
    Parser.Cpl t (Parser.parseTermLoop fuel left p) (Parser.parseTermLoop fuel left p1)
  unary : ∀ p p1 : Parser, Parser.Rel t p p1 →
    Parser.Cpl t (Parser.parseUnary fuel p) (Parser.parseUnary fuel p1)
  factor : ∀ p p1 : Parser, Parser.Rel t p p1 →
    Parser.Cpl t (Parser.parseFactor fuel p) (Parser.parseFactor fuel p1)

/-! ## Lemmas on the symbol table -/

open Interpreter

theorem Result.wf_ofInt (x : Int) : (Result.ofInt x).WF := by
  intro h; simp [Result.ofInt] at h

theorem Result.wf_ofBool (b : Bool) : (Result.ofBool b).WF := by
  intro _; cases b <;> simp [Result.ofBool, Result.asBool]

/-- Every value `evaluateExpr` returns is well formed. -/
theorem evaluateExpr_wf (sm : SymbolMap) (n : Node) :
    ∀ r, evaluateExpr sm n = Except.ok r → r.WF := by
  induction n with
  | FactorNode type intValue boolValue loc ih =>
    intro r h
    cases type <;> simp only [evaluateExpr, pure, Except.pure] at h
    · cases h; exact Result.wf_ofBool _
    · cases h; exact Result.wf_ofInt _
    · exact ih r h
  | _ =>
    intro r h
    simp only [evaluateExpr, bind, Except.bind, pure, Except.pure, throw, throwThe,
      MonadExceptOf.throw] at h
    repeat' split at h
    all_goals first
      | contradiction
      | (cases h; first | exact Result.wf_ofBool _ | exact Result.wf_ofInt _)

theorem SymbolMap.find_store (sm : SymbolMap) (name : String) (old var : Variable)
    (h : sm.find name = some old) : (sm.store name var).find name = some var := by
  obtain ⟨m⟩ := sm
  simp only [SymbolMap.find, SymbolMap.store] at *
  induction m with
  | nil => simp at h
  | cons p rest ih =>
    by_cases hp : p.1 = name
    · simp [List.find?, hp]
    · have hb : (p.1 == name) = false := by simpa using hp
      rw [List.find?_cons, hb] at h
      rw [List.map_cons, hb, List.find?_cons]
      simp only [Bool.false_eq_true, if_false, hb]
      exact ih h

theorem SymbolMap.getVariable_store (sm : SymbolMap) (name : String) (old var : Variable)
    (h : sm.getVariable name = Except.ok old) :
    (sm.store name var).getVariable name = Except.ok var := by
  unfold SymbolMap.getVariable at *
  cases hf : sm.find name with
  | none => simp [hf] at h
  | some o => simp [SymbolMap.find_store sm name o var hf]

theorem SymbolMap.find_erase (sm : SymbolMap) (name : String) :
    (sm.erase name).find name = none := by
  obtain ⟨m⟩ := sm
  simp only [SymbolMap.find, SymbolMap.erase]
  induction m with
  | nil => simp
  | cons p rest ih =>
    by_cases hp : p.1 = name
    · simp [List.filter, hp, ih]
    · have : (p.1 == name) = false := by simpa using hp
      simp [List.filter, this, List.find?, ih]

theorem SymbolMap.find_insert (sm : SymbolMap) (name : String) (var : Variable)
    (h : sm.find name = none) : (sm.insert name var).find name = some var := by
  unfold SymbolMap.insert SymbolMap.isDeclared
  rw [h]
  simp [SymbolMap.find, List.find?]

/-- After a declaration the name is bound to the variable the declaration builds,
whatever the table held before. -/
theorem SymbolMap.getVariable_declareVariable (sm sm1 : SymbolMap) (name : String) (type : Ty)
    (isArray : Bool) (arraySize : Int)
    (h : sm.declareVariable name type isArray arraySize = Except.ok sm1) :
    sm1.getVariable name = Except.ok
      (if isArray = true then
        (if type = Ty.INT then
          { type := type, intValue := 0, boolValue := false, isArray := true,
            intArray := List.replicate arraySize.toNat 0, boolArray := [],
            initialized := none, arrayInitialized := List.replicate arraySize.toNat false }
        else
          { type := type, intValue := 0, boolValue := false, isArray := true,
            intArray := [], boolArray := List.replicate arraySize.toNat false,
            initialized := none, arrayInitialized := List.replicate arraySize.toNat false })
       else Variable.mk0 type) := by
  have hfresh : (if sm.isDeclared name then sm.erase name else sm).find name = none := by
    by_cases hd : sm.isDeclared name = true
    · simp [hd, SymbolMap.find_erase]
    · simp only [hd]
      simp only [SymbolMap.isDeclared] at hd
      cases hf : sm.find name with
      | none => simp [hf]
      | some v => simp [hf] at hd
  unfold SymbolMap.declareVariable at h
  simp only [bind, Except.bind, pure, Except.pure, SymbolMap.resize] at h
  unfold SymbolMap.getVariable
  cases isArray with
  | false =>
    simp at h
    subst h
    simp [SymbolMap.find_insert _ _ _ hfresh, Variable.mk0]
  | true =>
    by_cases hneg : arraySize < 0
    · simp [hneg] at h
    · by_cases hty : type = Ty.INT
      · simp [hneg, hty] at h
        subst h
        simp [SymbolMap.find_insert _ _ _ (by simpa [hty] using hfresh), Variable.mk0, hty]
      · simp [hneg, hty] at h
        subst h
        simp [SymbolMap.find_insert _ _ _ hfresh, Variable.mk0, hty]

/-! ## Or and And (C1) -/

/-- C1, as the code behaves: an Or node evaluates its right operand only when the left
one is false, an And node only when the left one is true. When the left operand decides
the result the node returns it without evaluating the right operand; otherwise an error
of the right operand is the error of the node. -/
theorem or_and_evaluate_right_only_when_needed (sm : SymbolMap) (left right : Node)
    (lv : Result) (hl : evaluateExpr sm left = Except.ok lv) :
    (lv.asBool = true →
      evaluateExpr sm (Node.OrNode left right) = Except.ok (Result.ofBool true) ∧
      ∀ e, evaluateExpr sm right = Except.error e →
        evaluateExpr sm (Node.AndNode left right) = Except.error e) ∧
    (lv.asBool = false →
      evaluateExpr sm (Node.AndNode left right) = Except.ok (Result.ofBool false) ∧
      ∀ e, evaluateExpr sm right = Except.error e →
        evaluateExpr sm (Node.OrNode left right) = Except.error e) := by
  constructor
  · intro h
    refine ⟨by simp [evaluateExpr, hl, h, bind, Except.bind, pure, Except.pure], ?_⟩
    intro e he
    simp [evaluateExpr, hl, h, he, bind, Except.bind]
  · intro h
    refine ⟨by simp [evaluateExpr, hl, h, bind, Except.bind, pure, Except.pure], ?_⟩
    intro e he
    simp [evaluateExpr, hl, h, he, bind, Except.bind]

/-- Witness of C1 on `true || (1/0 == 0)` in the empty table. -/
theorem or_and_evaluate_right_only_when_needed_witness :
    evaluateExpr ⟨[]⟩ (boolLit true) = Except.ok (Result.ofBool true) ∧
    ((Result.ofBool true).asBool = true →
      evaluateExpr ⟨[]⟩ (Node.OrNode (boolLit true) divByZeroExpr)
        = Except.ok (Result.ofBool true) ∧
      ∀ e, evaluateExpr ⟨[]⟩ divByZeroExpr = Except.error e →
        evaluateExpr ⟨[]⟩ (Node.AndNode (boolLit true) divByZeroExpr) = Except.error e) :=
  ⟨rfl, (or_and_evaluate_right_only_when_needed ⟨[]⟩ (boolLit true) divByZeroExpr
    (Result.ofBool true) rfl).1⟩

/-- C1 as stated fails: the right operand `1/0 == 0` raises the divide-by-zero error,
yet `true || (1/0 == 0)` evaluates to true and `false && (1/0 == 0)` to false, also
through the whole pipeline. -/
theorem or_and_short_circuit_counterexample :
    evaluateExpr ⟨[]⟩ divByZeroExpr = Except.error Error.divisionByZero ∧
    evaluateExpr ⟨[]⟩ (Node.OrNode (boolLit true) divByZeroExpr)
      = Except.ok (Result.ofBool true) ∧
    evaluateExpr ⟨[]⟩ (Node.AndNode (boolLit false) divByZeroExpr)
      = Except.ok (Result.ofBool false) ∧
    runSource 100 "{print(true || (1/0 == 0)); print(false && (1/0 == 0));}"
      = ⟨["true", "false"], none⟩ := by
  refine ⟨rfl, rfl, rfl, ?_⟩
  decide

/-! ## Division by zero (C7) -/

/-- C7: a division whose right operand evaluates to integer 0 or to boolean false raises
the divide-by-zero error whatever the left operand evaluates to (the test comes before
the comparison of the operand types), and a multiplication never raises that error
itself: it can only pass on the divide-by-zero error of one of its operands. -/
theorem division_by_zero_is_checked_first (sm : SymbolMap) (left right : Node) :
    (∀ lv rv, evaluateExpr sm left = Except.ok lv → evaluateExpr sm right = Except.ok rv →
      (rv = Result.ofInt 0 ∨ rv = Result.ofBool false) →
      evaluateExpr sm (Node.MulNode left right false) = Except.error Error.divisionByZero) ∧
    (evaluateExpr sm (Node.MulNode left right true) = Except.error Error.divisionByZero →
      evaluateExpr sm left = Except.error Error.divisionByZero ∨
      evaluateExpr sm right = Except.error Error.divisionByZero) := by
  constructor
  · intro lv rv hl hr hz
    rcases hz with h | h <;> subst h <;>
      simp [evaluateExpr, hl, hr, bind, Except.bind, Result.ofInt, Result.ofBool,
        Result.asBool, throwErr, throw, throwThe, MonadExceptOf.throw]
  · intro h
    cases hl : evaluateExpr sm left with
    | error e =>
      simp only [evaluateExpr, hl, bind, Except.bind] at h
      exact Or.inl h
    | ok lv =>
      cases hr : evaluateExpr sm right with
      | error e =>
        simp only [evaluateExpr, hl, hr, bind, Except.bind] at h
        exact Or.inr h
      | ok rv =>
        simp only [evaluateExpr, hl, hr, bind, Except.bind, throwErr, throw, throwThe,
          MonadExceptOf.throw, pure, Except.pure] at h
        split_ifs at h <;> simp_all

/-- Witness of C7 on `true / 0`, whose operands have different types. -/
theorem division_by_zero_is_checked_first_witness :
    evaluateExpr ⟨[]⟩ (boolLit true) = Except.ok (Result.ofBool true) ∧
    evaluateExpr ⟨[]⟩ (intLit 0) = Except.ok (Result.ofInt 0) ∧
    (Result.ofInt 0 = Result.ofInt 0 ∨ Result.ofInt 0 = Result.ofBool false) ∧
    evaluateExpr ⟨[]⟩ (Node.MulNode (boolLit true) (intLit 0) false)
      = Except.error Error.divisionByZero :=
  ⟨rfl, rfl, Or.inl rfl,
    (division_by_zero_is_checked_first ⟨[]⟩ (boolLit true) (intLit 0)).1
      (Result.ofBool true) (Result.ofInt 0) rfl rfl (Or.inl rfl)⟩

/-! ## Conditions of If and IfElse (C8) -/

/-- C8, as the code behaves: a condition that evaluates to an integer is accepted. The
value is converted to a truth value, nonzero selecting the first branch and zero the
else branch (or no statement for an If), and no type error is raised. -/
theorem if_accepts_integer_condition (fuel : Nat) (st : Interpreter)
    (condition ifStmt elseStmt : Node) (n : Int)
    (hc : evaluateExpr st.symbolMap condition = Except.ok (Result.ofInt n)) :
    executeStmt (fuel + 1) st (Node.IfNode condition ifStmt)
      = (if n ≠ 0 then executeStmt fuel st ifStmt else Except.ok st) ∧
    executeStmt (fuel + 1) st (Node.IfElseNode condition ifStmt elseStmt)
      = (if n ≠ 0 then executeStmt fuel st ifStmt else executeStmt fuel st elseStmt) := by
  constructor <;>
    simp [executeStmt, hc, raiseAt, bind, Except.bind, Result.asBool, Result.ofInt, pure,
      Except.pure]

/-- Witness of C8 on `if (1) print(7);`. -/
theorem if_accepts_integer_condition_witness :
    evaluateExpr (⟨⟨[]⟩, []⟩ : Interpreter).symbolMap (intLit 1)
      = Except.ok (Result.ofInt 1) ∧
    executeStmt (1 + 1) ⟨⟨[]⟩, []⟩ (Node.IfNode (intLit 1) (Node.PrintNode (intLit 7)))
      = (if (1 : Int) ≠ 0 then executeStmt 1 ⟨⟨[]⟩, []⟩ (Node.PrintNode (intLit 7))
         else Except.ok ⟨⟨[]⟩, []⟩) :=
  ⟨rfl, (if_accepts_integer_condition 1 ⟨⟨[]⟩, []⟩ (intLit 1) (Node.PrintNode (intLit 7))
    Node.BreakNode 1 rfl).1⟩

/-- C8 as stated fails: `if (1) print(7);` and `if (0) print(7); else print(8);` run
without any error and execute the selected branch. -/
theorem if_integer_condition_counterexample :
    runSource 100 "{if (1) print(7);}" = ⟨["7"], none⟩ ∧
    runSource 100 "{if (0) print(7); else print(8);}" = ⟨["8"], none⟩ := by
  decide

/-! ## Arrays (C2, C3, C4) -/

theorem vecGet_insert_self {α : Type} (v : List α) (i : Nat) (x : α) (h : i ≤ v.length) :
    vecGet (v.take i ++ x :: v.drop i) (i : Int) = Except.ok x := by
  have hlen : (v.take i).length = i := by simp [List.length_take, h]
  have : (v.take i ++ x :: v.drop i).get? i = some x := by
    rw [List.get?_eq_getElem?, List.getElem?_append_right (by omega)]
    simp [hlen]
  have hneg : ¬ ((i : Int) < 0) := by omega
  simp only [vecGet, if_neg hneg, Int.toNat_ofNat, this]

theorem vecGet_set_self {α : Type} (v : List α) (i : Nat) (x : α) (h : i < v.length) :
    vecGet (v.set i x) (i : Int) = Except.ok x := by
  have : (v.set i x).get? i = some x := by
    rw [List.get?_eq_getElem?]
    simp [List.getElem?_set, h]
  have hneg : ¬ ((i : Int) < 0) := by omega
  simp only [vecGet, if_neg hneg, Int.toNat_ofNat, this]

/-- What a successful assignment `a[i] = e` stores: the value at index `i` of the vector
of the element type, and a flag `true` inserted at position `i` of the flags. -/
theorem assignValue_array_ok (sm : SymbolMap) (a : String) (var : Variable) (N i : Nat)
    (v : Result) (indexNode exprNode : Node)
    (hvar : sm.getVariable a = Except.ok var) (harr : var.IsArrayOf N) (hi : i < N)
    (hidx : evaluateExpr sm indexNode = Except.ok (Result.ofInt i))
    (hv : evaluateExpr sm exprNode = Except.ok v) (hty : v.type = var.type) :
    assignValue sm (Node.ArrayAccessNode indexNode a) exprNode = Except.ok
      (sm.store a
        (if var.type = Ty.INT then
          { var with intArray := var.intArray.set i v.value,
                     arrayInitialized :=
                       var.arrayInitialized.take i ++ true :: var.arrayInitialized.drop i }
        else
          { var with boolArray := var.boolArray.set i v.asBool,
                     arrayInitialized :=
                       var.arrayInitialized.take i ++ true :: var.arrayInitialized.drop i })) := by
  obtain ⟨hisArr, hmax, htyped, hflags⟩ := harr
  have hsize : var.size = Except.ok (N : Int) := by
    simp [Variable.size, hisArr, hmax]
  have hnot : ¬ ((i : Int) < 0 ∨ (i : Int) ≥ (N : Int)) := by omega
  have hins : vecInsert var.arrayInitialized (i : Int) true
      = Except.ok (var.arrayInitialized.take i ++ true :: var.arrayInitialized.drop i) := by
    have : ¬ ((i : Int) < 0 ∨ (var.arrayInitialized.length : Int) < (i : Int)) := by omega
    simp only [vecInsert, if_neg this, Int.toNat_ofNat]
  unfold assignValue
  simp only [hvar, hidx, hv, hsize, raiseAt, bind, Except.bind, Result.ofInt, if_true, hnot,
    if_false, hty, hisArr, and_true, hins, pure, Except.pure]
  by_cases hT : var.type = Ty.INT
  · have hlen : ¬ ((i : Int) < 0 ∨ (var.intArray.length : Int) ≤ (i : Int)) := by
      simp only [hT, if_true] at htyped; omega
    simp only [hT, vecSet, if_neg hlen, Int.toNat_ofNat, true_and, if_true]
  · have hB : var.type = Ty.BOOL := by cases h : var.type <;> simp_all
    have hlen : ¬ ((i : Int) < 0 ∨ (var.boolArray.length : Int) ≤ (i : Int)) := by
      simp only [hT, if_false] at htyped; omega
    simp only [hB, vecSet, if_neg hlen, Int.toNat_ofNat, true_and, if_true, if_false,
      reduceCtorEq, false_and]

/-- C3: in an array of `N` elements, after the assignment `a[i] = e` with `0 <= i < N`
and `e` evaluating to a value `v` of the element type, the assignment succeeds and
reading `a[i]` returns `v`, with the element type as its tag. -/
theorem array_write_then_read_round_trip (sm : SymbolMap) (a : String) (var : Variable)
    (N i : Nat) (v : Result) (indexNode exprNode : Node)
    (hvar : sm.getVariable a = Except.ok var) (harr : var.IsArrayOf N) (hi : i < N)
    (hidx : evaluateExpr sm indexNode = Except.ok (Result.ofInt i))
    (hv : evaluateExpr sm exprNode = Except.ok v) (hty : v.type = var.type) :
    ∃ sm1, assignValue sm (Node.ArrayAccessNode indexNode a) exprNode = Except.ok sm1 ∧
      ∀ readIndex r, evaluateExpr sm1 readIndex = Except.ok r → r.value = i →
        evaluateExpr sm1 (Node.ArrayAccessNode readIndex a) = Except.ok v ∧
        v.type = var.type := by
  refine ⟨_, assignValue_array_ok sm a var N i v indexNode exprNode hvar harr hi hidx hv hty, ?_⟩
  intro readIndex r hr hri
  refine ⟨?_, hty⟩
  obtain ⟨hisArr, hmax, htyped, hflags⟩ := harr
  have hwf := evaluateExpr_wf sm exprNode v hv
  have hflag : vecGet (var.arrayInitialized.take i ++ true :: var.arrayInitialized.drop i)
      r.value = Except.ok true := by
    rw [hri]; exact vecGet_insert_self _ i true (by omega)
  by_cases hT : var.type = Ty.INT
  · rw [if_pos hT] at htyped
    have hval : vecGet (var.intArray.set i v.value) r.value = Except.ok v.value := by
      rw [hri]; exact vecGet_set_self _ i _ (by omega)
    simp only [hT, if_true] at hr ⊢
    simp only [evaluateExpr, SymbolMap.getVariable_store sm a var _ hvar, hr, bind,
      Except.bind, hflag, hval, hT, if_true, pure, Except.pure]
    simp only [Bool.true_eq_false, if_false]
    obtain ⟨t, x⟩ := v
    simp only [hT] at hty
    simp [Result.ofInt, hty]
  · have hB : var.type = Ty.BOOL := by cases h : var.type <;> simp_all
    rw [if_neg hT] at htyped
    have hval : vecGet (var.boolArray.set i v.asBool) r.value = Except.ok v.asBool := by
      rw [hri]; exact vecGet_set_self _ i _ (by omega)
    simp only [hT, if_false] at hr ⊢
    simp only [evaluateExpr, SymbolMap.getVariable_store sm a var _ hvar, hr, bind,
      Except.bind, hflag, hval, hT, if_false, pure, Except.pure]
    simp only [Bool.true_eq_false, if_false]
    rw [hwf (hty.trans hB)]

/-- Witness of C3 on `a[1] = 7` in the table of `int[3] a;`. -/
theorem array_write_then_read_round_trip_witness :
    tableIntArray3.getVariable "a" = Except.ok
      { type := Ty.INT, intValue := 0, boolValue := false, isArray := true,
        intArray := [0, 0, 0], boolArray := [], initialized := none,
        arrayInitialized := [false, false, false] } ∧
    1 < 3 ∧
    ∃ sm1, assignValue tableIntArray3 (Node.ArrayAccessNode (intLit 1) "a") (intLit 7)
        = Except.ok sm1 ∧
      ∀ readIndex r, evaluateExpr sm1 readIndex = Except.ok r → r.value = ((1 : Nat) : Int) →
        evaluateExpr sm1 (Node.ArrayAccessNode readIndex "a") = Except.ok (Result.ofInt 7) ∧
        (Result.ofInt 7).type = Ty.INT :=
  ⟨rfl, by decide,
    array_write_then_read_round_trip tableIntArray3 "a" _ 3 1 (Result.ofInt 7)
      (intLit 1) (intLit 7) rfl (by decide) (by decide) rfl rfl rfl⟩

/-- A declaration of an array with a size `N >= 0` binds the name to an array of `N`
elements with every flag false. -/
theorem declareVariable_isArrayOf (sm sm1 : SymbolMap) (a : String) (type : Ty) (N : Nat)
    (h : sm.declareVariable a type true (N : Int) = Except.ok sm1) :
    ∃ var, sm1.getVariable a = Except.ok var ∧ var.IsArrayOf N ∧ var.type = type ∧
      var.arrayInitialized = List.replicate N false := by
  have hg := SymbolMap.getVariable_declareVariable sm sm1 a type true (N : Int) h
  simp only [if_true, Int.toNat_ofNat] at hg
  refine ⟨_, hg, ?_⟩
  cases type <;> simp [Variable.IsArrayOf]

/-- A successful assignment to an element keeps the array an array of `N` elements of the
same type. -/
theorem assignValue_preserves_isArrayOf (sm : SymbolMap) (a : String) (var : Variable)
    (N i : Nat) (v : Result) (indexNode exprNode : Node)
    (hvar : sm.getVariable a = Except.ok var) (harr : var.IsArrayOf N) (hi : i < N)
    (hidx : evaluateExpr sm indexNode = Except.ok (Result.ofInt i))
    (hv : evaluateExpr sm exprNode = Except.ok v) (hty : v.type = var.type) :
    ∃ sm1 var1, assignValue sm (Node.ArrayAccessNode indexNode a) exprNode = Except.ok sm1 ∧
      sm1.getVariable a = Except.ok var1 ∧ var1.IsArrayOf N ∧ var1.type = var.type := by
  refine ⟨_, _, assignValue_array_ok sm a var N i v indexNode exprNode hvar harr hi hidx hv hty,
    SymbolMap.getVariable_store sm a var _ hvar, ?_⟩
  obtain ⟨hisArr, hmax, htyped, hflags⟩ := harr
  by_cases hT : var.type = Ty.INT
  · simp only [hT, if_true] at htyped ⊢
    simp [Variable.IsArrayOf, hisArr, hmax, htyped, List.length_take]
    omega
  · simp only [hT, if_false] at htyped ⊢
    simp [Variable.IsArrayOf, hisArr, hmax, htyped, hT, List.length_take]
    omega

/-- C4: in an array of `N` elements (`N >= 0`), the assignment `a[i] = e` with an index
that evaluates to an integer `i < 0` or `i >= N` raises the out-of-bounds error, whatever
value `e` evaluates to, and stores nothing. -/
theorem assign_out_of_bounds_is_error (fuel : Nat) (st : Interpreter) (a : String)
    (var : Variable) (N : Nat) (i : Int) (v : Result) (indexNode exprNode : Node)
    (hvar : st.symbolMap.getVariable a = Except.ok var) (harr : var.IsArrayOf N)
    (hidx : evaluateExpr st.symbolMap indexNode = Except.ok (Result.ofInt i))
    (hv : evaluateExpr st.symbolMap exprNode = Except.ok v)
    (hi : i < 0 ∨ (N : Int) ≤ i) :
    executeStmt (fuel + 1) st (Node.AssignNode (Node.ArrayAccessNode indexNode a) exprNode)
      = Except.error (Error.arrayIndexOutOfBounds i N, st) := by
  obtain ⟨hisArr, hmax, _, _⟩ := harr
  have hsize : var.size = Except.ok (N : Int) := by
    simp [Variable.size, hisArr, hmax]
  have hcond : i < 0 ∨ i ≥ (N : Int) := hi
  simp only [executeStmt, assignValue, hvar, hidx, hv, hsize, raiseAt, bind, Except.bind,
    Result.ofInt, if_true, hcond, throw, throwThe, MonadExceptOf.throw, throwErr]

/-- Witness of C4 on `a[3] = true` in the table of `int[3] a;`. -/
theorem assign_out_of_bounds_is_error_witness :
    ((3 : Int) < 0 ∨ ((3 : Nat) : Int) ≤ 3) ∧
    executeStmt (0 + 1) ⟨tableIntArray3, []⟩
        (Node.AssignNode (Node.ArrayAccessNode (intLit 3) "a") (boolLit true))
      = Except.error (Error.arrayIndexOutOfBounds 3 (3 : Nat), ⟨tableIntArray3, []⟩) :=
  ⟨Or.inr (by decide),
    assign_out_of_bounds_is_error 0 ⟨tableIntArray3, []⟩ "a" _ 3 3 (Result.ofBool true)
      (intLit 3) (boolLit true) rfl (by decide) rfl rfl (Or.inr (by decide))⟩

/-- C2 fails on `{int[3] a; a[1] = 7; a[0] = 5; ...}`: the second assignment inserts its
flag in front of the flag of index 1, so that `a[1]`, which was assigned 7, is reported
as never assigned, whereas `a[2]`, which was never assigned, reads as 0. The flags grow
from 3 to 5 entries. -/
theorem array_flags_shift_on_assignment :
    runSource 100 "{int[3] a; a[1] = 7; a[0] = 5; print(a[1]);}"
      = ⟨[], some (Error.arrayNotInitialized "a" 1)⟩ ∧
    runSource 100 "{int[3] a; a[1] = 7; a[0] = 5; print(a[2]);}" = ⟨["0"], none⟩ ∧
    (Interpreter.interpret 100 (Node.ProgramNode (Node.BlockNode
        (Node.DeclsNode (Node.DeclNode (Node.ArrayTypeNode (Node.BasicTypeNode "integer") 3) "a")
          Node.null)
        (Node.StmtsNode (Node.AssignNode (Node.ArrayAccessNode (intLit 1) "a") (intLit 7))
          (Node.StmtsNode (Node.AssignNode (Node.ArrayAccessNode (intLit 0) "a") (intLit 5))
            Node.null))))).map
      (fun st => (st.symbolMap.find "a").map (fun var => var.arrayInitialized))
      = Except.ok (some [true, false, true, false, false]) := by
  refine ⟨by decide, by decide, rfl⟩

/-! ## Declarations (C5, C6) -/

/-- Reading a scalar right after its declaration reads the member `initialized`, which
the constructor of `Variable` leaves indeterminate. -/
theorem fresh_scalar_read_is_undefined (sm sm1 : SymbolMap) (x : String) (type : Ty)
    (h : sm.declareVariable x type false 0 = Except.ok sm1) :
    evaluateExpr sm1 (Node.IdNode x) = Except.error Error.undefinedBehavior := by
  have hg := SymbolMap.getVariable_declareVariable sm sm1 x type false 0 h
  simp only [Bool.false_eq_true, if_false] at hg
  simp [evaluateExpr, hg, bind, Except.bind, Variable.mk0, throw, throwThe,
    MonadExceptOf.throw]

/-- C5 on `{int x; print(x);}` and `{boolean x; print(x);}`: the read of the freshly
declared scalar is not the uninitialized-access error; it tests a flag that no code has
set, which is undefined behaviour. -/
theorem fresh_scalar_flag_is_indeterminate :
    runSource 100 "{int x; print(x);}" = ⟨[], some Error.undefinedBehavior⟩ ∧
    runSource 100 "{boolean x; print(x);}" = ⟨[], some Error.undefinedBehavior⟩ ∧
    (⟨[]⟩ : SymbolMap).declareVariable "x" Ty.INT false 0
      = Except.ok ⟨[("x", Variable.mk0 Ty.INT)]⟩ ∧
    (Variable.mk0 Ty.INT).initialized = none := by
  refine ⟨by decide, by decide, rfl, rfl⟩

/-- A declaration binds the name to the same variable whatever the table held before:
the prior type, values and flags of the name leave no trace. -/
theorem redeclared_variable_is_fresh (sm sm1 fresh : SymbolMap) (x : String) (type : Ty)
    (isArray : Bool) (arraySize : Int)
    (h : sm.declareVariable x type isArray arraySize = Except.ok sm1)
    (hfresh : (⟨[]⟩ : SymbolMap).declareVariable x type isArray arraySize = Except.ok fresh) :
    sm1.getVariable x = fresh.getVariable x := by
  rw [SymbolMap.getVariable_declareVariable sm sm1 x type isArray arraySize h,
    SymbolMap.getVariable_declareVariable _ fresh x type isArray arraySize hfresh]

/-- Reading an element of an array right after its declaration is the
uninitialized-access error. -/
theorem fresh_array_element_read_is_error (sm sm1 : SymbolMap) (a : String) (type : Ty)
    (N i : Nat) (indexNode : Node) (r : Result)
    (h : sm.declareVariable a type true (N : Int) = Except.ok sm1) (hi : i < N)
    (hidx : evaluateExpr sm1 indexNode = Except.ok r) (hr : r.value = i) :
    evaluateExpr sm1 (Node.ArrayAccessNode indexNode a)
      = Except.error (Error.arrayNotInitialized a i) := by
  obtain ⟨var, hg, _, _, hflags⟩ := declareVariable_isArrayOf sm sm1 a type N h
  have hget : vecGet var.arrayInitialized r.value = Except.ok false := by
    have hneg : ¬ ((i : Int) < 0) := by omega
    have : (List.replicate N false).get? i = some false := by
      rw [List.get?_eq_getElem?]; simp [hi]
    rw [hr, hflags]
    simp only [vecGet, if_neg hneg, Int.toNat_ofNat, this]
  rw [hr] at hget
  simp [evaluateExpr, hg, hidx, hget, bind, Except.bind, throw, throwThe,
    MonadExceptOf.throw, throwErr, hr]

/-- C6 on `{int x; x = 1; {int x; print(x);}}`: the declaration in the nested block
discards the value 1, and the read that follows is not the uninitialized-access error
but a test of the indeterminate flag of the new variable. An array behaves as claimed:
after `int[2] a; a[0] = 1;` a new declaration of `a` makes `a[0]` unassigned again. -/
theorem redeclared_scalar_flag_is_indeterminate :
    runSource 100 "{int x; x = 1; {int x; print(x);}}" = ⟨[], some Error.undefinedBehavior⟩ ∧
    runSource 100 "{int x; x = 1; print(x); {boolean x; x = true; print(x);}}"
      = ⟨["1", "true"], none⟩ ∧
    runSource 100 "{int[2] a; a[0] = 1; {int[2] a; print(a[0]);}}"
      = ⟨[], some (Error.arrayNotInitialized "a" 0)⟩ := by
  refine ⟨by decide, by decide, by decide⟩

/-! ## The whole pipeline on an array (C9) -/

/-- C9, as the code behaves: an array is declared as `int[3] a;`, the size following the
basic type. With any sufficient fuel `{int[3] a; a[0] = 5; print(a[0]);}` runs without
error and prints exactly the line `5`, the same program with `print(a[1])` raises the
uninitialized-access error at index 1 and prints nothing, and the declaration `int a[3];`
is a syntax error at the bracket, where a semicolon is expected. -/
theorem array_program_end_to_end (fuel : Nat) :
    runSource (fuel + 30) "{int[3] a; a[0] = 5; print(a[0]);}" = ⟨["5"], none⟩ ∧
    runSource (fuel + 30) "{int[3] a; a[0] = 5; print(a[1]);}"
      = ⟨[], some (Error.arrayNotInitialized "a" 1)⟩ ∧
    runSource (fuel + 30) "{int a[3]; a[0] = 5; print(a[0]);}"
      = ⟨[], some (Error.unexpectedToken Token.LBRACKET Token.SEMICOLON 1 8)⟩ :=
  ⟨rfl, rfl, rfl⟩

/-- C9 as stated fails: `{int a[3]; a[0] = 5; print(a[0]);}` prints nothing and stops
with a syntax error, and so does the variant with `print(a[1])`. -/
theorem c_style_array_declaration_counterexample :
    runSource 100 "{int a[3]; a[0] = 5; print(a[0]);}"
      = ⟨[], some (Error.unexpectedToken Token.LBRACKET Token.SEMICOLON 1 8)⟩ ∧
    runSource 100 "{int a[3]; a[0] = 5; print(a[1]);}"
      = ⟨[], some (Error.unexpectedToken Token.LBRACKET Token.SEMICOLON 1 8)⟩ := by
  decide

/-! ## Operand types of Add, Mul and Equality (C10) -/

/-- An Add node whose operands evaluate to values of different types raises the
type-mismatch error. -/
theorem add_type_mismatch_is_error (sm : SymbolMap) (left right : Node) (lv rv : Result)
    (isAddition : Bool) (hl : evaluateExpr sm left = Except.ok lv)
    (hr : evaluateExpr sm right = Except.ok rv) (hne : lv.type ≠ rv.type) :
    evaluateExpr sm (Node.AddNode left right isAddition)
      = Except.error Error.valueTypeMismatch := by
  simp [evaluateExpr, hl, hr, hne, bind, Except.bind, throw, throwThe, MonadExceptOf.throw,
    throwErr]

/-- A Mul node whose operands evaluate to values of different types raises an error: the
divide-by-zero error for a division by 0 or false, the type-mismatch error otherwise. -/
theorem mul_type_mismatch_is_error (sm : SymbolMap) (left right : Node) (lv rv : Result)
    (isMultiplication : Bool) (hl : evaluateExpr sm left = Except.ok lv)
    (hr : evaluateExpr sm right = Except.ok rv) (hne : lv.type ≠ rv.type) :
    evaluateExpr sm (Node.MulNode left right isMultiplication)
        = Except.error Error.valueTypeMismatch ∨
    evaluateExpr sm (Node.MulNode left right isMultiplication)
        = Except.error Error.divisionByZero := by
  simp only [evaluateExpr, hl, hr, bind, Except.bind, throw, throwThe, MonadExceptOf.throw,
    throwErr, pure, Except.pure]
  split_ifs <;> simp_all

/-- An Equality node whose operands evaluate to values of different types passes the
null pointer `addNode` to `throwError`, which dereferences it: no type-mismatch error is
thrown. -/
theorem equality_type_mismatch_is_null_dereference (sm : SymbolMap) (left right : Node)
    (lv rv : Result) (isEqual : Bool) (hl : evaluateExpr sm left = Except.ok lv)
    (hr : evaluateExpr sm right = Except.ok rv) (hne : lv.type ≠ rv.type) :
    evaluateExpr sm (Node.EqualityNode left right isEqual)
      = Except.error Error.undefinedBehavior := by
  simp [evaluateExpr, hl, hr, hne, bind, Except.bind, throw, throwThe, MonadExceptOf.throw,
    throwErr]

/-- C10 on `1 == true` and `true != 2`: the operands have different types and the
Equality node ends in the null dereference of `throwError` instead of raising the
type-mismatch error that `1 + true` and `1 * true` raise. -/
theorem equality_type_mismatch_dereferences_null :
    runSource 100 "{print(1 == true);}" = ⟨[], some Error.undefinedBehavior⟩ ∧
    runSource 100 "{print(true != 2);}" = ⟨[], some Error.undefinedBehavior⟩ ∧
    runSource 100 "{print(1 + true);}" = ⟨[], some Error.valueTypeMismatch⟩ ∧
    runSource 100 "{print(1 * true);}" = ⟨[], some Error.valueTypeMismatch⟩ := by
  decide

/-! ## Operand types of Or, And and Relational (C11) -/

/-- C11, as the code behaves: Or, And and Relational nodes do not compare the types of
their operands. For operands that evaluate to values of any types, Or and And combine
the truth values of the operands (nonzero is true) and a Relational node compares the
stored integers; only Add and Mul fail on operands of different types. -/
theorem or_and_rel_accept_mixed_operands (sm : SymbolMap) (left right : Node)
    (lv rv : Result) (hl : evaluateExpr sm left = Except.ok lv)
    (hr : evaluateExpr sm right = Except.ok rv) :
    evaluateExpr sm (Node.OrNode left right)
      = Except.ok (Result.ofBool (lv.asBool || rv.asBool)) ∧
    evaluateExpr sm (Node.AndNode left right)
      = Except.ok (Result.ofBool (lv.asBool && rv.asBool)) ∧
    evaluateExpr sm (Node.RelNode left right RelOp.LESS)
      = Except.ok (Result.ofBool (decide (lv.value < rv.value))) ∧
    evaluateExpr sm (Node.RelNode left right RelOp.LESSEQ)
      = Except.ok (Result.ofBool (decide (lv.value ≤ rv.value))) ∧
    evaluateExpr sm (Node.RelNode left right RelOp.GREATER)
      = Except.ok (Result.ofBool (decide (lv.value > rv.value))) ∧
    evaluateExpr sm (Node.RelNode left right RelOp.GREATEREQ)
      = Except.ok (Result.ofBool (decide (lv.value ≥ rv.value))) ∧
    (lv.type ≠ rv.type → ∀ isAddition,
      evaluateExpr sm (Node.AddNode left right isAddition)
        = Except.error Error.valueTypeMismatch) ∧
    (lv.type ≠ rv.type → ∀ isMultiplication,
      evaluateExpr sm (Node.MulNode left right isMultiplication)
          = Except.error Error.valueTypeMismatch ∨
      evaluateExpr sm (Node.MulNode left right isMultiplication)
          = Except.error Error.divisionByZero) := by
  refine ⟨?_, ?_, ?_, ?_, ?_, ?_, ?_, ?_⟩
  · cases h : lv.asBool <;>
      simp [evaluateExpr, hl, hr, h, bind, Except.bind, pure, Except.pure]
  · cases h : lv.asBool <;>
      simp [evaluateExpr, hl, hr, h, bind, Except.bind, pure, Except.pure]
  · simp [evaluateExpr, hl, hr, bind, Except.bind, pure, Except.pure]
  · simp [evaluateExpr, hl, hr, bind, Except.bind, pure, Except.pure]
  · simp [evaluateExpr, hl, hr, bind, Except.bind, pure, Except.pure]
  · simp [evaluateExpr, hl, hr, bind, Except.bind, pure, Except.pure]
  · intro hne isAddition
    exact add_type_mismatch_is_error sm left right lv rv isAddition hl hr hne
  · intro hne isMultiplication
    exact mul_type_mismatch_is_error sm left right lv rv isMultiplication hl hr hne

/-- Witness of C11 on `1 || false`. -/
theorem or_and_rel_accept_mixed_operands_witness :
    evaluateExpr ⟨[]⟩ (intLit 1) = Except.ok (Result.ofInt 1) ∧
    evaluateExpr ⟨[]⟩ (boolLit false) = Except.ok (Result.ofBool false) ∧
    evaluateExpr ⟨[]⟩ (Node.OrNode (intLit 1) (boolLit false))
      = Except.ok (Result.ofBool ((Result.ofInt 1).asBool || (Result.ofBool false).asBool)) :=
  ⟨rfl, rfl,
    (or_and_rel_accept_mixed_operands ⟨[]⟩ (intLit 1) (boolLit false) (Result.ofInt 1)
      (Result.ofBool false) rfl rfl).1⟩

/-- C11 as stated fails: `1 || false`, `0 && true` and `true < 2` have operands of
different types and evaluate to true, false and true without any error. -/
theorem mixed_operands_counterexample :
    evaluateExpr ⟨[]⟩ (Node.OrNode (intLit 1) (boolLit false))
      = Except.ok (Result.ofBool true) ∧
    evaluateExpr ⟨[]⟩ (Node.AndNode (intLit 0) (boolLit true))
      = Except.ok (Result.ofBool false) ∧
    evaluateExpr ⟨[]⟩ (Node.RelNode (boolLit true) (intLit 2) RelOp.LESS)
      = Except.ok (Result.ofBool true) ∧
    runSource 100 "{print(1 || false); print(0 && true); print(true < 2);}"
      = ⟨["true", "false", "true"], none⟩ := by
  refine ⟨rfl, rfl, rfl, ?_⟩
  decide

/-! ## Types in assignments (C12) -/

/-- C12: an assignment whose right-hand side evaluates to a value of a type other than
the declared type of the target raises the type-mismatch error and stores nothing, for
a scalar target and for an element of an array at an index within bounds; and an
assignment that succeeds has a value of exactly the declared type. -/
theorem assignment_requires_declared_type (fuel : Nat) (st : Interpreter) (x : String)
    (var : Variable) (v : Result) (exprNode : Node)
    (hvar : st.symbolMap.getVariable x = Except.ok var)
    (hv : evaluateExpr st.symbolMap exprNode = Except.ok v) :
    (v.type ≠ var.type →
      executeStmt (fuel + 1) st (Node.AssignNode (Node.IdNode x) exprNode)
        = Except.error (Error.valueMismatch, st) ∧
      ∀ (indexNode : Node) (i N : Nat), var.IsArrayOf N → i < N →
        evaluateExpr st.symbolMap indexNode = Except.ok (Result.ofInt i) →
        executeStmt (fuel + 1) st
            (Node.AssignNode (Node.ArrayAccessNode indexNode x) exprNode)
          = Except.error (Error.valueMismatch, st)) ∧
    (∀ st1, executeStmt (fuel + 1) st (Node.AssignNode (Node.IdNode x) exprNode)
        = Except.ok st1 → var.type = v.type) ∧
    (∀ indexNode st1,
      executeStmt (fuel + 1) st (Node.AssignNode (Node.ArrayAccessNode indexNode x) exprNode)
        = Except.ok st1 → var.type = v.type) := by
  refine ⟨?_, ?_, ?_⟩
  · intro hne
    have hne' : ¬ var.type = v.type := fun h => hne h.symm
    refine ⟨?_, ?_⟩
    · simp [executeStmt, assignValue, hvar, hv, raiseAt, bind, Except.bind, hne', throw,
        throwThe, MonadExceptOf.throw, throwErr]
    · intro indexNode i N harr hi hidx
      obtain ⟨hisArr, hmax, _, _⟩ := harr
      have hsize : var.size = Except.ok (N : Int) := by
        simp [Variable.size, hisArr, hmax]
      have hnot : ¬ ((i : Int) < 0 ∨ (i : Int) ≥ (N : Int)) := by omega
      simp only [executeStmt, assignValue, hvar, hidx, hv, hsize, raiseAt, bind, Except.bind,
        Result.ofInt, if_true, hnot, if_false, hne', throw, throwThe, MonadExceptOf.throw,
        throwErr]
  · intro st1 h
    by_contra hne
    simp [executeStmt, assignValue, hvar, hv, raiseAt, bind, Except.bind, hne, throw,
      throwThe, MonadExceptOf.throw, throwErr] at h
  · intro indexNode st1 h
    by_contra hne
    simp only [executeStmt, assignValue, hvar, hv, raiseAt, bind, Except.bind, hne, throw,
      throwThe, MonadExceptOf.throw, throwErr, if_false] at h
    cases hidx : evaluateExpr st.symbolMap indexNode with
    | error e => simp [hidx] at h
    | ok index =>
      simp only [hidx] at h
      cases hsize : var.size with
      | error e => simp [hsize] at h
      | ok size =>
        simp only [hsize] at h
        split_ifs at h

/-- Witness of C12 on `x = true` after `int x;`. -/
theorem assignment_requires_declared_type_witness :
    (⟨[("x", Variable.mk0 Ty.INT)]⟩ : SymbolMap).getVariable "x"
      = Except.ok (Variable.mk0 Ty.INT) ∧
    evaluateExpr ⟨[("x", Variable.mk0 Ty.INT)]⟩ (boolLit true)
      = Except.ok (Result.ofBool true) ∧
    (Result.ofBool true).type ≠ (Variable.mk0 Ty.INT).type ∧
    executeStmt (0 + 1) ⟨⟨[("x", Variable.mk0 Ty.INT)]⟩, []⟩
        (Node.AssignNode (Node.IdNode "x") (boolLit true))
      = Except.error (Error.valueMismatch, ⟨⟨[("x", Variable.mk0 Ty.INT)]⟩, []⟩) :=
  ⟨rfl, rfl, by decide,
    ((assignment_requires_declared_type 0 ⟨⟨[("x", Variable.mk0 Ty.INT)]⟩, []⟩ "x"
      (Variable.mk0 Ty.INT) (Result.ofBool true) (boolLit true) rfl rfl).1 (by decide)).1⟩

/-! ## Scalar assignment and print (C13) -/

/-- C13: for a declared scalar `x`, assigned before or not, and an expression that
evaluates to a value `v` of the declared type, the statement `x = e` succeeds and writes
nothing; afterwards the identifier `x` evaluates to `v` and `print(x)` appends one line,
the decimal text of an integer or the word `true` or `false`. With any sufficient fuel
the source `{int x; x = 3; print(x);}` outputs exactly `3`. -/
theorem scalar_assign_then_read_and_print (fuel : Nat) (st : Interpreter) (x : String)
    (var : Variable) (v : Result) (exprNode : Node)
    (hvar : st.symbolMap.getVariable x = Except.ok var) (hscalar : var.isArray = false)
    (hv : evaluateExpr st.symbolMap exprNode = Except.ok v) (hty : v.type = var.type) :
    (∃ st1, executeStmt (fuel + 1) st (Node.AssignNode (Node.IdNode x) exprNode)
        = Except.ok st1 ∧
      st1.cout = st.cout ∧
      evaluateExpr st1.symbolMap (Node.IdNode x) = Except.ok v ∧
      executeStmt (fuel + 1) st1 (Node.PrintNode (Node.IdNode x))
        = Except.ok { st1 with cout := st1.cout ++ [printLine v] }) ∧
    (∀ n : Int, printLine (Result.ofInt n) = toString n) ∧
    (∀ b : Bool, printLine (Result.ofBool b) = if b then "true" else "false") ∧
    runSource (fuel + 30) "{int x; x = 3; print(x);}" = ⟨["3"], none⟩ := by
  refine ⟨?_, fun n => rfl, fun b => by cases b <;> rfl, rfl⟩
  have hwf := evaluateExpr_wf st.symbolMap exprNode v hv
  by_cases hT : var.type = Ty.INT
  · have hvT : v.type = Ty.INT := hty.trans hT
    have hread : evaluateExpr
        (st.symbolMap.store x { var with intValue := v.value, initialized := some true })
        (Node.IdNode x) = Except.ok v := by
      simp only [evaluateExpr, SymbolMap.getVariable_store st.symbolMap x var _ hvar, bind,
        Except.bind, hT, if_true, pure, Except.pure]
      obtain ⟨t, val⟩ := v
      simp only at hvT
      simp [Result.ofInt, hvT]
    refine ⟨⟨st.symbolMap.store x { var with intValue := v.value, initialized := some true },
      st.cout⟩, ?_, rfl, hread, ?_⟩
    · simp [executeStmt, assignValue, hvar, hv, raiseAt, bind, Except.bind, hty, hT, hscalar,
        pure, Except.pure]
    · simp only [executeStmt, hread, raiseAt, bind, Except.bind, pure, Except.pure]
  · have hB : var.type = Ty.BOOL := by cases h : var.type <;> simp_all
    have hvB : v.type = Ty.BOOL := hty.trans hB
    have hread : evaluateExpr
        (st.symbolMap.store x { var with boolValue := v.asBool, initialized := some true })
        (Node.IdNode x) = Except.ok v := by
      simp only [evaluateExpr, SymbolMap.getVariable_store st.symbolMap x var _ hvar, bind,
        Except.bind, hT, if_false, pure, Except.pure]
      rw [hwf hvB]
    refine ⟨⟨st.symbolMap.store x { var with boolValue := v.asBool, initialized := some true },
      st.cout⟩, ?_, rfl, hread, ?_⟩
    · simp [executeStmt, assignValue, hvar, hv, raiseAt, bind, Except.bind, hty, hB, hscalar,
        pure, Except.pure]
    · simp only [executeStmt, hread, raiseAt, bind, Except.bind, pure, Except.pure]

/-- Witness of C13 on `x = 3` after `int x;`. -/
theorem scalar_assign_then_read_and_print_witness :
    (⟨[("x", Variable.mk0 Ty.INT)]⟩ : SymbolMap).getVariable "x"
      = Except.ok (Variable.mk0 Ty.INT) ∧
    (Variable.mk0 Ty.INT).isArray = false ∧
    evaluateExpr ⟨[("x", Variable.mk0 Ty.INT)]⟩ (intLit 3) = Except.ok (Result.ofInt 3) ∧
    (Result.ofInt 3).type = (Variable.mk0 Ty.INT).type ∧
    ∃ st1, executeStmt (0 + 1) ⟨⟨[("x", Variable.mk0 Ty.INT)]⟩, []⟩
        (Node.AssignNode (Node.IdNode "x") (intLit 3)) = Except.ok st1 ∧
      st1.cout = [] ∧
      evaluateExpr st1.symbolMap (Node.IdNode "x") = Except.ok (Result.ofInt 3) ∧
      executeStmt (0 + 1) st1 (Node.PrintNode (Node.IdNode "x"))
        = Except.ok { st1 with cout := st1.cout ++ [printLine (Result.ofInt 3)] } :=
  ⟨rfl, rfl, rfl, rfl,
    (scalar_assign_then_read_and_print 0 ⟨⟨[("x", Variable.mk0 Ty.INT)]⟩, []⟩ "x"
      (Variable.mk0 Ty.INT) (Result.ofInt 3) (intLit 3) rfl rfl rfl rfl).1⟩

/-! ## Break and loops (C16, C17, C18) -/

/-- A While statement turns a break raised in its loop into a normal return and passes
on every other result of the loop. -/
theorem executeStmt_while (fuel : Nat) (st : Interpreter) (condition body : Node) :
    executeStmt (fuel + 1) st (Node.WhileNode condition body)
      = (match whileLoop fuel st condition body with
         | Except.error (Error.breakException, st1) => Except.ok st1
         | r => r) := by
  simp only [executeStmt]
  rfl

/-- A DoWhile statement turns a break raised in its loop into a normal return and passes
on every other result of the loop. -/
theorem executeStmt_doWhile (fuel : Nat) (st : Interpreter) (body condition : Node) :
    executeStmt (fuel + 1) st (Node.DoWhileNode body condition)
      = (match doWhileLoop fuel st body condition with
         | Except.error (Error.breakException, st1) => Except.ok st1
         | r => r) := by
  simp only [executeStmt]
  rfl

/-- A While statement never ends in the break exception. -/
theorem while_never_raises_break (fuel : Nat) (st st2 : Interpreter) (condition body : Node) :
    executeStmt fuel st (Node.WhileNode condition body)
      ≠ Except.error (Error.breakException, st2) := by
  cases fuel with
  | zero => simp [executeStmt, throw, throwThe, MonadExceptOf.throw]
  | succ f =>
    rw [executeStmt_while]
    split
    · simp
    · next r hr =>
      intro h
      exact hr st2 h

/-- A DoWhile statement never ends in the break exception. -/
theorem doWhile_never_raises_break (fuel : Nat) (st st2 : Interpreter)
    (body condition : Node) :
    executeStmt fuel st (Node.DoWhileNode body condition)
      ≠ Except.error (Error.breakException, st2) := by
  cases fuel with
  | zero => simp [executeStmt, throw, throwThe, MonadExceptOf.throw]
  | succ f =>
    rw [executeStmt_doWhile]
    split
    · simp
    · next r hr =>
      intro h
      exact hr st2 h

/-- A list of statements runs its first statement and, when that one returns, the rest
of the list in the state it left. -/
theorem executeStmts_cons (fuel : Nat) (st : Interpreter) (stmt next : Node) :
    executeStmts (fuel + 1) st (Node.StmtsNode stmt next)
      = (match executeStmt fuel st stmt with
         | Except.error e => Except.error e
         | Except.ok st1 =>
           match next with
           | Node.null => Except.ok st1
           | _ => executeStmts fuel st1 next) := by
  simp only [executeStmts, bind, Except.bind, pure, Except.pure]
  cases executeStmt fuel st stmt with
  | error e => rfl
  | ok st1 => cases next <;> rfl

/-- One turn of the loop of a While statement. -/
theorem whileLoop_succ (fuel : Nat) (st : Interpreter) (condition body : Node) :
    whileLoop (fuel + 1) st condition body
      = (match evaluateExpr st.symbolMap condition with
         | Except.error e => Except.error (e, st)
         | Except.ok c =>
           if c.asBool = true then
             match executeStmt fuel st body with
             | Except.error e => Except.error e
             | Except.ok st1 => whileLoop fuel st1 condition body
           else Except.ok st) := by
  simp only [whileLoop, raiseAt, bind, Except.bind, pure, Except.pure]
  cases evaluateExpr st.symbolMap condition with
  | error e => rfl
  | ok c =>
    simp only
    split
    · cases executeStmt fuel st body <;> rfl
    · rfl

/-- One turn of the loop of a DoWhile statement. -/
theorem doWhileLoop_succ (fuel : Nat) (st : Interpreter) (body condition : Node) :
    doWhileLoop (fuel + 1) st body condition
      = (match executeStmt fuel st body with
         | Except.error e => Except.error e
         | Except.ok st1 =>
           match evaluateExpr st1.symbolMap condition with
           | Except.error e => Except.error (e, st1)
           | Except.ok c =>
             if c.asBool = true then doWhileLoop fuel st1 body condition
             else Except.ok st1) := by
  simp only [doWhileLoop, raiseAt, bind, Except.bind, pure, Except.pure]
  cases executeStmt fuel st body with
  | error e => rfl
  | ok st1 =>
    simp only
    cases evaluateExpr st1.symbolMap condition with
    | error e => rfl
    | ok c =>
      simp only

/-- A block statement without declarations runs its list of statements. -/
theorem executeStmt_block_stmts (fuel : Nat) (st : Interpreter) (stmt next : Node) :
    executeStmt (fuel + 2) st (Node.BlockNode Node.null (Node.StmtsNode stmt next))
      = executeStmts fuel st (Node.StmtsNode stmt next) := by
  simp only [executeStmt, executeBlock, bind, Except.bind, pure, Except.pure]

/-- The body of an outer loop whose first statement is an inner loop that ended by a
break: the rest of the body runs in the state of the break. -/
theorem outerBody_after_break (fuel : Nat) (st st1 st2 : Interpreter) (inner next : Node)
    (hinner : executeStmt fuel st inner = Except.ok st1) (hnext : next ≠ Node.null)
    (hrest : executeStmts fuel st1 next = Except.ok st2) :
    executeStmt (fuel + 3) st (Node.BlockNode Node.null (Node.StmtsNode inner next))
      = Except.ok st2 := by
  rw [executeStmt_block_stmts, executeStmts_cons, hinner]
  cases next <;> first | exact absurd rfl hnext | exact hrest

/-- C16: a break raised in the body of a loop ends that loop only. The statements that
follow the break in the inner body are skipped and the rest of the iteration with them;
the inner loop statement then returns normally in the state of the break, so that the
list of statements of the outer body goes on with the statement after the inner loop
and the outer loop goes on with its own condition. A loop statement never passes a
break on to an enclosing loop. An outer While that ran such a body evaluates its
condition again in the state the body left; an outer DoWhile evaluates its condition in
that state and repeats its body when the condition holds, and returns when it does not. -/
theorem break_ends_only_the_innermost_loop (fuel : Nat) (st st1 : Interpreter)
    (condition body next : Node) :
    executeStmts (fuel + 2) st (Node.StmtsNode Node.BreakNode next)
      = Except.error (Error.breakException, st) ∧
    (∀ c, evaluateExpr st.symbolMap condition = Except.ok c → c.asBool = true →
      executeStmt fuel st body = Except.error (Error.breakException, st1) →
      whileLoop (fuel + 1) st condition body = Except.error (Error.breakException, st1) ∧
      executeStmt (fuel + 2) st (Node.WhileNode condition body) = Except.ok st1) ∧
    (executeStmt fuel st body = Except.error (Error.breakException, st1) →
      doWhileLoop (fuel + 1) st body condition = Except.error (Error.breakException, st1) ∧
      executeStmt (fuel + 2) st (Node.DoWhileNode body condition) = Except.ok st1) ∧
    (∀ f st2, executeStmt f st (Node.WhileNode condition body)
      ≠ Except.error (Error.breakException, st2)) ∧
    (∀ f st2, executeStmt f st (Node.DoWhileNode body condition)
      ≠ Except.error (Error.breakException, st2)) ∧
    (∀ loop, executeStmt fuel st loop = Except.ok st1 → next ≠ Node.null →
      executeStmts (fuel + 1) st (Node.StmtsNode loop next) = executeStmts fuel st1 next) ∧
    (∀ outerCondition outerBody c,
      evaluateExpr st.symbolMap outerCondition = Except.ok c → c.asBool = true →
      executeStmt fuel st outerBody = Except.ok st1 →
      whileLoop (fuel + 1) st outerCondition outerBody
        = whileLoop fuel st1 outerCondition outerBody) ∧
    runSource (fuel + 40)
        "{int i; i = 0; while (i < 2) { while (true) { print(i); break; print(9); } print(7); i = i + 1; }}"
      = ⟨["0", "7", "1", "7"], none⟩ ∧
    (∀ outerCondition outerBody c,
      evaluateExpr st.symbolMap outerCondition = Except.ok c → c.asBool = false →
      whileLoop (fuel + 1) st outerCondition outerBody = Except.ok st) ∧
    (∀ outerCondition outerBody, executeStmt fuel st outerBody = Except.ok st1 →
      doWhileLoop (fuel + 1) st outerBody outerCondition
        = (match evaluateExpr st1.symbolMap outerCondition with
           | Except.error e => Except.error (e, st1)
           | Except.ok c =>
             if c.asBool = true then doWhileLoop fuel st1 outerBody outerCondition
             else Except.ok st1) ∧
      ∀ c, evaluateExpr st1.symbolMap outerCondition = Except.ok c →
        executeStmt (fuel + 2) st (Node.DoWhileNode outerBody outerCondition)
          = if c.asBool = true then
              executeStmt (fuel + 1) st1 (Node.DoWhileNode outerBody outerCondition)
            else Except.ok st1) ∧
    (∀ inner rest st2 outerCondition,
      (inner = Node.DoWhileNode body condition ∨
        (inner = Node.WhileNode condition body ∧
          ∃ c, evaluateExpr st.symbolMap condition = Except.ok c ∧ c.asBool = true)) →
      executeStmt fuel st body = Except.error (Error.breakException, st1) →
      rest ≠ Node.null → executeStmts (fuel + 2) st1 rest = Except.ok st2 →
      executeStmt (fuel + 5) st (Node.BlockNode Node.null (Node.StmtsNode inner rest))
        = Except.ok st2 ∧
      doWhileLoop (fuel + 6) st (Node.BlockNode Node.null (Node.StmtsNode inner rest))
          outerCondition
        = (match evaluateExpr st2.symbolMap outerCondition with
           | Except.error e => Except.error (e, st2)
           | Except.ok c =>
             if c.asBool = true then
               doWhileLoop (fuel + 5) st2
                 (Node.BlockNode Node.null (Node.StmtsNode inner rest)) outerCondition
             else Except.ok st2) ∧
      (∀ c, evaluateExpr st2.symbolMap outerCondition = Except.ok c →
        executeStmt (fuel + 7) st (Node.DoWhileNode
            (Node.BlockNode Node.null (Node.StmtsNode inner rest)) outerCondition)
          = if c.asBool = true then
              executeStmt (fuel + 6) st2 (Node.DoWhileNode
                (Node.BlockNode Node.null (Node.StmtsNode inner rest)) outerCondition)
            else Except.ok st2) ∧
      (∀ c, evaluateExpr st.symbolMap outerCondition = Except.ok c → c.asBool = true →
        whileLoop (fuel + 6) st outerCondition
            (Node.BlockNode Node.null (Node.StmtsNode inner rest))
          = whileLoop (fuel + 5) st2 outerCondition
              (Node.BlockNode Node.null (Node.StmtsNode inner rest)) ∧
        whileLoop (fuel + 6) st outerCondition
            (Node.BlockNode Node.null (Node.StmtsNode inner rest))
          = (match evaluateExpr st2.symbolMap outerCondition with
             | Except.error e => Except.error (e, st2)
             | Except.ok c2 =>
               if c2.asBool = true then
                 match executeStmt (fuel + 4) st2
                     (Node.BlockNode Node.null (Node.StmtsNode inner rest)) with
                 | Except.error e => Except.error e
                 | Except.ok st3 =>
                   whileLoop (fuel + 4) st3 outerCondition
                     (Node.BlockNode Node.null (Node.StmtsNode inner rest))
               else Except.ok st2))) ∧
    runSource (fuel + 40)
        "{int i; i = 0; do { while (true) { print(i); break; print(9); } print(7); i = i + 1; } while (i < 2);}"
      = ⟨["0", "7", "1", "7"], none⟩ ∧
    runSource (fuel + 40)
        "{int i; i = 0; do { do { print(i); break; print(9); } while (true); print(7); i = i + 1; } while (i < 2);}"
      = ⟨["0", "7", "1", "7"], none⟩ ∧
    runSource (fuel + 40)
        "{int i; i = 0; while (i < 2) { do { print(i); break; print(9); } while (true); print(7); i = i + 1; }}"
      = ⟨["0", "7", "1", "7"], none⟩ := by
  refine ⟨?_, ?_, ?_, ?_, ?_, ?_, ?_, rfl, ?_, ?_, ?_, rfl, rfl, rfl⟩
  · rw [executeStmts_cons]
    simp [executeStmt, throw, throwThe, MonadExceptOf.throw]
  · intro c hc hb hbody
    have hloop : whileLoop (fuel + 1) st condition body
        = Except.error (Error.breakException, st1) := by
      simp [whileLoop, hc, hb, hbody, raiseAt, bind, Except.bind]
    exact ⟨hloop, by rw [executeStmt_while, hloop]⟩
  · intro hbody
    have hloop : doWhileLoop (fuel + 1) st body condition
        = Except.error (Error.breakException, st1) := by
      simp [doWhileLoop, hbody, bind, Except.bind]
    exact ⟨hloop, by rw [executeStmt_doWhile, hloop]⟩
  · intro f st2
    exact while_never_raises_break f st st2 condition body
  · intro f st2
    exact doWhile_never_raises_break f st st2 body condition
  · intro loop hloop hnext
    rw [executeStmts_cons, hloop]
    cases next <;> first | exact absurd rfl hnext | rfl
  · intro outerCondition outerBody c hc hb hbody
    simp [whileLoop, hc, hb, hbody, raiseAt, bind, Except.bind]
  · intro outerCondition outerBody c hc hb
    rw [whileLoop_succ, hc]
    simp [hb]
  · intro outerCondition outerBody hbody
    have hloop : doWhileLoop (fuel + 1) st outerBody outerCondition
        = (match evaluateExpr st1.symbolMap outerCondition with
           | Except.error e => Except.error (e, st1)
           | Except.ok c =>
             if c.asBool = true then doWhileLoop fuel st1 outerBody outerCondition
             else Except.ok st1) := by
      rw [doWhileLoop_succ, hbody]
    refine ⟨hloop, ?_⟩
    intro c hc
    have hstep := hloop
    simp only [hc] at hstep
    rw [executeStmt_doWhile, hstep]
    by_cases hb : c.asBool = true
    · rw [if_pos hb, if_pos hb, executeStmt_doWhile]
    · rw [if_neg hb, if_neg hb]
  · intro inner rest st2 outerCondition hin hbody hne hrest
    have hinner : executeStmt (fuel + 2) st inner = Except.ok st1 := by
      rcases hin with rfl | ⟨rfl, c, hc, hb⟩
      · rw [executeStmt_doWhile, doWhileLoop_succ, hbody]
      · rw [executeStmt_while, whileLoop_succ, hc]
        simp only [if_pos hb, hbody]
    have hob : executeStmt (fuel + 5) st
        (Node.BlockNode Node.null (Node.StmtsNode inner rest)) = Except.ok st2 :=
      outerBody_after_break (fuel + 2) st st1 st2 inner rest hinner hne hrest
    have hdo : doWhileLoop (fuel + 6) st
          (Node.BlockNode Node.null (Node.StmtsNode inner rest)) outerCondition
        = (match evaluateExpr st2.symbolMap outerCondition with
           | Except.error e => Except.error (e, st2)
           | Except.ok c =>
             if c.asBool = true then
               doWhileLoop (fuel + 5) st2
                 (Node.BlockNode Node.null (Node.StmtsNode inner rest)) outerCondition
             else Except.ok st2) := by
      rw [doWhileLoop_succ (fuel + 5), hob]
    refine ⟨hob, hdo, ?_, ?_⟩
    · intro c hc
      have hstep := hdo
      simp only [hc] at hstep
      rw [executeStmt_doWhile, hstep]
      by_cases hb : c.asBool = true
      · rw [if_pos hb, if_pos hb, executeStmt_doWhile]
      · rw [if_neg hb, if_neg hb]
    · intro c hc hb
      have hw : whileLoop (fuel + 6) st outerCondition
            (Node.BlockNode Node.null (Node.StmtsNode inner rest))
          = whileLoop (fuel + 5) st2 outerCondition
              (Node.BlockNode Node.null (Node.StmtsNode inner rest)) := by
        rw [whileLoop_succ (fuel + 5), hc]
        simp only [if_pos hb, hob]
      refine ⟨hw, ?_⟩
      rw [hw, whileLoop_succ (fuel + 4)]

/-- Witness of C16 on the inner loop written as a While with a true condition and on an
outer DoWhile whose body is the inner loop `do { break; } while (true)` followed by a
print: the outer loop evaluates its condition after the print. -/
theorem break_ends_only_the_innermost_loop_witness :
    (evaluateExpr (⟨⟨[]⟩, []⟩ : Interpreter).symbolMap (boolLit true)
      = Except.ok (Result.ofBool true) ∧
    (Result.ofBool true).asBool = true ∧
    executeStmt 4 ⟨⟨[]⟩, []⟩ (Node.BlockNode Node.null (Node.StmtsNode Node.BreakNode Node.null))
      = Except.error (Error.breakException, ⟨⟨[]⟩, []⟩) ∧
    whileLoop (4 + 1) ⟨⟨[]⟩, []⟩ (boolLit true)
        (Node.BlockNode Node.null (Node.StmtsNode Node.BreakNode Node.null))
      = Except.error (Error.breakException, ⟨⟨[]⟩, []⟩) ∧
    executeStmt (4 + 2) ⟨⟨[]⟩, []⟩ (Node.WhileNode (boolLit true)
        (Node.BlockNode Node.null (Node.StmtsNode Node.BreakNode Node.null)))
      = Except.ok ⟨⟨[]⟩, []⟩) ∧
    (Node.StmtsNode (Node.PrintNode (intLit 2)) Node.null ≠ Node.null ∧
    executeStmts (4 + 2) ⟨⟨[]⟩, []⟩ (Node.StmtsNode (Node.PrintNode (intLit 2)) Node.null)
      = Except.ok ⟨⟨[]⟩, ["2"]⟩ ∧
    evaluateExpr (⟨⟨[]⟩, ["2"]⟩ : Interpreter).symbolMap (boolLit true)
      = Except.ok (Result.ofBool true) ∧
    executeStmt (4 + 7) ⟨⟨[]⟩, []⟩ (Node.DoWhileNode
        (Node.BlockNode Node.null (Node.StmtsNode
          (Node.DoWhileNode
            (Node.BlockNode Node.null (Node.StmtsNode Node.BreakNode Node.null))
            (boolLit true))
          (Node.StmtsNode (Node.PrintNode (intLit 2)) Node.null)))
        (boolLit true))
      = executeStmt (4 + 6) ⟨⟨[]⟩, ["2"]⟩ (Node.DoWhileNode
        (Node.BlockNode Node.null (Node.StmtsNode
          (Node.DoWhileNode
            (Node.BlockNode Node.null (Node.StmtsNode Node.BreakNode Node.null))
            (boolLit true))
          (Node.StmtsNode (Node.PrintNode (intLit 2)) Node.null)))
        (boolLit true))) :=
  ⟨⟨rfl, rfl, rfl,
    (break_ends_only_the_innermost_loop 4 ⟨⟨[]⟩, []⟩ ⟨⟨[]⟩, []⟩ (boolLit true)
      (Node.BlockNode Node.null (Node.StmtsNode Node.BreakNode Node.null)) Node.null).2.1
      (Result.ofBool true) rfl rfl rfl⟩,
   by decide, rfl, rfl,
    ((break_ends_only_the_innermost_loop 4 ⟨⟨[]⟩, []⟩ ⟨⟨[]⟩, []⟩ (boolLit true)
      (Node.BlockNode Node.null (Node.StmtsNode Node.BreakNode Node.null))
      Node.null).2.2.2.2.2.2.2.2.2.2.1
      (Node.DoWhileNode
        (Node.BlockNode Node.null (Node.StmtsNode Node.BreakNode Node.null))
        (boolLit true))
      (Node.StmtsNode (Node.PrintNode (intLit 2)) Node.null)
      ⟨⟨[]⟩, ["2"]⟩ (boolLit true) (Or.inl rfl) rfl (by decide) rfl).2.2.1
      (Result.ofBool true) rfl⟩

/-- C17: a break that no loop encloses ends the run. The break statement raises the
break exception; a list of statements, a block, a block statement, an If and an IfElse
pass it on without running anything after it; `interpret` passes it on to `main`, which
reports it. Nothing is executed after the break: the state of the error is the state in
which the break was raised. -/
theorem break_outside_loop_aborts_run (fuel : Nat) (st st1 : Interpreter) :
    executeStmt (fuel + 1) st Node.BreakNode = Except.error (Error.breakException, st) ∧
    (∀ stmt next, executeStmt fuel st stmt = Except.error (Error.breakException, st1) →
      executeStmts (fuel + 1) st (Node.StmtsNode stmt next)
        = Except.error (Error.breakException, st1)) ∧
    (∀ stmt next st0, executeStmt fuel st0 stmt = Except.ok st → next ≠ Node.null →
      executeStmts fuel st next = Except.error (Error.breakException, st1) →
      executeStmts (fuel + 1) st0 (Node.StmtsNode stmt next)
        = Except.error (Error.breakException, st1)) ∧
    (∀ stmts, stmts ≠ Node.null →
      executeStmts fuel st stmts = Except.error (Error.breakException, st1) →
      executeBlock (fuel + 1) st (Node.BlockNode Node.null stmts)
        = Except.error (Error.breakException, st1)) ∧
    (∀ decls stmts sm, decls ≠ Node.null → stmts ≠ Node.null →
      executeDecls st.symbolMap decls = Except.ok sm →
      executeStmts fuel { st with symbolMap := sm } stmts
        = Except.error (Error.breakException, st1) →
      executeBlock (fuel + 1) st (Node.BlockNode decls stmts)
        = Except.error (Error.breakException, st1)) ∧
    (∀ decls stmts,
      executeBlock fuel st (Node.BlockNode decls stmts)
        = Except.error (Error.breakException, st1) →
      executeStmt (fuel + 1) st (Node.BlockNode decls stmts)
        = Except.error (Error.breakException, st1)) ∧
    (∀ condition ifStmt elseStmt c, evaluateExpr st.symbolMap condition = Except.ok c →
      (c.asBool = true →
        executeStmt fuel st ifStmt = Except.error (Error.breakException, st1) →
        executeStmt (fuel + 1) st (Node.IfNode condition ifStmt)
          = Except.error (Error.breakException, st1) ∧
        executeStmt (fuel + 1) st (Node.IfElseNode condition ifStmt elseStmt)
          = Except.error (Error.breakException, st1)) ∧
      (c.asBool = false →
        executeStmt fuel st elseStmt = Except.error (Error.breakException, st1) →
        executeStmt (fuel + 1) st (Node.IfElseNode condition ifStmt elseStmt)
          = Except.error (Error.breakException, st1))) ∧
    (∀ block, executeBlock fuel ⟨⟨[]⟩, []⟩ block = Except.error (Error.breakException, st1) →
      interpret fuel (Node.ProgramNode block) = Except.error (Error.breakException, st1)) ∧
    runSource (fuel + 30) "{print(1); if (true) { break; } print(2);}"
      = ⟨["1"], some Error.breakException⟩ ∧
    runSource (fuel + 30) "{print(1); break; print(2);}"
      = ⟨["1"], some Error.breakException⟩ := by
  refine ⟨?_, ?_, ?_, ?_, ?_, ?_, ?_, ?_, rfl, rfl⟩
  · simp [executeStmt, throw, throwThe, MonadExceptOf.throw]
  · intro stmt next h
    rw [executeStmts_cons, h]
  · intro stmt next st0 h hnext hrest
    rw [executeStmts_cons, h]
    cases next <;> first | exact absurd rfl hnext | exact hrest
  · intro stmts hne h
    cases stmts <;> first
      | exact absurd rfl hne
      | simpa [executeBlock, bind, Except.bind, pure, Except.pure] using h
  · intro decls stmts sm hd hs hdecls h
    cases decls <;> first
      | exact absurd rfl hd
      | (cases stmts <;> first
          | exact absurd rfl hs
          | simpa [executeBlock, hdecls, raiseAt, bind, Except.bind, pure, Except.pure,
              Except.map] using h)
  · intro decls stmts h
    simpa [executeStmt] using h
  · intro condition ifStmt elseStmt c hc
    refine ⟨?_, ?_⟩
    · intro hb h
      constructor <;> simp [executeStmt, hc, hb, h, raiseAt, bind, Except.bind]
    · intro hb h
      simp [executeStmt, hc, hb, h, raiseAt, bind, Except.bind]
  · intro block h
    simpa [interpret] using h

/-- Witness of C17 on `{ break; } print(2);` after the output of the line `1`. -/
theorem break_outside_loop_aborts_run_witness :
    executeStmt 4 ⟨⟨[]⟩, ["1"]⟩
        (Node.BlockNode Node.null (Node.StmtsNode Node.BreakNode Node.null))
      = Except.error (Error.breakException, ⟨⟨[]⟩, ["1"]⟩) ∧
    executeStmts (4 + 1) ⟨⟨[]⟩, ["1"]⟩
        (Node.StmtsNode (Node.BlockNode Node.null (Node.StmtsNode Node.BreakNode Node.null))
          (Node.StmtsNode (Node.PrintNode (intLit 2)) Node.null))
      = Except.error (Error.breakException, ⟨⟨[]⟩, ["1"]⟩) :=
  ⟨rfl,
    (break_outside_loop_aborts_run 4 ⟨⟨[]⟩, ["1"]⟩ ⟨⟨[]⟩, ["1"]⟩).2.1
      (Node.BlockNode Node.null (Node.StmtsNode Node.BreakNode Node.null))
      (Node.StmtsNode (Node.PrintNode (intLit 2)) Node.null) rfl⟩

/-- C19: a block executed as a statement works on the table of the enclosing block and
returns the table its statements left; nothing is saved or restored. A declaration in a
nested block therefore binds the name in the one table to a new variable, whatever the
enclosing blocks had declared under that name, and the binding survives the block. With
any sufficient fuel `{ { int x; x = 1; } print(x); }` outputs `1`, and after
`int x; x = 1;` the nested `{ boolean x; x = true; }` makes `print(x)` output `true`. -/
theorem nested_block_shares_symbol_table (fuel : Nat) (st : Interpreter) :
    (∀ decls stmts, executeStmt (fuel + 1) st (Node.BlockNode decls stmts)
      = executeBlock fuel st (Node.BlockNode decls stmts)) ∧
    (∀ x typeName sm1,
      executeDecl st.symbolMap (Node.DeclNode (Node.BasicTypeNode typeName) x)
        = Except.ok sm1 →
      executeStmt (fuel + 2) st
          (Node.BlockNode
            (Node.DeclsNode (Node.DeclNode (Node.BasicTypeNode typeName) x) Node.null)
            Node.null)
        = Except.ok { st with symbolMap := sm1 } ∧
      sm1.getVariable x
        = Except.ok (Variable.mk0 (if typeName = "integer" then Ty.INT else Ty.BOOL))) ∧
    runSource (fuel + 30) "{ { int x; x = 1; } print(x); }" = ⟨["1"], none⟩ ∧
    runSource (fuel + 30) "{int x; x = 1; { boolean x; x = true; } print(x);}"
      = ⟨["true"], none⟩ ∧
    runSource (fuel + 30) "{int x; x = 1; { boolean x; } x = 2;}"
      = ⟨[], some Error.valueMismatch⟩ := by
  refine ⟨?_, ?_, rfl, rfl, rfl⟩
  · intro decls stmts
    simp [executeStmt]
  · intro x typeName sm1 h
    refine ⟨?_, ?_⟩
    · simp [executeStmt, executeBlock, executeDecls, h, raiseAt, bind, Except.bind, pure,
        Except.pure, Except.map]
    · simp only [executeDecl] at h
      by_cases hi : typeName = "integer"
      · simp only [hi, if_true] at h ⊢
        simpa using SymbolMap.getVariable_declareVariable _ _ _ _ _ _ h
      · by_cases hb : typeName = "boolean"
        · subst hb
          have hne : ¬ ("boolean" = "integer") := by decide
          simp only [hne, if_true, if_false] at h ⊢
          simpa using SymbolMap.getVariable_declareVariable _ _ _ _ _ _ h
        · simp [hi, hb, throw, throwThe, MonadExceptOf.throw] at h

/-- Witness of C19 on the nested block `{ boolean x; }` after `int x; x = 1;`. -/
theorem nested_block_shares_symbol_table_witness :
    executeDecl
        (⟨⟨[("x", { Variable.mk0 Ty.INT with intValue := 1, initialized := some true })]⟩, []⟩
          : Interpreter).symbolMap
        (Node.DeclNode (Node.BasicTypeNode "boolean") "x")
      = Except.ok ⟨[("x", Variable.mk0 Ty.BOOL)]⟩ ∧
    executeStmt (0 + 2)
        ⟨⟨[("x", { Variable.mk0 Ty.INT with intValue := 1, initialized := some true })]⟩, []⟩
        (Node.BlockNode
          (Node.DeclsNode (Node.DeclNode (Node.BasicTypeNode "boolean") "x") Node.null)
          Node.null)
      = Except.ok ⟨⟨[("x", Variable.mk0 Ty.BOOL)]⟩, []⟩ :=
  ⟨rfl,
    ((nested_block_shares_symbol_table 0
      ⟨⟨[("x", { Variable.mk0 Ty.INT with intValue := 1, initialized := some true })]⟩, []⟩).2.1
      "x" "boolean" ⟨[("x", Variable.mk0 Ty.BOOL)]⟩ rfl).1⟩

/-! ## Syntax errors in declarations (C20) -/

/-- The truth value of a stored boolean is the boolean. -/
theorem Result.asBool_ofBool (b : Bool) : (Result.ofBool b).asBool = b := by
  cases b <;> rfl

/-- An integer in the range of `int` is not changed by the reduction. -/
theorem wrapInt_of_range (x : Int) (h0 : -2147483648 ≤ x) (h1 : x < 2147483648) :
    wrapInt x = x := by
  unfold wrapInt
  omega

/-- The condition `i < n` when `i` holds `k`. -/
theorem countingCondition_eval (k n : Int) :
    evaluateExpr (counterTable k) (countingCondition n)
      = Except.ok (Result.ofBool (decide (k < n))) := rfl

/-- The statements `print(i); i = i + 1;` write the value of `i` and add 1 to it. -/
theorem printAndIncrement_run (fuel : Nat) (k : Int) (out : List String) :
    executeStmts (fuel + 3) ⟨counterTable k, out⟩ printAndIncrement
      = Except.ok ⟨counterTable (wrapInt (k + 1)), out ++ [toString k]⟩ := rfl

/-- One run of the body `{ print(i); i = i + 1; }`. -/
theorem countingBody_run (fuel : Nat) (k : Int) (out : List String) :
    executeStmt (fuel + 5) ⟨counterTable k, out⟩ countingBody
      = Except.ok ⟨counterTable (wrapInt (k + 1)), out ++ [toString k]⟩ := rfl

/-- The loop `while (i < n) { print(i); i = i + 1; }` entered with `i = k <= n` writes
the lines `k`, ..., `n - 1` and ends with `i = n`. -/
theorem countingLoop_run (n : Nat) (hn : n < 2147483648) :
    ∀ (m k fuel : Nat) (out : List String), k + m = n →
      whileLoop (fuel + m + 6) ⟨counterTable k, out⟩ (countingCondition n) countingBody
        = Except.ok ⟨counterTable n, out ++ (List.range' k m).map (fun j => toString j)⟩ := by
  intro m
  induction m with
  | zero =>
    intro k fuel out hk
    have hkn : k = n := by omega
    subst hkn
    show whileLoop ((fuel + 5) + 1) _ _ _ = _
    rw [whileLoop_succ]
    simp [countingCondition_eval, Result.asBool_ofBool]
  | succ m ih =>
    intro k fuel out hk
    have hlt : (k : Int) < (n : Int) := by omega
    show whileLoop ((fuel + m + 6) + 1) _ _ _ = _
    rw [whileLoop_succ]
    have hbody : executeStmt (fuel + m + 6) ⟨counterTable (k : Int), out⟩ countingBody
        = Except.ok ⟨counterTable (wrapInt ((k : Int) + 1)), out ++ [toString (k : Int)]⟩ :=
      countingBody_run (fuel + m + 1) (k : Int) out
    have hw : wrapInt ((k : Int) + 1) = ((k + 1 : Nat) : Int) := by
      rw [wrapInt_of_range] <;> omega
    rw [hw] at hbody
    simp only [countingCondition_eval, hlt, decide_True, Result.asBool_ofBool, if_true]
    rw [hbody]
    simp only
    rw [ih (k + 1) fuel _ (by omega)]
    have hs : toString (k : Int) = toString k := rfl
    simp [List.range'_succ, hs]

/-- A program `{int i; i = 0; loop}` runs the loop with `i` assigned 0 and no output. -/
theorem counterProgram_interpret (fuel : Nat) (loop : Node) :
    interpret (fuel + 3) (Node.ProgramNode (Node.BlockNode
        (Node.DeclsNode (Node.DeclNode (Node.BasicTypeNode "integer") "i") Node.null)
        (Node.StmtsNode (Node.AssignNode (Node.IdNode "i") (intLit 0))
          (Node.StmtsNode loop Node.null))))
      = (match executeStmt fuel ⟨counterTable 0, []⟩ loop with
         | Except.error e => Except.error e
         | Except.ok st1 => Except.ok st1) := by
  have h1 : interpret (fuel + 3) (Node.ProgramNode (Node.BlockNode
        (Node.DeclsNode (Node.DeclNode (Node.BasicTypeNode "integer") "i") Node.null)
        (Node.StmtsNode (Node.AssignNode (Node.IdNode "i") (intLit 0))
          (Node.StmtsNode loop Node.null))))
      = executeStmts (fuel + 1) ⟨counterTable 0, []⟩ (Node.StmtsNode loop Node.null) := rfl
  rw [h1, executeStmts_cons]

/-- C14: for every `n` from 0 to the largest `int`, interpreting the tree of
`{int i; i = 0; while (i < n) { print(i); i = i + 1; }}` with any sufficient fuel ends
without error, has written exactly the lines 0, 1, ..., n-1 in this order and leaves `i`
assigned with the value `n`; so does the run of every source text that parses to this
tree, and the source with `n = 3` parses to it and outputs 0, 1, 2. -/
theorem counting_loop_prints_zero_to_n (n fuel : Nat) (hn : n < 2147483648) :
    interpret (fuel + n + 10) (countingProgram n)
      = Except.ok ⟨counterTable n, (List.range n).map (fun j => toString j)⟩ ∧
    evaluateExpr (counterTable n) (Node.IdNode "i") = Except.ok (Result.ofInt n) ∧
    (∀ source : String,
      Parser.parse (fuel + n + 10) (Parser.new (Lexer.new source.toList))
        = Except.ok (countingProgram n) →
      runSource (fuel + n + 10) source
        = ⟨(List.range n).map (fun j => toString j), none⟩) ∧
    Parser.parse (fuel + 30)
        (Parser.new (Lexer.new
          "{int i; i = 0; while (i < 3) { print(i); i = i + 1; }}".toList))
      = Except.ok (countingProgram 3) ∧
    runSource (fuel + 30) "{int i; i = 0; while (i < 3) { print(i); i = i + 1; }}"
      = ⟨["0", "1", "2"], none⟩ := by
  have hrun : interpret (fuel + n + 10) (countingProgram n)
      = Except.ok ⟨counterTable n, (List.range n).map (fun j => toString j)⟩ := by
    have hloop := countingLoop_run n hn n 0 fuel [] (by omega)
    simp only [Nat.cast_zero, List.nil_append] at hloop
    have h := counterProgram_interpret (fuel + n + 7)
      (Node.WhileNode (countingCondition n) countingBody)
    rw [executeStmt_while, hloop] at h
    rw [List.range_eq_range']
    exact h
  refine ⟨hrun, rfl, ?_, rfl, rfl⟩
  intro source hparse
  simp only [runSource, hparse, hrun]

/-- Witness of C14 with `n = 3`. -/
theorem counting_loop_prints_zero_to_n_witness :
    3 < 2147483648 ∧
    interpret (0 + 3 + 10) (countingProgram (3 : Nat))
      = Except.ok ⟨counterTable (3 : Nat), (List.range 3).map (fun j => toString j)⟩ :=
  ⟨by decide, (counting_loop_prints_zero_to_n 3 0 (by decide)).1⟩

/-- An If statement runs its branch when the condition is true and nothing otherwise. -/
theorem executeStmt_if (fuel : Nat) (st : Interpreter) (condition ifStmt : Node) :
    executeStmt (fuel + 1) st (Node.IfNode condition ifStmt)
      = (match evaluateExpr st.symbolMap condition with
         | Except.error e => Except.error (e, st)
         | Except.ok c => if c.asBool = true then executeStmt fuel st ifStmt else Except.ok st) := by
  simp only [executeStmt, raiseAt, bind, Except.bind, pure, Except.pure]
  cases evaluateExpr st.symbolMap condition <;> rfl

/-- The statement `if (i == k) { break; }` raises the break exactly when `i` holds `k`. -/
theorem breakAtStmt_run (fuel : Nat) (j k : Int) (out : List String) :
    executeStmt (fuel + 5) ⟨counterTable j, out⟩ (breakAtStmt k)
      = (if j = k then Except.error (Error.breakException, ⟨counterTable j, out⟩)
         else Except.ok ⟨counterTable j, out⟩) := by
  have hc : evaluateExpr (counterTable j) (Node.EqualityNode (Node.IdNode "i") (intLit k) true)
      = Except.ok (Result.ofBool (true == decide (j = k))) := rfl
  have hb : executeStmt (fuel + 4) ⟨counterTable j, out⟩
      (Node.BlockNode Node.null (Node.StmtsNode Node.BreakNode Node.null))
      = Except.error (Error.breakException, ⟨counterTable j, out⟩) := rfl
  show executeStmt ((fuel + 4) + 1) _ (Node.IfNode _ _) = _
  rw [executeStmt_if]
  simp only [hc, hb, Result.asBool_ofBool]
  by_cases h : j = k <;> simp [h]

/-- One run of the body `{ if (i == k) { break; } print(i); i = i + 1; }`. -/
theorem breakingBody_run (fuel : Nat) (j k : Int) (out : List String) :
    executeStmt (fuel + 8) ⟨counterTable j, out⟩ (breakingBody k)
      = (if j = k then Except.error (Error.breakException, ⟨counterTable j, out⟩)
         else Except.ok ⟨counterTable (wrapInt (j + 1)), out ++ [toString j]⟩) := by
  have h1 : executeStmt (fuel + 8) ⟨counterTable j, out⟩ (breakingBody k)
      = executeStmts (fuel + 5 + 1) ⟨counterTable j, out⟩
          (Node.StmtsNode (breakAtStmt k) printAndIncrement) := rfl
  rw [h1, executeStmts_cons, breakAtStmt_run]
  by_cases h : j = k
  · simp [h]
  · simp only [h, if_false]
    exact printAndIncrement_run (fuel + 2) j out

/-- The loop with the break at `k < n`, entered with `i = j <= k`, writes the lines `j`,
..., `k - 1` and raises the break with `i = k`. -/
theorem breakingLoop_run (n k : Nat) (hk : k < n) (hn : n < 2147483648) :
    ∀ (m j fuel : Nat) (out : List String), j + m = k →
      whileLoop (fuel + m + 9) ⟨counterTable j, out⟩ (countingCondition n) (breakingBody k)
        = Except.error (Error.breakException,
            ⟨counterTable k, out ++ (List.range' j m).map (fun i => toString i)⟩) := by
  intro m
  induction m with
  | zero =>
    intro j fuel out hj
    have hjk : j = k := by omega
    subst hjk
    have hlt : (j : Int) < (n : Int) := by omega
    show whileLoop ((fuel + 8) + 1) _ _ _ = _
    rw [whileLoop_succ, breakingBody_run]
    simp [countingCondition_eval, hlt, Result.asBool_ofBool]
  | succ m ih =>
    intro j fuel out hj
    have hlt : (j : Int) < (n : Int) := by omega
    have hne : ¬ ((j : Int) = (k : Int)) := by omega
    have hw : wrapInt ((j : Int) + 1) = ((j + 1 : Nat) : Int) := by
      rw [wrapInt_of_range] <;> omega
    have hbody : executeStmt (fuel + m + 9) ⟨counterTable (j : Int), out⟩ (breakingBody k)
        = Except.ok ⟨counterTable ((j + 1 : Nat) : Int), out ++ [toString (j : Int)]⟩ := by
      have := breakingBody_run (fuel + m + 1) (j : Int) (k : Int) out
      rw [if_neg hne, hw] at this
      exact this
    show whileLoop ((fuel + m + 9) + 1) _ _ _ = _
    rw [whileLoop_succ]
    simp only [countingCondition_eval, hlt, decide_True, Result.asBool_ofBool, if_true]
    rw [hbody]
    simp only
    rw [ih (j + 1) fuel _ (by omega)]
    have hs : toString (j : Int) = toString j := rfl
    simp [List.range'_succ, hs]

/-- C15: for all `k < n` up to the largest `int`, interpreting the tree of
`{int i; i = 0; while (i < n) { if (i == k) { break; } print(i); i = i + 1; }}` with any
sufficient fuel ends without error, has written exactly the lines 0, 1, ..., k-1 and
leaves `i` with the value `k`: the break raised in the block of the If ends the While
statement, which returns normally. So does the run of every source text that parses to
this tree; the source with `n = 10` and `k = 2` parses to it and outputs 0, 1. -/
theorem breaking_loop_prints_zero_to_k (n k fuel : Nat) (hk : k < n) (hn : n < 2147483648) :
    interpret (fuel + k + 13) (breakingProgram n k)
      = Except.ok ⟨counterTable k, (List.range k).map (fun j => toString j)⟩ ∧
    evaluateExpr (counterTable k) (Node.IdNode "i") = Except.ok (Result.ofInt k) ∧
    (∀ source : String,
      Parser.parse (fuel + k + 13) (Parser.new (Lexer.new source.toList))
        = Except.ok (breakingProgram n k) →
      runSource (fuel + k + 13) source
        = ⟨(List.range k).map (fun j => toString j), none⟩) ∧
    Parser.parse (fuel + 30)
        (Parser.new (Lexer.new
          "{int i; i = 0; while (i < 10) { if (i == 2) { break; } print(i); i = i + 1; }}".toList))
      = Except.ok (breakingProgram 10 2) ∧
    runSource (fuel + 30)
        "{int i; i = 0; while (i < 10) { if (i == 2) { break; } print(i); i = i + 1; }}"
      = ⟨["0", "1"], none⟩ := by
  have hrun : interpret (fuel + k + 13) (breakingProgram n k)
      = Except.ok ⟨counterTable k, (List.range k).map (fun j => toString j)⟩ := by
    have hloop := breakingLoop_run n k hk hn k 0 fuel [] (by omega)
    simp only [Nat.cast_zero, List.nil_append] at hloop
    have h := counterProgram_interpret (fuel + k + 10)
      (Node.WhileNode (countingCondition n) (breakingBody k))
    rw [executeStmt_while, hloop] at h
    rw [List.range_eq_range']
    exact h
  refine ⟨hrun, rfl, ?_, rfl, rfl⟩
  intro source hparse
  simp only [runSource, hparse, hrun]

/-- Witness of C15 with `n = 10` and `k = 2`. -/
theorem breaking_loop_prints_zero_to_k_witness :
    2 < 10 ∧ 10 < 2147483648 ∧
    interpret (0 + 2 + 13) (breakingProgram (10 : Nat) (2 : Nat))
      = Except.ok ⟨counterTable (2 : Nat), (List.range 2).map (fun j => toString j)⟩ :=
  ⟨by decide, by decide, (breaking_loop_prints_zero_to_k 10 2 0 (by decide) (by decide)).1⟩

/-! ## Unary operators (C27) -/

/-- C27: NOT of an operand that evaluates to the boolean `b` is the boolean `not b`, and
NEG of an operand that evaluates to the integer `n` is the integer `-n` reduced to the
range of `int`, which is `-n` itself for every `n` of that range other than the minimum;
NOT of an integer and NEG of a boolean raise the error of the unary operators. Hence
`!!b` evaluates to `b`, and `-(-n)` to `n` for every `n` other than the minimum. -/
theorem unary_not_and_neg (sm : SymbolMap) (operand : Node) :
    (∀ b, evaluateExpr sm operand = Except.ok (Result.ofBool b) →
      evaluateExpr sm (Node.UnaryNode operand UnaryOp.NOT) = Except.ok (Result.ofBool (!b)) ∧
      evaluateExpr sm (Node.UnaryNode operand UnaryOp.NEG)
        = Except.error Error.mismatchedUnary ∧
      evaluateExpr sm (Node.UnaryNode (Node.UnaryNode operand UnaryOp.NOT) UnaryOp.NOT)
        = Except.ok (Result.ofBool b)) ∧
    (∀ n, evaluateExpr sm operand = Except.ok (Result.ofInt n) →
      evaluateExpr sm (Node.UnaryNode operand UnaryOp.NEG)
        = Except.ok (Result.ofInt (wrapInt (-n))) ∧
      evaluateExpr sm (Node.UnaryNode operand UnaryOp.NOT)
        = Except.error Error.mismatchedUnary ∧
      (-2147483648 < n → n < 2147483648 →
        evaluateExpr sm (Node.UnaryNode operand UnaryOp.NEG) = Except.ok (Result.ofInt (-n)) ∧
        evaluateExpr sm (Node.UnaryNode (Node.UnaryNode operand UnaryOp.NEG) UnaryOp.NEG)
          = Except.ok (Result.ofInt n))) := by
  constructor
  · intro b hb
    have h1 : evaluateExpr sm (Node.UnaryNode operand UnaryOp.NOT)
        = Except.ok (Result.ofBool (!b)) := by
      rw [evaluateExpr]
      cases b <;> simp [hb, bind, Except.bind, pure, Except.pure, Result.asBool, Result.ofBool]
    refine ⟨h1, ?_, ?_⟩
    · simp [evaluateExpr, hb, bind, Except.bind, throw, throwThe, MonadExceptOf.throw,
        throwErr, Result.ofBool]
    · rw [evaluateExpr]
      cases b <;> simp [h1, bind, Except.bind, pure, Except.pure, Result.asBool, Result.ofBool]
  · intro n hn
    have h1 : evaluateExpr sm (Node.UnaryNode operand UnaryOp.NEG)
        = Except.ok (Result.ofInt (wrapInt (-n))) := by
      simp [evaluateExpr, hn, bind, Except.bind, pure, Except.pure, Result.ofInt]
    refine ⟨h1, ?_, ?_⟩
    · simp [evaluateExpr, hn, bind, Except.bind, throw, throwThe, MonadExceptOf.throw,
        throwErr, Result.ofInt]
    · intro hlo hhi
      have hw : wrapInt (-n) = -n := wrapInt_of_range (-n) (by omega) (by omega)
      have hw2 : wrapInt n = n := wrapInt_of_range n (by omega) (by omega)
      rw [hw] at h1
      refine ⟨h1, ?_⟩
      rw [evaluateExpr]
      simp [h1, bind, Except.bind, pure, Except.pure, Result.ofInt, hw2]

/-- Witness of C27 on the operands `true` and `5`. -/
theorem unary_not_and_neg_witness :
    evaluateExpr ⟨[]⟩ (boolLit true) = Except.ok (Result.ofBool true) ∧
    evaluateExpr ⟨[]⟩ (Node.UnaryNode (boolLit true) UnaryOp.NOT)
      = Except.ok (Result.ofBool (!true)) :=
  ⟨rfl, ((unary_not_and_neg ⟨[]⟩ (boolLit true)).1 true rfl).1⟩

/-! ## Equality (C28) -/

/-- C28: for operands that evaluate to values `l` and `r` of the same type, an Equality
node returns a boolean: with `==` it is true exactly when `l` equals `r`, with `!=` it
is the negation of that. With any sufficient fuel `{boolean b; b = 1 == 2; print(b);}`
outputs exactly `false`. -/
theorem equality_compares_values_of_one_type (sm : SymbolMap) (left right : Node)
    (l r : Result) (fuel : Nat) (hl : evaluateExpr sm left = Except.ok l)
    (hr : evaluateExpr sm right = Except.ok r) (hty : l.type = r.type) :
    evaluateExpr sm (Node.EqualityNode left right true)
      = Except.ok (Result.ofBool (decide (l = r))) ∧
    evaluateExpr sm (Node.EqualityNode left right false)
      = Except.ok (Result.ofBool (!decide (l = r))) ∧
    runSource (fuel + 30) "{boolean b; b = 1 == 2; print(b);}" = ⟨["false"], none⟩ := by
  have hwl := evaluateExpr_wf sm left l hl
  have hwr := evaluateExpr_wf sm right r hr
  have key : ∀ isEqual, evaluateExpr sm (Node.EqualityNode left right isEqual)
      = Except.ok (Result.ofBool (isEqual == decide (l = r))) := by
    intro isEqual
    by_cases hT : l.type = Ty.INT
    · have hrT : r.type = Ty.INT := hty ▸ hT
      have hiff : (l.value = r.value) ↔ (l = r) := by
        obtain ⟨lt, lv⟩ := l
        obtain ⟨rt, rv⟩ := r
        simp only at hT hrT
        simp [hT, hrT]
      simp [evaluateExpr, hl, hr, hty, hT, hrT, bind, Except.bind, pure, Except.pure, hiff]
    · have hB : l.type = Ty.BOOL := by cases h : l.type <;> simp_all
      have hrB : r.type = Ty.BOOL := hty ▸ hB
      have hne : ¬ r.type = Ty.INT := by rw [hrB]; decide
      have hiff : (l.asBool = r.asBool) ↔ (l = r) := by
        constructor
        · intro h
          rw [← hwl hB, ← hwr hrB, h]
        · intro h; rw [h]
      have hd : (l.asBool == r.asBool) = decide (l = r) := by
        by_cases h : l = r
        · simp [h]
        · have : ¬ l.asBool = r.asBool := fun hh => h (hiff.1 hh)
          simp [h, this]
      simp [evaluateExpr, hl, hr, hty, hne, bind, Except.bind, pure, Except.pure, hd]
  refine ⟨?_, ?_, rfl⟩
  · rw [key]; simp
  · rw [key]; simp

/-- Witness of C28 on `1 == 2`. -/
theorem equality_compares_values_of_one_type_witness :
    evaluateExpr ⟨[]⟩ (intLit 1) = Except.ok (Result.ofInt 1) ∧
    evaluateExpr ⟨[]⟩ (intLit 2) = Except.ok (Result.ofInt 2) ∧
    (Result.ofInt 1).type = (Result.ofInt 2).type ∧
    evaluateExpr ⟨[]⟩ (Node.EqualityNode (intLit 1) (intLit 2) true)
      = Except.ok (Result.ofBool (decide (Result.ofInt 1 = Result.ofInt 2))) :=
  ⟨rfl, rfl, rfl,
    (equality_compares_values_of_one_type ⟨[]⟩ (intLit 1) (intLit 2) (Result.ofInt 1)
      (Result.ofInt 2) 0 rfl rfl rfl).1⟩

/-! ## The range of integers (C29) -/

/-- C29, as the code behaves: an integer value is a C++ `int`, here of 32 bits. For
integer operands whose exact sum, difference or product lies between -2^31 and 2^31 - 1,
Add and Mul return that exact result as an integer. -/
theorem int_arithmetic_is_exact_in_int_range (sm : SymbolMap) (left right : Node)
    (l r : Int) (hl : evaluateExpr sm left = Except.ok (Result.ofInt l))
    (hr : evaluateExpr sm right = Except.ok (Result.ofInt r)) :
    (-2147483648 ≤ l + r → l + r < 2147483648 →
      evaluateExpr sm (Node.AddNode left right true) = Except.ok (Result.ofInt (l + r))) ∧
    (-2147483648 ≤ l - r → l - r < 2147483648 →
      evaluateExpr sm (Node.AddNode left right false) = Except.ok (Result.ofInt (l - r))) ∧
    (-2147483648 ≤ l * r → l * r < 2147483648 →
      evaluateExpr sm (Node.MulNode left right true) = Except.ok (Result.ofInt (l * r))) := by
  refine ⟨?_, ?_, ?_⟩ <;> intro h0 h1 <;>
    simp [evaluateExpr, hl, hr, bind, Except.bind, pure, Except.pure, Result.ofInt,
      wrapInt_of_range _ h0 h1]

/-- Witness of C29 on `2147483646 + 1`. -/
theorem int_arithmetic_is_exact_in_int_range_witness :
    evaluateExpr ⟨[]⟩ (intLit 2147483646) = Except.ok (Result.ofInt 2147483646) ∧
    evaluateExpr ⟨[]⟩ (intLit 1) = Except.ok (Result.ofInt 1) ∧
    evaluateExpr ⟨[]⟩ (Node.AddNode (intLit 2147483646) (intLit 1) true)
      = Except.ok (Result.ofInt (2147483646 + 1)) :=
  ⟨rfl, rfl,
    (int_arithmetic_is_exact_in_int_range ⟨[]⟩ (intLit 2147483646) (intLit 1) 2147483646 1
      rfl rfl).1 (by decide) (by decide)⟩

/-- C29 as stated fails: `2147483647 + 1` does not evaluate to 2147483648 nor
`100000 * 100000` to 10000000000, and the scanner does not even read the literal
2147483648 as that number. -/
theorem int_is_not_64_bit_counterexample :
    evaluateExpr ⟨[]⟩ (Node.AddNode (intLit 2147483647) (intLit 1) true)
      = Except.ok (Result.ofInt (-2147483648)) ∧
    Result.ofInt (-2147483648) ≠ Result.ofInt 2147483648 ∧
    evaluateExpr ⟨[]⟩ (Node.MulNode (intLit 100000) (intLit 100000) true)
      = Except.ok (Result.ofInt 1410065408) ∧
    Result.ofInt 1410065408 ≠ Result.ofInt 10000000000 ∧
    runSource 100 "{print(2147483647 + 1); print(100000 * 100000); print(2147483648);}"
      = ⟨["-2147483648", "1410065408", "-2147483648"], none⟩ := by
  refine ⟨rfl, by decide, rfl, by decide, by decide⟩

/-! ## The length of the flags of an array (C30) -/

/-- A successful assignment to an element makes the flags of the array one entry
longer. -/
theorem assignValue_array_flags_grow (sm : SymbolMap) (a : String) (var : Variable)
    (N i : Nat) (v : Result) (indexNode exprNode : Node)
    (hvar : sm.getVariable a = Except.ok var) (harr : var.IsArrayOf N) (hi : i < N)
    (hidx : evaluateExpr sm indexNode = Except.ok (Result.ofInt i))
    (hv : evaluateExpr sm exprNode = Except.ok v) (hty : v.type = var.type) :
    ∃ sm1 var1, assignValue sm (Node.ArrayAccessNode indexNode a) exprNode = Except.ok sm1 ∧
      sm1.getVariable a = Except.ok var1 ∧
      var1.arrayInitialized.length = var.arrayInitialized.length + 1 := by
  refine ⟨_, _, assignValue_array_ok sm a var N i v indexNode exprNode hvar harr hi hidx hv hty,
    SymbolMap.getVariable_store sm a var _ hvar, ?_⟩
  obtain ⟨_, _, _, hflags⟩ := harr
  by_cases hT : var.type = Ty.INT
  · simp only [hT, if_true]
    simp [List.length_take]
    omega
  · simp only [hT, if_false]
    simp [List.length_take]
    omega

/-- C30 on `{int[3] a; a[0] = 5;}`: the declaration gives the array three flags and the
assignment, which inserts a flag instead of setting one, leaves it with four; after a
second assignment there are five. This is the defect of C2. -/
theorem array_flags_outgrow_declared_size :
    (Interpreter.interpret 100 (Node.ProgramNode (Node.BlockNode
        (Node.DeclsNode (Node.DeclNode (Node.ArrayTypeNode (Node.BasicTypeNode "integer") 3) "a")
          Node.null) Node.null))).map
      (fun st => (st.symbolMap.find "a").map (fun var => var.arrayInitialized.length))
      = Except.ok (some 3) ∧
    (Interpreter.interpret 100 (Node.ProgramNode (Node.BlockNode
        (Node.DeclsNode (Node.DeclNode (Node.ArrayTypeNode (Node.BasicTypeNode "integer") 3) "a")
          Node.null)
        (Node.StmtsNode (Node.AssignNode (Node.ArrayAccessNode (intLit 0) "a") (intLit 5))
          Node.null)))).map
      (fun st => (st.symbolMap.find "a").map (fun var => var.arrayInitialized.length))
      = Except.ok (some 4) ∧
    Parser.parse 100 (Parser.new (Lexer.new "{int[3] a; a[0] = 5;}".toList))
      = Except.ok (Node.ProgramNode (Node.BlockNode
        (Node.DeclsNode (Node.DeclNode (Node.ArrayTypeNode (Node.BasicTypeNode "integer") 3) "a")
          Node.null)
        (Node.StmtsNode (Node.AssignNode (Node.ArrayAccessNode (intLit 0) "a") (intLit 5))
          Node.null))) := by
  refine ⟨rfl, rfl, rfl⟩

/-! ## Lemmas on the scanner -/

theorem isspace_cases (c : Char) (h : isspace c = true) :
    c = ' ' ∨ c = '\t' ∨ c = '\n' ∨ c = Char.ofNat 11 ∨ c = Char.ofNat 12 ∨ c = '\r' := by
  simpa [isspace, or_assoc] using h

/-- A digit is not a space. -/
theorem isspace_of_isdigit (c : Char) (h : isdigit c = true) : isspace c = false := by
  cases hs : isspace c with
  | false => rfl
  | true =>
    rcases isspace_cases c hs with h1 | h1 | h1 | h1 | h1 | h1 <;> subst h1 <;>
      exact absurd h (by decide)

/-- A letter or digit is not a space. -/
theorem isspace_of_isalnum (c : Char) (h : isalnum c = true) : isspace c = false := by
  cases hs : isspace c with
  | false => rfl
  | true =>
    rcases isspace_cases c hs with h1 | h1 | h1 | h1 | h1 | h1 <;> subst h1 <;>
      exact absurd h (by decide)

/-- A letter or digit is not the newline character. -/
theorem ne_newline_of_isalnum (c : Char) (h : isalnum c = true) : c ≠ '\n' := by
  intro hc
  subst hc
  exact absurd h (by decide)

theorem isalnum_of_isdigit (c : Char) (h : isdigit c = true) : isalnum c = true := by
  simp [isalnum, isdigit] at *
  simp [h]

theorem isalnum_of_isalpha (c : Char) (h : isalpha c = true) : isalnum c = true := by
  simp [isalnum, isalpha] at *
  simp [h]

/-- A letter is not a digit. -/
theorem isdigit_of_isalpha (c : Char) (h : isalpha c = true) : isdigit c = false := by
  simp only [isalpha, isdigit, Char.isAlpha, Char.isUpper, Char.isLower, Char.isDigit,
    Bool.or_eq_true, Bool.and_eq_true, decide_eq_true_eq] at *
  cases hd : (decide (c.val ≥ 48) && decide (c.val ≤ 57)) with
  | false => rfl
  | true =>
    simp only [Bool.and_eq_true, decide_eq_true_eq] at hd
    have h1 := hd.1
    have h2 := hd.2
    rcases h with ⟨h3, h4⟩ | ⟨h3, h4⟩
    · exact absurd (UInt32.le_trans h3 h2) (by decide)
    · exact absurd (UInt32.le_trans h3 h2) (by decide)

/-- The value of a digit character is between 0 and 9. -/
theorem digit_value_bounds (c : Char) (h : isdigit c = true) :
    0 ≤ (c.toNat : Int) - 48 ∧ (c.toNat : Int) - 48 ≤ 9 := by
  simp only [isdigit, Char.isDigit, Bool.and_eq_true, decide_eq_true_eq] at h
  have h1 : 48 ≤ c.val.toNat := h.1
  have h2 : c.val.toNat ≤ 57 := h.2
  have : c.toNat = c.val.toNat := rfl
  omega

/-- Without a space under the scanner `skipWhitespace` does nothing. -/
theorem Lexer.skipWhitespace_of_not_space (l : Lexer) (h : isspace l.currentCharacter = false) :
    l.skipWhitespace = l := by
  simp [Lexer.skipWhitespace, Lexer.skipWhitespaceLoop, h]

/-- The method `advance` moves the first unread character under the scanner, or the null
character when the stream is at its end, and it does not look at the character it
replaces. -/
theorem Lexer.advance_input (l : Lexer) :
    l.advance.currentCharacter = l.input.headD (Char.ofNat 0) ∧
    l.advance.input = l.input.tail := by
  unfold Lexer.advance
  cases hin : l.input with
  | nil => simp
  | cons c rest => by_cases hc : c = '\n' <;> simp [hc]

/-- The scanner after `advance` from a state with unread characters `rest`; the
character the state had under the scanner plays no role. -/
theorem Lexer.advance_eq (l : Lexer) (c0 : Char) :
    l.advance = Lexer.advance { l with currentCharacter := c0 } := by
  unfold Lexer.advance
  cases hin : l.input with
  | nil => simp [hin]
  | cons c rest => by_cases hc : c = '\n' <;> simp [hin, hc]

/-- After the last character of a run the loop of a scan stops: the character under the
scanner, the first after the run or the null character of the end, ends the run. -/
theorem Lexer.advance_headD (l : Lexer) (rest : List Char) (P : Char → Bool)
    (hin : l.input = rest) (hrest : ∀ c, rest.head? = some c → P c = false)
    (h0 : P (Char.ofNat 0) = false) : P l.advance.currentCharacter = false := by
  rw [(Lexer.advance_input l).1, hin]
  cases rest with
  | nil => simpa using h0
  | cons c r => simpa using hrest c rfl

theorem decimal_step_mono (acc : Int) (ds : List Char) (h0 : 0 ≤ acc)
    (hds : ∀ c ∈ ds, isdigit c = true) :
    acc ≤ ds.foldl (fun a c => a * 10 + ((c.toNat : Int) - 48)) acc := by
  induction ds generalizing acc with
  | nil => simp
  | cons d ds ih =>
    have hd := digit_value_bounds d (hds d (by simp))
    have := ih (acc * 10 + ((d.toNat : Int) - 48)) (by omega)
      (fun c hc => hds c (by simp [hc]))
    simp only [List.foldl_cons]
    omega

/-- The loop of `scanNumber` on a run of digits whose value fits in an `int`. -/
theorem Lexer.scanNumberLoop_run (rest : List Char)
    (hrest : ∀ c, rest.head? = some c → isdigit c = false) :
    ∀ (ds : List Char) (l : Lexer) (fuel : Nat), ds.length + 1 ≤ fuel →
      isdigit l.currentCharacter = true → l.input = ds ++ rest →
      (∀ c ∈ ds, isdigit c = true) → 0 ≤ l.numberValue →
      (l.currentCharacter :: ds).foldl (fun a c => a * 10 + ((c.toNat : Int) - 48))
        l.numberValue < 2147483648 →
      Lexer.scanNumberLoop fuel l = Lexer.advance
        { input := rest, currentCharacter := Char.ofNat 0, line := l.line,
          column := l.column + ds.length,
          numberValue := (l.currentCharacter :: ds).foldl
            (fun a c => a * 10 + ((c.toNat : Int) - 48)) l.numberValue,
          identifierValue := l.identifierValue } := by
  intro ds
  induction ds with
  | nil =>
    intro l fuel hfuel hcur hin _ h0 hfit
    obtain ⟨f, rfl⟩ : ∃ f, fuel = f + 1 := ⟨fuel - 1, by omega⟩
    have hd := digit_value_bounds l.currentCharacter hcur
    simp only [List.foldl_cons, List.foldl_nil] at hfit ⊢
    have hw : wrapInt (l.numberValue * 10 + ((l.currentCharacter.toNat : Int) - 48))
        = l.numberValue * 10 + ((l.currentCharacter.toNat : Int) - 48) :=
      wrapInt_of_range _ (by omega) hfit
    simp only [List.nil_append] at hin
    rw [Lexer.scanNumberLoop]
    simp only [hcur, if_true, hw]
    have hstop : isdigit (Lexer.advance { l with numberValue :=
        l.numberValue * 10 + ((l.currentCharacter.toNat : Int) - 48) }).currentCharacter
        = false :=
      Lexer.advance_headD _ rest isdigit hin hrest (by decide)
    have hloop : ∀ s : Lexer, isdigit s.currentCharacter = false →
        Lexer.scanNumberLoop f s = s := by
      intro s hs
      cases f with
      | zero => rfl
      | succ f => simp [Lexer.scanNumberLoop, hs]
    rw [hloop _ hstop, Lexer.advance_eq _ (Char.ofNat 0)]
    simp [hin]
  | cons d ds ih =>
    intro l fuel hfuel hcur hin hds h0 hfit
    obtain ⟨f, rfl⟩ : ∃ f, fuel = f + 1 := ⟨fuel - 1, by omega⟩
    have hd := digit_value_bounds l.currentCharacter hcur
    have hdd : isdigit d = true := hds d (by simp)
    have hmono := decimal_step_mono
      (l.numberValue * 10 + ((l.currentCharacter.toNat : Int) - 48)) (d :: ds) (by omega) hds
    simp only [List.foldl_cons] at hfit hmono ⊢
    have hw : wrapInt (l.numberValue * 10 + ((l.currentCharacter.toNat : Int) - 48))
        = l.numberValue * 10 + ((l.currentCharacter.toNat : Int) - 48) :=
      wrapInt_of_range _ (by omega) (by omega)
    have hnl : d ≠ '\n' := ne_newline_of_isalnum d (isalnum_of_isdigit d hdd)
    rw [Lexer.scanNumberLoop]
    simp only [hcur, if_true, hw]
    have hadv : Lexer.advance { l with numberValue :=
        l.numberValue * 10 + ((l.currentCharacter.toNat : Int) - 48) }
        = { input := ds ++ rest, currentCharacter := d, line := l.line,
            column := l.column + 1,
            numberValue := l.numberValue * 10 + ((l.currentCharacter.toNat : Int) - 48),
            identifierValue := l.identifierValue } := by
      simp [Lexer.advance, hin, hnl]
    rw [hadv, ih _ f (by simp at hfuel ⊢; omega) hdd rfl (fun c hc => hds c (by simp [hc]))
      (by simp; omega) (by simpa using hfit)]
    simp [Nat.add_assoc, Nat.add_comm 1]

/-- The loop of `scanIdentifierOrKeyword` on a run of letters and digits. -/
theorem Lexer.scanIdentifierLoop_run (rest : List Char)
    (hrest : ∀ c, rest.head? = some c → isalnum c = false) :
    ∀ (w : List Char) (l : Lexer) (fuel : Nat), w.length + 1 ≤ fuel →
      isalnum l.currentCharacter = true → l.input = w ++ rest →
      (∀ c ∈ w, isalnum c = true) →
      Lexer.scanIdentifierLoop fuel l = Lexer.advance
        { input := rest, currentCharacter := Char.ofNat 0, line := l.line,
          column := l.column + w.length, numberValue := l.numberValue,
          identifierValue := ⟨l.identifierValue.data ++ l.currentCharacter :: w⟩ } := by
  intro w
  induction w with
  | nil =>
    intro l fuel hfuel hcur hin _
    obtain ⟨f, rfl⟩ : ∃ f, fuel = f + 1 := ⟨fuel - 1, by omega⟩
    simp only [List.nil_append] at hin
    rw [Lexer.scanIdentifierLoop]
    simp only [hcur, if_true]
    have hstop : isalnum (Lexer.advance { l with identifierValue :=
        (l.identifierValue.push l.currentCharacter) }).currentCharacter = false :=
      Lexer.advance_headD _ rest isalnum hin hrest (by decide)
    have hloop : ∀ s : Lexer, isalnum s.currentCharacter = false →
        Lexer.scanIdentifierLoop f s = s := by
      intro s hs
      cases f with
      | zero => rfl
      | succ f => simp [Lexer.scanIdentifierLoop, hs]
    rw [hloop _ hstop, Lexer.advance_eq _ (Char.ofNat 0)]
    simp [hin, String.push]
  | cons d w ih =>
    intro l fuel hfuel hcur hin hw
    obtain ⟨f, rfl⟩ : ∃ f, fuel = f + 1 := ⟨fuel - 1, by omega⟩
    have hdd : isalnum d = true := hw d (by simp)
    have hnl : d ≠ '\n' := ne_newline_of_isalnum d hdd
    rw [Lexer.scanIdentifierLoop]
    simp only [hcur, if_true]
    have hadv : Lexer.advance { l with identifierValue :=
        (l.identifierValue.push l.currentCharacter) }
        = { input := w ++ rest, currentCharacter := d, line := l.line,
            column := l.column + 1, numberValue := l.numberValue,
            identifierValue := l.identifierValue.push l.currentCharacter } := by
      simp [Lexer.advance, hin, hnl]
    rw [hadv, ih _ f (by simp at hfuel ⊢; omega) hdd rfl (fun c hc => hw c (by simp [hc]))]
    simp [Nat.add_assoc, Nat.add_comm 1, String.push]

/-! ## Identifiers and reserved words (C24) -/

/-- C24: with a letter under the scanner, followed by a run `w` of letters and digits that
ends at the end of the stream or before a character that is neither, `nextToken` consumes
exactly the word made of that letter and `w`: it leaves the scanner on the first character
after the word (the null character at the end of the stream), the stream holding what
follows that character, and the identifier text is the word. It returns the token that the
table of reserved words has for the word, or ID when the table has no entry. The table
holds exactly the ten reserved words, so that `iffy` and `int1` are identifiers. -/
theorem identifier_or_keyword_is_maximal_run (l : Lexer) (w rest : List Char)
    (hcur : isalpha l.currentCharacter = true) (hin : l.input = w ++ rest)
    (hw : ∀ c ∈ w, isalnum c = true)
    (hrest : ∀ c, rest.head? = some c → isalnum c = false) :
    l.nextToken =
      ((Lexer.keywords ⟨l.currentCharacter :: w⟩).getD Token.ID,
        Lexer.advance
          { input := rest, currentCharacter := Char.ofNat 0, line := l.line,
            column := l.column + w.length, numberValue := l.numberValue,
            identifierValue := ⟨l.currentCharacter :: w⟩ }) ∧
    l.nextToken.2.identifierValue = ⟨l.currentCharacter :: w⟩ ∧
    l.nextToken.2.currentCharacter = rest.headD (Char.ofNat 0) ∧
    l.nextToken.2.input = rest.tail ∧
    Lexer.keywords "int" = some Token.INT ∧ Lexer.keywords "boolean" = some Token.BOOLEAN ∧
    Lexer.keywords "true" = some Token.TRUE ∧ Lexer.keywords "false" = some Token.FALSE ∧
    Lexer.keywords "if" = some Token.IF ∧ Lexer.keywords "else" = some Token.ELSE ∧
    Lexer.keywords "while" = some Token.WHILE ∧ Lexer.keywords "do" = some Token.DO ∧
    Lexer.keywords "break" = some Token.BREAK ∧ Lexer.keywords "print" = some Token.PRINT ∧
    (∀ word, word ∉ ["int", "boolean", "true", "false", "if", "else", "while", "do", "break",
        "print"] → Lexer.keywords word = none) ∧
    Lexer.keywords "iffy" = none ∧ Lexer.keywords "int1" = none := by
  have halnum := isalnum_of_isalpha _ hcur
  have hkey : l.nextToken =
      ((Lexer.keywords ⟨l.currentCharacter :: w⟩).getD Token.ID,
        Lexer.advance
          { input := rest, currentCharacter := Char.ofNat 0, line := l.line,
            column := l.column + w.length, numberValue := l.numberValue,
            identifierValue := ⟨l.currentCharacter :: w⟩ }) := by
    have hloop := Lexer.scanIdentifierLoop_run rest hrest w
      { l with identifierValue := "" } (l.input.length + 1) (by simp [hin])
      halnum hin hw
    simp only [Lexer.nextToken, Lexer.skipWhitespace_of_not_space l (isspace_of_isalnum _ halnum),
      isdigit_of_isalpha _ hcur, hcur, if_true, Lexer.scanIdentifierOrKeyword, hloop]
    have hid : (Lexer.advance
        { input := rest, currentCharacter := Char.ofNat 0, line := l.line,
          column := l.column + w.length, numberValue := l.numberValue,
          identifierValue := ⟨("" : String).data ++ l.currentCharacter :: w⟩ }).identifierValue
        = ⟨l.currentCharacter :: w⟩ := by
      unfold Lexer.advance
      cases rest with
      | nil => rfl
      | cons c r => by_cases hc : c = '\n' <;> simp [hc]
    simp only [hid]
    cases hk : Lexer.keywords ⟨l.currentCharacter :: w⟩ <;> simp
  refine ⟨hkey, ?_, ?_, ?_, rfl, rfl, rfl, rfl, rfl, rfl, rfl, rfl, rfl, rfl, ?_, rfl, rfl⟩
  · rw [hkey]
    unfold Lexer.advance
    cases rest with
    | nil => rfl
    | cons c r => by_cases hc : c = '\n' <;> simp [hc]
  · rw [hkey]
    exact (Lexer.advance_input _).1
  · rw [hkey]
    exact (Lexer.advance_input _).2
  · intro word hword
    simp only [List.mem_cons, List.mem_singleton, List.not_mem_nil, or_false, not_or] at hword
    obtain ⟨h1, h2, h3, h4, h5, h6, h7, h8, h9, h10⟩ := hword
    simp [Lexer.keywords, h1, h2, h3, h4, h5, h6, h7, h8, h9, h10]

/-- Witness of C24 on the word `iffy` followed by a space. -/
theorem identifier_or_keyword_is_maximal_run_witness :
    isalpha (Lexer.new "iffy x".toList).currentCharacter = true ∧
    (Lexer.new "iffy x".toList).input = ['f', 'f', 'y'] ++ [' ', 'x'] ∧
    (Lexer.new "iffy x".toList).nextToken.2.identifierValue
      = ⟨(Lexer.new "iffy x".toList).currentCharacter :: ['f', 'f', 'y']⟩ :=
  ⟨rfl, rfl,
    (identifier_or_keyword_is_maximal_run (Lexer.new "iffy x".toList) ['f', 'f', 'y']
      [' ', 'x'] rfl rfl (by decide) (by decide)).2.1⟩

/-! ## Numbers (C25) -/

/-- C25: with a digit under the scanner, followed by a run of digits that ends at the
end of the stream or before a character that is not a digit, and with the decimal value
of the whole run below 2^31, `nextToken` returns NUM with that value as the number,
leading zeros included, and leaves the scanner on the first character after the run. -/
theorem number_is_maximal_run_of_digits (l : Lexer) (ds rest : List Char)
    (hcur : isdigit l.currentCharacter = true) (hin : l.input = ds ++ rest)
    (hds : ∀ c ∈ ds, isdigit c = true)
    (hrest : ∀ c, rest.head? = some c → isdigit c = false)
    (hfit : decimalValue (l.currentCharacter :: ds) < 2147483648) :
    l.nextToken =
      (Token.NUM,
        Lexer.advance
          { input := rest, currentCharacter := Char.ofNat 0, line := l.line,
            column := l.column + ds.length,
            numberValue := decimalValue (l.currentCharacter :: ds),
            identifierValue := l.identifierValue }) ∧
    l.nextToken.2.numberValue = decimalValue (l.currentCharacter :: ds) ∧
    l.nextToken.2.currentCharacter = rest.headD (Char.ofNat 0) ∧
    l.nextToken.2.input = rest.tail := by
  have hkey : l.nextToken =
      (Token.NUM,
        Lexer.advance
          { input := rest, currentCharacter := Char.ofNat 0, line := l.line,
            column := l.column + ds.length,
            numberValue := decimalValue (l.currentCharacter :: ds),
            identifierValue := l.identifierValue }) := by
    have hloop := Lexer.scanNumberLoop_run rest hrest ds
      { l with numberValue := 0 } (l.input.length + 1) (by simp [hin])
      hcur hin hds (by simp) hfit
    simp only [Lexer.nextToken, Lexer.skipWhitespace_of_not_space l (isspace_of_isdigit _ hcur),
      hcur, if_true, Lexer.scanNumber, hloop, decimalValue]
  refine ⟨hkey, ?_, ?_, ?_⟩
  · rw [hkey]
    unfold Lexer.advance
    cases rest with
    | nil => rfl
    | cons c r => by_cases hc : c = '\n' <;> simp [hc]
  · rw [hkey]
    exact (Lexer.advance_input _).1
  · rw [hkey]
    exact (Lexer.advance_input _).2

/-- Witness of C25 on the run `007` followed by a semicolon. -/
theorem number_is_maximal_run_of_digits_witness :
    isdigit (Lexer.new "007;".toList).currentCharacter = true ∧
    (Lexer.new "007;".toList).input = ['0', '7'] ++ [';'] ∧
    decimalValue ((Lexer.new "007;".toList).currentCharacter :: ['0', '7']) < 2147483648 ∧
    (Lexer.new "007;".toList).nextToken.2.numberValue
      = decimalValue ((Lexer.new "007;".toList).currentCharacter :: ['0', '7']) ∧
    decimalValue ['0', '0', '7'] = 7 :=
  ⟨rfl, rfl, by decide,
    (number_is_maximal_run_of_digits (Lexer.new "007;".toList) ['0', '7'] [';'] rfl rfl
      (by decide) (by decide) (by decide)).2.1, by decide⟩

/-! ## Operators of one and two characters (C26) -/

/-- C26: with `=`, `!`, `<` or `>` under the scanner, `nextToken` returns EQ, NEQ, LESSEQ
or GREATEREQ and advances twice when the next character is `=`, and otherwise returns
ASSIGN, NOT, LESS or GREATER and advances once; with `&` or `|` it returns AND or OR and
advances twice when the next character is the same one, and otherwise returns ERROR
after it advanced once. One `advance` reads one character of the stream. -/
theorem one_and_two_character_operators (l : Lexer) :
    (l.currentCharacter = '=' →
      l.nextToken = (if l.advance.currentCharacter = '=' then (Token.EQ, l.advance.advance)
                     else (Token.ASSIGN, l.advance))) ∧
    (l.currentCharacter = '!' →
      l.nextToken = (if l.advance.currentCharacter = '=' then (Token.NEQ, l.advance.advance)
                     else (Token.NOT, l.advance))) ∧
    (l.currentCharacter = '<' →
      l.nextToken = (if l.advance.currentCharacter = '=' then (Token.LESSEQ, l.advance.advance)
                     else (Token.LESS, l.advance))) ∧
    (l.currentCharacter = '>' →
      l.nextToken = (if l.advance.currentCharacter = '=' then (Token.GREATEREQ, l.advance.advance)
                     else (Token.GREATER, l.advance))) ∧
    (l.currentCharacter = '&' →
      l.nextToken = (if l.advance.currentCharacter = '&' then (Token.AND, l.advance.advance)
                     else (Token.ERROR, l.advance))) ∧
    (l.currentCharacter = '|' →
      l.nextToken = (if l.advance.currentCharacter = '|' then (Token.OR, l.advance.advance)
                     else (Token.ERROR, l.advance))) ∧
    l.advance.currentCharacter = l.input.headD (Char.ofNat 0) ∧
    l.advance.input = l.input.tail ∧
    l.advance.advance.input = l.input.tail.tail := by
  refine ⟨?_, ?_, ?_, ?_, ?_, ?_, (Lexer.advance_input l).1, (Lexer.advance_input l).2, ?_⟩
  · intro h
    have hs : isspace l.currentCharacter = false := by rw [h]; decide
    have hd : isdigit '=' = false := by decide
    have ha : isalpha '=' = false := by decide
    simp only [Lexer.nextToken, Lexer.skipWhitespace_of_not_space l hs, h, hd, ha]
    simp [Lexer.twoCharacters]
  · intro h
    have hs : isspace l.currentCharacter = false := by rw [h]; decide
    have hd : isdigit '!' = false := by decide
    have ha : isalpha '!' = false := by decide
    simp only [Lexer.nextToken, Lexer.skipWhitespace_of_not_space l hs, h, hd, ha]
    simp [Lexer.twoCharacters]
  · intro h
    have hs : isspace l.currentCharacter = false := by rw [h]; decide
    have hd : isdigit '<' = false := by decide
    have ha : isalpha '<' = false := by decide
    simp only [Lexer.nextToken, Lexer.skipWhitespace_of_not_space l hs, h, hd, ha]
    simp [Lexer.twoCharacters]
  · intro h
    have hs : isspace l.currentCharacter = false := by rw [h]; decide
    have hd : isdigit '>' = false := by decide
    have ha : isalpha '>' = false := by decide
    simp only [Lexer.nextToken, Lexer.skipWhitespace_of_not_space l hs, h, hd, ha]
    simp [Lexer.twoCharacters]
  · intro h
    have hs : isspace l.currentCharacter = false := by rw [h]; decide
    have hd : isdigit '&' = false := by decide
    have ha : isalpha '&' = false := by decide
    simp only [Lexer.nextToken, Lexer.skipWhitespace_of_not_space l hs, h, hd, ha]
    simp [Lexer.twoCharacters]
  · intro h
    have hs : isspace l.currentCharacter = false := by rw [h]; decide
    have hd : isdigit '|' = false := by decide
    have ha : isalpha '|' = false := by decide
    simp only [Lexer.nextToken, Lexer.skipWhitespace_of_not_space l hs, h, hd, ha]
    simp [Lexer.twoCharacters]
  · rw [(Lexer.advance_input l.advance).2, (Lexer.advance_input l).2]

/-- Witness of C26 on `==` and on `=` before a digit. -/
theorem one_and_two_character_operators_witness :
    (Lexer.new "==1".toList).currentCharacter = '=' ∧
    (Lexer.new "==1".toList).nextToken
      = (if (Lexer.new "==1".toList).advance.currentCharacter = '='
         then (Token.EQ, (Lexer.new "==1".toList).advance.advance)
         else (Token.ASSIGN, (Lexer.new "==1".toList).advance)) ∧
    (Lexer.new "==1".toList).nextToken.1 = Token.EQ ∧
    (Lexer.new "=1".toList).nextToken.1 = Token.ASSIGN ∧
    (Lexer.new "&1".toList).nextToken.1 = Token.ERROR :=
  ⟨rfl, (one_and_two_character_operators (Lexer.new "==1".toList)).1 rfl, rfl, rfl, rfl⟩

/-! ## The parser returns the same with more fuel -/

theorem Stab.refl {α : Type} (x : Except Error α) : Stab x x := ⟨fun _ => rfl⟩

theorem Stab.of_outOfFuel {α : Type} (x1 : Except Error α) :
    Stab x1 (Except.error Error.outOfFuel) := ⟨fun h => absurd rfl h⟩

theorem Stab.bind {α β : Type} {x1 x : Except Error α} {f1 f : α → Except Error β}
    (hx : Stab x1 x) (hf : ∀ a, Stab (f1 a) (f a)) : Stab (x1 >>= f1) (x >>= f) := by
  constructor
  intro h
  have hs : x ≠ Except.error Error.outOfFuel := by
    intro hc
    apply h
    rw [hc]
    rfl
  rw [hx.out hs]
  cases x with
  | error e => rfl
  | ok a => exact (hf a).out h

theorem Stab.ite {α : Type} {c : Prop} [Decidable c] {a1 a b1 b : Except Error α}
    (ha : Stab a1 a) (hb : Stab b1 b) :
    Stab (if c then a1 else b1) (if c then a else b) := by
  by_cases hc : c <;> simp [hc, ha, hb]

/-- The list of declarations is parsed alike with more fuel. -/
theorem Parser.parseDecls_stable :
    ∀ fuel p, Stab (Parser.parseDecls (fuel + 1) p) (Parser.parseDecls fuel p) := by
  intro fuel
  induction fuel with
  | zero => intro p; exact Stab.of_outOfFuel _
  | succ fuel ih =>
    intro p
    conv => arg 1; rw [Parser.parseDecls.eq_2]
    conv => arg 2; rw [Parser.parseDecls.eq_2]
    repeat' (first
      | exact ih _
      | with_reducible exact Stab.refl _
      | apply Stab.bind
      | apply Stab.ite
      | intro _
      | split)

set_option maxHeartbeats 1000000 in
/-- The functions of the parser are stable under more fuel. -/
theorem Parser.stableAt : ∀ fuel, Parser.StableAt fuel := by
  intro fuel
  induction fuel with
  | zero =>
    constructor <;> intros <;> exact Stab.of_outOfFuel _
  | succ fuel ih =>
    constructor
    case block =>
      intro p
      conv => arg 1; rw [Parser.parseBlock.eq_2]
      conv => arg 2; rw [Parser.parseBlock.eq_2]
      repeat' (first
        | exact ih.stmts _ | exact Parser.parseDecls_stable _ _
        | with_reducible exact Stab.refl _
        | apply Stab.bind | apply Stab.ite | intro _ | split)
    case stmts =>
      intro p
      conv => arg 1; rw [Parser.parseStmts.eq_2]
      conv => arg 2; rw [Parser.parseStmts.eq_2]
      repeat' (first
        | exact ih.stmts _ | exact ih.stmt _
        | with_reducible exact Stab.refl _
        | apply Stab.bind | apply Stab.ite | intro _ | split)
    case stmt =>
      intro p
      conv => arg 1; rw [Parser.parseStmt.eq_2]
      conv => arg 2; rw [Parser.parseStmt.eq_2]
      repeat' (first
        | exact ih.stmt _ | exact ih.bool _ | exact ih.loc _ | exact ih.block _
        | with_reducible exact Stab.refl _
        | apply Stab.bind | apply Stab.ite | intro _ | split)
    case loc =>
      intro p
      conv => arg 1; rw [Parser.parseLoc.eq_2]
      conv => arg 2; rw [Parser.parseLoc.eq_2]
      repeat' (first
        | exact ih.bool _
        | with_reducible exact Stab.refl _
        | apply Stab.bind | apply Stab.ite | intro _ | split)
    case bool =>
      intro p
      conv => arg 1; rw [Parser.parseBool.eq_2]
      conv => arg 2; rw [Parser.parseBool.eq_2]
      repeat' (first
        | exact ih.join _ | exact ih.boolLoop _ _
        | with_reducible exact Stab.refl _
        | apply Stab.bind | apply Stab.ite | intro _ | split)
    case boolLoop =>
      intro left p
      conv => arg 1; rw [Parser.parseBoolLoop.eq_2]
      conv => arg 2; rw [Parser.parseBoolLoop.eq_2]
      repeat' (first
        | exact ih.join _ | exact ih.boolLoop _ _
        | with_reducible exact Stab.refl _
        | apply Stab.bind | apply Stab.ite | intro _ | split)
    case join =>
      intro p
      conv => arg 1; rw [Parser.parseJoin.eq_2]
      conv => arg 2; rw [Parser.parseJoin.eq_2]
      repeat' (first
        | exact ih.equality _ | exact ih.joinLoop _ _
        | with_reducible exact Stab.refl _
        | apply Stab.bind | apply Stab.ite | intro _ | split)
    case joinLoop =>
      intro left p
      conv => arg 1; rw [Parser.parseJoinLoop.eq_2]
      conv => arg 2; rw [Parser.parseJoinLoop.eq_2]
      repeat' (first
        | exact ih.equality _ | exact ih.joinLoop _ _
        | with_reducible exact Stab.refl _
        | apply Stab.bind | apply Stab.ite | intro _ | split)
    case equality =>
      intro p
      conv => arg 1; rw [Parser.parseEquality.eq_2]
      conv => arg 2; rw [Parser.parseEquality.eq_2]
      repeat' (first
        | exact ih.rel _ | exact ih.equalityLoop _ _
        | with_reducible exact Stab.refl _
        | apply Stab.bind | apply Stab.ite | intro _ | split)
    case equalityLoop =>
      intro left p
      conv => arg 1; rw [Parser.parseEqualityLoop.eq_2]
      conv => arg 2; rw [Parser.parseEqualityLoop.eq_2]
      repeat' (first
        | exact ih.rel _ | exact ih.equalityLoop _ _
        | with_reducible exact Stab.refl _
        | apply Stab.bind | apply Stab.ite | intro _ | split)
    case rel =>
      intro p
      conv => arg 1; rw [Parser.parseRel.eq_2]
      conv => arg 2; rw [Parser.parseRel.eq_2]
      repeat' (first
        | exact ih.expr _
        | with_reducible exact Stab.refl _
        | apply Stab.bind | apply Stab.ite | intro _ | split)
    case expr =>
      intro p
      conv => arg 1; rw [Parser.parseExpr.eq_2]
      conv => arg 2; rw [Parser.parseExpr.eq_2]
      repeat' (first
        | exact ih.term _ | exact ih.exprLoop _ _
        | with_reducible exact Stab.refl _
        | apply Stab.bind | apply Stab.ite | intro _ | split)
    case exprLoop =>
      intro left p
      conv => arg 1; rw [Parser.parseExprLoop.eq_2]
      conv => arg 2; rw [Parser.parseExprLoop.eq_2]
      repeat' (first
        | exact ih.term _ | exact ih.exprLoop _ _
        | with_reducible exact Stab.refl _
        | apply Stab.bind | apply Stab.ite | intro _ | split)
    case term =>
      intro p
      conv => arg 1; rw [Parser.parseTerm.eq_2]
      conv => arg 2; rw [Parser.parseTerm.eq_2]
      repeat' (first
        | exact ih.unary _ | exact ih.termLoop _ _
        | with_reducible exact Stab.refl _
        | apply Stab.bind | apply Stab.ite | intro _ | split)
    case termLoop =>
      intro left p
      conv => arg 1; rw [Parser.parseTermLoop.eq_2]
      conv => arg 2; rw [Parser.parseTermLoop.eq_2]
      repeat' (first
        | exact ih.unary _ | exact ih.termLoop _ _
        | with_reducible exact Stab.refl _
        | apply Stab.bind | apply Stab.ite | intro _ | split)
    case unary =>
      intro p
      conv => arg 1; rw [Parser.parseUnary.eq_2]
      conv => arg 2; rw [Parser.parseUnary.eq_2]
      repeat' (first
        | exact ih.unary _ | exact ih.factor _
        | with_reducible exact Stab.refl _
        | apply Stab.bind | apply Stab.ite | intro _ | split)
    case factor =>
      intro p
      conv => arg 1; rw [Parser.parseFactor.eq_2]
      conv => arg 2; rw [Parser.parseFactor.eq_2]
      repeat' (first
        | exact ih.bool _
        | with_reducible exact Stab.refl _
        | apply Stab.bind | apply Stab.ite | intro _ | split)

/-! ## The layers of binary operators -/

/-- A result that is stable under one more unit of fuel is stable under any more fuel. -/
theorem Stab.mono {α : Type} (f : Nat → Except Error α) (h : ∀ n, Stab (f (n + 1)) (f n))
    {n : Nat} {r : α} (hr : f n = Except.ok r) : ∀ m, n ≤ m → f m = Except.ok r := by
  intro m hm
  induction m, hm using Nat.le_induction with
  | base => exact hr
  | succ m _ ih =>
    have := (h m).out (by rw [ih]; intro hc; cases hc)
    rw [this, ih]

/-- One successful run of a stable parsing function is a run for every larger fuel. -/
theorem Parser.Parses.of_run {f : Nat → Parser → Except Error (Node × Parser)}
    (hf : ∀ fuel p, Stab (f (fuel + 1) p) (f fuel p)) (fuel : Nat) {p q : Parser} {n : Node}
    (h : f fuel p = Except.ok (n, q)) : Parser.Parses f p n q :=
  ⟨fuel, Stab.mono (fun k => f k p) (fun k => hf k p) h⟩

theorem Layer.operand_stable (L : Layer) :
    ∀ fuel p, Stab (L.operand (fuel + 1) p) (L.operand fuel p) := by
  intro fuel p
  cases L
  · exact (Parser.stableAt fuel).join p
  · exact (Parser.stableAt fuel).equality p
  · exact (Parser.stableAt fuel).rel p
  · exact (Parser.stableAt fuel).term p
  · exact (Parser.stableAt fuel).unary p

theorem Layer.parse_stable (L : Layer) :
    ∀ fuel p, Stab (L.parse (fuel + 1) p) (L.parse fuel p) := by
  intro fuel p
  cases L
  · exact (Parser.stableAt fuel).bool p
  · exact (Parser.stableAt fuel).join p
  · exact (Parser.stableAt fuel).equality p
  · exact (Parser.stableAt fuel).expr p
  · exact (Parser.stableAt fuel).term p

/-- The loop of a layer stops on a token that is no operator of the layer. -/
theorem Layer.loop_stop (L : Layer) (left : Node) (p : Parser)
    (h : L.isOp p.currentToken = false) :
    Parser.Parses (fun fuel => L.loop fuel left) p left p := by
  refine ⟨1, fun fuel hf => ?_⟩
  obtain ⟨k, rfl⟩ : ∃ k, fuel = k + 1 := ⟨fuel - 1, by omega⟩
  cases L <;>
    simp [Layer.isOp] at h <;>
    simp [Layer.loop, Parser.parseBoolLoop, Parser.parseJoinLoop, Parser.parseEqualityLoop,
      Parser.parseExprLoop, Parser.parseTermLoop, h, pure, Except.pure]

/-- One turn of the loop of a layer: the operator is matched, the operand is read, and the
loop goes on with the new tree. -/
theorem Layer.loop_step (L : Layer) (left x n : Node) (p p1 q : Parser)
    (hop : L.isOp p.currentToken = true)
    (hx : Parser.Parses L.operand p.advance x p1)
    (hrest : Parser.Parses (fun fuel => L.loop fuel (L.node left x p.currentToken)) p1 n q) :
    Parser.Parses (fun fuel => L.loop fuel left) p n q := by
  obtain ⟨f1, h1⟩ := hx
  obtain ⟨f2, h2⟩ := hrest
  refine ⟨f1 + f2 + 1, fun fuel hf => ?_⟩
  obtain ⟨k, rfl⟩ : ∃ k, fuel = k + 1 := ⟨fuel - 1, by omega⟩
  have e1 := h1 k (by omega)
  have e2 := h2 k (by omega)
  cases L <;>
    simp [Layer.isOp] at hop <;>
    simp only [Layer.operand] at e1 <;>
    simp only [Layer.loop, Layer.node] at e2 <;>
    simp [Layer.loop, Parser.parseBoolLoop, Parser.parseJoinLoop, Parser.parseEqualityLoop,
      Parser.parseExprLoop, Parser.parseTermLoop, Parser.matchToken, hop, e1, e2, bind,
      Except.bind, pure, Except.pure]

/-- The method of a layer reads one operand and enters the loop. -/
theorem Layer.parse_intro (L : Layer) (x n : Node) (p p1 q : Parser)
    (hx : Parser.Parses L.operand p x p1)
    (hrest : Parser.Parses (fun fuel => L.loop fuel x) p1 n q) :
    Parser.Parses L.parse p n q := by
  obtain ⟨f1, h1⟩ := hx
  obtain ⟨f2, h2⟩ := hrest
  refine ⟨f1 + f2 + 1, fun fuel hf => ?_⟩
  obtain ⟨k, rfl⟩ : ∃ k, fuel = k + 1 := ⟨fuel - 1, by omega⟩
  have e1 := h1 k (by omega)
  have e2 := h2 k (by omega)
  cases L <;>
    simp only [Layer.operand] at e1 <;>
    simp only [Layer.loop] at e2 <;>
    simp [Layer.parse, Parser.parseBool, Parser.parseJoin, Parser.parseEquality,
      Parser.parseExpr, Parser.parseTerm, e1, e2, bind, Except.bind]

/-- The loop of a layer folds a chain to the left. -/
theorem Layer.loop_chain (L : Layer) (p q : Parser) (items : List (Token × Node))
    (hc : Parser.Chain L p items q) :
    ∀ left, Parser.Parses (fun fuel => L.loop fuel left) p (L.leftNested left items) q := by
  induction hc with
  | nil p h => intro left; exact L.loop_stop left p h
  | cons p p1 q x rest hop hx _ ih =>
    intro left
    exact L.loop_step left x _ p p1 q hop hx (ih _)

/-- An operand that is followed by no operator of the layer is the whole of the layer. -/
theorem Layer.parse_single (L : Layer) (x : Node) (p q : Parser)
    (hx : Parser.Parses L.operand p x q) (h : L.isOp q.currentToken = false) :
    Parser.Parses L.parse p x q :=
  L.parse_intro x x p q q hx (L.loop_stop x q h)

/-- The method of a layer on an operand followed by a chain of operators. -/
theorem Layer.parse_chain (L : Layer) (x0 : Node) (p0 p1 q : Parser)
    (items : List (Token × Node)) (h0 : Parser.Parses L.operand p0 x0 p1)
    (hc : Parser.Chain L p1 items q) :
    Parser.Parses L.parse p0 (L.leftNested x0 items) q :=
  L.parse_intro x0 _ p0 p1 q h0 (L.loop_chain p1 q items hc x0)

/-- Without a relational operator after it, an additive expression is the whole of
`parseRel`. -/
theorem Parser.parseRel_none (a : Node) (p p1 : Parser)
    (ha : Parser.Parses Parser.parseExpr p a p1) (h : Parser.relOp p1.currentToken = none) :
    Parser.Parses Parser.parseRel p a p1 := by
  obtain ⟨f1, h1⟩ := ha
  refine ⟨f1 + 1, fun fuel hf => ?_⟩
  obtain ⟨k, rfl⟩ : ∃ k, fuel = k + 1 := ⟨fuel - 1, by omega⟩
  have e1 := h1 k (by omega)
  simp [Parser.parseRel, e1, h, bind, Except.bind, pure, Except.pure]

/-- With a relational operator, `parseRel` reads one additive expression on each side. -/
theorem Parser.parseRel_some (a b : Node) (op : RelOp) (p p1 p2 : Parser)
    (ha : Parser.Parses Parser.parseExpr p a p1)
    (h : Parser.relOp p1.currentToken = some op)
    (hb : Parser.Parses Parser.parseExpr p1.advance b p2) :
    Parser.Parses Parser.parseRel p (Node.RelNode a b op) p2 := by
  obtain ⟨f1, h1⟩ := ha
  obtain ⟨f2, h2⟩ := hb
  refine ⟨f1 + f2 + 1, fun fuel hf => ?_⟩
  obtain ⟨k, rfl⟩ : ∃ k, fuel = k + 1 := ⟨fuel - 1, by omega⟩
  have e1 := h1 k (by omega)
  have e2 := h2 k (by omega)
  simp [Parser.parseRel, Parser.matchToken, e1, e2, h, bind, Except.bind, pure, Except.pure]

/-- The tokens on which `parseFactor` returns a node start no unary operator. -/
theorem Parser.parseFactor_token (fuel : Nat) (p : Parser) (r : Node × Parser)
    (h : Parser.parseFactor fuel p = Except.ok r) :
    p.currentToken ≠ Token.NOT ∧ p.currentToken ≠ Token.MINUS := by
  cases fuel with
  | zero => cases h
  | succ k =>
    rw [Parser.parseFactor] at h
    constructor <;> intro hc <;> rw [hc] at h <;> cases h

/-- A factor is a unary expression. -/
theorem Parser.parseUnary_factor (n : Node) (p q : Parser)
    (h : Parser.Parses Parser.parseFactor p n q) :
    Parser.Parses Parser.parseUnary p n q := by
  obtain ⟨f1, h1⟩ := h
  refine ⟨f1 + 1, fun fuel hf => ?_⟩
  obtain ⟨k, rfl⟩ : ∃ k, fuel = k + 1 := ⟨fuel - 1, by omega⟩
  have e1 := h1 k (by omega)
  obtain ⟨hn, hm⟩ := Parser.parseFactor_token k p _ e1
  simp [Parser.parseUnary, hn, hm, e1]

/-- A minus sign before a unary expression. -/
theorem Parser.parseUnary_neg (a : Node) (p q : Parser) (h : p.currentToken = Token.MINUS)
    (ha : Parser.Parses Parser.parseUnary p.advance a q) :
    Parser.Parses Parser.parseUnary p (Node.UnaryNode a UnaryOp.NEG) q := by
  obtain ⟨f1, h1⟩ := ha
  refine ⟨f1 + 1, fun fuel hf => ?_⟩
  obtain ⟨k, rfl⟩ : ∃ k, fuel = k + 1 := ⟨fuel - 1, by omega⟩
  have e1 := h1 k (by omega)
  simp [Parser.parseUnary, Parser.matchToken, h, e1, bind, Except.bind, pure, Except.pure]

/-- An exclamation mark before a unary expression. -/
theorem Parser.parseUnary_not (a : Node) (p q : Parser) (h : p.currentToken = Token.NOT)
    (ha : Parser.Parses Parser.parseUnary p.advance a q) :
    Parser.Parses Parser.parseUnary p (Node.UnaryNode a UnaryOp.NOT) q := by
  obtain ⟨f1, h1⟩ := ha
  refine ⟨f1 + 1, fun fuel hf => ?_⟩
  obtain ⟨k, rfl⟩ : ∃ k, fuel = k + 1 := ⟨fuel - 1, by omega⟩
  have e1 := h1 k (by omega)
  simp [Parser.parseUnary, Parser.matchToken, h, e1, bind, Except.bind, pure, Except.pure]

/-- A parenthesized expression is a factor: the node of the expression itself. -/
theorem Parser.parseFactor_paren (e : Node) (p p1 : Parser)
    (h : p.currentToken = Token.LPARENTHESIS)
    (he : Parser.Parses Parser.parseBool p.advance e p1)
    (hr : p1.currentToken = Token.RPARENTHESIS) :
    Parser.Parses Parser.parseFactor p e p1.advance := by
  obtain ⟨f1, h1⟩ := he
  refine ⟨f1 + 1, fun fuel hf => ?_⟩
  obtain ⟨k, rfl⟩ : ∃ k, fuel = k + 1 := ⟨fuel - 1, by omega⟩
  have e1 := h1 k (by omega)
  simp [Parser.parseFactor, Parser.matchToken, h, hr, e1, bind, Except.bind, pure, Except.pure]

/-- After a token that is no binary operator, a multiplicative expression is a whole
expression. -/
theorem Parser.parseBool_of_term (n : Node) (p q : Parser)
    (h : Parser.Parses Parser.parseTerm p n q) (hend : Parser.endsExpr q.currentToken = true) :
    Parser.Parses Parser.parseBool p n q := by
  have hadd : Parser.Parses Parser.parseExpr p n q :=
    Layer.additive.parse_single n p q h (by
      revert hend; cases q.currentToken <;> simp [Parser.endsExpr, Layer.isOp])
  have hrel : Parser.Parses Parser.parseRel p n q :=
    Parser.parseRel_none n p q hadd (by
      revert hend; cases q.currentToken <;> simp [Parser.endsExpr, Parser.relOp])
  have heq : Parser.Parses Parser.parseEquality p n q :=
    Layer.equality.parse_single n p q hrel (by
      revert hend; cases q.currentToken <;> simp [Parser.endsExpr, Layer.isOp])
  have hand : Parser.Parses Parser.parseJoin p n q :=
    Layer.and.parse_single n p q heq (by
      revert hend; cases q.currentToken <;> simp [Parser.endsExpr, Layer.isOp])
  exact Layer.or.parse_single n p q hand (by
      revert hend; cases q.currentToken <;> simp [Parser.endsExpr, Layer.isOp])

/-! ## Precedence (C22) -/

theorem Parser.endsExpr_isOp (L : Layer) (t : Token) (h : Parser.endsExpr t = true) :
    L.isOp t = false := by
  revert h
  cases L <;> cases t <;> simp [Parser.endsExpr, Layer.isOp]

theorem Parser.endsExpr_relOp (t : Token) (h : Parser.endsExpr t = true) :
    Parser.relOp t = none := by
  revert h
  cases t <;> simp [Parser.endsExpr, Parser.relOp]

/-- Two operands around one operator of a layer, with no operator of the layer after
them. -/
theorem Layer.parse_binary (L : Layer) (x y : Node) (p p1 p2 : Parser)
    (hx : Parser.Parses L.operand p x p1) (hop : L.isOp p1.currentToken = true)
    (hy : Parser.Parses L.operand p1.advance y p2) (hstop : L.isOp p2.currentToken = false) :
    Parser.Parses L.parse p (L.node x y p1.currentToken) p2 :=
  L.parse_chain x p p1 p2 [(p1.currentToken, y)] hx
    (Parser.Chain.cons p1 p2 p2 y [] hop hy (Parser.Chain.nil p2 hstop))

/-- After a token that is no binary operator, an additive expression is a whole
expression. -/
theorem Parser.parseBool_of_expr (n : Node) (p q : Parser)
    (h : Parser.Parses Parser.parseExpr p n q) (hend : Parser.endsExpr q.currentToken = true) :
    Parser.Parses Parser.parseBool p n q :=
  Layer.or.parse_single n p q
    (Layer.and.parse_single n p q
      (Layer.equality.parse_single n p q
        (Parser.parseRel_none n p q h (Parser.endsExpr_relOp _ hend))
        (Parser.endsExpr_isOp _ _ hend))
      (Parser.endsExpr_isOp _ _ hend))
    (Parser.endsExpr_isOp _ _ hend)

/-- A unary expression before a token that is neither `*` nor `/`, `+` nor `-` is an
additive expression. -/
theorem Parser.parseExpr_of_unary (n : Node) (p q : Parser)
    (h : Parser.Parses Parser.parseUnary p n q)
    (hm : Layer.multiplicative.isOp q.currentToken = false)
    (ha : Layer.additive.isOp q.currentToken = false) :
    Parser.Parses Parser.parseExpr p n q :=
  Layer.additive.parse_single n p q (Layer.multiplicative.parse_single n p q h hm) ha

/-- A unary expression before a token that is no arithmetic, relational or equality
operator is an equality expression. -/
theorem Parser.parseEquality_of_unary (n : Node) (p q : Parser)
    (h : Parser.Parses Parser.parseUnary p n q)
    (hm : Layer.multiplicative.isOp q.currentToken = false)
    (ha : Layer.additive.isOp q.currentToken = false)
    (hr : Parser.relOp q.currentToken = none)
    (he : Layer.equality.isOp q.currentToken = false) :
    Parser.Parses Parser.parseEquality p n q :=
  Layer.equality.parse_single n p q
    (Parser.parseRel_none n p q (Parser.parseExpr_of_unary n p q h hm ha) hr) he

/-- C22: the parser encodes the precedence of the operators in its structure. For
factors `a`, `b` and `c` that `parseFactor` reads one after the other with one token in
between, and a token after them that is no binary operator, `parseBool` returns, with
enough fuel: for `a + b * c` the node Add(a, Mul(b, c)); for `a * b + c` the node
Add(Mul(a, b), c); for `a || b && c` the node Or(a, And(b, c)); for `a && b == c` the node
And(a, Equality(b, c)); for `a == b < c` the node Equality(a, Rel(b, c)); for `a < b + c`
the node Rel(a, Add(b, c)); for `-a * b` the node Mul(Unary(a, NEG), b); and for
`(a + b) * c` the node Mul(Add(a, b), c), in which no node stands for the parentheses. -/
theorem precedence_is_encoded_structurally (p0 p1 p2 : Parser) (a b : Node)
    (ha : Parser.Parses Parser.parseFactor p0 a p1)
    (hb : Parser.Parses Parser.parseFactor p1.advance b p2) :
    (∀ (p3 : Parser) (c : Node), Parser.Parses Parser.parseFactor p2.advance c p3 →
      Parser.endsExpr p3.currentToken = true →
      (p1.currentToken = Token.PLUS → p2.currentToken = Token.MULTIPLY →
        Parser.Parses Parser.parseBool p0
          (Node.AddNode a (Node.MulNode b c true) true) p3) ∧
      (p1.currentToken = Token.MULTIPLY → p2.currentToken = Token.PLUS →
        Parser.Parses Parser.parseBool p0
          (Node.AddNode (Node.MulNode a b true) c true) p3) ∧
      (p1.currentToken = Token.OR → p2.currentToken = Token.AND →
        Parser.Parses Parser.parseBool p0 (Node.OrNode a (Node.AndNode b c)) p3) ∧
      (p1.currentToken = Token.AND → p2.currentToken = Token.EQ →
        Parser.Parses Parser.parseBool p0
          (Node.AndNode a (Node.EqualityNode b c true)) p3) ∧
      (p1.currentToken = Token.EQ → p2.currentToken = Token.LESS →
        Parser.Parses Parser.parseBool p0
          (Node.EqualityNode a (Node.RelNode b c RelOp.LESS) true) p3) ∧
      (p1.currentToken = Token.LESS → p2.currentToken = Token.PLUS →
        Parser.Parses Parser.parseBool p0
          (Node.RelNode a (Node.AddNode b c true) RelOp.LESS) p3)) ∧
    (∀ pm : Parser, pm.currentToken = Token.MINUS → pm.advance = p0 →
      p1.currentToken = Token.MULTIPLY → Parser.endsExpr p2.currentToken = true →
      Parser.Parses Parser.parseBool pm
        (Node.MulNode (Node.UnaryNode a UnaryOp.NEG) b true) p2) ∧
    (∀ (pl p3 : Parser) (c : Node), pl.currentToken = Token.LPARENTHESIS → pl.advance = p0 →
      p1.currentToken = Token.PLUS → p2.currentToken = Token.RPARENTHESIS →
      p2.advance.currentToken = Token.MULTIPLY →
      Parser.Parses Parser.parseFactor p2.advance.advance c p3 →
      Parser.endsExpr p3.currentToken = true →
      Parser.Parses Parser.parseBool pl
        (Node.MulNode (Node.AddNode a b true) c true) p3) := by
  have ua := Parser.parseUnary_factor a p0 p1 ha
  have ub := Parser.parseUnary_factor b p1.advance p2 hb
  refine ⟨?_, ?_, ?_⟩
  · intro p3 c hc hend
    have uc := Parser.parseUnary_factor c p2.advance p3 hc
    have tc : Parser.Parses Parser.parseTerm p2.advance c p3 :=
      Layer.multiplicative.parse_single c _ _ uc (Parser.endsExpr_isOp _ _ hend)
    have ec : Parser.Parses Parser.parseExpr p2.advance c p3 :=
      Layer.additive.parse_single c _ _ tc (Parser.endsExpr_isOp _ _ hend)
    have rc : Parser.Parses Parser.parseRel p2.advance c p3 :=
      Parser.parseRel_none c _ _ ec (Parser.endsExpr_relOp _ hend)
    have qc : Parser.Parses Parser.parseEquality p2.advance c p3 :=
      Layer.equality.parse_single c _ _ rc (Parser.endsExpr_isOp _ _ hend)
    refine ⟨?_, ?_, ?_, ?_, ?_, ?_⟩
    · intro h1 h2
      have ta : Parser.Parses Parser.parseTerm p0 a p1 :=
        Layer.multiplicative.parse_single a _ _ ua (by rw [h1]; rfl)
      have tbc := Layer.multiplicative.parse_binary b c p1.advance p2 p3 ub
        (by rw [h2]; rfl) uc (Parser.endsExpr_isOp _ _ hend)
      have e := Layer.additive.parse_binary a _ p0 p1 p3 ta (by rw [h1]; rfl) tbc
        (Parser.endsExpr_isOp _ _ hend)
      simp only [Layer.node, h1, h2, decide_True] at e
      exact Parser.parseBool_of_expr _ _ _ e hend
    · intro h1 h2
      have tab := Layer.multiplicative.parse_binary a b p0 p1 p2 ua
        (by rw [h1]; rfl) ub (by rw [h2]; rfl)
      have e := Layer.additive.parse_binary _ c p0 p2 p3 tab (by rw [h2]; rfl) tc
        (Parser.endsExpr_isOp _ _ hend)
      simp only [Layer.node, h1, h2, decide_True] at e
      exact Parser.parseBool_of_expr _ _ _ e hend
    · intro h1 h2
      have qa : Parser.Parses Parser.parseEquality p0 a p1 :=
        Parser.parseEquality_of_unary a _ _ ua (by rw [h1]; rfl) (by rw [h1]; rfl)
          (by rw [h1]; rfl) (by rw [h1]; rfl)
      have ja : Parser.Parses Parser.parseJoin p0 a p1 :=
        Layer.and.parse_single a _ _ qa (by rw [h1]; rfl)
      have qb : Parser.Parses Parser.parseEquality p1.advance b p2 :=
        Parser.parseEquality_of_unary b _ _ ub (by rw [h2]; rfl) (by rw [h2]; rfl)
          (by rw [h2]; rfl) (by rw [h2]; rfl)
      have jbc := Layer.and.parse_binary b c p1.advance p2 p3 qb (by rw [h2]; rfl) qc
        (Parser.endsExpr_isOp _ _ hend)
      have e := Layer.or.parse_binary a _ p0 p1 p3 ja (by rw [h1]; rfl) jbc
        (Parser.endsExpr_isOp _ _ hend)
      simpa only [Layer.node] using e
    · intro h1 h2
      have qa : Parser.Parses Parser.parseEquality p0 a p1 :=
        Parser.parseEquality_of_unary a _ _ ua (by rw [h1]; rfl) (by rw [h1]; rfl)
          (by rw [h1]; rfl) (by rw [h1]; rfl)
      have rb : Parser.Parses Parser.parseRel p1.advance b p2 :=
        Parser.parseRel_none b _ _
          (Parser.parseExpr_of_unary b _ _ ub (by rw [h2]; rfl) (by rw [h2]; rfl))
          (by rw [h2]; rfl)
      have qbc := Layer.equality.parse_binary b c p1.advance p2 p3 rb (by rw [h2]; rfl) rc
        (Parser.endsExpr_isOp _ _ hend)
      have e := Layer.and.parse_binary a _ p0 p1 p3 qa (by rw [h1]; rfl) qbc
        (Parser.endsExpr_isOp _ _ hend)
      simp only [Layer.node, h1, h2, decide_True] at e
      exact Layer.or.parse_single _ _ _ e (Parser.endsExpr_isOp _ _ hend)
    · intro h1 h2
      have ra : Parser.Parses Parser.parseRel p0 a p1 :=
        Parser.parseRel_none a _ _
          (Parser.parseExpr_of_unary a _ _ ua (by rw [h1]; rfl) (by rw [h1]; rfl))
          (by rw [h1]; rfl)
      have eb : Parser.Parses Parser.parseExpr p1.advance b p2 :=
        Parser.parseExpr_of_unary b _ _ ub (by rw [h2]; rfl) (by rw [h2]; rfl)
      have rbc := Parser.parseRel_some b c RelOp.LESS p1.advance p2 p3 eb
        (by rw [h2]; rfl) ec
      have e := Layer.equality.parse_binary a _ p0 p1 p3 ra (by rw [h1]; rfl) rbc
        (Parser.endsExpr_isOp _ _ hend)
      simp only [Layer.node, h1, h2, decide_True] at e
      exact Layer.or.parse_single _ _ _
        (Layer.and.parse_single _ _ _ e (Parser.endsExpr_isOp _ _ hend))
        (Parser.endsExpr_isOp _ _ hend)
    · intro h1 h2
      have ea : Parser.Parses Parser.parseExpr p0 a p1 :=
        Parser.parseExpr_of_unary a _ _ ua (by rw [h1]; rfl) (by rw [h1]; rfl)
      have tb : Parser.Parses Parser.parseTerm p1.advance b p2 :=
        Layer.multiplicative.parse_single b _ _ ub (by rw [h2]; rfl)
      have ebc := Layer.additive.parse_binary b c p1.advance p2 p3 tb (by rw [h2]; rfl) tc
        (Parser.endsExpr_isOp _ _ hend)
      simp only [Layer.node, h2, decide_True] at ebc
      have e := Parser.parseRel_some a _ RelOp.LESS p0 p1 p3 ea (by rw [h1]; rfl) ebc
      exact Layer.or.parse_single _ _ _
        (Layer.and.parse_single _ _ _
          (Layer.equality.parse_single _ _ _ e (Parser.endsExpr_isOp _ _ hend))
          (Parser.endsExpr_isOp _ _ hend))
        (Parser.endsExpr_isOp _ _ hend)
  · intro pm hm hadv h1 hend
    subst hadv
    have una := Parser.parseUnary_neg a pm p1 hm ua
    have t := Layer.multiplicative.parse_binary _ b pm p1 p2 una (by rw [h1]; rfl) ub
      (Parser.endsExpr_isOp _ _ hend)
    simp only [Layer.node, h1, decide_True] at t
    exact Parser.parseBool_of_term _ _ _ t hend
  · intro pl p3 c hl hadv h1 h2 h3 hc hend
    subst hadv
    have uc := Parser.parseUnary_factor c _ p3 hc
    have ta : Parser.Parses Parser.parseTerm pl.advance a p1 :=
      Layer.multiplicative.parse_single a _ _ ua (by rw [h1]; rfl)
    have tb : Parser.Parses Parser.parseTerm p1.advance b p2 :=
      Layer.multiplicative.parse_single b _ _ ub (by rw [h2]; rfl)
    have e := Layer.additive.parse_binary a b pl.advance p1 p2 ta (by rw [h1]; rfl) tb
      (by rw [h2]; rfl)
    simp only [Layer.node, h1, decide_True] at e
    have hp2 : Parser.endsExpr p2.currentToken = true := by rw [h2]; rfl
    have f := Parser.parseFactor_paren _ pl p2 hl (Parser.parseBool_of_expr _ _ _ e hp2) h2
    have t := Layer.multiplicative.parse_binary _ c pl p2.advance p3
      (Parser.parseUnary_factor _ _ _ f) (by rw [h3]; rfl) uc (Parser.endsExpr_isOp _ _ hend)
    simp only [Layer.node, h3, decide_True] at t
    exact Parser.parseBool_of_term _ _ _ t hend

theorem Parser.parseFactor_stable :
    ∀ fuel p, Stab (Parser.parseFactor (fuel + 1) p) (Parser.parseFactor fuel p) :=
  fun fuel p => (Parser.stableAt fuel).factor p

/-- Witness of C22 on `a + b * c`, `-a * b` and `(a + b) * c`. -/
theorem precedence_is_encoded_structurally_witness :
    Parser.Parses Parser.parseBool (Parser.new (Lexer.new "a + b * c;".toList))
      (Node.AddNode (Node.IdNode "a") (Node.MulNode (Node.IdNode "b") (Node.IdNode "c") true)
        true)
      (Parser.new (Lexer.new "a + b * c;".toList)).advance.advance.advance.advance.advance ∧
    Parser.Parses Parser.parseBool (Parser.new (Lexer.new "-a * b;".toList))
      (Node.MulNode (Node.UnaryNode (Node.IdNode "a") UnaryOp.NEG) (Node.IdNode "b") true)
      (Parser.new (Lexer.new "-a * b;".toList)).advance.advance.advance.advance ∧
    Parser.Parses Parser.parseBool (Parser.new (Lexer.new "(a + b) * c;".toList))
      (Node.MulNode (Node.AddNode (Node.IdNode "a") (Node.IdNode "b") true) (Node.IdNode "c")
        true)
      (Parser.new (Lexer.new "(a + b) * c;".toList)).advance.advance.advance.advance.advance.advance.advance :=
  ⟨((precedence_is_encoded_structurally
        (Parser.new (Lexer.new "a + b * c;".toList))
        (Parser.new (Lexer.new "a + b * c;".toList)).advance
        (Parser.new (Lexer.new "a + b * c;".toList)).advance.advance.advance
        (Node.IdNode "a") (Node.IdNode "b")
        (Parser.Parses.of_run Parser.parseFactor_stable 1 rfl)
        (Parser.Parses.of_run Parser.parseFactor_stable 1 rfl)).1
      (Parser.new (Lexer.new "a + b * c;".toList)).advance.advance.advance.advance.advance
      (Node.IdNode "c")
      (Parser.Parses.of_run Parser.parseFactor_stable 1 rfl) rfl).1 rfl rfl,
   (precedence_is_encoded_structurally
        (Parser.new (Lexer.new "-a * b;".toList)).advance
        (Parser.new (Lexer.new "-a * b;".toList)).advance.advance
        (Parser.new (Lexer.new "-a * b;".toList)).advance.advance.advance.advance
        (Node.IdNode "a") (Node.IdNode "b")
        (Parser.Parses.of_run Parser.parseFactor_stable 1 rfl)
        (Parser.Parses.of_run Parser.parseFactor_stable 1 rfl)).2.1
      (Parser.new (Lexer.new "-a * b;".toList)) rfl rfl rfl rfl,
   (precedence_is_encoded_structurally
        (Parser.new (Lexer.new "(a + b) * c;".toList)).advance
        (Parser.new (Lexer.new "(a + b) * c;".toList)).advance.advance
        (Parser.new (Lexer.new "(a + b) * c;".toList)).advance.advance.advance.advance
        (Node.IdNode "a") (Node.IdNode "b")
        (Parser.Parses.of_run Parser.parseFactor_stable 1 rfl)
        (Parser.Parses.of_run Parser.parseFactor_stable 1 rfl)).2.2
      (Parser.new (Lexer.new "(a + b) * c;".toList))
      (Parser.new (Lexer.new "(a + b) * c;".toList)).advance.advance.advance.advance.advance.advance.advance
      (Node.IdNode "c") rfl rfl rfl rfl rfl
      (Parser.Parses.of_run Parser.parseFactor_stable 1 rfl) rfl⟩

/-! ## Left-associative layers (C23) -/

/-- C23: each of the five layers `||`, `&&`, `==`/`!=`, `+`/`-` and `*`/`/` is
left-associative. When the method of the next higher layer reads the operand `x0` and after
it stands a chain of operators of the layer, each followed by an operand `x1`, ..., `xn` of
the next higher layer, up to a token that is no operator of the layer, then the method of
the layer returns, with enough fuel, the left-nested tree `((x0 op1 x1) op2 x2) ... opn xn`:
the tree of the empty chain is `x0`, and one more operator with its operand puts the tree so
far to the left of a new node that carries that operator. So `a - b - c` gives
Add(Add(a, b, -), c, -) and `a / b * c` gives Mul(Mul(a, b, /), c, *). -/
theorem binary_layers_are_left_associative (L : Layer) (p0 p1 q : Parser) (x0 : Node)
    (items : List (Token × Node)) (h0 : Parser.Parses L.operand p0 x0 p1)
    (hc : Parser.Chain L p1 items q) :
    Parser.Parses L.parse p0 (L.leftNested x0 items) q ∧
    L.leftNested x0 [] = x0 ∧
    (∀ (front : List (Token × Node)) (t : Token) (x : Node),
      L.leftNested x0 (front ++ [(t, x)]) = L.node (L.leftNested x0 front) x t) ∧
    (∀ a b c : Node, Layer.additive.leftNested a [(Token.MINUS, b), (Token.MINUS, c)]
      = Node.AddNode (Node.AddNode a b false) c false) ∧
    (∀ a b c : Node, Layer.multiplicative.leftNested a [(Token.DIVIDE, b), (Token.MULTIPLY, c)]
      = Node.MulNode (Node.MulNode a b false) c true) ∧
    (∀ a b c : Node, Layer.or.leftNested a [(Token.OR, b), (Token.OR, c)]
      = Node.OrNode (Node.OrNode a b) c) ∧
    (∀ a b c : Node, Layer.and.leftNested a [(Token.AND, b), (Token.AND, c)]
      = Node.AndNode (Node.AndNode a b) c) ∧
    (∀ a b c : Node, Layer.equality.leftNested a [(Token.EQ, b), (Token.NEQ, c)]
      = Node.EqualityNode (Node.EqualityNode a b true) c false) := by
  refine ⟨L.parse_chain x0 p0 p1 q items h0 hc, rfl, ?_, ?_, ?_, ?_, ?_, ?_⟩
  · intro front t x
    simp [Layer.leftNested, List.foldl_append]
  · intro a b c; rfl
  · intro a b c; rfl
  · intro a b c; rfl
  · intro a b c; rfl
  · intro a b c; rfl

theorem Parser.parseUnary_stable :
    ∀ fuel p, Stab (Parser.parseUnary (fuel + 1) p) (Parser.parseUnary fuel p) :=
  fun fuel p => (Parser.stableAt fuel).unary p

theorem Parser.parseTerm_stable :
    ∀ fuel p, Stab (Parser.parseTerm (fuel + 1) p) (Parser.parseTerm fuel p) :=
  fun fuel p => (Parser.stableAt fuel).term p

/-- Witness of C23 on `a - b - c` and `a / b * c`. -/
theorem binary_layers_are_left_associative_witness :
    Parser.Parses Parser.parseExpr (Parser.new (Lexer.new "a - b - c;".toList))
      (Node.AddNode (Node.AddNode (Node.IdNode "a") (Node.IdNode "b") false) (Node.IdNode "c")
        false)
      (Parser.new (Lexer.new "a - b - c;".toList)).advance.advance.advance.advance.advance ∧
    Parser.Parses Parser.parseTerm (Parser.new (Lexer.new "a / b * c;".toList))
      (Node.MulNode (Node.MulNode (Node.IdNode "a") (Node.IdNode "b") false) (Node.IdNode "c")
        true)
      (Parser.new (Lexer.new "a / b * c;".toList)).advance.advance.advance.advance.advance :=
  ⟨(binary_layers_are_left_associative Layer.additive
      (Parser.new (Lexer.new "a - b - c;".toList))
      (Parser.new (Lexer.new "a - b - c;".toList)).advance
      (Parser.new (Lexer.new "a - b - c;".toList)).advance.advance.advance.advance.advance
      (Node.IdNode "a") [(Token.MINUS, Node.IdNode "b"), (Token.MINUS, Node.IdNode "c")]
      (Parser.Parses.of_run Parser.parseTerm_stable 4 rfl)
      (Parser.Chain.cons _ _ _ _ _ rfl
        (Parser.Parses.of_run Parser.parseTerm_stable 4 rfl)
        (Parser.Chain.cons _ _ _ _ _ rfl
          (Parser.Parses.of_run Parser.parseTerm_stable 4 rfl)
          (Parser.Chain.nil _ rfl)))).1,
   (binary_layers_are_left_associative Layer.multiplicative
      (Parser.new (Lexer.new "a / b * c;".toList))
      (Parser.new (Lexer.new "a / b * c;".toList)).advance
      (Parser.new (Lexer.new "a / b * c;".toList)).advance.advance.advance.advance.advance
      (Node.IdNode "a") [(Token.DIVIDE, Node.IdNode "b"), (Token.MULTIPLY, Node.IdNode "c")]
      (Parser.Parses.of_run Parser.parseUnary_stable 4 rfl)
      (Parser.Chain.cons _ _ _ _ _ rfl
        (Parser.Parses.of_run Parser.parseUnary_stable 4 rfl)
        (Parser.Chain.cons _ _ _ _ _ rfl
          (Parser.Parses.of_run Parser.parseUnary_stable 4 rfl)
          (Parser.Chain.nil _ rfl)))).1⟩

/-! ## The scanner consumes the stream -/

theorem Lexer.remaining_of_ne (l : Lexer) (h : l.currentCharacter ≠ Char.ofNat 0) :
    l.remaining = l.input.length + 1 := by
  simp [Lexer.remaining, h]

theorem Lexer.remaining_le (l : Lexer) : l.remaining ≤ l.input.length + 1 := by
  unfold Lexer.remaining
  split_ifs <;> omega

/-- Whatever the current character is, `advance` leaves at most the characters of the
stream. -/
theorem Lexer.advance_remaining_le (l : Lexer) : l.advance.remaining ≤ l.input.length := by
  unfold Lexer.advance
  cases hin : l.input with
  | nil => simp [Lexer.remaining]
  | cons c rest =>
    by_cases hc : c = '\n'
    · simp only [hc, if_true]
      exact (Lexer.remaining_le _).trans (by simp)
    · simp only [hc, if_false]
      exact (Lexer.remaining_le _).trans (by simp)

/-- On a current character that is not the end of the stream, `advance` consumes a
character. -/
theorem Lexer.advance_remaining_lt (l : Lexer) (h : l.currentCharacter ≠ Char.ofNat 0) :
    l.advance.remaining < l.remaining := by
  rw [Lexer.remaining_of_ne l h]
  exact Nat.lt_succ_of_le (Lexer.advance_remaining_le l)

theorem isspace_ne_null (c : Char) (h : isspace c = true) : c ≠ Char.ofNat 0 := by
  intro hc
  rw [hc] at h
  revert h
  decide

theorem isdigit_ne_null (c : Char) (h : isdigit c = true) : c ≠ Char.ofNat 0 := by
  intro hc
  rw [hc] at h
  revert h
  decide

theorem isalnum_ne_null (c : Char) (h : isalnum c = true) : c ≠ Char.ofNat 0 := by
  intro hc
  rw [hc] at h
  revert h
  decide

theorem isalpha_ne_null (c : Char) (h : isalpha c = true) : c ≠ Char.ofNat 0 := by
  intro hc
  rw [hc] at h
  revert h
  decide

theorem Lexer.skipWhitespaceLoop_remaining (n : Nat) :
    ∀ l : Lexer, (Lexer.skipWhitespaceLoop n l).remaining ≤ l.remaining := by
  induction n with
  | zero => intro l; exact le_refl _
  | succ n ih =>
    intro l
    unfold Lexer.skipWhitespaceLoop
    by_cases h : isspace l.currentCharacter = true
    · simp only [h, if_true]
      exact (ih _).trans (Lexer.advance_remaining_lt l (isspace_ne_null _ h)).le
    · simp [h]

theorem Lexer.skipWhitespace_remaining (l : Lexer) :
    l.skipWhitespace.remaining ≤ l.remaining :=
  Lexer.skipWhitespaceLoop_remaining _ l

theorem Lexer.scanNumberLoop_remaining (n : Nat) :
    ∀ l : Lexer, (Lexer.scanNumberLoop n l).remaining ≤ l.remaining := by
  induction n with
  | zero => intro l; exact le_refl _
  | succ n ih =>
    intro l
    unfold Lexer.scanNumberLoop
    by_cases h : isdigit l.currentCharacter = true
    · simp only [h, if_true]
      refine (ih _).trans ?_
      rw [Lexer.remaining_of_ne l (isdigit_ne_null _ h)]
      exact (Lexer.advance_remaining_le _).trans (Nat.le_succ _)
    · simp [h]

theorem Lexer.scanNumberLoop_remaining_lt (n : Nat) (l : Lexer)
    (h : isdigit l.currentCharacter = true) :
    (Lexer.scanNumberLoop (n + 1) l).remaining < l.input.length + 1 := by
  unfold Lexer.scanNumberLoop
  simp only [h, if_true]
  exact Nat.lt_succ_of_le ((Lexer.scanNumberLoop_remaining n _).trans
    (Lexer.advance_remaining_le _))

theorem Lexer.scanIdentifierLoop_remaining (n : Nat) :
    ∀ l : Lexer, (Lexer.scanIdentifierLoop n l).remaining ≤ l.remaining := by
  induction n with
  | zero => intro l; exact le_refl _
  | succ n ih =>
    intro l
    unfold Lexer.scanIdentifierLoop
    by_cases h : isalnum l.currentCharacter = true
    · simp only [h, if_true]
      refine (ih _).trans ?_
      rw [Lexer.remaining_of_ne l (isalnum_ne_null _ h)]
      exact (Lexer.advance_remaining_le _).trans (Nat.le_succ _)
    · simp [h]

theorem Lexer.scanIdentifierLoop_remaining_lt (n : Nat) (l : Lexer)
    (h : isalnum l.currentCharacter = true) :
    (Lexer.scanIdentifierLoop (n + 1) l).remaining < l.input.length + 1 := by
  unfold Lexer.scanIdentifierLoop
  simp only [h, if_true]
  exact Nat.lt_succ_of_le ((Lexer.scanIdentifierLoop_remaining n _).trans
    (Lexer.advance_remaining_le _))

theorem ite_prop {α : Type} (P : α → Prop) (c : Prop) [Decidable c] (a b : α)
    (ha : c → P a) (hb : ¬c → P b) : P (if c then a else b) := by
  by_cases h : c
  · rw [if_pos h]; exact ha h
  · rw [if_neg h]; exact hb h

theorem Token.weight_le_one (t : Token) : t.weight ≤ 1 := by
  unfold Token.weight
  split_ifs <;> omega

theorem Lexer.twoCharacters_remaining (l : Lexer) (second : Char) (both single : Token)
    (h : l.currentCharacter ≠ Char.ofNat 0) :
    (l.twoCharacters second both single).2.remaining + 1 ≤ l.remaining := by
  unfold Lexer.twoCharacters
  have h1 := Lexer.advance_remaining_lt l h
  by_cases hc : l.advance.currentCharacter = second
  · simp only [hc, if_true]
    have h2 := Lexer.advance_remaining_le l.advance
    have h3 := Lexer.advance_remaining_le l
    rw [Lexer.remaining_of_ne l h]
    have h4 : l.advance.input.length ≤ l.input.length := by
      unfold Lexer.advance
      cases hin : l.input with
      | nil => simp
      | cons c rest => by_cases hn : c = '\n' <;> simp [hn]
    omega
  · simp only [hc, if_false]
    omega

/-- The scanner consumes at least one character for every token other than END and
ERROR, and never gives a character back. -/
theorem Lexer.nextToken_remaining (l : Lexer) :
    l.nextToken.2.remaining + l.nextToken.1.weight ≤ l.remaining := by
  have hs := Lexer.skipWhitespace_remaining l
  have hw := Token.weight_le_one
  have single : ∀ t : Token, l.skipWhitespace.currentCharacter ≠ Char.ofNat 0 →
      l.skipWhitespace.advance.remaining + t.weight ≤ l.remaining := by
    intro t hne
    have := Lexer.advance_remaining_lt _ hne
    have := hw t
    omega
  have double : ∀ (second : Char) (both one : Token),
      l.skipWhitespace.currentCharacter ≠ Char.ofNat 0 →
      (l.skipWhitespace.twoCharacters second both one).2.remaining
        + (l.skipWhitespace.twoCharacters second both one).1.weight ≤ l.remaining := by
    intro second both one hne
    have := Lexer.twoCharacters_remaining _ second both one hne
    have := hw (l.skipWhitespace.twoCharacters second both one).1
    omega
  unfold Lexer.nextToken
  lift_lets
  intro l1 c
  have hl1 : l1 = l.skipWhitespace := rfl
  have hc0 : c = l.skipWhitespace.currentCharacter := rfl
  clear_value l1 c
  subst hl1 hc0
  refine ite_prop (fun r : Token × Lexer => r.2.remaining + r.1.weight ≤ l.remaining)
    _ _ _ (fun h => ?_) (fun _ => ?_)
  · have hlt := Lexer.scanNumberLoop_remaining_lt l.skipWhitespace.input.length
      { l.skipWhitespace with numberValue := 0 } h
    have hr := Lexer.remaining_of_ne _ (isdigit_ne_null _ h)
    have := hw Token.NUM
    simp only [Lexer.scanNumber]
    simp only [] at hlt
    omega
  refine ite_prop (fun r : Token × Lexer => r.2.remaining + r.1.weight ≤ l.remaining)
    _ _ _ (fun h => ?_) (fun _ => ?_)
  · have ha : isalnum l.skipWhitespace.currentCharacter = true := by
      simp only [isalnum, isalpha] at *
      simp [h]
    have hlt := Lexer.scanIdentifierLoop_remaining_lt l.skipWhitespace.input.length
      { l.skipWhitespace with identifierValue := "" } ha
    have hr := Lexer.remaining_of_ne _ (isalpha_ne_null _ h)
    simp only [] at hlt
    simp only [Lexer.scanIdentifierOrKeyword]
    split
    · have := hw ‹Token›
      simp only []
      omega
    · have := hw Token.ID
      simp only []
      omega
  refine ite_prop (fun r : Token × Lexer => r.2.remaining + r.1.weight ≤ l.remaining)
    _ _ _ (fun h => ?_) (fun _ => ?_)
  · exact single _ (by rw [h]; decide)
  refine ite_prop (fun r : Token × Lexer => r.2.remaining + r.1.weight ≤ l.remaining)
    _ _ _ (fun h => ?_) (fun _ => ?_)
  · exact single _ (by rw [h]; decide)
  refine ite_prop (fun r : Token × Lexer => r.2.remaining + r.1.weight ≤ l.remaining)
    _ _ _ (fun h => ?_) (fun _ => ?_)
  · exact single _ (by rw [h]; decide)
  refine ite_prop (fun r : Token × Lexer => r.2.remaining + r.1.weight ≤ l.remaining)
    _ _ _ (fun h => ?_) (fun _ => ?_)
  · exact single _ (by rw [h]; decide)
  refine ite_prop (fun r : Token × Lexer => r.2.remaining + r.1.weight ≤ l.remaining)
    _ _ _ (fun h => ?_) (fun _ => ?_)
  · exact double _ _ _ (by rw [h]; decide)
  refine ite_prop (fun r : Token × Lexer => r.2.remaining + r.1.weight ≤ l.remaining)
    _ _ _ (fun h => ?_) (fun _ => ?_)
  · exact double _ _ _ (by rw [h]; decide)
  refine ite_prop (fun r : Token × Lexer => r.2.remaining + r.1.weight ≤ l.remaining)
    _ _ _ (fun h => ?_) (fun _ => ?_)
  · exact double _ _ _ (by rw [h]; decide)
  refine ite_prop (fun r : Token × Lexer => r.2.remaining + r.1.weight ≤ l.remaining)
    _ _ _ (fun h => ?_) (fun _ => ?_)
  · exact double _ _ _ (by rw [h]; decide)
  refine ite_prop (fun r : Token × Lexer => r.2.remaining + r.1.weight ≤ l.remaining)
    _ _ _ (fun h => ?_) (fun _ => ?_)
  · exact double _ _ _ (by rw [h]; decide)
  refine ite_prop (fun r : Token × Lexer => r.2.remaining + r.1.weight ≤ l.remaining)
    _ _ _ (fun h => ?_) (fun _ => ?_)
  · exact double _ _ _ (by rw [h]; decide)
  refine ite_prop (fun r : Token × Lexer => r.2.remaining + r.1.weight ≤ l.remaining)
    _ _ _ (fun h => ?_) (fun _ => ?_)
  · exact single _ (by rw [h]; decide)
  refine ite_prop (fun r : Token × Lexer => r.2.remaining + r.1.weight ≤ l.remaining)
    _ _ _ (fun h => ?_) (fun _ => ?_)
  · exact single _ (by rw [h]; decide)
  refine ite_prop (fun r : Token × Lexer => r.2.remaining + r.1.weight ≤ l.remaining)
    _ _ _ (fun h => ?_) (fun _ => ?_)
  · exact single _ (by rw [h]; decide)
  refine ite_prop (fun r : Token × Lexer => r.2.remaining + r.1.weight ≤ l.remaining)
    _ _ _ (fun h => ?_) (fun _ => ?_)
  · exact single _ (by rw [h]; decide)
  refine ite_prop (fun r : Token × Lexer => r.2.remaining + r.1.weight ≤ l.remaining)
    _ _ _ (fun h => ?_) (fun _ => ?_)
  · exact single _ (by rw [h]; decide)
  refine ite_prop (fun r : Token × Lexer => r.2.remaining + r.1.weight ≤ l.remaining)
    _ _ _ (fun h => ?_) (fun _ => ?_)
  · exact single _ (by rw [h]; decide)
  refine ite_prop (fun r : Token × Lexer => r.2.remaining + r.1.weight ≤ l.remaining)
    _ _ _ (fun h => ?_) (fun _ => ?_)
  · exact single _ (by rw [h]; decide)
  refine ite_prop (fun r : Token × Lexer => r.2.remaining + r.1.weight ≤ l.remaining)
    _ _ _ (fun _ => ?_) (fun _ => ?_)
  · simpa [Token.weight] using hs
  · simpa [Token.weight] using hs

/-- A matched token that is neither END nor ERROR makes the measure of the parser
smaller. -/
theorem Parser.measure_advance (p : Parser) (h1 : p.currentToken ≠ Token.END)
    (h2 : p.currentToken ≠ Token.ERROR) : p.advance.measure < p.measure := by
  have h := Lexer.nextToken_remaining p.lexer
  have hw : p.currentToken.weight = 1 := by simp [Token.weight, h1, h2]
  simp only [Parser.measure, Parser.advance, hw]
  omega

/-! ## The parser ends -/

theorem Parser.Total.pure_total {α : Type} {R : α → Prop} {a : α} (h : R a) :
    Parser.Total R (Pure.pure a) := by
  constructor
  · intro r hr
    cases hr
    exact h
  · intro e he
    cases he

theorem Parser.Total.throw_total {α : Type} {R : α → Prop} {e : Error} (h : e.isSyntax = true) :
    Parser.Total R (throw e : Except Error α) := by
  constructor
  · intro r hr
    cases hr
  · intro e1 he
    cases he
    exact h

theorem Parser.Total.bind_total {α β : Type} {R : β → Prop} {x : Except Error α}
    {f : α → Except Error β} (h : Parser.Total (fun a => Parser.Total R (f a)) x) :
    Parser.Total R (x >>= f) := by
  cases x with
  | error e =>
    constructor
    · intro r hr
      cases hr
    · intro e1 he
      cases he
      exact h.err e rfl
  | ok a => exact h.ok a rfl

theorem Parser.Total.ite_total {α : Type} {R : α → Prop} {c : Prop} [Decidable c]
    {a b : Except Error α} (ha : c → Parser.Total R a) (hb : ¬c → Parser.Total R b) :
    Parser.Total R (if c then a else b) := by
  by_cases hc : c
  · rw [if_pos hc]; exact ha hc
  · rw [if_neg hc]; exact hb hc

/-- The method `match` on an expected token that is neither END nor ERROR: it moves to a
state of smaller measure or throws a syntax error. -/
theorem Parser.Total.matchToken_total (p0 p : Parser) (t : Token) (R : Parser → Prop)
    (hr : Parser.Reach p0 p) (ht : t ≠ Token.END ∧ t ≠ Token.ERROR)
    (hk : Parser.Reach p0 p.advance → p.advance.measure < p.measure → R p.advance) :
    Parser.Total R (p.matchToken t) := by
  unfold Parser.matchToken
  apply Parser.Total.ite_total
  · intro h
    apply Parser.Total.pure_total
    have h1 : p.currentToken ≠ Token.END := by rw [h]; exact ht.1
    have h2 : p.currentToken ≠ Token.ERROR := by rw [h]; exact ht.2
    exact hk (Parser.Reach.step p hr h1 h2) (Parser.measure_advance p h1 h2)
  · intro _
    exact Parser.Total.throw_total rfl

theorem Parser.relOp_good (t : Token) (op : RelOp) (h : Parser.relOp t = some op) :
    t ≠ Token.END ∧ t ≠ Token.ERROR := by
  revert h
  cases t <;> simp [Parser.relOp]

/-- The method `parseBasic` matches one token. -/
theorem Parser.parseBasic_total (p0 p : Parser) (R : Node × Parser → Prop)
    (hr : Parser.Reach p0 p)
    (hR : ∀ n q, Parser.Reach p0 q → q.measure < p.measure → R (n, q)) :
    Parser.Total R (Parser.parseBasic p) := by
  unfold Parser.parseBasic
  repeat' (first
    | with_reducible apply Parser.Total.bind_total
    | (with_reducible refine Parser.Total.matchToken_total _ _ _ _ (by assumption)
                          (by decide) ?_
       intro hr1 hm1
       try dsimp only)
    | with_reducible apply Parser.Total.pure_total
    | exact hR _ _ (by assumption) (by omega)
    | (with_reducible apply Parser.Total.throw_total
       rfl)
    | (with_reducible apply Parser.Total.ite_total <;> intro hg))

/-- The method `parseType` matches at least one token. -/
theorem Parser.parseType_total (p0 p : Parser) (R : Node × Parser → Prop)
    (hr : Parser.Reach p0 p)
    (hR : ∀ n q, Parser.Reach p0 q → q.measure < p.measure → R (n, q)) :
    Parser.Total R (Parser.parseType p) := by
  unfold Parser.parseType
  repeat' (first
    | with_reducible apply Parser.Total.bind_total
    | (with_reducible refine Parser.Total.matchToken_total _ _ _ _ (by assumption)
                          (by decide) ?_
       intro hr1 hm1
       try dsimp only)
    | (with_reducible refine Parser.parseBasic_total _ _ _ (by assumption) ?_
       intro n1 q1 hr1 hm1
       try dsimp only)
    | with_reducible apply Parser.Total.pure_total
    | exact hR _ _ (by assumption) (by omega)
    | (with_reducible apply Parser.Total.throw_total
       rfl)
    | (with_reducible apply Parser.Total.ite_total <;> intro hg))

/-- The method `parseDecl` matches at least one token. -/
theorem Parser.parseDecl_total (p0 p : Parser) (R : Node × Parser → Prop)
    (hr : Parser.Reach p0 p)
    (hR : ∀ n q, Parser.Reach p0 q → q.measure < p.measure → R (n, q)) :
    Parser.Total R (Parser.parseDecl p) := by
  unfold Parser.parseDecl
  repeat' (first
    | with_reducible apply Parser.Total.bind_total
    | (with_reducible refine Parser.Total.matchToken_total _ _ _ _ (by assumption)
                          (by decide) ?_
       intro hr1 hm1
       try dsimp only)
    | (with_reducible refine Parser.parseType_total _ _ _ (by assumption) ?_
       intro n1 q1 hr1 hm1
       try dsimp only)
    | with_reducible apply Parser.Total.pure_total
    | exact hR _ _ (by assumption) (by omega)
    | (with_reducible apply Parser.Total.throw_total
       rfl)
    | (with_reducible apply Parser.Total.ite_total <;> intro hg))

/-- The method `parseDecls` ends as soon as the fuel covers the measure of the state. -/
theorem Parser.parseDecls_total : ∀ (fuel : Nat) (p0 p : Parser) (R : Node × Parser → Prop),
    Parser.Reach p0 p → p.measure + 1 ≤ fuel →
    (∀ n q, Parser.Reach p0 q → q.measure ≤ p.measure → R (n, q)) →
    Parser.Total R (Parser.parseDecls fuel p) := by
  intro fuel
  induction fuel with
  | zero => intros; omega
  | succ fuel ih =>
    intro p0 p R hr hb hR
    rw [Parser.parseDecls.eq_2]
    repeat' (first
      | with_reducible apply Parser.Total.bind_total
      | (with_reducible refine Parser.Total.matchToken_total _ _ _ _ (by assumption)
                            (by decide) ?_
         intro hr1 hm1
         try dsimp only)
      | (with_reducible refine Parser.parseDecl_total _ _ _ (by assumption) ?_
         intro n1 q1 hr1 hm1
         try dsimp only)
      | (with_reducible refine ih _ _ _ (by assumption) (by omega) ?_
         intro n1 q1 hr1 hm1
         try dsimp only)
      | with_reducible apply Parser.Total.pure_total
      | exact hR _ _ (by assumption) (by omega)
      | (with_reducible apply Parser.Total.throw_total
         rfl)
      | (with_reducible apply Parser.Total.ite_total <;> intro hg))

set_option maxHeartbeats 1000000 in
/-- Every function of the parser ends, with a syntax error or in a state reached by matching
tokens, as soon as the fuel covers the measure of the state it starts in. -/
theorem Parser.totalAt : ∀ fuel, Parser.TotalAt fuel := by
  intro fuel
  induction fuel with
  | zero =>
    constructor <;> intros <;> omega
  | succ fuel ih =>
    constructor
    case block =>
      intro p0 p R hr hb hR
      rw [Parser.parseBlock.eq_2]
      repeat' (first
        | with_reducible apply Parser.Total.bind_total
        | (with_reducible refine Parser.Total.matchToken_total _ _ _ _ (by assumption)
                              (by first
                                | decide
                                | exact Parser.relOp_good _ _ (by assumption)
                                | (rcases hg with hg | hg <;> rw [hg] <;> decide)) ?_
           intro hr1 hm1
           try dsimp only)
        | (with_reducible refine Parser.parseDecls_total _ _ _ _ (by assumption) (by omega) ?_
           intro n1 q1 hr1 hm1
           try dsimp only)
        | (with_reducible refine ih.stmts _ _ _ (by assumption) (by omega) ?_
           intro n1 q1 hr1 hm1
           try dsimp only)
        | with_reducible apply Parser.Total.pure_total
        | exact hR _ _ (by assumption) (by omega)
        | (with_reducible apply Parser.Total.throw_total
           rfl)
        | (with_reducible apply Parser.Total.ite_total <;> intro hg))
    case stmts =>
      intro p0 p R hr hb hR
      rw [Parser.parseStmts.eq_2]
      repeat' (first
        | with_reducible apply Parser.Total.bind_total
        | (with_reducible refine Parser.Total.matchToken_total _ _ _ _ (by assumption)
                              (by first
                                | decide
                                | exact Parser.relOp_good _ _ (by assumption)
                                | (rcases hg with hg | hg <;> rw [hg] <;> decide)) ?_
           intro hr1 hm1
           try dsimp only)
        | (with_reducible refine ih.stmt _ _ _ (by assumption) (by omega) ?_
           intro n1 q1 hr1 hm1
           try dsimp only)
        | (with_reducible refine ih.stmts _ _ _ (by assumption) (by omega) ?_
           intro n1 q1 hr1 hm1
           try dsimp only)
        | with_reducible apply Parser.Total.pure_total
        | exact hR _ _ (by assumption) (by omega)
        | (with_reducible apply Parser.Total.throw_total
           rfl)
        | (with_reducible apply Parser.Total.ite_total <;> intro hg))
    case stmt =>
      intro p0 p R hr hb hR
      rw [Parser.parseStmt.eq_2]
      repeat' (first
        | with_reducible apply Parser.Total.bind_total
        | (with_reducible refine Parser.Total.matchToken_total _ _ _ _ (by assumption)
                              (by first
                                | decide
                                | exact Parser.relOp_good _ _ (by assumption)
                                | (rcases hg with hg | hg <;> rw [hg] <;> decide)) ?_
           intro hr1 hm1
           try dsimp only)
        | (with_reducible refine ih.loc _ _ _ (by assumption) (by omega) ?_
           intro n1 q1 hr1 hm1
           try dsimp only)
        | (with_reducible refine ih.bool _ _ _ (by assumption) (by omega) ?_
           intro n1 q1 hr1 hm1
           try dsimp only)
        | (with_reducible refine ih.stmt _ _ _ (by assumption) (by omega) ?_
           intro n1 q1 hr1 hm1
           try dsimp only)
        | (with_reducible refine ih.block _ _ _ (by assumption) (by omega) ?_
           intro n1 q1 hr1 hm1
           try dsimp only)
        | with_reducible apply Parser.Total.pure_total
        | exact hR _ _ (by assumption) (by omega)
        | (with_reducible apply Parser.Total.throw_total
           rfl)
        | (with_reducible apply Parser.Total.ite_total <;> intro hg)
        | split)
    case loc =>
      intro p0 p R hr hb hR
      rw [Parser.parseLoc.eq_2]
      repeat' (first
        | with_reducible apply Parser.Total.bind_total
        | (with_reducible refine Parser.Total.matchToken_total _ _ _ _ (by assumption)
                              (by first
                                | decide
                                | exact Parser.relOp_good _ _ (by assumption)
                                | (rcases hg with hg | hg <;> rw [hg] <;> decide)) ?_
           intro hr1 hm1
           try dsimp only)
        | (with_reducible refine ih.bool _ _ _ (by assumption) (by omega) ?_
           intro n1 q1 hr1 hm1
           try dsimp only)
        | with_reducible apply Parser.Total.pure_total
        | exact hR _ _ (by assumption) (by omega)
        | (with_reducible apply Parser.Total.throw_total
           rfl)
        | (with_reducible apply Parser.Total.ite_total <;> intro hg))
    case bool =>
      intro p0 p R hr hb hR
      rw [Parser.parseBool.eq_2]
      repeat' (first
        | with_reducible apply Parser.Total.bind_total
        | (with_reducible refine Parser.Total.matchToken_total _ _ _ _ (by assumption)
                              (by first
                                | decide
                                | exact Parser.relOp_good _ _ (by assumption)
                                | (rcases hg with hg | hg <;> rw [hg] <;> decide)) ?_
           intro hr1 hm1
           try dsimp only)
        | (with_reducible refine ih.join _ _ _ (by assumption) (by omega) ?_
           intro n1 q1 hr1 hm1
           try dsimp only)
        | (with_reducible refine ih.boolLoop _ _ _ _ (by assumption) (by omega) ?_
           intro n1 q1 hr1 hm1
           try dsimp only)
        | with_reducible apply Parser.Total.pure_total
        | exact hR _ _ (by assumption) (by omega)
        | (with_reducible apply Parser.Total.throw_total
           rfl)
        | (with_reducible apply Parser.Total.ite_total <;> intro hg))
    case boolLoop =>
      intro p0 left p R hr hb hR
      rw [Parser.parseBoolLoop.eq_2]
      repeat' (first
        | with_reducible apply Parser.Total.bind_total
        | (with_reducible refine Parser.Total.matchToken_total _ _ _ _ (by assumption)
                              (by first
                                | decide
                                | exact Parser.relOp_good _ _ (by assumption)
                                | (rcases hg with hg | hg <;> rw [hg] <;> decide)) ?_
           intro hr1 hm1
           try dsimp only)
        | (with_reducible refine ih.join _ _ _ (by assumption) (by omega) ?_
           intro n1 q1 hr1 hm1
           try dsimp only)
        | (with_reducible refine ih.boolLoop _ _ _ _ (by assumption) (by omega) ?_
           intro n1 q1 hr1 hm1
           try dsimp only)
        | with_reducible apply Parser.Total.pure_total
        | exact hR _ _ (by assumption) (by omega)
        | (with_reducible apply Parser.Total.throw_total
           rfl)
        | (with_reducible apply Parser.Total.ite_total <;> intro hg))
    case join =>
      intro p0 p R hr hb hR
      rw [Parser.parseJoin.eq_2]
      repeat' (first
        | with_reducible apply Parser.Total.bind_total
        | (with_reducible refine Parser.Total.matchToken_total _ _ _ _ (by assumption)
                              (by first
                                | decide
                                | exact Parser.relOp_good _ _ (by assumption)
                                | (rcases hg with hg | hg <;> rw [hg] <;> decide)) ?_
           intro hr1 hm1
           try dsimp only)
        | (with_reducible refine ih.equality _ _ _ (by assumption) (by omega) ?_
           intro n1 q1 hr1 hm1
           try dsimp only)
        | (with_reducible refine ih.joinLoop _ _ _ _ (by assumption) (by omega) ?_
           intro n1 q1 hr1 hm1
           try dsimp only)
        | with_reducible apply Parser.Total.pure_total
        | exact hR _ _ (by assumption) (by omega)
        | (with_reducible apply Parser.Total.throw_total
           rfl)
        | (with_reducible apply Parser.Total.ite_total <;> intro hg))
    case joinLoop =>
      intro p0 left p R hr hb hR
      rw [Parser.parseJoinLoop.eq_2]
      repeat' (first
        | with_reducible apply Parser.Total.bind_total
        | (with_reducible refine Parser.Total.matchToken_total _ _ _ _ (by assumption)
                              (by first
                                | decide
                                | exact Parser.relOp_good _ _ (by assumption)
                                | (rcases hg with hg | hg <;> rw [hg] <;> decide)) ?_
           intro hr1 hm1
           try dsimp only)
        | (with_reducible refine ih.equality _ _ _ (by assumption) (by omega) ?_
           intro n1 q1 hr1 hm1
           try dsimp only)
        | (with_reducible refine ih.joinLoop _ _ _ _ (by assumption) (by omega) ?_
           intro n1 q1 hr1 hm1
           try dsimp only)
        | with_reducible apply Parser.Total.pure_total
        | exact hR _ _ (by assumption) (by omega)
        | (with_reducible apply Parser.Total.throw_total
           rfl)
        | (with_reducible apply Parser.Total.ite_total <;> intro hg))
    case equality =>
      intro p0 p R hr hb hR
      rw [Parser.parseEquality.eq_2]
      repeat' (first
        | with_reducible apply Parser.Total.bind_total
        | (with_reducible refine Parser.Total.matchToken_total _ _ _ _ (by assumption)
                              (by first
                                | decide
                                | exact Parser.relOp_good _ _ (by assumption)
                                | (rcases hg with hg | hg <;> rw [hg] <;> decide)) ?_
           intro hr1 hm1
           try dsimp only)
        | (with_reducible refine ih.rel _ _ _ (by assumption) (by omega) ?_
           intro n1 q1 hr1 hm1
           try dsimp only)
        | (with_reducible refine ih.equalityLoop _ _ _ _ (by assumption) (by omega) ?_
           intro n1 q1 hr1 hm1
           try dsimp only)
        | with_reducible apply Parser.Total.pure_total
        | exact hR _ _ (by assumption) (by omega)
        | (with_reducible apply Parser.Total.throw_total
           rfl)
        | (with_reducible apply Parser.Total.ite_total <;> intro hg))
    case equalityLoop =>
      intro p0 left p R hr hb hR
      rw [Parser.parseEqualityLoop.eq_2]
      repeat' (first
        | with_reducible apply Parser.Total.bind_total
        | (with_reducible refine Parser.Total.matchToken_total _ _ _ _ (by assumption)
                              (by first
                                | decide
                                | exact Parser.relOp_good _ _ (by assumption)
                                | (rcases hg with hg | hg <;> rw [hg] <;> decide)) ?_
           intro hr1 hm1
           try dsimp only)
        | (with_reducible refine ih.rel _ _ _ (by assumption) (by omega) ?_
           intro n1 q1 hr1 hm1
           try dsimp only)
        | (with_reducible refine ih.equalityLoop _ _ _ _ (by assumption) (by omega) ?_
           intro n1 q1 hr1 hm1
           try dsimp only)
        | with_reducible apply Parser.Total.pure_total
        | exact hR _ _ (by assumption) (by omega)
        | (with_reducible apply Parser.Total.throw_total
           rfl)
        | (with_reducible apply Parser.Total.ite_total <;> intro hg))
    case rel =>
      intro p0 p R hr hb hR
      rw [Parser.parseRel.eq_2]
      repeat' (first
        | with_reducible apply Parser.Total.bind_total
        | (with_reducible refine Parser.Total.matchToken_total _ _ _ _ (by assumption)
                              (by first
                                | decide
                                | exact Parser.relOp_good _ _ (by assumption)
                                | (rcases hg with hg | hg <;> rw [hg] <;> decide)) ?_
           intro hr1 hm1
           try dsimp only)
        | (with_reducible refine ih.expr _ _ _ (by assumption) (by omega) ?_
           intro n1 q1 hr1 hm1
           try dsimp only)
        | with_reducible apply Parser.Total.pure_total
        | exact hR _ _ (by assumption) (by omega)
        | (with_reducible apply Parser.Total.throw_total
           rfl)
        | (with_reducible apply Parser.Total.ite_total <;> intro hg)
        | split)
    case expr =>
      intro p0 p R hr hb hR
      rw [Parser.parseExpr.eq_2]
      repeat' (first
        | with_reducible apply Parser.Total.bind_total
        | (with_reducible refine Parser.Total.matchToken_total _ _ _ _ (by assumption)
                              (by first
                                | decide
                                | exact Parser.relOp_good _ _ (by assumption)
                                | (rcases hg with hg | hg <;> rw [hg] <;> decide)) ?_
           intro hr1 hm1
           try dsimp only)
        | (with_reducible refine ih.term _ _ _ (by assumption) (by omega) ?_
           intro n1 q1 hr1 hm1
           try dsimp only)
        | (with_reducible refine ih.exprLoop _ _ _ _ (by assumption) (by omega) ?_
           intro n1 q1 hr1 hm1
           try dsimp only)
        | with_reducible apply Parser.Total.pure_total
        | exact hR _ _ (by assumption) (by omega)
        | (with_reducible apply Parser.Total.throw_total
           rfl)
        | (with_reducible apply Parser.Total.ite_total <;> intro hg))
    case exprLoop =>
      intro p0 left p R hr hb hR
      rw [Parser.parseExprLoop.eq_2]
      repeat' (first
        | with_reducible apply Parser.Total.bind_total
        | (with_reducible refine Parser.Total.matchToken_total _ _ _ _ (by assumption)
                              (by first
                                | decide
                                | exact Parser.relOp_good _ _ (by assumption)
                                | (rcases hg with hg | hg <;> rw [hg] <;> decide)) ?_
           intro hr1 hm1
           try dsimp only)
        | (with_reducible refine ih.term _ _ _ (by assumption) (by omega) ?_
           intro n1 q1 hr1 hm1
           try dsimp only)
        | (with_reducible refine ih.exprLoop _ _ _ _ (by assumption) (by omega) ?_
           intro n1 q1 hr1 hm1
           try dsimp only)
        | with_reducible apply Parser.Total.pure_total
        | exact hR _ _ (by assumption) (by omega)
        | (with_reducible apply Parser.Total.throw_total
           rfl)
        | (with_reducible apply Parser.Total.ite_total <;> intro hg))
    case term =>
      intro p0 p R hr hb hR
      rw [Parser.parseTerm.eq_2]
      repeat' (first
        | with_reducible apply Parser.Total.bind_total
        | (with_reducible refine Parser.Total.matchToken_total _ _ _ _ (by assumption)
                              (by first
                                | decide
                                | exact Parser.relOp_good _ _ (by assumption)
                                | (rcases hg with hg | hg <;> rw [hg] <;> decide)) ?_
           intro hr1 hm1
           try dsimp only)
        | (with_reducible refine ih.unary _ _ _ (by assumption) (by omega) ?_
           intro n1 q1 hr1 hm1
           try dsimp only)
        | (with_reducible refine ih.termLoop _ _ _ _ (by assumption) (by omega) ?_
           intro n1 q1 hr1 hm1
           try dsimp only)
        | with_reducible apply Parser.Total.pure_total
        | exact hR _ _ (by assumption) (by omega)
        | (with_reducible apply Parser.Total.throw_total
           rfl)
        | (with_reducible apply Parser.Total.ite_total <;> intro hg))
    case termLoop =>
      intro p0 left p R hr hb hR
      rw [Parser.parseTermLoop.eq_2]
      repeat' (first
        | with_reducible apply Parser.Total.bind_total
        | (with_reducible refine Parser.Total.matchToken_total _ _ _ _ (by assumption)
                              (by first
                                | decide
                                | exact Parser.relOp_good _ _ (by assumption)
                                | (rcases hg with hg | hg <;> rw [hg] <;> decide)) ?_
           intro hr1 hm1
           try dsimp only)
        | (with_reducible refine ih.unary _ _ _ (by assumption) (by omega) ?_
           intro n1 q1 hr1 hm1
           try dsimp only)
        | (with_reducible refine ih.termLoop _ _ _ _ (by assumption) (by omega) ?_
           intro n1 q1 hr1 hm1
           try dsimp only)
        | with_reducible apply Parser.Total.pure_total
        | exact hR _ _ (by assumption) (by omega)
        | (with_reducible apply Parser.Total.throw_total
           rfl)
        | (with_reducible apply Parser.Total.ite_total <;> intro hg))
    case unary =>
      intro p0 p R hr hb hR
      rw [Parser.parseUnary.eq_2]
      repeat' (first
        | with_reducible apply Parser.Total.bind_total
        | (with_reducible refine Parser.Total.matchToken_total _ _ _ _ (by assumption)
                              (by first
                                | decide
                                | exact Parser.relOp_good _ _ (by assumption)
                                | (rcases hg with hg | hg <;> rw [hg] <;> decide)) ?_
           intro hr1 hm1
           try dsimp only)
        | (with_reducible refine ih.unary _ _ _ (by assumption) (by omega) ?_
           intro n1 q1 hr1 hm1
           try dsimp only)
        | (with_reducible refine ih.factor _ _ _ (by assumption) (by omega) ?_
           intro n1 q1 hr1 hm1
           try dsimp only)
        | with_reducible apply Parser.Total.pure_total
        | exact hR _ _ (by assumption) (by omega)
        | (with_reducible apply Parser.Total.throw_total
           rfl)
        | (with_reducible apply Parser.Total.ite_total <;> intro hg))
    case factor =>
      intro p0 p R hr hb hR
      rw [Parser.parseFactor.eq_2]
      repeat' (first
        | with_reducible apply Parser.Total.bind_total
        | (with_reducible refine Parser.Total.matchToken_total _ _ _ _ (by assumption)
                              (by first
                                | decide
                                | exact Parser.relOp_good _ _ (by assumption)
                                | (rcases hg with hg | hg <;> rw [hg] <;> decide)) ?_
           intro hr1 hm1
           try dsimp only)
        | (with_reducible refine ih.bool _ _ _ (by assumption) (by omega) ?_
           intro n1 q1 hr1 hm1
           try dsimp only)
        | with_reducible apply Parser.Total.pure_total
        | exact hR _ _ (by assumption) (by omega)
        | (with_reducible apply Parser.Total.throw_total
           rfl)
        | (with_reducible apply Parser.Total.ite_total <;> intro hg)
        | split)

/-! ## The token ERROR (C21) -/

/-- A result other than the exhaustion of the fuel stays the result with any more fuel. -/
theorem Stab.mono_of_ne {α : Type} (f : Nat → Except Error α)
    (h : ∀ n, Stab (f (n + 1)) (f n)) (n : Nat)
    (hr : f n ≠ Except.error Error.outOfFuel) : ∀ m, n ≤ m → f m = f n := by
  intro m hm
  induction m, hm using Nat.le_induction with
  | base => rfl
  | succ m _ ih =>
    have := (h m).out (by rw [ih]; exact hr)
    rw [this, ih]

theorem Parser.parseProgram_stable :
    ∀ fuel p, Stab (Parser.parseProgram (fuel + 1) p) (Parser.parseProgram fuel p) := by
  intro fuel p
  unfold Parser.parseProgram
  exact Stab.bind ((Parser.stableAt fuel).block p) (fun _ => Stab.refl _)

/-- The states reached by matching tokens are the states after some number of tokens, none
of which is END or ERROR. -/
theorem Parser.Reach.iterate {p0 q : Parser} (h : Parser.Reach p0 q) :
    ∃ m, q = Parser.advance^[m] p0 ∧
      ∀ j, j < m → (Parser.advance^[j] p0).currentToken ≠ Token.END ∧
        (Parser.advance^[j] p0).currentToken ≠ Token.ERROR := by
  induction h with
  | refl => exact ⟨0, rfl, fun j hj => absurd hj (Nat.not_lt_zero j)⟩
  | step q _ h1 h2 ih =>
    obtain ⟨m, hq, hall⟩ := ih
    refine ⟨m + 1, ?_, ?_⟩
    · rw [Function.iterate_succ_apply', ← hq]
    · intro j hj
      by_cases hjm : j < m
      · exact hall j hjm
      · have : j = m := by omega
        subst this
        rw [← hq]
        exact ⟨h1, h2⟩

/-- With fuel that covers the measure of the first state, `parseProgram` ends with a
syntax error or in a state reached by matching tokens. -/
theorem Parser.parseProgram_total (fuel : Nat) (p0 : Parser)
    (hb : 12 * p0.measure + 10 ≤ fuel) :
    Parser.Total (fun r => Parser.Reach p0 r.2) (Parser.parseProgram fuel p0) := by
  unfold Parser.parseProgram
  apply Parser.Total.bind_total
  refine (Parser.totalAt fuel).block p0 p0 _ Parser.Reach.refl (by omega) ?_
  intro n q hr _
  exact Parser.Total.pure_total hr

/-- A tree that `parseProgram` returns, with whatever fuel, was built by matching tokens
none of which is END or ERROR. -/
theorem Parser.parseProgram_reach (fuel : Nat) (p0 q : Parser) (ast : Node)
    (h : Parser.parseProgram fuel p0 = Except.ok (ast, q)) : Parser.Reach p0 q := by
  have h1 := Stab.mono (fun k => Parser.parseProgram k p0)
    (fun k => Parser.parseProgram_stable k p0) h (fuel + (12 * p0.measure + 10)) (by omega)
  exact (Parser.parseProgram_total _ p0 (by omega)).ok _ h1

/-- When `parseProgram` fails with some fuel for a reason other than the fuel, it returns a
tree with no fuel. -/
theorem Parser.parseProgram_no_tree (n : Nat) (p : Parser) (e : Error)
    (h : Parser.parseProgram n p = Except.error e) (he : e ≠ Error.outOfFuel) :
    ∀ fuel r, Parser.parseProgram fuel p ≠ Except.ok r := by
  intro fuel r hr
  have h1 := Stab.mono (fun k => Parser.parseProgram k p)
    (fun k => Parser.parseProgram_stable k p) hr (fuel + n) (by omega)
  have h2 := Stab.mono_of_ne (fun k => Parser.parseProgram k p)
    (fun k => Parser.parseProgram_stable k p) n
    (by simp only [h]; intro hc; cases hc; exact he rfl) (fuel + n) (by omega)
  simp only [h1, h] at h2
  cases h2

theorem runSource_of_parse_error (fuel : Nat) (source : String) (e : Error)
    (h : Parser.parseProgram fuel (Parser.tokenState source 0) = Except.error e) :
    Parser.parse fuel (Parser.tokenState source 0) = Except.error e ∧
    runSource fuel source = { cout := [], cerr := some e } := by
  have hp : Parser.parse fuel (Parser.new (Lexer.new source.toList)) = Except.error e := by
    have h' : Parser.parseProgram fuel (Parser.new (Lexer.new source.toList))
        = Except.error e := h
    unfold Parser.parse
    rw [h']
    rfl
  refine ⟨hp, ?_⟩
  unfold runSource
  rw [hp]

/-- C21: no rule of the grammar accepts the token ERROR. Take a source text whose token
number `k` is ERROR, such that the parser has not matched the closing brace of the
top-level block before that token: a run of `parseProgram` that returns a tree would end
more than `k` tokens into the text. Then there is an amount of fuel from which on `parse`
fails with one and the same syntax error and the run prints nothing and reports that
error; with any fuel at all `parse` returns no tree and nothing is executed. Without any
assumption, a tree that `parseProgram` returns ends after some number `m` of tokens of the
text, none of which is ERROR. -/
theorem error_token_is_never_accepted (source : String) (k : Nat)
    (hk : (Parser.tokenState source k).currentToken = Token.ERROR)
    (hbefore : ∀ fuel ast m, Parser.parseProgram fuel (Parser.tokenState source 0)
      = Except.ok (ast, Parser.tokenState source m) → k < m) :
    (∃ fuel0 e, e.isSyntax = true ∧ ∀ fuel, fuel0 ≤ fuel →
      Parser.parse fuel (Parser.tokenState source 0) = Except.error e ∧
      runSource fuel source = { cout := [], cerr := some e }) ∧
    (∀ fuel, ∃ e, Parser.parse fuel (Parser.tokenState source 0) = Except.error e ∧
      runSource fuel source = { cout := [], cerr := some e }) ∧
    (∀ fuel ast q, Parser.parseProgram fuel (Parser.tokenState source 0) = Except.ok (ast, q) →
      ∃ m, q = Parser.tokenState source m ∧
        ∀ j, j < m → (Parser.tokenState source j).currentToken ≠ Token.ERROR) := by
  have hA : ∀ fuel ast q,
      Parser.parseProgram fuel (Parser.tokenState source 0) = Except.ok (ast, q) →
      ∃ m, q = Parser.tokenState source m ∧
        ∀ j, j < m → (Parser.tokenState source j).currentToken ≠ Token.ERROR := by
    intro fuel ast q h
    obtain ⟨m, hq, hall⟩ := (Parser.parseProgram_reach fuel _ q ast h).iterate
    exact ⟨m, hq, fun j hj => (hall j hj).2⟩
  have hno : ∀ fuel r, Parser.parseProgram fuel (Parser.tokenState source 0) ≠ Except.ok r := by
    intro fuel r h
    obtain ⟨ast, q⟩ := r
    obtain ⟨m, hq, hall⟩ := hA fuel ast q h
    subst hq
    exact hall k (hbefore fuel ast m h) hk
  have herr : ∀ fuel, ∃ e, Parser.parseProgram fuel (Parser.tokenState source 0)
      = Except.error e := by
    intro fuel
    cases hres : Parser.parseProgram fuel (Parser.tokenState source 0) with
    | error e => exact ⟨e, rfl⟩
    | ok r => exact absurd hres (hno fuel r)
  refine ⟨?_, ?_, hA⟩
  · obtain ⟨e, he⟩ := herr (12 * (Parser.tokenState source 0).measure + 10)
    have hsyn : e.isSyntax = true :=
      (Parser.parseProgram_total _ _ (le_refl _)).err e he
    refine ⟨12 * (Parser.tokenState source 0).measure + 10, e, hsyn, fun fuel hf => ?_⟩
    have h2 := Stab.mono_of_ne (fun n => Parser.parseProgram n (Parser.tokenState source 0))
      (fun n => Parser.parseProgram_stable n _) _
      (by simp only [he]; intro hc; cases hc; cases hsyn) fuel hf
    simp only [he] at h2
    exact runSource_of_parse_error fuel source e h2
  · intro fuel
    obtain ⟨e, he⟩ := herr fuel
    exact ⟨e, runSource_of_parse_error fuel source e he⟩

/-- Witness of C21 on a single `&` and on the character `#`. -/
theorem error_token_is_never_accepted_witness :
    (Parser.tokenState "{int x; x = 1 & 2;}" 7).currentToken = Token.ERROR ∧
    (∃ fuel0 e, e.isSyntax = true ∧ ∀ fuel, fuel0 ≤ fuel →
      Parser.parse fuel (Parser.tokenState "{int x; x = 1 & 2;}" 0) = Except.error e ∧
      runSource fuel "{int x; x = 1 & 2;}" = { cout := [], cerr := some e }) ∧
    (Parser.tokenState "{int x; x = #;}" 6).currentToken = Token.ERROR ∧
    (∃ fuel0 e, e.isSyntax = true ∧ ∀ fuel, fuel0 ≤ fuel →
      Parser.parse fuel (Parser.tokenState "{int x; x = #;}" 0) = Except.error e ∧
      runSource fuel "{int x; x = #;}" = { cout := [], cerr := some e }) :=
  ⟨by decide,
   (error_token_is_never_accepted "{int x; x = 1 & 2;}" 7 (by decide)
    (fun fuel ast m h => absurd h
      (Parser.parseProgram_no_tree 30 _ (Error.unexpectedToken Token.ERROR Token.SEMICOLON 1 16)
        (by rfl) (by decide) fuel _))).1,
   by decide,
   (error_token_is_never_accepted "{int x; x = #;}" 6 (by decide)
    (fun fuel ast m h => absurd h
      (Parser.parseProgram_no_tree 30 _ (Error.unexpectedFactorToken Token.ERROR 1 13)
        (by rfl) (by decide) fuel _))).1⟩

/-! ## Boolean subtraction (C31) -/

/-- C31, as the code behaves: for operands that evaluate to the booleans `l` and `r`, the
Add node with the subtraction operator returns the boolean `l != r`, the exclusive or of
the operands: the code converts the difference of the two truth values, which is not zero
exactly when they differ. It is the Mul node with the division operator that returns the
left operand, when the right operand is true. -/
theorem bool_subtraction_is_exclusive_or (sm : SymbolMap) (left right : Node) (l r : Bool)
    (hl : evaluateExpr sm left = Except.ok (Result.ofBool l))
    (hr : evaluateExpr sm right = Except.ok (Result.ofBool r)) :
    evaluateExpr sm (Node.AddNode left right false) = Except.ok (Result.ofBool (l != r)) ∧
    (r = true →
      evaluateExpr sm (Node.MulNode left right false) = Except.ok (Result.ofBool l)) := by
  constructor
  · cases l <;> cases r <;>
      simp [evaluateExpr, hl, hr, bind, Except.bind, pure, Except.pure, Result.ofBool,
        Result.asBool]
  · intro h
    subst h
    cases l <;>
      simp [evaluateExpr, hl, hr, bind, Except.bind, pure, Except.pure, Result.ofBool,
        Result.asBool]

/-- Witness of C31 on `true - false`. -/
theorem bool_subtraction_is_exclusive_or_witness :
    evaluateExpr ⟨[]⟩ (boolLit true) = Except.ok (Result.ofBool true) ∧
    evaluateExpr ⟨[]⟩ (boolLit false) = Except.ok (Result.ofBool false) ∧
    evaluateExpr ⟨[]⟩ (Node.AddNode (boolLit true) (boolLit false) false)
      = Except.ok (Result.ofBool (true != false)) :=
  ⟨rfl, rfl, (bool_subtraction_is_exclusive_or ⟨[]⟩ (boolLit true) (boolLit false) true false
    rfl rfl).1⟩

/-- C31 as stated fails: `false - true` evaluates to true, not to the left operand false,
and `true - true` evaluates to false, not to true. -/
theorem bool_subtraction_counterexample :
    evaluateExpr ⟨[]⟩ (Node.AddNode (boolLit false) (boolLit true) false)
      = Except.ok (Result.ofBool true) ∧
    Result.ofBool true ≠ Result.ofBool false ∧
    evaluateExpr ⟨[]⟩ (Node.AddNode (boolLit true) (boolLit true) false)
      = Except.ok (Result.ofBool false) ∧
    runSource 50 "{boolean b; b = false - true; print(b); b = true - true; print(b);}"
      = ⟨["true", "false"], none⟩ := by
  refine ⟨rfl, by decide, rfl, by decide⟩

/-! ## Relational nodes (C32) -/

/-- C32: when the operands of a Relational node evaluate to `l` and `r`, of whatever
types, the node returns the boolean that compares the stored integers `l.value` and
`r.value` with its operator. A boolean is stored as 0 for false and 1 for true, so that
`false < true` and `true <= true` are true. The four operators follow the order of the
integers: `<` returns the negation of `>=` and `<=` the negation of `>`. -/
theorem relational_compares_stored_integers (sm : SymbolMap) (left right : Node)
    (l r : Result) (hl : evaluateExpr sm left = Except.ok l)
    (hr : evaluateExpr sm right = Except.ok r) :
    evaluateExpr sm (Node.RelNode left right RelOp.LESS)
      = Except.ok (Result.ofBool (decide (l.value < r.value))) ∧
    evaluateExpr sm (Node.RelNode left right RelOp.LESSEQ)
      = Except.ok (Result.ofBool (decide (l.value ≤ r.value))) ∧
    evaluateExpr sm (Node.RelNode left right RelOp.GREATER)
      = Except.ok (Result.ofBool (decide (r.value < l.value))) ∧
    evaluateExpr sm (Node.RelNode left right RelOp.GREATEREQ)
      = Except.ok (Result.ofBool (decide (r.value ≤ l.value))) ∧
    decide (l.value < r.value) = !decide (r.value ≤ l.value) ∧
    decide (l.value ≤ r.value) = !decide (r.value < l.value) ∧
    (Result.ofBool false).value = 0 ∧ (Result.ofBool true).value = 1 ∧
    (l.type = Ty.BOOL → l.value = if l.asBool then 1 else 0) ∧
    evaluateExpr sm (Node.RelNode (boolLit false) (boolLit true) RelOp.LESS)
      = Except.ok (Result.ofBool true) ∧
    evaluateExpr sm (Node.RelNode (boolLit true) (boolLit true) RelOp.LESSEQ)
      = Except.ok (Result.ofBool true) := by
  refine ⟨?_, ?_, ?_, ?_, ?_, ?_, rfl, rfl, ?_, rfl, rfl⟩
  · simp [evaluateExpr, hl, hr, bind, Except.bind, pure, Except.pure]
  · simp [evaluateExpr, hl, hr, bind, Except.bind, pure, Except.pure]
  · simp [evaluateExpr, hl, hr, bind, Except.bind, pure, Except.pure]
  · simp [evaluateExpr, hl, hr, bind, Except.bind, pure, Except.pure]
  · by_cases h : l.value < r.value
    · have h2 : ¬ r.value ≤ l.value := by omega
      simp [h, h2]
    · have h2 : r.value ≤ l.value := by omega
      simp [h, h2]
  · by_cases h : l.value ≤ r.value
    · have h2 : ¬ r.value < l.value := by omega
      simp [h, h2]
    · have h2 : r.value < l.value := by omega
      simp [h, h2]
  · intro hT
    have hwf := evaluateExpr_wf sm left l hl hT
    rw [← hwf]
    simp [Result.ofBool, Result.asBool]

/-- Witness of C32 on `1 < 2`. -/
theorem relational_compares_stored_integers_witness :
    evaluateExpr ⟨[]⟩ (intLit 1) = Except.ok (Result.ofInt 1) ∧
    evaluateExpr ⟨[]⟩ (intLit 2) = Except.ok (Result.ofInt 2) ∧
    evaluateExpr ⟨[]⟩ (Node.RelNode (intLit 1) (intLit 2) RelOp.LESS)
      = Except.ok (Result.ofBool (decide ((Result.ofInt 1).value < (Result.ofInt 2).value))) :=
  ⟨rfl, rfl, (relational_compares_stored_integers ⟨[]⟩ (intLit 1) (intLit 2) (Result.ofInt 1)
    (Result.ofInt 2) rfl rfl).1⟩

/-! ## Integer division (C38) -/

/-- The quotient that truncates toward zero is not larger in absolute value than the
dividend. -/
theorem tdiv_natAbs_le (l r : Int) : (Int.tdiv l r).natAbs ≤ l.natAbs := by
  rw [Int.natAbs_tdiv]
  exact Nat.div_le_self _ _

/-- The remainder of the division that truncates toward zero is smaller in absolute value
than the divisor and has the sign of the dividend. -/
theorem tmod_sign_and_bound (l r : Int) (hr : r ≠ 0) :
    |Int.tmod l r| < |r| ∧
    (Int.tmod l r = 0 ∨ (0 < Int.tmod l r ∧ 0 < l) ∨ (Int.tmod l r < 0 ∧ l < 0)) := by
  have key : ∀ a b : Int, 0 ≤ a → 0 < b → 0 ≤ Int.tmod a b ∧ Int.tmod a b < b ∧
      (Int.tmod a b = 0 ∨ 0 < a) := by
    intro a b ha hb
    refine ⟨Int.tmod_nonneg b ha, Int.tmod_lt_of_pos a hb, ?_⟩
    by_cases h0 : a = 0
    · left; subst h0; simp
    · right; omega
  have hneg : ∀ a b : Int, Int.tmod (-a) b = -Int.tmod a b := by
    intro a b
    have h1 := Int.tdiv_add_tmod (-a) b
    have h2 := Int.tdiv_add_tmod a b
    rw [Int.neg_tdiv] at h1
    have : b * -a.tdiv b = -(b * a.tdiv b) := by ring
    rw [this] at h1
    omega
  rcases lt_or_gt_of_ne hr with hr0 | hr0
  · -- r < 0
    have hb : 0 < -r := by omega
    rw [← Int.tmod_neg l r, abs_of_neg hr0]
    by_cases hl : 0 ≤ l
    · obtain ⟨h1, h2, h3⟩ := key l (-r) hl hb
      rw [abs_of_nonneg h1]
      refine ⟨h2, ?_⟩
      rcases h3 with h3 | h3
      · left; exact h3
      · by_cases hz : l.tmod (-r) = 0
        · left; exact hz
        · right; left; omega
    · obtain ⟨h1, h2, h3⟩ := key (-l) (-r) (by omega) hb
      rw [hneg] at h1 h2 h3
      have hle : l.tmod (-r) ≤ 0 := by omega
      rw [abs_of_nonpos hle]
      refine ⟨h2, ?_⟩
      by_cases hz : l.tmod (-r) = 0
      · left; exact hz
      · right; right; omega
  · have hb : 0 < r := hr0
    rw [abs_of_pos hb]
    by_cases hl : 0 ≤ l
    · obtain ⟨h1, h2, h3⟩ := key l r hl hb
      rw [abs_of_nonneg h1]
      refine ⟨h2, ?_⟩
      by_cases hz : l.tmod r = 0
      · left; exact hz
      · right; left; omega
    · obtain ⟨h1, h2, h3⟩ := key (-l) r (by omega) hb
      rw [hneg] at h1 h2 h3
      have hle : l.tmod r ≤ 0 := by omega
      rw [abs_of_nonpos hle]
      refine ⟨h2, ?_⟩
      by_cases hz : l.tmod r = 0
      · left; exact hz
      · right; right; omega

/-- C38: integer division truncates toward zero. For operands that evaluate to the integers
`l` and `r` of the range of `int`, with `r` not zero and not the minimum divided by -1, the
Mul node with the division operator returns the quotient `q` for which `l = q * r + m` with
`|m| < |r|` and `m` zero or of the sign of `l`. So `-7 / 2` and `7 / -2` evaluate to -3. -/
theorem integer_division_truncates_toward_zero (sm : SymbolMap) (left right : Node)
    (l r : Int) (hl : evaluateExpr sm left = Except.ok (Result.ofInt l))
    (hr : evaluateExpr sm right = Except.ok (Result.ofInt r))
    (hl0 : -2147483648 ≤ l) (hl1 : l < 2147483648)
    (hr0 : -2147483648 ≤ r) (hr1 : r < 2147483648)
    (hne : r ≠ 0) (hmin : ¬(l = -2147483648 ∧ r = -1)) :
    ∃ q m : Int, evaluateExpr sm (Node.MulNode left right false) = Except.ok (Result.ofInt q) ∧
      l = q * r + m ∧ |m| < |r| ∧ (m = 0 ∨ (0 < m ∧ 0 < l) ∨ (m < 0 ∧ l < 0)) ∧
      evaluateExpr sm (Node.MulNode (Node.UnaryNode (intLit 7) UnaryOp.NEG) (intLit 2) false)
        = Except.ok (Result.ofInt (-3)) ∧
      evaluateExpr sm (Node.MulNode (intLit 7) (Node.UnaryNode (intLit 2) UnaryOp.NEG) false)
        = Except.ok (Result.ofInt (-3)) := by
  refine ⟨Int.tdiv l r, Int.tmod l r, ?_, ?_, (tmod_sign_and_bound l r hne).1,
    (tmod_sign_and_bound l r hne).2, rfl, rfl⟩
  · have hq := tdiv_natAbs_le l r
    have hw : wrapInt (Int.tdiv l r) = Int.tdiv l r := by
      apply wrapInt_of_range
      · omega
      · by_cases hlm : l = -2147483648
        · subst hlm
          have hr' : r ≠ -1 := fun h => hmin ⟨rfl, h⟩
          have h2 : (Int.tdiv (-2147483648) r).natAbs = 2147483648 / r.natAbs := by
            rw [Int.natAbs_tdiv]; rfl
          have h3 : 2 ≤ r.natAbs ∨ r = 1 := by omega
          rcases h3 with h3 | h3
          · have : 2147483648 / r.natAbs ≤ 2147483648 / 2 :=
              Nat.div_le_div_left h3 (by decide)
            omega
          · subst h3
            decide
        · omega
    simp [evaluateExpr, hl, hr, bind, Except.bind, pure, Except.pure, Result.ofInt, hne, hw]
  · have := Int.tdiv_add_tmod l r
    have h2 : r * l.tdiv r = l.tdiv r * r := by ring
    omega

/-- Witness of C38 on `-7 / 2`. -/
theorem integer_division_truncates_toward_zero_witness :
    ∃ q m : Int, evaluateExpr ⟨[]⟩ (Node.MulNode (intLit (-7)) (intLit 2) false)
        = Except.ok (Result.ofInt q) ∧
      -7 = q * 2 + m ∧ |m| < |(2 : Int)| ∧ (m = 0 ∨ (0 < m ∧ (0 : Int) < -7) ∨ (m < 0 ∧ (-7 : Int) < 0)) ∧
      runSource 50 "{print(-7 / 2); print(7 / -2);}" = ⟨["-3", "-3"], none⟩ := by
  obtain ⟨q, m, h1, h2, h3, h4, _⟩ :=
    integer_division_truncates_toward_zero ⟨[]⟩ (intLit (-7)) (intLit 2) (-7) 2 rfl rfl
      (by decide) (by decide) (by decide) (by decide) (by decide) (by decide)
  exact ⟨q, m, h1, h2, h3, h4, by decide⟩

/-! ## The evaluator in state-passing style -/

theorem SymbolMap.getVariableRef_eq (sm : SymbolMap) (name : String) :
    sm.getVariableRef name = (sm.getVariable name, sm) := by
  unfold SymbolMap.getVariableRef SymbolMap.getVariable SymbolMap.subscript SymbolMap.isDeclared
  cases h : sm.find name <;> simp

theorem Eval.getVariable_eq (name : String) (st : Interpreter) :
    Eval.getVariable name st = (st.symbolMap.getVariable name, st) := by
  simp [Eval.getVariable, SymbolMap.getVariableRef_eq]

theorem Eval.bind_ok {α β : Type} (x : Eval α) (f : α → Eval β) (st st1 : Interpreter)
    (a : α) (h : x st = (Except.ok a, st1)) : (x >>= f) st = f a st1 := by
  show Eval.andThen x f st = _
  unfold Eval.andThen
  rw [h]

theorem Eval.bind_error {α β : Type} (x : Eval α) (f : α → Eval β) (st st1 : Interpreter)
    (e : Error) (h : x st = (Except.error e, st1)) :
    (x >>= f) st = (Except.error e, st1) := by
  show Eval.andThen x f st = _
  unfold Eval.andThen
  rw [h]

/-- The computation `x` returns what the pure computation `y` returns and leaves the state
as it was. -/
theorem Eval.bind_frame {α β : Type} (x : Eval α) (f : α → Eval β) (st : Interpreter)
    (y : Except Error α) (g : α → Except Error β)
    (hx : x st = (y, st)) (hf : ∀ a, f a st = (g a, st)) :
    (x >>= f) st = (y >>= g, st) := by
  cases y with
  | error e => rw [Eval.bind_error x f st st e hx]; rfl
  | ok a => rw [Eval.bind_ok x f st st a hx, hf a]; rfl

theorem Eval.pure_frame {α : Type} (a : α) (st : Interpreter) :
    (pure a : Eval α) st = (pure a, st) := rfl

theorem Eval.raise_frame {α : Type} (e : Error) (st : Interpreter) :
    (Eval.raise e : Eval α) st = (throw e, st) := rfl

theorem Eval.ofExcept_frame {α : Type} (x : Except Error α) (st : Interpreter) :
    Eval.ofExcept x st = (x, st) := rfl

theorem Eval.ite_frame {α : Type} (c : Prop) [Decidable c] (a b : Eval α)
    (y z : Except Error α) (st : Interpreter) (ha : a st = (y, st)) (hb : b st = (z, st)) :
    (if c then a else b) st = (if c then y else z, st) := by
  by_cases h : c <;> simp [h, ha, hb]

/-- The evaluation of an expression in state-passing style returns what `evaluateExpr`
returns on the symbol table of the state, and the state it was started in. -/
theorem Interpreter.evaluateExprSt_eq (node : Node) :
    ∀ st : Interpreter, evaluateExprSt node st = (evaluateExpr st.symbolMap node, st) := by
  induction node with
  | MulNode left right isMultiplication ihl ihr =>
    intro st
    rw [evaluateExprSt, evaluateExpr]
    refine Eval.bind_frame _ _ st _ _ (ihl st) (fun l => ?_)
    refine Eval.bind_frame _ _ st _ _ (ihr st) (fun r => ?_)
    split_ifs <;> rfl
  | AddNode left right isAddition ihl ihr =>
    intro st
    rw [evaluateExprSt, evaluateExpr]
    refine Eval.bind_frame _ _ st _ _ (ihl st) (fun l => ?_)
    refine Eval.bind_frame _ _ st _ _ (ihr st) (fun r => ?_)
    split_ifs <;> rfl
  | UnaryNode operand op ih =>
    intro st
    rw [evaluateExprSt, evaluateExpr]
    refine Eval.bind_frame _ _ st _ _ (ih st) (fun v => ?_)
    split_ifs <;> rfl
  | FactorNode type intValue boolValue loc ih =>
    intro st
    cases type
    · rw [evaluateExprSt, evaluateExpr]; rfl
    · rw [evaluateExprSt, evaluateExpr]; rfl
    · rw [evaluateExprSt, evaluateExpr]; exact ih st
  | OrNode left right ihl ihr =>
    intro st
    rw [evaluateExprSt, evaluateExpr]
    refine Eval.bind_frame _ _ st _ _ (ihl st) (fun l => ?_)
    refine Eval.ite_frame _ _ _ _ _ st rfl ?_
    exact Eval.bind_frame _ _ st _ _ (ihr st) (fun r => rfl)
  | AndNode left right ihl ihr =>
    intro st
    rw [evaluateExprSt, evaluateExpr]
    refine Eval.bind_frame _ _ st _ _ (ihl st) (fun l => ?_)
    refine Eval.ite_frame _ _ _ _ _ st ?_ rfl
    exact Eval.bind_frame _ _ st _ _ (ihr st) (fun r => rfl)
  | EqualityNode left right isEqual ihl ihr =>
    intro st
    rw [evaluateExprSt, evaluateExpr]
    refine Eval.bind_frame _ _ st _ _ (ihl st) (fun l => ?_)
    refine Eval.bind_frame _ _ st _ _ (ihr st) (fun r => ?_)
    split_ifs <;> rfl
  | RelNode left right op ihl ihr =>
    intro st
    rw [evaluateExprSt, evaluateExpr]
    refine Eval.bind_frame _ _ st _ _ (ihl st) (fun l => ?_)
    refine Eval.bind_frame _ _ st _ _ (ihr st) (fun r => ?_)
    cases op <;> rfl
  | IdNode id =>
    intro st
    rw [evaluateExprSt, evaluateExpr]
    refine Eval.bind_frame _ _ st _ _ (Eval.getVariable_eq id st) (fun var => ?_)
    rcases hv : var.initialized with _ | b
    · simp only [hv]; rfl
    · cases b <;> simp only [hv] <;> rfl
  | ArrayAccessNode index id ih =>
    intro st
    rw [evaluateExprSt, evaluateExpr]
    refine Eval.bind_frame _ _ st _ _ (Eval.getVariable_eq id st) (fun var => ?_)
    refine Eval.bind_frame _ _ st _ _ (ih st) (fun indexValue => ?_)
    refine Eval.bind_frame _ _ st _ _ (Eval.ofExcept_frame _ st) (fun flag => ?_)
    by_cases hf : flag = false
    · simp only [hf, if_true]; rfl
    · by_cases hT : var.type = Ty.INT
      · simp only [hf, hT, if_true, if_false]
        exact Eval.bind_frame _ _ st _ _ (Eval.ofExcept_frame _ st) (fun x => rfl)
      · simp only [hf, hT, if_false]
        exact Eval.bind_frame _ _ st _ _ (Eval.ofExcept_frame _ st) (fun x => rfl)
  | _ =>
    intro st
    rfl

/-! ## The evaluation of expressions has no side effects (C35) -/

/-- C35: the evaluation of an expression has no side effects. Run in state-passing style
from any state, on any node, `evaluateExpr` leaves the state of the interpreter, the symbol
table with every variable and the output, as it was, whether it returns a value or throws;
what it returns or throws is a function of the symbol table and the node. So a second
evaluation, run in the state the first one left, returns the same. In particular a print
statement changes the output only, and a statement that fails in the evaluation of its
expression fails in the state it was started in. -/
theorem evaluateExpr_has_no_side_effects (node : Node) (st : Interpreter) :
    (evaluateExprSt node st).2 = st ∧
    (evaluateExprSt node st).1 = evaluateExpr st.symbolMap node ∧
    (evaluateExprSt node (evaluateExprSt node st).2).1 = (evaluateExprSt node st).1 ∧
    (∀ fuel st1, executeStmt (fuel + 1) st (Node.PrintNode node) = Except.ok st1 →
      st1.symbolMap = st.symbolMap) ∧
    (∀ fuel e st1, executeStmt (fuel + 1) st (Node.PrintNode node) = Except.error (e, st1) →
      st1 = st) := by
  have h := evaluateExprSt_eq node st
  refine ⟨by rw [h], by rw [h], by rw [h, h], ?_, ?_⟩
  · intro fuel st1 hrun
    cases hv : evaluateExpr st.symbolMap node with
    | error e => simp [executeStmt, hv, raiseAt, bind, Except.bind] at hrun
    | ok v =>
      simp [executeStmt, hv, raiseAt, bind, Except.bind, pure, Except.pure] at hrun
      rw [← hrun]
  · intro fuel e st1 hrun
    cases hv : evaluateExpr st.symbolMap node with
    | error e1 =>
      simp [executeStmt, hv, raiseAt, bind, Except.bind] at hrun
      exact hrun.2.symm
    | ok v => simp [executeStmt, hv, raiseAt, bind, Except.bind, pure, Except.pure] at hrun

/-! ## Failed assignments (C36) -/

theorem Interpreter.FailsAt.failsAt_pure {α : Type} (sm : SymbolMap) (a : α) :
    FailsAt sm (pure a : Except (Error × SymbolMap) α) :=
  ⟨fun _ _ h => by cases h⟩

theorem Interpreter.FailsAt.failsAt_throw {α : Type} (sm : SymbolMap) (e : Error) :
    FailsAt sm (throw (e, sm) : Except (Error × SymbolMap) α) :=
  ⟨fun _ _ h => by cases h; rfl⟩

theorem Interpreter.FailsAt.failsAt_raiseAt {α : Type} (sm : SymbolMap) (x : Except Error α) :
    FailsAt sm (raiseAt sm x) := by
  constructor
  intro e s h
  cases x with
  | ok a => cases h
  | error e1 => cases h; rfl

theorem Interpreter.FailsAt.failsAt_bind {α β : Type} (sm : SymbolMap)
    {x : Except (Error × SymbolMap) α} {f : α → Except (Error × SymbolMap) β}
    (hx : FailsAt sm x) (hf : ∀ a, FailsAt sm (f a)) : FailsAt sm (x >>= f) := by
  constructor
  intro e s h
  cases x with
  | error e1 =>
    obtain ⟨e1, s1⟩ := e1
    have : (Except.error (e1, s1) : Except (Error × SymbolMap) β) = Except.error (e, s) := h
    cases this
    exact hx.out e s rfl
  | ok a => exact (hf a).out e s h

theorem Interpreter.FailsAt.failsAt_ite {α : Type} (sm : SymbolMap) {c : Prop} [Decidable c]
    {a b : Except (Error × SymbolMap) α} (ha : FailsAt sm a) (hb : FailsAt sm b) :
    FailsAt sm (if c then a else b) := by
  by_cases h : c
  · rw [if_pos h]; exact ha
  · rw [if_neg h]; exact hb

/-- Every exception of `assignValue` carries the symbol table of the call. -/
theorem Interpreter.assignValue_failsAt (sm : SymbolMap) (locNode exprNode : Node) :
    FailsAt sm (assignValue sm locNode exprNode) := by
  unfold assignValue
  split
  all_goals
    repeat' (first
      | exact FailsAt.failsAt_pure sm _
      | exact FailsAt.failsAt_throw sm _
      | exact FailsAt.failsAt_raiseAt sm _
      | apply FailsAt.failsAt_bind
      | apply FailsAt.failsAt_ite
      | intro _)

/-- C36: a failed assignment is atomic. Whenever `assignValue` throws, the symbol table at
the throw is the table of the call, so that the statement fails in the state it was started
in: no value is stored and no flag is set. An undeclared target, an error in the index or
in the right-hand side, a scalar target that names an array and an indexed target that
names a scalar are among the failures. -/
theorem failed_assignment_is_atomic (sm : SymbolMap) (locNode exprNode : Node) (e : Error)
    (sm1 : SymbolMap) (h : assignValue sm locNode exprNode = Except.error (e, sm1)) :
    sm1 = sm ∧
    (∀ fuel cout, executeStmt (fuel + 1) ⟨sm, cout⟩ (Node.AssignNode locNode exprNode)
      = Except.error (e, ⟨sm, cout⟩)) ∧
    (∀ (x : String) (expr index : Node) (err : Error),
      sm.getVariable x = Except.error err →
      assignValue sm (Node.IdNode x) expr = Except.error (err, sm) ∧
      assignValue sm (Node.ArrayAccessNode index x) expr = Except.error (err, sm)) ∧
    (∀ (x : String) (expr index : Node) (var : Variable) (err : Error),
      sm.getVariable x = Except.ok var →
      (evaluateExpr sm expr = Except.error err →
        assignValue sm (Node.IdNode x) expr = Except.error (err, sm)) ∧
      (evaluateExpr sm index = Except.error err →
        assignValue sm (Node.ArrayAccessNode index x) expr = Except.error (err, sm))) ∧
    (∀ (x : String) (expr index : Node) (var : Variable) (v i : Result),
      sm.getVariable x = Except.ok var → evaluateExpr sm expr = Except.ok v →
      evaluateExpr sm index = Except.ok i → v.type = var.type →
      (var.isArray = true →
        assignValue sm (Node.IdNode x) expr = Except.error (Error.invalidAssignment, sm)) ∧
      (var.isArray = false →
        assignValue sm (Node.ArrayAccessNode index x) expr
          = Except.error (Error.notAnArray, sm))) := by
  have hsm : sm1 = sm := (assignValue_failsAt sm locNode exprNode).out e sm1 h
  subst hsm
  refine ⟨rfl, ?_, ?_, ?_, ?_⟩
  · intro fuel cout
    simp [executeStmt, h, throw, throwThe, MonadExceptOf.throw]
  · intro x expr index err hx
    constructor <;> simp [assignValue, hx, raiseAt, bind, Except.bind]
  · intro x expr index var err hx
    constructor
    · intro he
      simp [assignValue, hx, he, raiseAt, bind, Except.bind]
    · intro he
      simp [assignValue, hx, he, raiseAt, bind, Except.bind]
  · intro x expr index var v i hx hv hi hty
    constructor
    · intro harr
      simp [assignValue, hx, hv, raiseAt, bind, Except.bind, hty, harr, throw, throwThe,
        MonadExceptOf.throw, throwErr]
    · intro harr
      simp [assignValue, hx, hv, hi, raiseAt, bind, Except.bind, Variable.size, harr]

/-- Witness of C36 on `a[3] = true` in the table of `int[3] a;`. -/
theorem failed_assignment_is_atomic_witness :
    assignValue tableIntArray3 (Node.ArrayAccessNode (intLit 3) "a") (boolLit true)
      = Except.error (Error.arrayIndexOutOfBounds 3 3, tableIntArray3) ∧
    tableIntArray3 = tableIntArray3 :=
  ⟨rfl, (failed_assignment_is_atomic tableIntArray3 (Node.ArrayAccessNode (intLit 3) "a")
    (boolLit true) (Error.arrayIndexOutOfBounds 3 3) tableIntArray3 rfl).1⟩

/-! ## More rules of the parser -/

theorem Parser.parseStmt_stable :
    ∀ fuel p, Stab (Parser.parseStmt (fuel + 1) p) (Parser.parseStmt fuel p) :=
  fun fuel p => (Parser.stableAt fuel).stmt p

theorem Parser.parseBool_stable :
    ∀ fuel p, Stab (Parser.parseBool (fuel + 1) p) (Parser.parseBool fuel p) :=
  fun fuel p => (Parser.stableAt fuel).bool p

theorem Parser.parseLoc_stable :
    ∀ fuel p, Stab (Parser.parseLoc (fuel + 1) p) (Parser.parseLoc fuel p) :=
  fun fuel p => (Parser.stableAt fuel).loc p

/-- A function that is stable under more fuel returns one result only, whatever the
fuel. -/
theorem Parser.Parses.unique {f : Nat → Parser → Except Error (Node × Parser)}
    (hf : ∀ fuel p, Stab (f (fuel + 1) p) (f fuel p)) {p q : Parser} {n : Node}
    (h : Parser.Parses f p n q) (fuel : Nat) (r : Node × Parser)
    (hr : f fuel p = Except.ok r) : r = (n, q) := by
  obtain ⟨fuel0, h0⟩ := h
  have h1 := Stab.mono (fun k => f k p) (fun k => hf k p) hr (fuel + fuel0) (by omega)
  have h2 := h0 (fuel + fuel0) (by omega)
  simp only [h2] at h1
  cases h1
  rfl

theorem Parser.relOp_isOp (L : Layer) (t : Token) (op : RelOp)
    (h : Parser.relOp t = some op) : L.isOp t = false := by
  revert h
  cases L <;> cases t <;> simp [Parser.relOp, Layer.isOp]

/-- An if statement without an else branch. -/
theorem Parser.parseStmt_if (c s : Node) (p p1 p2 : Parser)
    (h0 : p.currentToken = Token.IF) (h1 : p.advance.currentToken = Token.LPARENTHESIS)
    (hc : Parser.Parses Parser.parseBool p.advance.advance c p1)
    (h2 : p1.currentToken = Token.RPARENTHESIS)
    (hs : Parser.Parses Parser.parseStmt p1.advance s p2)
    (h3 : p2.currentToken ≠ Token.ELSE) :
    Parser.Parses Parser.parseStmt p (Node.IfNode c s) p2 := by
  obtain ⟨f1, e1⟩ := hc
  obtain ⟨f2, e2⟩ := hs
  refine ⟨f1 + f2 + 1, fun fuel hf => ?_⟩
  obtain ⟨k, rfl⟩ : ∃ k, fuel = k + 1 := ⟨fuel - 1, by omega⟩
  have e1 := e1 k (by omega)
  have e2 := e2 k (by omega)
  rw [Parser.parseStmt]
  simp [h0, h1, h2, h3, e1, e2, Parser.matchToken, bind, Except.bind, pure, Except.pure]

/-- An if statement with an else branch. -/
theorem Parser.parseStmt_ifElse (c s s2 : Node) (p p1 p2 p3 : Parser)
    (h0 : p.currentToken = Token.IF) (h1 : p.advance.currentToken = Token.LPARENTHESIS)
    (hc : Parser.Parses Parser.parseBool p.advance.advance c p1)
    (h2 : p1.currentToken = Token.RPARENTHESIS)
    (hs : Parser.Parses Parser.parseStmt p1.advance s p2)
    (h3 : p2.currentToken = Token.ELSE)
    (hs2 : Parser.Parses Parser.parseStmt p2.advance s2 p3) :
    Parser.Parses Parser.parseStmt p (Node.IfElseNode c s s2) p3 := by
  obtain ⟨f1, e1⟩ := hc
  obtain ⟨f2, e2⟩ := hs
  obtain ⟨f3, e3⟩ := hs2
  refine ⟨f1 + f2 + f3 + 1, fun fuel hf => ?_⟩
  obtain ⟨k, rfl⟩ : ∃ k, fuel = k + 1 := ⟨fuel - 1, by omega⟩
  have e1 := e1 k (by omega)
  have e2 := e2 k (by omega)
  have e3 := e3 k (by omega)
  rw [Parser.parseStmt]
  simp [h0, h1, h2, h3, e1, e2, e3, Parser.matchToken, bind, Except.bind, pure, Except.pure]

/-- A location without an index. -/
theorem Parser.parseLoc_id (p : Parser) (h0 : p.currentToken = Token.ID)
    (h1 : p.advance.currentToken ≠ Token.LBRACKET) :
    Parser.Parses Parser.parseLoc p (Node.IdNode p.lexer.identifierValue) p.advance := by
  refine ⟨1, fun fuel hf => ?_⟩
  obtain ⟨k, rfl⟩ : ∃ k, fuel = k + 1 := ⟨fuel - 1, by omega⟩
  rw [Parser.parseLoc]
  simp [h0, h1, Parser.matchToken, bind, Except.bind, pure, Except.pure]

/-- A location with an index. -/
theorem Parser.parseLoc_index (e : Node) (p p1 : Parser) (h0 : p.currentToken = Token.ID)
    (h1 : p.advance.currentToken = Token.LBRACKET)
    (he : Parser.Parses Parser.parseBool p.advance.advance e p1)
    (h2 : p1.currentToken = Token.RBRACKET) :
    Parser.Parses Parser.parseLoc p (Node.ArrayAccessNode e p.lexer.identifierValue)
      p1.advance := by
  obtain ⟨f1, e1⟩ := he
  refine ⟨f1 + 1, fun fuel hf => ?_⟩
  obtain ⟨k, rfl⟩ : ∃ k, fuel = k + 1 := ⟨fuel - 1, by omega⟩
  have e1 := e1 k (by omega)
  rw [Parser.parseLoc]
  simp [h0, h1, h2, e1, Parser.matchToken, bind, Except.bind, pure, Except.pure]

/-- On an identifier, `parseFactor` is `parseLoc`. -/
theorem Parser.parseFactor_eq_parseLoc (fuel : Nat) (p : Parser)
    (h : p.currentToken = Token.ID) : Parser.parseFactor fuel p = Parser.parseLoc fuel p := by
  cases fuel with
  | zero => rfl
  | succ k =>
    rw [Parser.parseFactor, Parser.parseLoc]
    simp only [h]

/-! ## The relational layer (C33) -/

/-- C33, as the code behaves: `parseRel` is not a loop. It reads one additive expression
and, when a relational operator is current, one more, and returns without looking at the
token that follows. For factors `a` and `b` with `<` between them and a further relational
operator after `b`, `parseRel` and with it `parseBool` return Rel(a, b, <) and leave the
second operator as the current token; no run returns anything else. A chain needs
parentheses: for `(a < b) < c` the result is Rel(Rel(a, b, <), c, <). -/
theorem relational_layer_reads_one_operator (p0 p1 p2 : Parser) (a b : Node) (op : RelOp)
    (ha : Parser.Parses Parser.parseFactor p0 a p1)
    (hb : Parser.Parses Parser.parseFactor p1.advance b p2)
    (h1 : p1.currentToken = Token.LESS) :
    (Parser.relOp p2.currentToken = some op →
      Parser.Parses Parser.parseRel p0 (Node.RelNode a b RelOp.LESS) p2 ∧
      Parser.Parses Parser.parseBool p0 (Node.RelNode a b RelOp.LESS) p2 ∧
      ∀ fuel r, Parser.parseBool fuel p0 = Except.ok r →
        r = (Node.RelNode a b RelOp.LESS, p2)) ∧
    (∀ (pl p3 : Parser) (c : Node), pl.currentToken = Token.LPARENTHESIS → pl.advance = p0 →
      p2.currentToken = Token.RPARENTHESIS → Parser.relOp p2.advance.currentToken = some op →
      Parser.Parses Parser.parseFactor p2.advance.advance c p3 →
      Parser.endsExpr p3.currentToken = true →
      Parser.Parses Parser.parseBool pl (Node.RelNode (Node.RelNode a b RelOp.LESS) c op)
        p3) := by
  have ua := Parser.parseUnary_factor a p0 p1 ha
  have ub := Parser.parseUnary_factor b p1.advance p2 hb
  have ea : Parser.Parses Parser.parseExpr p0 a p1 :=
    Parser.parseExpr_of_unary a _ _ ua (by rw [h1]; rfl) (by rw [h1]; rfl)
  constructor
  · intro h2
    have eb : Parser.Parses Parser.parseExpr p1.advance b p2 :=
      Parser.parseExpr_of_unary b _ _ ub (Parser.relOp_isOp _ _ _ h2)
        (Parser.relOp_isOp _ _ _ h2)
    have hrel := Parser.parseRel_some a b RelOp.LESS p0 p1 p2 ea (by rw [h1]; rfl) eb
    have hbool : Parser.Parses Parser.parseBool p0 (Node.RelNode a b RelOp.LESS) p2 :=
      Layer.or.parse_single _ _ _
        (Layer.and.parse_single _ _ _
          (Layer.equality.parse_single _ _ _ hrel (Parser.relOp_isOp _ _ _ h2))
          (Parser.relOp_isOp _ _ _ h2))
        (Parser.relOp_isOp _ _ _ h2)
    exact ⟨hrel, hbool, fun fuel r hr => Parser.Parses.unique Parser.parseBool_stable hbool
      fuel r hr⟩
  · intro pl p3 c hl hadv h2 h3 hc hend
    subst hadv
    have hend2 : Parser.endsExpr p2.currentToken = true := by rw [h2]; rfl
    have eb : Parser.Parses Parser.parseExpr p1.advance b p2 :=
      Parser.parseExpr_of_unary b _ _ ub (Parser.endsExpr_isOp _ _ hend2)
        (Parser.endsExpr_isOp _ _ hend2)
    have hrel := Parser.parseRel_some a b RelOp.LESS pl.advance p1 p2 ea (by rw [h1]; rfl) eb
    have hbool : Parser.Parses Parser.parseBool pl.advance (Node.RelNode a b RelOp.LESS) p2 :=
      Layer.or.parse_single _ _ _
        (Layer.and.parse_single _ _ _
          (Layer.equality.parse_single _ _ _ hrel (Parser.endsExpr_isOp _ _ hend2))
          (Parser.endsExpr_isOp _ _ hend2))
        (Parser.endsExpr_isOp _ _ hend2)
    have hf := Parser.parseFactor_paren _ pl p2 hl hbool h2
    have el : Parser.Parses Parser.parseExpr pl (Node.RelNode a b RelOp.LESS) p2.advance :=
      Parser.parseExpr_of_unary _ _ _ (Parser.parseUnary_factor _ _ _ hf)
        (Parser.relOp_isOp _ _ _ h3) (Parser.relOp_isOp _ _ _ h3)
    have ec : Parser.Parses Parser.parseExpr p2.advance.advance c p3 :=
      Parser.parseExpr_of_unary c _ _ (Parser.parseUnary_factor _ _ _ hc)
        (Parser.endsExpr_isOp _ _ hend) (Parser.endsExpr_isOp _ _ hend)
    have hrel2 := Parser.parseRel_some _ c op pl p2.advance p3 el h3 ec
    exact Layer.or.parse_single _ _ _
      (Layer.and.parse_single _ _ _
        (Layer.equality.parse_single _ _ _ hrel2 (Parser.endsExpr_isOp _ _ hend))
        (Parser.endsExpr_isOp _ _ hend))
      (Parser.endsExpr_isOp _ _ hend)

/-- Witness of C33 on `a < b < c`. -/
theorem relational_layer_reads_one_operator_witness :
    Parser.Parses Parser.parseBool (Parser.new (Lexer.new "a < b < c;".toList))
      (Node.RelNode (Node.IdNode "a") (Node.IdNode "b") RelOp.LESS)
      (Parser.new (Lexer.new "a < b < c;".toList)).advance.advance.advance ∧
    (Parser.new (Lexer.new "a < b < c;".toList)).advance.advance.advance.currentToken
      = Token.LESS :=
  ⟨((relational_layer_reads_one_operator
      (Parser.new (Lexer.new "a < b < c;".toList))
      (Parser.new (Lexer.new "a < b < c;".toList)).advance
      (Parser.new (Lexer.new "a < b < c;".toList)).advance.advance.advance
      (Node.IdNode "a") (Node.IdNode "b") RelOp.LESS
      (Parser.Parses.of_run Parser.parseFactor_stable 1 rfl)
      (Parser.Parses.of_run Parser.parseFactor_stable 1 rfl) rfl).1 rfl).2.1, rfl⟩

/-- C33 as stated fails: on `a < b < c` the parser returns Rel(a, b, <), not
Rel(Rel(a, b, <), c, <), with the second `<` as the current token, and on `a < b >= c` it
returns Rel(a, b, <) with `>=` as the current token; a statement with such a chain is a
syntax error. -/
theorem relational_chain_counterexample :
    (Parser.parseBool 20 (Parser.new (Lexer.new "a < b < c;".toList))).map
        (fun r => (r.1, r.2.currentToken))
      = Except.ok (Node.RelNode (Node.IdNode "a") (Node.IdNode "b") RelOp.LESS, Token.LESS) ∧
    Node.RelNode (Node.IdNode "a") (Node.IdNode "b") RelOp.LESS
      ≠ Node.RelNode (Node.RelNode (Node.IdNode "a") (Node.IdNode "b") RelOp.LESS)
          (Node.IdNode "c") RelOp.LESS ∧
    (Parser.parseBool 20 (Parser.new (Lexer.new "a < b >= c;".toList))).map
        (fun r => (r.1, r.2.currentToken))
      = Except.ok (Node.RelNode (Node.IdNode "a") (Node.IdNode "b") RelOp.LESS,
          Token.GREATEREQ) ∧
    runSource 50 "{boolean x; x = 1 < 2 < 3; print(x);}"
      = ⟨[], some (Error.unexpectedToken Token.LESS Token.SEMICOLON 1 24)⟩ := by
  refine ⟨rfl, by decide, rfl, by decide⟩

/-! ## Locations (C34) -/

/-- C34: on an identifier, `parseFactor` runs the very steps of `parseLoc`: with any fuel
the two return the same node and the same state, or the same error. When no `[` follows the
identifier the node is Id(name) and one token is consumed; when `[`, an expression `e` and
`]` follow, it is ArrayAccess(e, name) and the parser stops right after the `]`, whatever
the next token is, a second `[` included. -/
theorem location_is_parsed_alike_as_target_and_factor (p : Parser)
    (h0 : p.currentToken = Token.ID) :
    (∀ fuel, Parser.parseFactor fuel p = Parser.parseLoc fuel p) ∧
    (p.advance.currentToken ≠ Token.LBRACKET →
      Parser.Parses Parser.parseLoc p (Node.IdNode p.lexer.identifierValue) p.advance ∧
      Parser.Parses Parser.parseFactor p (Node.IdNode p.lexer.identifierValue) p.advance) ∧
    (∀ (e : Node) (p1 : Parser), p.advance.currentToken = Token.LBRACKET →
      Parser.Parses Parser.parseBool p.advance.advance e p1 →
      p1.currentToken = Token.RBRACKET →
      Parser.Parses Parser.parseLoc p (Node.ArrayAccessNode e p.lexer.identifierValue)
        p1.advance ∧
      Parser.Parses Parser.parseFactor p (Node.ArrayAccessNode e p.lexer.identifierValue)
        p1.advance ∧
      ∀ fuel r, Parser.parseLoc fuel p = Except.ok r →
        r = (Node.ArrayAccessNode e p.lexer.identifierValue, p1.advance)) := by
  have heq : ∀ fuel, Parser.parseFactor fuel p = Parser.parseLoc fuel p :=
    fun fuel => Parser.parseFactor_eq_parseLoc fuel p h0
  have transfer : ∀ n q, Parser.Parses Parser.parseLoc p n q →
      Parser.Parses Parser.parseFactor p n q := by
    intro n q ⟨fuel0, h⟩
    exact ⟨fuel0, fun fuel hf => by rw [heq fuel]; exact h fuel hf⟩
  refine ⟨heq, ?_, ?_⟩
  · intro h1
    have h := Parser.parseLoc_id p h0 h1
    exact ⟨h, transfer _ _ h⟩
  · intro e p1 h1 he h2
    have h := Parser.parseLoc_index e p p1 h0 h1 he h2
    exact ⟨h, transfer _ _ h, fun fuel r hr =>
      Parser.Parses.unique Parser.parseLoc_stable h fuel r hr⟩

/-- Witness of C34 on `a[1][2]`: the second `[` is the current token after the location. -/
theorem location_is_parsed_alike_as_target_and_factor_witness :
    (Parser.new (Lexer.new "a[1][2] = 3;".toList)).currentToken = Token.ID ∧
    Parser.Parses Parser.parseLoc (Parser.new (Lexer.new "a[1][2] = 3;".toList))
      (Node.ArrayAccessNode (intLit 1) "a")
      (Parser.new (Lexer.new "a[1][2] = 3;".toList)).advance.advance.advance.advance ∧
    Parser.Parses Parser.parseFactor (Parser.new (Lexer.new "a[1][2] = 3;".toList))
      (Node.ArrayAccessNode (intLit 1) "a")
      (Parser.new (Lexer.new "a[1][2] = 3;".toList)).advance.advance.advance.advance ∧
    (Parser.new (Lexer.new "a[1][2] = 3;".toList)).advance.advance.advance.advance.currentToken
      = Token.LBRACKET :=
  ⟨rfl,
   ((location_is_parsed_alike_as_target_and_factor
      (Parser.new (Lexer.new "a[1][2] = 3;".toList)) rfl).2.2 (intLit 1)
      (Parser.new (Lexer.new "a[1][2] = 3;".toList)).advance.advance.advance rfl
      (Parser.Parses.of_run Parser.parseBool_stable 10 rfl) rfl).1,
   ((location_is_parsed_alike_as_target_and_factor
      (Parser.new (Lexer.new "a[1][2] = 3;".toList)) rfl).2.2 (intLit 1)
      (Parser.new (Lexer.new "a[1][2] = 3;".toList)).advance.advance.advance rfl
      (Parser.Parses.of_run Parser.parseBool_stable 10 rfl) rfl).2.1,
   rfl⟩

/-! ## The dangling else (C40) -/

/-- C40: an else binds to the nearest if. When the tokens are `if (`, a condition `c1`,
`) if (`, a condition `c2`, `)`, a statement `s1`, `else`, a statement `s2`, and no further
`else`, then `parseStmt` returns If(c1, IfElse(c2, s1, s2)); no run returns anything else,
in particular not IfElse(c1, If(c2, s1), s2). With a condition `c1` that evaluates to false
the statement leaves the state as it is: neither `s1` nor `s2` is executed. -/
theorem dangling_else_binds_to_nearest_if (p p1 q1 q2 q3 : Parser) (c1 c2 s1 s2 : Node)
    (h0 : p.currentToken = Token.IF) (h1 : p.advance.currentToken = Token.LPARENTHESIS)
    (hc1 : Parser.Parses Parser.parseBool p.advance.advance c1 p1)
    (h2 : p1.currentToken = Token.RPARENTHESIS)
    (h3 : p1.advance.currentToken = Token.IF)
    (h4 : p1.advance.advance.currentToken = Token.LPARENTHESIS)
    (hc2 : Parser.Parses Parser.parseBool p1.advance.advance.advance c2 q1)
    (h5 : q1.currentToken = Token.RPARENTHESIS)
    (hs1 : Parser.Parses Parser.parseStmt q1.advance s1 q2)
    (h6 : q2.currentToken = Token.ELSE)
    (hs2 : Parser.Parses Parser.parseStmt q2.advance s2 q3)
    (h7 : q3.currentToken ≠ Token.ELSE) :
    Parser.Parses Parser.parseStmt p (Node.IfNode c1 (Node.IfElseNode c2 s1 s2)) q3 ∧
    (∀ fuel r, Parser.parseStmt fuel p = Except.ok r →
      r = (Node.IfNode c1 (Node.IfElseNode c2 s1 s2), q3)) ∧
    Node.IfNode c1 (Node.IfElseNode c2 s1 s2) ≠ Node.IfElseNode c1 (Node.IfNode c2 s1) s2 ∧
    (∀ fuel st v, evaluateExpr st.symbolMap c1 = Except.ok v → v.asBool = false →
      executeStmt (fuel + 1) st (Node.IfNode c1 (Node.IfElseNode c2 s1 s2))
        = Except.ok st) := by
  have hinner := Parser.parseStmt_ifElse c2 s1 s2 p1.advance q1 q2 q3 h3 h4 hc2 h5 hs1 h6 hs2
  have houter := Parser.parseStmt_if c1 _ p p1 q3 h0 h1 hc1 h2 hinner h7
  refine ⟨houter, fun fuel r hr => Parser.Parses.unique Parser.parseStmt_stable houter
    fuel r hr, by simp, ?_⟩
  intro fuel st v hv hfalse
  rw [executeStmt_if]
  simp [hv, hfalse]

/-- Witness of C40 on `if (false) if (true) print(1); else print(2);`. -/
theorem dangling_else_binds_to_nearest_if_witness :
    Parser.Parses Parser.parseStmt
      (Parser.new (Lexer.new "if (false) if (true) print(1); else print(2); print(3);".toList))
      (Node.IfNode (boolLit false)
        (Node.IfElseNode (boolLit true) (Node.PrintNode (intLit 1)) (Node.PrintNode (intLit 2))))
      (Parser.advance^[19]
        (Parser.new (Lexer.new "if (false) if (true) print(1); else print(2); print(3);".toList))) ∧
    runSource 50 "{if (false) if (true) print(1); else print(2); print(3);}"
      = ⟨["3"], none⟩ :=
  ⟨(dangling_else_binds_to_nearest_if
      (Parser.new (Lexer.new "if (false) if (true) print(1); else print(2); print(3);".toList))
      (Parser.advance^[3]
        (Parser.new (Lexer.new "if (false) if (true) print(1); else print(2); print(3);".toList)))
      (Parser.advance^[7]
        (Parser.new (Lexer.new "if (false) if (true) print(1); else print(2); print(3);".toList)))
      (Parser.advance^[13]
        (Parser.new (Lexer.new "if (false) if (true) print(1); else print(2); print(3);".toList)))
      (Parser.advance^[19]
        (Parser.new (Lexer.new "if (false) if (true) print(1); else print(2); print(3);".toList)))
      (boolLit false) (boolLit true) (Node.PrintNode (intLit 1)) (Node.PrintNode (intLit 2))
      rfl rfl (Parser.Parses.of_run Parser.parseBool_stable 10 rfl) rfl rfl rfl
      (Parser.Parses.of_run Parser.parseBool_stable 10 rfl) rfl
      (Parser.Parses.of_run Parser.parseStmt_stable 12 rfl) rfl
      (Parser.Parses.of_run Parser.parseStmt_stable 12 rfl) (by decide)).1,
   by decide⟩

/-! ## The scanner on a text followed by more characters -/

theorem Lexer.Ext.currentCharacter {t : List Char} {l l1 : Lexer} (h : Lexer.Ext t l l1) :
    l1.currentCharacter = l.currentCharacter := by
  rw [h]

theorem Lexer.Ext.input {t : List Char} {l l1 : Lexer} (h : Lexer.Ext t l l1) :
    l1.input = l.input ++ t := by
  rw [h]

/-- While characters are left, `advance` reads the same character on both streams. -/
theorem Lexer.Ext.advance_ext {t : List Char} {l l1 : Lexer} (h : Lexer.Ext t l l1)
    (hne : l.input ≠ []) : Lexer.Ext t l.advance l1.advance := by
  rw [h]
  unfold Lexer.Ext Lexer.advance
  cases hin : l.input with
  | nil => exact absurd hin hne
  | cons c rest =>
    by_cases hc : c = '\n' <;> simp [hc]

/-- At the end of the stream `advance` reaches the end. -/
theorem Lexer.advance_atEnd (l : Lexer) (h : l.input = []) : l.advance.AtEnd := by
  unfold Lexer.advance Lexer.AtEnd
  simp [h]

theorem Lexer.advance_identifierValue (l : Lexer) :
    l.advance.identifierValue = l.identifierValue := by
  unfold Lexer.advance
  cases hin : l.input with
  | nil => rfl
  | cons c rest => by_cases hc : c = '\n' <;> simp [hc]

theorem Lexer.advance_numberValue (l : Lexer) :
    l.advance.numberValue = l.numberValue := by
  unfold Lexer.advance
  cases hin : l.input with
  | nil => rfl
  | cons c rest => by_cases hc : c = '\n' <;> simp [hc]

theorem Lexer.advance_input_length (l : Lexer) :
    l.advance.input.length = l.input.length - 1 := by
  unfold Lexer.advance
  cases hin : l.input with
  | nil => rfl
  | cons c rest => by_cases hc : c = '\n' <;> simp [hc]

/-- The outcome of one `advance` on both streams. -/
theorem Lexer.Ext.advance_cases {t : List Char} {l l1 : Lexer} (h : Lexer.Ext t l l1) :
    (Lexer.Ext t l.advance l1.advance ∧ l.input ≠ []) ∨ (l.advance.AtEnd ∧ l.input = []) := by
  by_cases hne : l.input = []
  · exact Or.inr ⟨Lexer.advance_atEnd l hne, hne⟩
  · exact Or.inl ⟨h.advance_ext hne, hne⟩

theorem Lexer.skipWhitespaceLoop_atEnd (n : Nat) (l : Lexer) (h : l.AtEnd) :
    Lexer.skipWhitespaceLoop n l = l := by
  cases n with
  | zero => rfl
  | succ k =>
    unfold Lexer.skipWhitespaceLoop
    rw [h.2]
    simp [isspace]

theorem Lexer.skipWhitespaceLoop_ext (t : List Char) (n : Nat) :
    ∀ (n1 : Nat) (l l1 : Lexer), Lexer.Ext t l l1 → l.input.length < n →
      l1.input.length < n1 →
      Lexer.Ext t (Lexer.skipWhitespaceLoop n l) (Lexer.skipWhitespaceLoop n1 l1) ∨
      (Lexer.skipWhitespaceLoop n l).AtEnd := by
  induction n with
  | zero => intro n1 l l1 _ hn; omega
  | succ k ih =>
    intro n1 l l1 h hn hn1
    obtain ⟨k1, rfl⟩ : ∃ k1, n1 = k1 + 1 := ⟨n1 - 1, by omega⟩
    rw [Lexer.skipWhitespaceLoop, Lexer.skipWhitespaceLoop, h.currentCharacter]
    by_cases hs : isspace l.currentCharacter = true
    · simp only [hs, if_true]
      rcases h.advance_cases with ⟨hadv, hne⟩ | ⟨hend, _⟩
      · have hlen := Lexer.advance_input_length l
        have hlen1 := Lexer.advance_input_length l1
        have hpos : 0 < l.input.length := List.length_pos.mpr hne
        have hpos1 : 0 < l1.input.length := by rw [h.input]; simp; omega
        exact ih k1 _ _ hadv (by omega) (by omega)
      · right
        rw [Lexer.skipWhitespaceLoop_atEnd _ _ hend]
        exact hend
    · simp only [hs]
      left
      exact h

theorem Lexer.skipWhitespace_ext (t : List Char) (l l1 : Lexer) (h : Lexer.Ext t l l1) :
    Lexer.Ext t l.skipWhitespace l1.skipWhitespace ∨ l.skipWhitespace.AtEnd :=
  Lexer.skipWhitespaceLoop_ext t _ _ l l1 h (Nat.lt_succ_self _) (Nat.lt_succ_self _)

theorem Lexer.scanNumberLoop_atEnd (n : Nat) (l : Lexer) (h : l.AtEnd) :
    Lexer.scanNumberLoop n l = l := by
  cases n with
  | zero => rfl
  | succ k =>
    unfold Lexer.scanNumberLoop
    rw [h.2]
    simp [isdigit]

theorem Lexer.scanIdentifierLoop_atEnd (n : Nat) (l : Lexer) (h : l.AtEnd) :
    Lexer.scanIdentifierLoop n l = l := by
  cases n with
  | zero => rfl
  | succ k =>
    unfold Lexer.scanIdentifierLoop
    rw [h.2]
    simp [isalnum]

theorem Lexer.scanNumberLoop_ext (t : List Char) (n : Nat) :
    ∀ (n1 : Nat) (l l1 : Lexer), Lexer.Ext t l l1 → l.input.length < n →
      l1.input.length < n1 →
      Lexer.Ext t (Lexer.scanNumberLoop n l) (Lexer.scanNumberLoop n1 l1) ∨
      (Lexer.scanNumberLoop n l).AtEnd := by
  induction n with
  | zero => intro n1 l l1 _ hn; omega
  | succ k ih =>
    intro n1 l l1 h hn hn1
    obtain ⟨k1, rfl⟩ : ∃ k1, n1 = k1 + 1 := ⟨n1 - 1, by omega⟩
    rw [Lexer.scanNumberLoop, Lexer.scanNumberLoop]
    have hcur := h.currentCharacter
    by_cases hs : isdigit l.currentCharacter = true
    · have hs1 : isdigit l1.currentCharacter = true := by rw [hcur]; exact hs
      simp only [hs, hs1, if_true]
      have h2 : Lexer.Ext t
          { l with numberValue :=
              wrapInt (l.numberValue * 10 + ((l.currentCharacter.toNat : Int) - 48)) }
          { l1 with numberValue :=
              wrapInt (l1.numberValue * 10 + ((l1.currentCharacter.toNat : Int) - 48)) } := by
        rw [h]; rfl
      rcases h2.advance_cases with ⟨hadv, hne⟩ | ⟨hend, _⟩
      · have hlen := Lexer.advance_input_length
          { l with numberValue :=
              wrapInt (l.numberValue * 10 + ((l.currentCharacter.toNat : Int) - 48)) }
        have hne' : l.input ≠ [] := hne
        have hpos : 0 < l.input.length := List.length_pos.mpr hne'
        have hl1 : l1.input.length = l.input.length + t.length := by
          rw [h.input, List.length_append]
        simp only [] at hlen
        exact ih k1 _ _ hadv (by omega)
          (by rw [hadv.input, List.length_append]; omega)
      · right
        rw [Lexer.scanNumberLoop_atEnd _ _ hend]
        exact hend
    · have hs1 : ¬ isdigit l1.currentCharacter = true := by rw [hcur]; exact hs
      simp only [hs, hs1]
      left
      exact h

theorem Lexer.scanIdentifierLoop_ext (t : List Char) (n : Nat) :
    ∀ (n1 : Nat) (l l1 : Lexer), Lexer.Ext t l l1 → l.input.length < n →
      l1.input.length < n1 →
      Lexer.Ext t (Lexer.scanIdentifierLoop n l) (Lexer.scanIdentifierLoop n1 l1) ∨
      (Lexer.scanIdentifierLoop n l).AtEnd := by
  induction n with
  | zero => intro n1 l l1 _ hn; omega
  | succ k ih =>
    intro n1 l l1 h hn hn1
    obtain ⟨k1, rfl⟩ : ∃ k1, n1 = k1 + 1 := ⟨n1 - 1, by omega⟩
    rw [Lexer.scanIdentifierLoop, Lexer.scanIdentifierLoop]
    have hcur := h.currentCharacter
    by_cases hs : isalnum l.currentCharacter = true
    · have hs1 : isalnum l1.currentCharacter = true := by rw [hcur]; exact hs
      simp only [hs, hs1, if_true]
      have h2 : Lexer.Ext t
          { l with identifierValue := (l.identifierValue.push l.currentCharacter) }
          { l1 with identifierValue := (l1.identifierValue.push l1.currentCharacter) } := by
        rw [h]; rfl
      rcases h2.advance_cases with ⟨hadv, hne⟩ | ⟨hend, _⟩
      · have hlen := Lexer.advance_input_length
          { l with identifierValue := (l.identifierValue.push l.currentCharacter) }
        have hne' : l.input ≠ [] := hne
        have hpos : 0 < l.input.length := List.length_pos.mpr hne'
        have hl1 : l1.input.length = l.input.length + t.length := by
          rw [h.input, List.length_append]
        simp only [] at hlen
        exact ih k1 _ _ hadv (by omega)
          (by rw [hadv.input, List.length_append]; omega)
      · right
        rw [Lexer.scanIdentifierLoop_atEnd _ _ hend]
        exact hend
    · have hs1 : ¬ isalnum l1.currentCharacter = true := by rw [hcur]; exact hs
      simp only [hs, hs1]
      left
      exact h

theorem Lexer.keywords_fragile (word : String) (k : Token)
    (h : Lexer.keywords word = some k) : k.fragile = true := by
  unfold Lexer.keywords at h
  split_ifs at h <;> (cases h; rfl)

/-- The body of `nextToken` with the local names replaced by what they stand for. -/
theorem Lexer.nextToken_unfold (l0 : Lexer) :
    l0.nextToken =
      (if isdigit l0.skipWhitespace.currentCharacter then l0.skipWhitespace.scanNumber
      else if isalpha l0.skipWhitespace.currentCharacter then
        l0.skipWhitespace.scanIdentifierOrKeyword
      else if l0.skipWhitespace.currentCharacter = '+' then
        (Token.PLUS, l0.skipWhitespace.advance)
      else if l0.skipWhitespace.currentCharacter = '-' then
        (Token.MINUS, l0.skipWhitespace.advance)
      else if l0.skipWhitespace.currentCharacter = '*' then
        (Token.MULTIPLY, l0.skipWhitespace.advance)
      else if l0.skipWhitespace.currentCharacter = '/' then
        (Token.DIVIDE, l0.skipWhitespace.advance)
      else if l0.skipWhitespace.currentCharacter = '=' then
        l0.skipWhitespace.twoCharacters '=' Token.EQ Token.ASSIGN
      else if l0.skipWhitespace.currentCharacter = '!' then
        l0.skipWhitespace.twoCharacters '=' Token.NEQ Token.NOT
      else if l0.skipWhitespace.currentCharacter = '<' then
        l0.skipWhitespace.twoCharacters '=' Token.LESSEQ Token.LESS
      else if l0.skipWhitespace.currentCharacter = '>' then
        l0.skipWhitespace.twoCharacters '=' Token.GREATEREQ Token.GREATER
      else if l0.skipWhitespace.currentCharacter = '&' then
        l0.skipWhitespace.twoCharacters '&' Token.AND Token.ERROR
      else if l0.skipWhitespace.currentCharacter = '|' then
        l0.skipWhitespace.twoCharacters '|' Token.OR Token.ERROR
      else if l0.skipWhitespace.currentCharacter = ';' then
        (Token.SEMICOLON, l0.skipWhitespace.advance)
      else if l0.skipWhitespace.currentCharacter = '{' then
        (Token.LBRACE, l0.skipWhitespace.advance)
      else if l0.skipWhitespace.currentCharacter = '}' then
        (Token.RBRACE, l0.skipWhitespace.advance)
      else if l0.skipWhitespace.currentCharacter = '[' then
        (Token.LBRACKET, l0.skipWhitespace.advance)
      else if l0.skipWhitespace.currentCharacter = ']' then
        (Token.RBRACKET, l0.skipWhitespace.advance)
      else if l0.skipWhitespace.currentCharacter = '(' then
        (Token.LPARENTHESIS, l0.skipWhitespace.advance)
      else if l0.skipWhitespace.currentCharacter = ')' then
        (Token.RPARENTHESIS, l0.skipWhitespace.advance)
      else if l0.skipWhitespace.currentCharacter = Char.ofNat 0 then
        (Token.END, l0.skipWhitespace)
      else (Token.ERROR, l0.skipWhitespace)) := rfl

/-- At the end of the stream, `nextToken` returns END and stays. -/
theorem Lexer.nextToken_atEnd (l : Lexer) (h : l.skipWhitespace.AtEnd) :
    l.nextToken = (Token.END, l.skipWhitespace) := by
  rw [Lexer.nextToken_unfold, h.2]
  rfl

theorem ite_rel {α : Type} (P : α → α → Prop) (c : Prop) [Decidable c] (a b a1 b1 : α)
    (ha : c → P a a1) (hb : ¬c → P b b1) :
    P (if c then a else b) (if c then a1 else b1) := by
  by_cases h : c
  · rw [if_pos h, if_pos h]; exact ha h
  · rw [if_neg h, if_neg h]; exact hb h

theorem Lexer.Sim.single (t : List Char) (l l1 : Lexer) (h : Lexer.Ext t l l1) (k : Token) :
    Lexer.Sim t (k, l.advance) (k, l1.advance) := by
  left
  refine ⟨rfl, ?_, ?_, ?_⟩
  · simp only [Lexer.advance_identifierValue]; rw [h]
  · simp only [Lexer.advance_numberValue]; rw [h]
  · rcases h.advance_cases with ⟨hadv, _⟩ | ⟨hend, _⟩
    · exact Or.inl hadv
    · exact Or.inr hend

theorem Lexer.Sim.double (t : List Char) (l l1 : Lexer) (h : Lexer.Ext t l l1)
    (second : Char) (both one : Token) (hsec : second ≠ Char.ofNat 0)
    (hone : one.fragile = true) :
    Lexer.Sim t (l.twoCharacters second both one) (l1.twoCharacters second both one) := by
  unfold Lexer.twoCharacters
  simp only []
  rcases h.advance_cases with ⟨hadv, _⟩ | ⟨hend, _⟩
  · rw [hadv.currentCharacter]
    refine ite_rel (Lexer.Sim t) _ _ _ _ _ (fun _ => ?_) (fun _ => ?_)
    · exact Lexer.Sim.single t _ _ hadv both
    · left
      refine ⟨rfl, ?_, ?_, Or.inl hadv⟩
      · rw [hadv]
      · rw [hadv]
  · right
    have hc : ¬ l.advance.currentCharacter = second := by
      rw [hend.2]; exact fun hh => hsec hh.symm
    simp only [hc, if_false]
    exact ⟨hend, hone⟩

/-- The scan of one token on a stream and on the stream followed by `t`. -/
theorem Lexer.nextToken_sim (t : List Char) (l l1 : Lexer) (h : Lexer.Ext t l l1) :
    Lexer.Sim t l.nextToken l1.nextToken := by
  rcases Lexer.skipWhitespace_ext t l l1 h with hws | hend
  · rw [Lexer.nextToken_unfold l, Lexer.nextToken_unfold l1, hws.currentCharacter]
    refine ite_rel (Lexer.Sim t) _ _ _ _ _ (fun _ => ?_) (fun _ => ?_)
    · unfold Lexer.scanNumber
      have h2 : Lexer.Ext t { l.skipWhitespace with numberValue := 0 }
          { l1.skipWhitespace with numberValue := 0 } := by rw [hws]; rfl
      rcases Lexer.scanNumberLoop_ext t _ _ _ _ h2 (Nat.lt_succ_self _) (Nat.lt_succ_self _)
        with hr | hr
      · left
        refine ⟨rfl, ?_, ?_, Or.inl hr⟩
        · rw [hr]
        · rw [hr]
      · right
        exact ⟨hr, rfl⟩
    refine ite_rel (Lexer.Sim t) _ _ _ _ _ (fun _ => ?_) (fun _ => ?_)
    · unfold Lexer.scanIdentifierOrKeyword
      simp only []
      have h2 : Lexer.Ext t { l.skipWhitespace with identifierValue := "" }
          { l1.skipWhitespace with identifierValue := "" } := by rw [hws]; rfl
      rcases Lexer.scanIdentifierLoop_ext t _ _ _ _ h2 (Nat.lt_succ_self _)
        (Nat.lt_succ_self _) with hr | hr
      · left
        have hid : (Lexer.scanIdentifierLoop (l1.skipWhitespace.input.length + 1)
            { l1.skipWhitespace with identifierValue := "" }).identifierValue
            = (Lexer.scanIdentifierLoop (l.skipWhitespace.input.length + 1)
            { l.skipWhitespace with identifierValue := "" }).identifierValue := by
          rw [hr]
        simp only [] at hid
        rw [hid]
        cases hk : Lexer.keywords (Lexer.scanIdentifierLoop (l.skipWhitespace.input.length + 1)
            { l.skipWhitespace with identifierValue := "" }).identifierValue with
        | none =>
          refine ⟨rfl, ?_, ?_, Or.inl hr⟩
          · simp only []; rw [hr]
          · simp only []; rw [hr]
        | some k =>
          refine ⟨rfl, ?_, ?_, Or.inl hr⟩
          · simp only []; rw [hr]
          · simp only []; rw [hr]
      · right
        cases hk : Lexer.keywords (Lexer.scanIdentifierLoop (l.skipWhitespace.input.length + 1)
            { l.skipWhitespace with identifierValue := "" }).identifierValue with
        | none => exact ⟨hr, rfl⟩
        | some k => exact ⟨hr, Lexer.keywords_fragile _ _ hk⟩
    refine ite_rel (Lexer.Sim t) _ _ _ _ _ (fun _ => ?_) (fun _ => ?_)
    · exact Lexer.Sim.single t _ _ hws _
    refine ite_rel (Lexer.Sim t) _ _ _ _ _ (fun _ => ?_) (fun _ => ?_)
    · exact Lexer.Sim.single t _ _ hws _
    refine ite_rel (Lexer.Sim t) _ _ _ _ _ (fun _ => ?_) (fun _ => ?_)
    · exact Lexer.Sim.single t _ _ hws _
    refine ite_rel (Lexer.Sim t) _ _ _ _ _ (fun _ => ?_) (fun _ => ?_)
    · exact Lexer.Sim.single t _ _ hws _
    refine ite_rel (Lexer.Sim t) _ _ _ _ _ (fun _ => ?_) (fun _ => ?_)
    · exact Lexer.Sim.double t _ _ hws _ _ _ (by decide) rfl
    refine ite_rel (Lexer.Sim t) _ _ _ _ _ (fun _ => ?_) (fun _ => ?_)
    · exact Lexer.Sim.double t _ _ hws _ _ _ (by decide) rfl
    refine ite_rel (Lexer.Sim t) _ _ _ _ _ (fun _ => ?_) (fun _ => ?_)
    · exact Lexer.Sim.double t _ _ hws _ _ _ (by decide) rfl
    refine ite_rel (Lexer.Sim t) _ _ _ _ _ (fun _ => ?_) (fun _ => ?_)
    · exact Lexer.Sim.double t _ _ hws _ _ _ (by decide) rfl
    refine ite_rel (Lexer.Sim t) _ _ _ _ _ (fun _ => ?_) (fun _ => ?_)
    · exact Lexer.Sim.double t _ _ hws _ _ _ (by decide) rfl
    refine ite_rel (Lexer.Sim t) _ _ _ _ _ (fun _ => ?_) (fun _ => ?_)
    · exact Lexer.Sim.double t _ _ hws _ _ _ (by decide) rfl
    refine ite_rel (Lexer.Sim t) _ _ _ _ _ (fun _ => ?_) (fun _ => ?_)
    · exact Lexer.Sim.single t _ _ hws _
    refine ite_rel (Lexer.Sim t) _ _ _ _ _ (fun _ => ?_) (fun _ => ?_)
    · exact Lexer.Sim.single t _ _ hws _
    refine ite_rel (Lexer.Sim t) _ _ _ _ _ (fun _ => ?_) (fun _ => ?_)
    · exact Lexer.Sim.single t _ _ hws _
    refine ite_rel (Lexer.Sim t) _ _ _ _ _ (fun _ => ?_) (fun _ => ?_)
    · exact Lexer.Sim.single t _ _ hws _
    refine ite_rel (Lexer.Sim t) _ _ _ _ _ (fun _ => ?_) (fun _ => ?_)
    · exact Lexer.Sim.single t _ _ hws _
    refine ite_rel (Lexer.Sim t) _ _ _ _ _ (fun _ => ?_) (fun _ => ?_)
    · exact Lexer.Sim.single t _ _ hws _
    refine ite_rel (Lexer.Sim t) _ _ _ _ _ (fun _ => ?_) (fun _ => ?_)
    · exact Lexer.Sim.single t _ _ hws _
    refine ite_rel (Lexer.Sim t) _ _ _ _ _ (fun _ => ?_) (fun _ => ?_)
    · left
      refine ⟨rfl, ?_, ?_, Or.inl hws⟩
      · rw [hws]
      · rw [hws]
    · left
      refine ⟨rfl, ?_, ?_, Or.inl hws⟩
      · rw [hws]
      · rw [hws]
  · right
    rw [Lexer.nextToken_atEnd l hend]
    exact ⟨hend, rfl⟩

/-! ## The parser on a text followed by more characters -/

theorem Parser.Rel.tok {t : List Char} {p p1 : Parser} (h : Parser.Rel t p p1) :
    p1.currentToken = p.currentToken := h.1.symm

theorem Parser.Rel.ident {t : List Char} {p p1 : Parser} (h : Parser.Rel t p p1) :
    p1.lexer.identifierValue = p.lexer.identifierValue := h.2.1.symm

theorem Parser.Rel.num {t : List Char} {p p1 : Parser} (h : Parser.Rel t p p1) :
    p1.lexer.numberValue = p.lexer.numberValue := h.2.2.1.symm

/-- At the end of the text the parser is given END and stays at the end. -/
theorem Parser.advance_doomed (p : Parser) (h : p.lexer.AtEnd) : p.advance.Doomed := by
  have hws : p.lexer.skipWhitespace = p.lexer :=
    Lexer.skipWhitespaceLoop_atEnd _ _ h
  have hend : p.lexer.skipWhitespace.AtEnd := by rw [hws]; exact h
  have hnext := Lexer.nextToken_atEnd p.lexer hend
  unfold Parser.advance Parser.Doomed
  simp only [hnext, hws]
  exact ⟨h, rfl⟩

theorem Parser.Doomed.step_doomed {p : Parser} (h : p.Doomed) : p.advance.Doomed :=
  Parser.advance_doomed p h.1

/-- One `advance` from two states that show the same. -/
theorem Parser.Rel.advance_rel {t : List Char} {p p1 : Parser} (h : Parser.Rel t p p1) :
    Parser.Rel t p.advance p1.advance ∨ p.advance.Doomed := by
  obtain ⟨_, _, _, hext | hend⟩ := h
  · rcases Lexer.nextToken_sim t p.lexer p1.lexer hext with ⟨h1, h2, h3, h4⟩ | ⟨h1, h2⟩
    · left
      exact ⟨h1, h2, h3, h4⟩
    · right
      exact ⟨h1, h2⟩
  · right
    exact Parser.advance_doomed p hend

theorem Parser.Esc.esc_pure {n : Node} {q : Parser} (h : q.Doomed) :
    Parser.Esc (pure (n, q)) := by
  constructor
  intro n1 q1 h1
  cases h1
  exact h

theorem Parser.Esc.esc_throw {e : Error} : Parser.Esc (throw e) := by
  constructor
  intro n1 q1 h1
  cases h1

theorem Parser.Esc.esc_bind {x : Except Error (Node × Parser)}
    {f : Node × Parser → Except Error (Node × Parser)} (hx : Parser.Esc x)
    (hf : ∀ n q, Parser.Doomed q → Parser.Esc (f (n, q))) : Parser.Esc (x >>= f) := by
  constructor
  intro n1 q1 h1
  cases x with
  | error e => cases h1
  | ok a =>
    obtain ⟨n, q⟩ := a
    exact (hf n q (hx.out n q rfl)).out n1 q1 h1

theorem Parser.Esc.esc_match (p : Parser) (tk : Token)
    (f : Parser → Except Error (Node × Parser)) (hp : p.Doomed)
    (hf : p.advance.Doomed → Parser.Esc (f p.advance)) :
    Parser.Esc (p.matchToken tk >>= f) := by
  constructor
  intro n1 q1 h1
  unfold Parser.matchToken at h1
  by_cases hc : p.currentToken = tk
  · rw [if_pos hc] at h1
    exact (hf hp.step_doomed).out n1 q1 h1
  · rw [if_neg hc] at h1
    cases h1

theorem Parser.Esc.esc_ite {c : Prop} [Decidable c] {a b : Except Error (Node × Parser)}
    (ha : Parser.Esc a) (hb : Parser.Esc b) : Parser.Esc (if c then a else b) := by
  by_cases h : c
  · rw [if_pos h]; exact ha
  · rw [if_neg h]; exact hb

theorem Parser.Cpl.cpl_pure {t : List Char} {n : Node} {q q1 : Parser}
    (h : Parser.Rel t q q1) : Parser.Cpl t (pure (n, q)) (pure (n, q1)) := by
  constructor
  intro n2 q2 h2
  cases h2
  exact Or.inl ⟨q1, rfl, h⟩

theorem Parser.Cpl.cpl_throw {t : List Char} {e : Error} {y : Except Error (Node × Parser)} :
    Parser.Cpl t (throw e) y := by
  constructor
  intro n2 q2 h2
  cases h2

theorem Parser.Cpl.cpl_bind {t : List Char} {x x1 : Except Error (Node × Parser)}
    {f f1 : Node × Parser → Except Error (Node × Parser)} (hx : Parser.Cpl t x x1)
    (hf : ∀ n q q1, Parser.Rel t q q1 → Parser.Cpl t (f (n, q)) (f1 (n, q1)))
    (he : ∀ n q, Parser.Doomed q → Parser.Esc (f (n, q))) :
    Parser.Cpl t (x >>= f) (x1 >>= f1) := by
  constructor
  intro n2 q2 h2
  cases x with
  | error e => cases h2
  | ok a =>
    obtain ⟨n, q⟩ := a
    rcases hx.out n q rfl with ⟨q1, hx1, hrel⟩ | hd
    · rcases (hf n q q1 hrel).out n2 q2 h2 with ⟨q3, h3, hrel3⟩ | hd
      · left
        refine ⟨q3, ?_, hrel3⟩
        rw [hx1]
        exact h3
      · exact Or.inr hd
    · exact Or.inr ((he n q hd).out n2 q2 h2)

theorem Parser.Cpl.cpl_match {t : List Char} (p p1 : Parser) (tk : Token)
    (f f1 : Parser → Except Error (Node × Parser)) (h : Parser.Rel t p p1)
    (hf : Parser.Rel t p.advance p1.advance → Parser.Cpl t (f p.advance) (f1 p1.advance))
    (he : p.advance.Doomed → Parser.Esc (f p.advance)) :
    Parser.Cpl t (p.matchToken tk >>= f) (p1.matchToken tk >>= f1) := by
  constructor
  intro n2 q2 h2
  unfold Parser.matchToken at h2 ⊢
  rw [h.tok]
  by_cases hc : p.currentToken = tk
  · rw [if_pos hc] at h2 ⊢
    rcases h.advance_rel with hrel | hd
    · exact (hf hrel).out n2 q2 h2
    · exact Or.inr ((he hd).out n2 q2 h2)
  · rw [if_neg hc] at h2
    cases h2

theorem Parser.Cpl.cpl_ite {t : List Char} {c : Prop} [Decidable c]
    {a b a1 b1 : Except Error (Node × Parser)} (ha : c → Parser.Cpl t a a1)
    (hb : ¬c → Parser.Cpl t b b1) :
    Parser.Cpl t (if c then a else b) (if c then a1 else b1) := by
  by_cases h : c
  · rw [if_pos h, if_pos h]; exact ha h
  · rw [if_neg h, if_neg h]; exact hb h

theorem Parser.parseBasic_esc (p : Parser) (hp : p.Doomed) : Parser.Esc (Parser.parseBasic p) := by
  unfold Parser.parseBasic
  repeat' (first
    | (with_reducible refine Parser.Esc.esc_match _ _ _ (by assumption) ?_
       intro hd
       try dsimp only)
    | with_reducible refine Parser.Esc.esc_bind ?_ ?_
    | (intro n q hd
       try dsimp only)
    | exact Parser.Esc.esc_pure (by assumption)
    | exact Parser.Esc.esc_throw
    | with_reducible apply Parser.Esc.esc_ite)

theorem Parser.parseType_esc (p : Parser) (hp : p.Doomed) : Parser.Esc (Parser.parseType p) := by
  unfold Parser.parseType
  repeat' (first
    | (with_reducible refine Parser.Esc.esc_match _ _ _ (by assumption) ?_
       intro hd
       try dsimp only)
    | with_reducible refine Parser.Esc.esc_bind ?_ ?_
    | with_reducible exact Parser.parseBasic_esc _ (by assumption)
    | (intro n q hd
       try dsimp only)
    | exact Parser.Esc.esc_pure (by assumption)
    | exact Parser.Esc.esc_throw
    | with_reducible apply Parser.Esc.esc_ite)

theorem Parser.parseDecl_esc (p : Parser) (hp : p.Doomed) : Parser.Esc (Parser.parseDecl p) := by
  unfold Parser.parseDecl
  repeat' (first
    | (with_reducible refine Parser.Esc.esc_match _ _ _ (by assumption) ?_
       intro hd
       try dsimp only)
    | with_reducible refine Parser.Esc.esc_bind ?_ ?_
    | with_reducible exact Parser.parseType_esc _ (by assumption)
    | (intro n q hd
       try dsimp only)
    | exact Parser.Esc.esc_pure (by assumption)
    | exact Parser.Esc.esc_throw
    | with_reducible apply Parser.Esc.esc_ite)

theorem Parser.parseDecls_esc : ∀ (fuel : Nat) (p : Parser), p.Doomed →
    Parser.Esc (Parser.parseDecls fuel p) := by
  intro fuel
  induction fuel with
  | zero => intro p _; exact Parser.Esc.esc_throw
  | succ fuel ih =>
    intro p hp
    rw [Parser.parseDecls.eq_2]
    repeat' (first
      | (with_reducible refine Parser.Esc.esc_match _ _ _ (by assumption) ?_
         intro hd
         try dsimp only)
      | with_reducible refine Parser.Esc.esc_bind ?_ ?_
      | with_reducible exact Parser.parseDecl_esc _ (by assumption)
      | with_reducible exact ih _ (by assumption)
      | (intro n q hd
         try dsimp only)
      | exact Parser.Esc.esc_pure (by assumption)
      | exact Parser.Esc.esc_throw
      | with_reducible apply Parser.Esc.esc_ite)

set_option maxHeartbeats 1000000 in
/-- From a doomed state the parser only reaches doomed states. -/
theorem Parser.escAt : ∀ fuel, Parser.EscAt fuel := by
  intro fuel
  induction fuel with
  | zero =>
    constructor <;> intros <;> exact Parser.Esc.esc_throw
  | succ fuel ih =>
    constructor
    case block =>
      intro p hp
      rw [Parser.parseBlock.eq_2]
      repeat' (first
        | (with_reducible refine Parser.Esc.esc_match _ _ _ (by assumption) ?_
           intro hd
           try dsimp only)
        | with_reducible refine Parser.Esc.esc_bind ?_ ?_
        | with_reducible exact Parser.parseDecls_esc _ _ (by assumption)
        | with_reducible exact ih.stmts _ (by assumption)
        | (intro n q hd
           try dsimp only)
        | exact Parser.Esc.esc_pure (by assumption)
        | exact Parser.Esc.esc_throw
        | with_reducible apply Parser.Esc.esc_ite)
    case stmts =>
      intro p hp
      rw [Parser.parseStmts.eq_2]
      repeat' (first
        | (with_reducible refine Parser.Esc.esc_match _ _ _ (by assumption) ?_
           intro hd
           try dsimp only)
        | with_reducible refine Parser.Esc.esc_bind ?_ ?_
        | with_reducible exact ih.stmt _ (by assumption)
        | with_reducible exact ih.stmts _ (by assumption)
        | (intro n q hd
           try dsimp only)
        | exact Parser.Esc.esc_pure (by assumption)
        | exact Parser.Esc.esc_throw
        | with_reducible apply Parser.Esc.esc_ite)
    case stmt =>
      intro p hp
      rw [Parser.parseStmt.eq_2]
      repeat' (first
        | (with_reducible refine Parser.Esc.esc_match _ _ _ (by assumption) ?_
           intro hd
           try dsimp only)
        | with_reducible refine Parser.Esc.esc_bind ?_ ?_
        | with_reducible exact ih.loc _ (by assumption)
        | with_reducible exact ih.bool _ (by assumption)
        | with_reducible exact ih.stmt _ (by assumption)
        | with_reducible exact ih.block _ (by assumption)
        | (intro n q hd
           try dsimp only)
        | exact Parser.Esc.esc_pure (by assumption)
        | exact Parser.Esc.esc_throw
        | with_reducible apply Parser.Esc.esc_ite
        | split)
    case loc =>
      intro p hp
      rw [Parser.parseLoc.eq_2]
      repeat' (first
        | (with_reducible refine Parser.Esc.esc_match _ _ _ (by assumption) ?_
           intro hd
           try dsimp only)
        | with_reducible refine Parser.Esc.esc_bind ?_ ?_
        | with_reducible exact ih.bool _ (by assumption)
        | (intro n q hd
           try dsimp only)
        | exact Parser.Esc.esc_pure (by assumption)
        | exact Parser.Esc.esc_throw
        | with_reducible apply Parser.Esc.esc_ite)
    case bool =>
      intro p hp
      rw [Parser.parseBool.eq_2]
      repeat' (first
        | (with_reducible refine Parser.Esc.esc_match _ _ _ (by assumption) ?_
           intro hd
           try dsimp only)
        | with_reducible refine Parser.Esc.esc_bind ?_ ?_
        | with_reducible exact ih.join _ (by assumption)
        | with_reducible exact ih.boolLoop _ _ (by assumption)
        | (intro n q hd
           try dsimp only)
        | exact Parser.Esc.esc_pure (by assumption)
        | exact Parser.Esc.esc_throw
        | with_reducible apply Parser.Esc.esc_ite)
    case boolLoop =>
      intro left p hp
      rw [Parser.parseBoolLoop.eq_2]
      repeat' (first
        | (with_reducible refine Parser.Esc.esc_match _ _ _ (by assumption) ?_
           intro hd
           try dsimp only)
        | with_reducible refine Parser.Esc.esc_bind ?_ ?_
        | with_reducible exact ih.join _ (by assumption)
        | with_reducible exact ih.boolLoop _ _ (by assumption)
        | (intro n q hd
           try dsimp only)
        | exact Parser.Esc.esc_pure (by assumption)
        | exact Parser.Esc.esc_throw
        | with_reducible apply Parser.Esc.esc_ite)
    case join =>
      intro p hp
      rw [Parser.parseJoin.eq_2]
      repeat' (first
        | (with_reducible refine Parser.Esc.esc_match _ _ _ (by assumption) ?_
           intro hd
           try dsimp only)
        | with_reducible refine Parser.Esc.esc_bind ?_ ?_
        | with_reducible exact ih.equality _ (by assumption)
        | with_reducible exact ih.joinLoop _ _ (by assumption)
        | (intro n q hd
           try dsimp only)
        | exact Parser.Esc.esc_pure (by assumption)
        | exact Parser.Esc.esc_throw
        | with_reducible apply Parser.Esc.esc_ite)
    case joinLoop =>
      intro left p hp
      rw [Parser.parseJoinLoop.eq_2]
      repeat' (first
        | (with_reducible refine Parser.Esc.esc_match _ _ _ (by assumption) ?_
           intro hd
           try dsimp only)
        | with_reducible refine Parser.Esc.esc_bind ?_ ?_
        | with_reducible exact ih.equality _ (by assumption)
        | with_reducible exact ih.joinLoop _ _ (by assumption)
        | (intro n q hd
           try dsimp only)
        | exact Parser.Esc.esc_pure (by assumption)
        | exact Parser.Esc.esc_throw
        | with_reducible apply Parser.Esc.esc_ite)
    case equality =>
      intro p hp
      rw [Parser.parseEquality.eq_2]
      repeat' (first
        | (with_reducible refine Parser.Esc.esc_match _ _ _ (by assumption) ?_
           intro hd
           try dsimp only)
        | with_reducible refine Parser.Esc.esc_bind ?_ ?_
        | with_reducible exact ih.rel _ (by assumption)
        | with_reducible exact ih.equalityLoop _ _ (by assumption)
        | (intro n q hd
           try dsimp only)
        | exact Parser.Esc.esc_pure (by assumption)
        | exact Parser.Esc.esc_throw
        | with_reducible apply Parser.Esc.esc_ite)
    case equalityLoop =>
      intro left p hp
      rw [Parser.parseEqualityLoop.eq_2]
      repeat' (first
        | (with_reducible refine Parser.Esc.esc_match _ _ _ (by assumption) ?_
           intro hd
           try dsimp only)
        | with_reducible refine Parser.Esc.esc_bind ?_ ?_
        | with_reducible exact ih.rel _ (by assumption)
        | with_reducible exact ih.equalityLoop _ _ (by assumption)
        | (intro n q hd
           try dsimp only)
        | exact Parser.Esc.esc_pure (by assumption)
        | exact Parser.Esc.esc_throw
        | with_reducible apply Parser.Esc.esc_ite)
    case rel =>
      intro p hp
      rw [Parser.parseRel.eq_2]
      repeat' (first
        | (with_reducible refine Parser.Esc.esc_match _ _ _ (by assumption) ?_
           intro hd
           try dsimp only)
        | with_reducible refine Parser.Esc.esc_bind ?_ ?_
        | with_reducible exact ih.expr _ (by assumption)
        | (intro n q hd
           try dsimp only)
        | exact Parser.Esc.esc_pure (by assumption)
        | exact Parser.Esc.esc_throw
        | with_reducible apply Parser.Esc.esc_ite
        | split)
    case expr =>
      intro p hp
      rw [Parser.parseExpr.eq_2]
      repeat' (first
        | (with_reducible refine Parser.Esc.esc_match _ _ _ (by assumption) ?_
           intro hd
           try dsimp only)
        | with_reducible refine Parser.Esc.esc_bind ?_ ?_
        | with_reducible exact ih.term _ (by assumption)
        | with_reducible exact ih.exprLoop _ _ (by assumption)
        | (intro n q hd
           try dsimp only)
        | exact Parser.Esc.esc_pure (by assumption)
        | exact Parser.Esc.esc_throw
        | with_reducible apply Parser.Esc.esc_ite)
    case exprLoop =>
      intro left p hp
      rw [Parser.parseExprLoop.eq_2]
      repeat' (first
        | (with_reducible refine Parser.Esc.esc_match _ _ _ (by assumption) ?_
           intro hd
           try dsimp only)
        | with_reducible refine Parser.Esc.esc_bind ?_ ?_
        | with_reducible exact ih.term _ (by assumption)
        | with_reducible exact ih.exprLoop _ _ (by assumption)
        | (intro n q hd
           try dsimp only)
        | exact Parser.Esc.esc_pure (by assumption)
        | exact Parser.Esc.esc_throw
        | with_reducible apply Parser.Esc.esc_ite)
    case term =>
      intro p hp
      rw [Parser.parseTerm.eq_2]
      repeat' (first
        | (with_reducible refine Parser.Esc.esc_match _ _ _ (by assumption) ?_
           intro hd
           try dsimp only)
        | with_reducible refine Parser.Esc.esc_bind ?_ ?_
        | with_reducible exact ih.unary _ (by assumption)
        | with_reducible exact ih.termLoop _ _ (by assumption)
        | (intro n q hd
           try dsimp only)
        | exact Parser.Esc.esc_pure (by assumption)
        | exact Parser.Esc.esc_throw
        | with_reducible apply Parser.Esc.esc_ite)
    case termLoop =>
      intro left p hp
      rw [Parser.parseTermLoop.eq_2]
      repeat' (first
        | (with_reducible refine Parser.Esc.esc_match _ _ _ (by assumption) ?_
           intro hd
           try dsimp only)
        | with_reducible refine Parser.Esc.esc_bind ?_ ?_
        | with_reducible exact ih.unary _ (by assumption)
        | with_reducible exact ih.termLoop _ _ (by assumption)
        | (intro n q hd
           try dsimp only)
        | exact Parser.Esc.esc_pure (by assumption)
        | exact Parser.Esc.esc_throw
        | with_reducible apply Parser.Esc.esc_ite)
    case unary =>
      intro p hp
      rw [Parser.parseUnary.eq_2]
      repeat' (first
        | (with_reducible refine Parser.Esc.esc_match _ _ _ (by assumption) ?_
           intro hd
           try dsimp only)
        | with_reducible refine Parser.Esc.esc_bind ?_ ?_
        | with_reducible exact ih.unary _ (by assumption)
        | with_reducible exact ih.factor _ (by assumption)
        | (intro n q hd
           try dsimp only)
        | exact Parser.Esc.esc_pure (by assumption)
        | exact Parser.Esc.esc_throw
        | with_reducible apply Parser.Esc.esc_ite)
    case factor =>
      intro p hp
      rw [Parser.parseFactor.eq_2]
      repeat' (first
        | (with_reducible refine Parser.Esc.esc_match _ _ _ (by assumption) ?_
           intro hd
           try dsimp only)
        | with_reducible refine Parser.Esc.esc_bind ?_ ?_
        | with_reducible exact ih.bool _ (by assumption)
        | (intro n q hd
           try dsimp only)
        | exact Parser.Esc.esc_pure (by assumption)
        | exact Parser.Esc.esc_throw
        | with_reducible apply Parser.Esc.esc_ite
        | split)

theorem Parser.parseBasic_cpl (t : List Char) (p p1 : Parser) (hrel : Parser.Rel t p p1) :
    Parser.Cpl t (Parser.parseBasic p) (Parser.parseBasic p1) := by
  unfold Parser.parseBasic
  try simp only [Parser.Rel.tok hrel, Parser.Rel.ident hrel, Parser.Rel.num hrel]
  repeat' (first
    | (with_reducible refine Parser.Cpl.cpl_match _ _ _ _ _ (by assumption) ?_ ?_)
    | with_reducible refine Parser.Cpl.cpl_bind ?_ ?_ ?_
    | (with_reducible refine Parser.Esc.esc_match _ _ _ (by assumption) ?_
       intro hd
       try dsimp only)
    | with_reducible refine Parser.Esc.esc_bind ?_ ?_
    | (intro n q q1 hrel
       try dsimp only
       try simp only [Parser.Rel.tok hrel, Parser.Rel.ident hrel, Parser.Rel.num hrel])
    | (intro n q hd
       try dsimp only)
    | (intro hrel
       have htok := Parser.Rel.tok hrel
       try dsimp only
       try simp only [Parser.Rel.tok hrel, Parser.Rel.ident hrel, Parser.Rel.num hrel])
    | (intro hd
       try dsimp only)
    | exact Parser.Cpl.cpl_pure (by assumption)
    | exact Parser.Cpl.cpl_throw
    | exact Parser.Esc.esc_pure (by assumption)
    | exact Parser.Esc.esc_throw
    | with_reducible apply Parser.Cpl.cpl_ite
    | with_reducible apply Parser.Esc.esc_ite)

theorem Parser.parseType_cpl (t : List Char) (p p1 : Parser) (hrel : Parser.Rel t p p1) :
    Parser.Cpl t (Parser.parseType p) (Parser.parseType p1) := by
  unfold Parser.parseType
  try simp only [Parser.Rel.tok hrel, Parser.Rel.ident hrel, Parser.Rel.num hrel]
  repeat' (first
    | (with_reducible refine Parser.Cpl.cpl_match _ _ _ _ _ (by assumption) ?_ ?_)
    | with_reducible refine Parser.Cpl.cpl_bind ?_ ?_ ?_
    | (with_reducible refine Parser.Esc.esc_match _ _ _ (by assumption) ?_
       intro hd
       try dsimp only)
    | with_reducible refine Parser.Esc.esc_bind ?_ ?_
    | with_reducible exact Parser.parseBasic_cpl _ _ _ (by assumption)
    | with_reducible exact Parser.parseBasic_esc _ (by assumption)
    | (intro n q q1 hrel
       try dsimp only
       try simp only [Parser.Rel.tok hrel, Parser.Rel.ident hrel, Parser.Rel.num hrel])
    | (intro n q hd
       try dsimp only)
    | (intro hrel
       have htok := Parser.Rel.tok hrel
       try dsimp only
       try simp only [Parser.Rel.tok hrel, Parser.Rel.ident hrel, Parser.Rel.num hrel])
    | (intro hd
       try dsimp only)
    | exact Parser.Cpl.cpl_pure (by assumption)
    | exact Parser.Cpl.cpl_throw
    | exact Parser.Esc.esc_pure (by assumption)
    | exact Parser.Esc.esc_throw
    | with_reducible apply Parser.Cpl.cpl_ite
    | with_reducible apply Parser.Esc.esc_ite)

theorem Parser.parseDecl_cpl (t : List Char) (p p1 : Parser) (hrel : Parser.Rel t p p1) :
    Parser.Cpl t (Parser.parseDecl p) (Parser.parseDecl p1) := by
  unfold Parser.parseDecl
  try simp only [Parser.Rel.tok hrel, Parser.Rel.ident hrel, Parser.Rel.num hrel]
  repeat' (first
    | (with_reducible refine Parser.Cpl.cpl_match _ _ _ _ _ (by assumption) ?_ ?_)
    | with_reducible refine Parser.Cpl.cpl_bind ?_ ?_ ?_
    | (with_reducible refine Parser.Esc.esc_match _ _ _ (by assumption) ?_
       intro hd
       try dsimp only)
    | with_reducible refine Parser.Esc.esc_bind ?_ ?_
    | with_reducible exact Parser.parseType_cpl _ _ _ (by assumption)
    | with_reducible exact Parser.parseType_esc _ (by assumption)
    | (intro n q q1 hrel
       try dsimp only
       try simp only [Parser.Rel.tok hrel, Parser.Rel.ident hrel, Parser.Rel.num hrel])
    | (intro n q hd
       try dsimp only)
    | (intro hrel
       have htok := Parser.Rel.tok hrel
       try dsimp only
       try simp only [Parser.Rel.tok hrel, Parser.Rel.ident hrel, Parser.Rel.num hrel])
    | (intro hd
       try dsimp only)
    | exact Parser.Cpl.cpl_pure (by assumption)
    | exact Parser.Cpl.cpl_throw
    | exact Parser.Esc.esc_pure (by assumption)
    | exact Parser.Esc.esc_throw
    | with_reducible apply Parser.Cpl.cpl_ite
    | with_reducible apply Parser.Esc.esc_ite)

theorem Parser.parseDecls_cpl (t : List Char) : ∀ (fuel : Nat) (p p1 : Parser),
    Parser.Rel t p p1 → Parser.Cpl t (Parser.parseDecls fuel p) (Parser.parseDecls fuel p1) := by
  intro fuel
  induction fuel with
  | zero => intro p p1 _; exact Parser.Cpl.cpl_throw
  | succ fuel ih =>
    intro p p1 hrel
    rw [Parser.parseDecls.eq_2, Parser.parseDecls.eq_2]
    try simp only [Parser.Rel.tok hrel, Parser.Rel.ident hrel, Parser.Rel.num hrel]
    repeat' (first
      | (with_reducible refine Parser.Cpl.cpl_match _ _ _ _ _ (by assumption) ?_ ?_)
      | with_reducible refine Parser.Cpl.cpl_bind ?_ ?_ ?_
      | (with_reducible refine Parser.Esc.esc_match _ _ _ (by assumption) ?_
         intro hd
         try dsimp only)
      | with_reducible refine Parser.Esc.esc_bind ?_ ?_
      | with_reducible exact Parser.parseDecl_cpl _ _ _ (by assumption)
      | with_reducible exact ih _ _ (by assumption)
      | with_reducible exact Parser.parseDecl_esc _ (by assumption)
      | with_reducible exact Parser.parseDecls_esc _ _ (by assumption)
      | (intro n q q1 hrel
         try dsimp only
         try simp only [Parser.Rel.tok hrel, Parser.Rel.ident hrel, Parser.Rel.num hrel])
      | (intro n q hd
         try dsimp only)
      | (intro hrel
         have htok := Parser.Rel.tok hrel
         try dsimp only
         try simp only [Parser.Rel.tok hrel, Parser.Rel.ident hrel, Parser.Rel.num hrel])
      | (intro hd
         try dsimp only)
      | exact Parser.Cpl.cpl_pure (by assumption)
      | exact Parser.Cpl.cpl_throw
      | exact Parser.Esc.esc_pure (by assumption)
      | exact Parser.Esc.esc_throw
      | with_reducible apply Parser.Cpl.cpl_ite
      | with_reducible apply Parser.Esc.esc_ite)

set_option maxHeartbeats 2000000 in
/-- On a text and on the text followed by more characters the parser runs alike, up to the
end of the shorter text. -/
theorem Parser.cplAt (t : List Char) : ∀ fuel, Parser.CplAt t fuel := by
  intro fuel
  induction fuel with
  | zero =>
    constructor <;> intros <;> exact Parser.Cpl.cpl_throw
  | succ fuel ih =>
    constructor
    case block =>
      intro p p1 hrel
      rw [Parser.parseBlock.eq_2, Parser.parseBlock.eq_2]
      try simp only [Parser.Rel.tok hrel, Parser.Rel.ident hrel, Parser.Rel.num hrel]
      repeat' (first
        | (with_reducible refine Parser.Cpl.cpl_match _ _ _ _ _ (by assumption) ?_ ?_)
        | with_reducible refine Parser.Cpl.cpl_bind ?_ ?_ ?_
        | (with_reducible refine Parser.Esc.esc_match _ _ _ (by assumption) ?_
           intro hd
           try dsimp only)
        | with_reducible refine Parser.Esc.esc_bind ?_ ?_
        | with_reducible exact Parser.parseDecls_cpl _ _ _ _ (by assumption)
        | with_reducible exact ih.stmts _ _ (by assumption)
        | with_reducible exact Parser.parseDecls_esc _ _ (by assumption)
        | with_reducible exact (Parser.escAt fuel).stmts _ (by assumption)
        | (intro n q q1 hrel
           try dsimp only
           try simp only [Parser.Rel.tok hrel, Parser.Rel.ident hrel, Parser.Rel.num hrel])
        | (intro n q hd
           try dsimp only)
        | (intro hrel
           have htok := Parser.Rel.tok hrel
           try dsimp only
           try simp only [Parser.Rel.tok hrel, Parser.Rel.ident hrel, Parser.Rel.num hrel])
        | (intro hd
           try dsimp only)
        | exact Parser.Cpl.cpl_pure (by assumption)
        | exact Parser.Cpl.cpl_throw
        | exact Parser.Esc.esc_pure (by assumption)
        | exact Parser.Esc.esc_throw
        | with_reducible apply Parser.Cpl.cpl_ite
        | with_reducible apply Parser.Esc.esc_ite)
    case stmts =>
      intro p p1 hrel
      rw [Parser.parseStmts.eq_2, Parser.parseStmts.eq_2]
      try simp only [Parser.Rel.tok hrel, Parser.Rel.ident hrel, Parser.Rel.num hrel]
      repeat' (first
        | (with_reducible refine Parser.Cpl.cpl_match _ _ _ _ _ (by assumption) ?_ ?_)
        | with_reducible refine Parser.Cpl.cpl_bind ?_ ?_ ?_
        | (with_reducible refine Parser.Esc.esc_match _ _ _ (by assumption) ?_
           intro hd
           try dsimp only)
        | with_reducible refine Parser.Esc.esc_bind ?_ ?_
        | with_reducible exact ih.stmt _ _ (by assumption)
        | with_reducible exact ih.stmts _ _ (by assumption)
        | with_reducible exact (Parser.escAt fuel).stmt _ (by assumption)
        | with_reducible exact (Parser.escAt fuel).stmts _ (by assumption)
        | (intro n q q1 hrel
           try dsimp only
           try simp only [Parser.Rel.tok hrel, Parser.Rel.ident hrel, Parser.Rel.num hrel])
        | (intro n q hd
           try dsimp only)
        | (intro hrel
           have htok := Parser.Rel.tok hrel
           try dsimp only
           try simp only [Parser.Rel.tok hrel, Parser.Rel.ident hrel, Parser.Rel.num hrel])
        | (intro hd
           try dsimp only)
        | exact Parser.Cpl.cpl_pure (by assumption)
        | exact Parser.Cpl.cpl_throw
        | exact Parser.Esc.esc_pure (by assumption)
        | exact Parser.Esc.esc_throw
        | with_reducible apply Parser.Cpl.cpl_ite
        | with_reducible apply Parser.Esc.esc_ite)
    case stmt =>
      intro p p1 hrel
      rw [Parser.parseStmt.eq_2, Parser.parseStmt.eq_2]
      try simp only [Parser.Rel.tok hrel, Parser.Rel.ident hrel, Parser.Rel.num hrel]
      repeat' (first
        | (with_reducible refine Parser.Cpl.cpl_match _ _ _ _ _ (by assumption) ?_ ?_)
        | with_reducible refine Parser.Cpl.cpl_bind ?_ ?_ ?_
        | (with_reducible refine Parser.Esc.esc_match _ _ _ (by assumption) ?_
           intro hd
           try dsimp only)
        | with_reducible refine Parser.Esc.esc_bind ?_ ?_
        | with_reducible exact ih.loc _ _ (by assumption)
        | with_reducible exact ih.bool _ _ (by assumption)
        | with_reducible exact ih.stmt _ _ (by assumption)
        | with_reducible exact ih.block _ _ (by assumption)
        | with_reducible exact (Parser.escAt fuel).loc _ (by assumption)
        | with_reducible exact (Parser.escAt fuel).bool _ (by assumption)
        | with_reducible exact (Parser.escAt fuel).stmt _ (by assumption)
        | with_reducible exact (Parser.escAt fuel).block _ (by assumption)
        | (intro n q q1 hrel
           try dsimp only
           try simp only [Parser.Rel.tok hrel, Parser.Rel.ident hrel, Parser.Rel.num hrel])
        | (intro n q hd
           try dsimp only)
        | (intro hrel
           have htok := Parser.Rel.tok hrel
           try dsimp only
           try simp only [Parser.Rel.tok hrel, Parser.Rel.ident hrel, Parser.Rel.num hrel])
        | (intro hd
           try dsimp only)
        | exact Parser.Cpl.cpl_pure (by assumption)
        | exact Parser.Cpl.cpl_throw
        | exact Parser.Esc.esc_pure (by assumption)
        | exact Parser.Esc.esc_throw
        | with_reducible apply Parser.Cpl.cpl_ite
        | with_reducible apply Parser.Esc.esc_ite
        | split)
    case loc =>
      intro p p1 hrel
      rw [Parser.parseLoc.eq_2, Parser.parseLoc.eq_2]
      try simp only [Parser.Rel.tok hrel, Parser.Rel.ident hrel, Parser.Rel.num hrel]
      repeat' (first
        | (with_reducible refine Parser.Cpl.cpl_match _ _ _ _ _ (by assumption) ?_ ?_)
        | with_reducible refine Parser.Cpl.cpl_bind ?_ ?_ ?_
        | (with_reducible refine Parser.Esc.esc_match _ _ _ (by assumption) ?_
           intro hd
           try dsimp only)
        | with_reducible refine Parser.Esc.esc_bind ?_ ?_
        | with_reducible exact ih.bool _ _ (by assumption)
        | with_reducible exact (Parser.escAt fuel).bool _ (by assumption)
        | (intro n q q1 hrel
           try dsimp only
           try simp only [Parser.Rel.tok hrel, Parser.Rel.ident hrel, Parser.Rel.num hrel])
        | (intro n q hd
           try dsimp only)
        | (intro hrel
           have htok := Parser.Rel.tok hrel
           try dsimp only
           try simp only [Parser.Rel.tok hrel, Parser.Rel.ident hrel, Parser.Rel.num hrel])
        | (intro hd
           try dsimp only)
        | exact Parser.Cpl.cpl_pure (by assumption)
        | exact Parser.Cpl.cpl_throw
        | exact Parser.Esc.esc_pure (by assumption)
        | exact Parser.Esc.esc_throw
        | with_reducible apply Parser.Cpl.cpl_ite
        | with_reducible apply Parser.Esc.esc_ite)
    case bool =>
      intro p p1 hrel
      rw [Parser.parseBool.eq_2, Parser.parseBool.eq_2]
      try simp only [Parser.Rel.tok hrel, Parser.Rel.ident hrel, Parser.Rel.num hrel]
      repeat' (first
        | (with_reducible refine Parser.Cpl.cpl_match _ _ _ _ _ (by assumption) ?_ ?_)
        | with_reducible refine Parser.Cpl.cpl_bind ?_ ?_ ?_
        | (with_reducible refine Parser.Esc.esc_match _ _ _ (by assumption) ?_
           intro hd
           try dsimp only)
        | with_reducible refine Parser.Esc.esc_bind ?_ ?_
        | with_reducible exact ih.join _ _ (by assumption)
        | with_reducible exact ih.boolLoop _ _ _ (by assumption)
        | with_reducible exact (Parser.escAt fuel).join _ (by assumption)
        | with_reducible exact (Parser.escAt fuel).boolLoop _ _ (by assumption)
        | (intro n q q1 hrel
           try dsimp only
           try simp only [Parser.Rel.tok hrel, Parser.Rel.ident hrel, Parser.Rel.num hrel])
        | (intro n q hd
           try dsimp only)
        | (intro hrel
           have htok := Parser.Rel.tok hrel
           try dsimp only
           try simp only [Parser.Rel.tok hrel, Parser.Rel.ident hrel, Parser.Rel.num hrel])
        | (intro hd
           try dsimp only)
        | exact Parser.Cpl.cpl_pure (by assumption)
        | exact Parser.Cpl.cpl_throw
        | exact Parser.Esc.esc_pure (by assumption)
        | exact Parser.Esc.esc_throw
        | with_reducible apply Parser.Cpl.cpl_ite
        | with_reducible apply Parser.Esc.esc_ite)
    case boolLoop =>
      intro left p p1 hrel
      rw [Parser.parseBoolLoop.eq_2, Parser.parseBoolLoop.eq_2]
      try simp only [Parser.Rel.tok hrel, Parser.Rel.ident hrel, Parser.Rel.num hrel]
      repeat' (first
        | (with_reducible refine Parser.Cpl.cpl_match _ _ _ _ _ (by assumption) ?_ ?_)
        | with_reducible refine Parser.Cpl.cpl_bind ?_ ?_ ?_
        | (with_reducible refine Parser.Esc.esc_match _ _ _ (by assumption) ?_
           intro hd
           try dsimp only)
        | with_reducible refine Parser.Esc.esc_bind ?_ ?_
        | with_reducible exact ih.join _ _ (by assumption)
        | with_reducible exact ih.boolLoop _ _ _ (by assumption)
        | with_reducible exact (Parser.escAt fuel).join _ (by assumption)
        | with_reducible exact (Parser.escAt fuel).boolLoop _ _ (by assumption)
        | (intro n q q1 hrel
           try dsimp only
           try simp only [Parser.Rel.tok hrel, Parser.Rel.ident hrel, Parser.Rel.num hrel])
        | (intro n q hd
           try dsimp only)
        | (intro hrel
           have htok := Parser.Rel.tok hrel
           try dsimp only
           try simp only [Parser.Rel.tok hrel, Parser.Rel.ident hrel, Parser.Rel.num hrel])
        | (intro hd
           try dsimp only)
        | exact Parser.Cpl.cpl_pure (by assumption)
        | exact Parser.Cpl.cpl_throw
        | exact Parser.Esc.esc_pure (by assumption)
        | exact Parser.Esc.esc_throw
        | with_reducible apply Parser.Cpl.cpl_ite
        | with_reducible apply Parser.Esc.esc_ite)
    case join =>
      intro p p1 hrel
      rw [Parser.parseJoin.eq_2, Parser.parseJoin.eq_2]
      try simp only [Parser.Rel.tok hrel, Parser.Rel.ident hrel, Parser.Rel.num hrel]
      repeat' (first
        | (with_reducible refine Parser.Cpl.cpl_match _ _ _ _ _ (by assumption) ?_ ?_)
        | with_reducible refine Parser.Cpl.cpl_bind ?_ ?_ ?_
        | (with_reducible refine Parser.Esc.esc_match _ _ _ (by assumption) ?_
           intro hd
           try dsimp only)
        | with_reducible refine Parser.Esc.esc_bind ?_ ?_
        | with_reducible exact ih.equality _ _ (by assumption)
        | with_reducible exact ih.joinLoop _ _ _ (by assumption)
        | with_reducible exact (Parser.escAt fuel).equality _ (by assumption)
        | with_reducible exact (Parser.escAt fuel).joinLoop _ _ (by assumption)
        | (intro n q q1 hrel
           try dsimp only
           try simp only [Parser.Rel.tok hrel, Parser.Rel.ident hrel, Parser.Rel.num hrel])
        | (intro n q hd
           try dsimp only)
        | (intro hrel
           have htok := Parser.Rel.tok hrel
           try dsimp only
           try simp only [Parser.Rel.tok hrel, Parser.Rel.ident hrel, Parser.Rel.num hrel])
        | (intro hd
           try dsimp only)
        | exact Parser.Cpl.cpl_pure (by assumption)
        | exact Parser.Cpl.cpl_throw
        | exact Parser.Esc.esc_pure (by assumption)
        | exact Parser.Esc.esc_throw
        | with_reducible apply Parser.Cpl.cpl_ite
        | with_reducible apply Parser.Esc.esc_ite)
    case joinLoop =>
      intro left p p1 hrel
      rw [Parser.parseJoinLoop.eq_2, Parser.parseJoinLoop.eq_2]
      try simp only [Parser.Rel.tok hrel, Parser.Rel.ident hrel, Parser.Rel.num hrel]
      repeat' (first
        | (with_reducible refine Parser.Cpl.cpl_match _ _ _ _ _ (by assumption) ?_ ?_)
        | with_reducible refine Parser.Cpl.cpl_bind ?_ ?_ ?_
        | (with_reducible refine Parser.Esc.esc_match _ _ _ (by assumption) ?_
           intro hd
           try dsimp only)
        | with_reducible refine Parser.Esc.esc_bind ?_ ?_
        | with_reducible exact ih.equality _ _ (by assumption)
        | with_reducible exact ih.joinLoop _ _ _ (by assumption)
        | with_reducible exact (Parser.escAt fuel).equality _ (by assumption)
        | with_reducible exact (Parser.escAt fuel).joinLoop _ _ (by assumption)
        | (intro n q q1 hrel
           try dsimp only
           try simp only [Parser.Rel.tok hrel, Parser.Rel.ident hrel, Parser.Rel.num hrel])
        | (intro n q hd
           try dsimp only)
        | (intro hrel
           have htok := Parser.Rel.tok hrel
           try dsimp only
           try simp only [Parser.Rel.tok hrel, Parser.Rel.ident hrel, Parser.Rel.num hrel])
        | (intro hd
           try dsimp only)
        | exact Parser.Cpl.cpl_pure (by assumption)
        | exact Parser.Cpl.cpl_throw
        | exact Parser.Esc.esc_pure (by assumption)
        | exact Parser.Esc.esc_throw
        | with_reducible apply Parser.Cpl.cpl_ite
        | with_reducible apply Parser.Esc.esc_ite)
    case equality =>
      intro p p1 hrel
      rw [Parser.parseEquality.eq_2, Parser.parseEquality.eq_2]
      try simp only [Parser.Rel.tok hrel, Parser.Rel.ident hrel, Parser.Rel.num hrel]
      repeat' (first
        | (with_reducible refine Parser.Cpl.cpl_match _ _ _ _ _ (by assumption) ?_ ?_)
        | with_reducible refine Parser.Cpl.cpl_bind ?_ ?_ ?_
        | (with_reducible refine Parser.Esc.esc_match _ _ _ (by assumption) ?_
           intro hd
           try dsimp only)
        | with_reducible refine Parser.Esc.esc_bind ?_ ?_
        | with_reducible exact ih.rel _ _ (by assumption)
        | with_reducible exact ih.equalityLoop _ _ _ (by assumption)
        | with_reducible exact (Parser.escAt fuel).rel _ (by assumption)
        | with_reducible exact (Parser.escAt fuel).equalityLoop _ _ (by assumption)
        | (intro n q q1 hrel
           try dsimp only
           try simp only [Parser.Rel.tok hrel, Parser.Rel.ident hrel, Parser.Rel.num hrel])
        | (intro n q hd
           try dsimp only)
        | (intro hrel
           have htok := Parser.Rel.tok hrel
           try dsimp only
           try simp only [Parser.Rel.tok hrel, Parser.Rel.ident hrel, Parser.Rel.num hrel])
        | (intro hd
           try dsimp only)
        | exact Parser.Cpl.cpl_pure (by assumption)
        | exact Parser.Cpl.cpl_throw
        | exact Parser.Esc.esc_pure (by assumption)
        | exact Parser.Esc.esc_throw
        | with_reducible apply Parser.Cpl.cpl_ite
        | with_reducible apply Parser.Esc.esc_ite)
    case equalityLoop =>
      intro left p p1 hrel
      rw [Parser.parseEqualityLoop.eq_2, Parser.parseEqualityLoop.eq_2]
      try simp only [Parser.Rel.tok hrel, Parser.Rel.ident hrel, Parser.Rel.num hrel]
      repeat' (first
        | (with_reducible refine Parser.Cpl.cpl_match _ _ _ _ _ (by assumption) ?_ ?_)
        | with_reducible refine Parser.Cpl.cpl_bind ?_ ?_ ?_
        | (with_reducible refine Parser.Esc.esc_match _ _ _ (by assumption) ?_
           intro hd
           try dsimp only)
        | with_reducible refine Parser.Esc.esc_bind ?_ ?_
        | with_reducible exact ih.rel _ _ (by assumption)
        | with_reducible exact ih.equalityLoop _ _ _ (by assumption)
        | with_reducible exact (Parser.escAt fuel).rel _ (by assumption)
        | with_reducible exact (Parser.escAt fuel).equalityLoop _ _ (by assumption)
        | (intro n q q1 hrel
           try dsimp only
           try simp only [Parser.Rel.tok hrel, Parser.Rel.ident hrel, Parser.Rel.num hrel])
        | (intro n q hd
           try dsimp only)
        | (intro hrel
           have htok := Parser.Rel.tok hrel
           try dsimp only
           try simp only [Parser.Rel.tok hrel, Parser.Rel.ident hrel, Parser.Rel.num hrel])
        | (intro hd
           try dsimp only)
        | exact Parser.Cpl.cpl_pure (by assumption)
        | exact Parser.Cpl.cpl_throw
        | exact Parser.Esc.esc_pure (by assumption)
        | exact Parser.Esc.esc_throw
        | with_reducible apply Parser.Cpl.cpl_ite
        | with_reducible apply Parser.Esc.esc_ite)
    case rel =>
      intro p p1 hrel
      rw [Parser.parseRel.eq_2, Parser.parseRel.eq_2]
      try simp only [Parser.Rel.tok hrel, Parser.Rel.ident hrel, Parser.Rel.num hrel]
      repeat' (first
        | (with_reducible refine Parser.Cpl.cpl_match _ _ _ _ _ (by assumption) ?_ ?_)
        | with_reducible refine Parser.Cpl.cpl_bind ?_ ?_ ?_
        | (with_reducible refine Parser.Esc.esc_match _ _ _ (by assumption) ?_
           intro hd
           try dsimp only)
        | with_reducible refine Parser.Esc.esc_bind ?_ ?_
        | with_reducible exact ih.expr _ _ (by assumption)
        | with_reducible exact (Parser.escAt fuel).expr _ (by assumption)
        | (intro n q q1 hrel
           try dsimp only
           try simp only [Parser.Rel.tok hrel, Parser.Rel.ident hrel, Parser.Rel.num hrel])
        | (intro n q hd
           try dsimp only)
        | (intro hrel
           have htok := Parser.Rel.tok hrel
           try dsimp only
           try simp only [Parser.Rel.tok hrel, Parser.Rel.ident hrel, Parser.Rel.num hrel])
        | (intro hd
           try dsimp only)
        | exact Parser.Cpl.cpl_pure (by assumption)
        | exact Parser.Cpl.cpl_throw
        | exact Parser.Esc.esc_pure (by assumption)
        | exact Parser.Esc.esc_throw
        | with_reducible apply Parser.Cpl.cpl_ite
        | with_reducible apply Parser.Esc.esc_ite
        | split)
    case expr =>
      intro p p1 hrel
      rw [Parser.parseExpr.eq_2, Parser.parseExpr.eq_2]
      try simp only [Parser.Rel.tok hrel, Parser.Rel.ident hrel, Parser.Rel.num hrel]
      repeat' (first
        | (with_reducible refine Parser.Cpl.cpl_match _ _ _ _ _ (by assumption) ?_ ?_)
        | with_reducible refine Parser.Cpl.cpl_bind ?_ ?_ ?_
        | (with_reducible refine Parser.Esc.esc_match _ _ _ (by assumption) ?_
           intro hd
           try dsimp only)
        | with_reducible refine Parser.Esc.esc_bind ?_ ?_
        | with_reducible exact ih.term _ _ (by assumption)
        | with_reducible exact ih.exprLoop _ _ _ (by assumption)
        | with_reducible exact (Parser.escAt fuel).term _ (by assumption)
        | with_reducible exact (Parser.escAt fuel).exprLoop _ _ (by assumption)
        | (intro n q q1 hrel
           try dsimp only
           try simp only [Parser.Rel.tok hrel, Parser.Rel.ident hrel, Parser.Rel.num hrel])
        | (intro n q hd
           try dsimp only)
        | (intro hrel
           have htok := Parser.Rel.tok hrel
           try dsimp only
           try simp only [Parser.Rel.tok hrel, Parser.Rel.ident hrel, Parser.Rel.num hrel])
        | (intro hd
           try dsimp only)
        | exact Parser.Cpl.cpl_pure (by assumption)
        | exact Parser.Cpl.cpl_throw
        | exact Parser.Esc.esc_pure (by assumption)
        | exact Parser.Esc.esc_throw
        | with_reducible apply Parser.Cpl.cpl_ite
        | with_reducible apply Parser.Esc.esc_ite)
    case exprLoop =>
      intro left p p1 hrel
      rw [Parser.parseExprLoop.eq_2, Parser.parseExprLoop.eq_2]
      try simp only [Parser.Rel.tok hrel, Parser.Rel.ident hrel, Parser.Rel.num hrel]
      repeat' (first
        | (with_reducible refine Parser.Cpl.cpl_match _ _ _ _ _ (by assumption) ?_ ?_)
        | with_reducible refine Parser.Cpl.cpl_bind ?_ ?_ ?_
        | (with_reducible refine Parser.Esc.esc_match _ _ _ (by assumption) ?_
           intro hd
           try dsimp only)
        | with_reducible refine Parser.Esc.esc_bind ?_ ?_
        | with_reducible exact ih.term _ _ (by assumption)
        | with_reducible exact ih.exprLoop _ _ _ (by assumption)
        | with_reducible exact (Parser.escAt fuel).term _ (by assumption)
        | with_reducible exact (Parser.escAt fuel).exprLoop _ _ (by assumption)
        | (intro n q q1 hrel
           try dsimp only
           try simp only [Parser.Rel.tok hrel, Parser.Rel.ident hrel, Parser.Rel.num hrel])
        | (intro n q hd
           try dsimp only)
        | (intro hrel
           have htok := Parser.Rel.tok hrel
           try dsimp only
           try simp only [Parser.Rel.tok hrel, Parser.Rel.ident hrel, Parser.Rel.num hrel])
        | (intro hd
           try dsimp only)
        | exact Parser.Cpl.cpl_pure (by assumption)
        | exact Parser.Cpl.cpl_throw
        | exact Parser.Esc.esc_pure (by assumption)
        | exact Parser.Esc.esc_throw
        | with_reducible apply Parser.Cpl.cpl_ite
        | with_reducible apply Parser.Esc.esc_ite)
    case term =>
      intro p p1 hrel
      rw [Parser.parseTerm.eq_2, Parser.parseTerm.eq_2]
      try simp only [Parser.Rel.tok hrel, Parser.Rel.ident hrel, Parser.Rel.num hrel]
      repeat' (first
        | (with_reducible refine Parser.Cpl.cpl_match _ _ _ _ _ (by assumption) ?_ ?_)
        | with_reducible refine Parser.Cpl.cpl_bind ?_ ?_ ?_
        | (with_reducible refine Parser.Esc.esc_match _ _ _ (by assumption) ?_
           intro hd
           try dsimp only)
        | with_reducible refine Parser.Esc.esc_bind ?_ ?_
        | with_reducible exact ih.unary _ _ (by assumption)
        | with_reducible exact ih.termLoop _ _ _ (by assumption)
        | with_reducible exact (Parser.escAt fuel).unary _ (by assumption)
        | with_reducible exact (Parser.escAt fuel).termLoop _ _ (by assumption)
        | (intro n q q1 hrel
           try dsimp only
           try simp only [Parser.Rel.tok hrel, Parser.Rel.ident hrel, Parser.Rel.num hrel])
        | (intro n q hd
           try dsimp only)
        | (intro hrel
           have htok := Parser.Rel.tok hrel
           try dsimp only
           try simp only [Parser.Rel.tok hrel, Parser.Rel.ident hrel, Parser.Rel.num hrel])
        | (intro hd
           try dsimp only)
        | exact Parser.Cpl.cpl_pure (by assumption)
        | exact Parser.Cpl.cpl_throw
        | exact Parser.Esc.esc_pure (by assumption)
        | exact Parser.Esc.esc_throw
        | with_reducible apply Parser.Cpl.cpl_ite
        | with_reducible apply Parser.Esc.esc_ite)
    case termLoop =>
      intro left p p1 hrel
      rw [Parser.parseTermLoop.eq_2, Parser.parseTermLoop.eq_2]
      try simp only [Parser.Rel.tok hrel, Parser.Rel.ident hrel, Parser.Rel.num hrel]
      repeat' (first
        | (with_reducible refine Parser.Cpl.cpl_match _ _ _ _ _ (by assumption) ?_ ?_)
        | with_reducible refine Parser.Cpl.cpl_bind ?_ ?_ ?_
        | (with_reducible refine Parser.Esc.esc_match _ _ _ (by assumption) ?_
           intro hd
           try dsimp only)
        | with_reducible refine Parser.Esc.esc_bind ?_ ?_
        | with_reducible exact ih.unary _ _ (by assumption)
        | with_reducible exact ih.termLoop _ _ _ (by assumption)
        | with_reducible exact (Parser.escAt fuel).unary _ (by assumption)
        | with_reducible exact (Parser.escAt fuel).termLoop _ _ (by assumption)
        | (intro n q q1 hrel
           try dsimp only
           try simp only [Parser.Rel.tok hrel, Parser.Rel.ident hrel, Parser.Rel.num hrel])
        | (intro n q hd
           try dsimp only)
        | (intro hrel
           have htok := Parser.Rel.tok hrel
           try dsimp only
           try simp only [Parser.Rel.tok hrel, Parser.Rel.ident hrel, Parser.Rel.num hrel])
        | (intro hd
           try dsimp only)
        | exact Parser.Cpl.cpl_pure (by assumption)
        | exact Parser.Cpl.cpl_throw
        | exact Parser.Esc.esc_pure (by assumption)
        | exact Parser.Esc.esc_throw
        | with_reducible apply Parser.Cpl.cpl_ite
        | with_reducible apply Parser.Esc.esc_ite)
    case unary =>
      intro p p1 hrel
      rw [Parser.parseUnary.eq_2, Parser.parseUnary.eq_2]
      try simp only [Parser.Rel.tok hrel, Parser.Rel.ident hrel, Parser.Rel.num hrel]
      repeat' (first
        | (with_reducible refine Parser.Cpl.cpl_match _ _ _ _ _ (by assumption) ?_ ?_)
        | with_reducible refine Parser.Cpl.cpl_bind ?_ ?_ ?_
        | (with_reducible refine Parser.Esc.esc_match _ _ _ (by assumption) ?_
           intro hd
           try dsimp only)
        | with_reducible refine Parser.Esc.esc_bind ?_ ?_
        | with_reducible exact ih.unary _ _ (by assumption)
        | with_reducible exact ih.factor _ _ (by assumption)
        | with_reducible exact (Parser.escAt fuel).unary _ (by assumption)
        | with_reducible exact (Parser.escAt fuel).factor _ (by assumption)
        | (intro n q q1 hrel
           try dsimp only
           try simp only [Parser.Rel.tok hrel, Parser.Rel.ident hrel, Parser.Rel.num hrel])
        | (intro n q hd
           try dsimp only)
        | (intro hrel
           have htok := Parser.Rel.tok hrel
           try dsimp only
           try simp only [Parser.Rel.tok hrel, Parser.Rel.ident hrel, Parser.Rel.num hrel])
        | (intro hd
           try dsimp only)
        | exact Parser.Cpl.cpl_pure (by assumption)
        | exact Parser.Cpl.cpl_throw
        | exact Parser.Esc.esc_pure (by assumption)
        | exact Parser.Esc.esc_throw
        | with_reducible apply Parser.Cpl.cpl_ite
        | with_reducible apply Parser.Esc.esc_ite)
    case factor =>
      intro p p1 hrel
      rw [Parser.parseFactor.eq_2, Parser.parseFactor.eq_2]
      try simp only [Parser.Rel.tok hrel, Parser.Rel.ident hrel, Parser.Rel.num hrel]
      repeat' (first
        | (with_reducible refine Parser.Cpl.cpl_match _ _ _ _ _ (by assumption) ?_ ?_)
        | with_reducible refine Parser.Cpl.cpl_bind ?_ ?_ ?_
        | (with_reducible refine Parser.Esc.esc_match _ _ _ (by assumption) ?_
           intro hd
           try dsimp only)
        | with_reducible refine Parser.Esc.esc_bind ?_ ?_
        | with_reducible exact ih.bool _ _ (by assumption)
        | with_reducible exact (Parser.escAt fuel).bool _ (by assumption)
        | (intro n q q1 hrel
           try dsimp only
           try simp only [Parser.Rel.tok hrel, Parser.Rel.ident hrel, Parser.Rel.num hrel])
        | (intro n q hd
           try dsimp only)
        | (intro hrel
           have htok := Parser.Rel.tok hrel
           try dsimp only
           try simp only [Parser.Rel.tok hrel, Parser.Rel.ident hrel, Parser.Rel.num hrel])
        | (intro hd
           try dsimp only)
        | exact Parser.Cpl.cpl_pure (by assumption)
        | exact Parser.Cpl.cpl_throw
        | exact Parser.Esc.esc_pure (by assumption)
        | exact Parser.Esc.esc_throw
        | with_reducible apply Parser.Cpl.cpl_ite
        | with_reducible apply Parser.Esc.esc_ite
        | split)

theorem Parser.Never.never_throw {e : Error} : Parser.Never (throw e) :=
  ⟨fun r h => by cases h⟩

theorem Parser.Never.never_bind {x : Except Error (Node × Parser)}
    {f : Node × Parser → Except Error (Node × Parser)} (hx : Parser.Esc x)
    (hf : ∀ n q, Parser.Doomed q → Parser.Never (f (n, q))) : Parser.Never (x >>= f) := by
  constructor
  intro r h
  cases x with
  | error e => cases h
  | ok a =>
    obtain ⟨n, q⟩ := a
    exact (hf n q (hx.out n q rfl)).out r h

/-- In a doomed state no closing token is matched. -/
theorem Parser.Never.never_match (p : Parser) (tk : Token)
    (f : Parser → Except Error (Node × Parser)) (hp : p.Doomed) (htk : tk.fragile = false) :
    Parser.Never (p.matchToken tk >>= f) := by
  constructor
  intro r h
  unfold Parser.matchToken at h
  by_cases hc : p.currentToken = tk
  · have := hp.2
    rw [hc, htk] at this
    cases this
  · rw [if_neg hc] at h
    cases h

theorem Parser.SameNode.same_bind {t : List Char} {x x1 : Except Error (Node × Parser)}
    {f f1 : Node × Parser → Except Error (Node × Parser)} (hx : Parser.Cpl t x x1)
    (hf : ∀ n q q1, Parser.Rel t q q1 → Parser.SameNode (f (n, q)) (f1 (n, q1)))
    (he : ∀ n q, Parser.Doomed q → Parser.Never (f (n, q))) :
    Parser.SameNode (x >>= f) (x1 >>= f1) := by
  constructor
  intro n2 q2 h2
  cases x with
  | error e => cases h2
  | ok a =>
    obtain ⟨n, q⟩ := a
    rcases hx.out n q rfl with ⟨q1, hx1, hrel⟩ | hd
    · obtain ⟨q3, h3⟩ := (hf n q q1 hrel).out n2 q2 h2
      refine ⟨q3, ?_⟩
      rw [hx1]
      exact h3
    · exact absurd h2 ((he n q hd).out _)

theorem Parser.SameNode.same_match {t : List Char} (p p1 : Parser) (tk : Token)
    (f f1 : Parser → Except Error (Node × Parser)) (h : Parser.Rel t p p1)
    (hf : Parser.Rel t p.advance p1.advance →
      Parser.SameNode (f p.advance) (f1 p1.advance))
    (he : p.advance.Doomed → Parser.Never (f p.advance)) :
    Parser.SameNode (p.matchToken tk >>= f) (p1.matchToken tk >>= f1) := by
  constructor
  intro n2 q2 h2
  unfold Parser.matchToken at h2 ⊢
  rw [h.tok]
  by_cases hc : p.currentToken = tk
  · rw [if_pos hc] at h2 ⊢
    rcases h.advance_rel with hrel | hd
    · exact (hf hrel).out n2 q2 h2
    · exact absurd h2 ((he hd).out _)
  · rw [if_neg hc] at h2
    cases h2

/-- The last match of a block: what the scanner finds after the token is not looked at. -/
theorem Parser.SameNode.same_last_match {t : List Char} (p p1 : Parser) (tk : Token) (n : Node)
    (h : Parser.Rel t p p1) :
    Parser.SameNode (p.matchToken tk >>= fun q => pure (n, q))
      (p1.matchToken tk >>= fun q => pure (n, q)) := by
  constructor
  intro n2 q2 h2
  unfold Parser.matchToken at h2 ⊢
  rw [h.tok]
  by_cases hc : p.currentToken = tk
  · rw [if_pos hc] at h2 ⊢
    cases h2
    exact ⟨p1.advance, rfl⟩
  · rw [if_neg hc] at h2
    cases h2

/-- The top-level block gives the same node on a text and on the text followed by `t`. -/
theorem Parser.parseBlock_sameNode (t : List Char) (fuel : Nat) (p p1 : Parser)
    (hrel : Parser.Rel t p p1) :
    Parser.SameNode (Parser.parseBlock fuel p) (Parser.parseBlock fuel p1) := by
  cases fuel with
  | zero => exact ⟨fun n q h => by cases h⟩
  | succ k =>
    rw [Parser.parseBlock.eq_2, Parser.parseBlock.eq_2]
    refine Parser.SameNode.same_match _ _ _ _ _ hrel (fun hrel1 => ?_) (fun hd1 => ?_)
    · refine Parser.SameNode.same_bind (Parser.parseDecls_cpl t k _ _ hrel1)
        (fun decls q q1 hrel2 => ?_) (fun decls q hd2 => ?_)
      · refine Parser.SameNode.same_bind ((Parser.cplAt t k).stmts _ _ hrel2)
          (fun stmts r r1 hrel3 => ?_) (fun stmts r hd3 => ?_)
        · exact Parser.SameNode.same_last_match _ _ _ _ hrel3
        · exact Parser.Never.never_match _ _ _ hd3 rfl
      · refine Parser.Never.never_bind ((Parser.escAt k).stmts _ hd2) (fun stmts r hd3 => ?_)
        exact Parser.Never.never_match _ _ _ hd3 rfl
    · refine Parser.Never.never_bind (Parser.parseDecls_esc k _ hd1) (fun decls q hd2 => ?_)
      refine Parser.Never.never_bind ((Parser.escAt k).stmts _ hd2) (fun stmts r hd3 => ?_)
      exact Parser.Never.never_match _ _ _ hd3 rfl

/-- From a doomed state no block is parsed. -/
theorem Parser.parseBlock_never (fuel : Nat) (p : Parser) (hd : p.Doomed) :
    Parser.Never (Parser.parseBlock fuel p) := by
  cases fuel with
  | zero => exact Parser.Never.never_throw
  | succ k =>
    rw [Parser.parseBlock.eq_2]
    exact Parser.Never.never_match _ _ _ hd rfl

/-- The first states of the parser on a text and on the text followed by `t` show the same,
unless the text holds no token that can open a block. -/
theorem Parser.new_rel (cs t : List Char) :
    Parser.Rel t (Parser.new (Lexer.new cs)) (Parser.new (Lexer.new (cs ++ t))) ∨
    (Parser.new (Lexer.new cs)).Doomed := by
  have h0 : Lexer.Ext t
      { input := cs, currentCharacter := Char.ofNat 0, line := 1, column := 0,
        numberValue := 0, identifierValue := "" }
      { input := cs ++ t, currentCharacter := Char.ofNat 0, line := 1, column := 0,
        numberValue := 0, identifierValue := "" } := rfl
  have h1 : Lexer.Ext t (Lexer.new cs) (Lexer.new (cs ++ t)) ∨ (Lexer.new cs).AtEnd := by
    rcases h0.advance_cases with ⟨h, _⟩ | ⟨h, _⟩
    · exact Or.inl h
    · exact Or.inr h
  have hrel : Parser.Rel t { lexer := Lexer.new cs, currentToken := Token.END }
      { lexer := Lexer.new (cs ++ t), currentToken := Token.END } := by
    refine ⟨rfl, ?_, ?_, h1⟩
    · unfold Lexer.new
      rw [Lexer.advance_identifierValue, Lexer.advance_identifierValue]
    · unfold Lexer.new
      rw [Lexer.advance_numberValue, Lexer.advance_numberValue]
  exact hrel.advance_rel

/-- Characters after a text that parses do not change the tree. -/
theorem Parser.parse_append (cs t : List Char) (fuel : Nat) (ast : Node)
    (h : Parser.parse fuel (Parser.new (Lexer.new cs)) = Except.ok ast) :
    Parser.parse fuel (Parser.new (Lexer.new (cs ++ t))) = Except.ok ast := by
  unfold Parser.parse Parser.parseProgram at h ⊢
  cases hb : Parser.parseBlock fuel (Parser.new (Lexer.new cs)) with
  | error e => rw [hb] at h; cases h
  | ok r =>
    obtain ⟨block, q⟩ := r
    rw [hb] at h
    have hast : Node.ProgramNode block = ast := by
      cases h
      rfl
    rcases Parser.new_rel cs t with hrel | hd
    · obtain ⟨q1, hq1⟩ := (Parser.parseBlock_sameNode t fuel _ _ hrel).out block q hb
      rw [hq1, ← hast]
      rfl
    · exact absurd hb ((Parser.parseBlock_never fuel _ hd).out _)

/-! ## Text after the top-level block (C39) -/

/-- C39: `parse` does not look at what follows the top-level block. When the source `s`
parses to a tree, with some fuel, then `s` followed by any characters `t` parses to the same
tree with the same fuel, and the run of the longer source is the run of `s`. -/
theorem text_after_the_block_is_not_read (s t : String) (fuel : Nat) (ast : Node)
    (h : Parser.parse fuel (Parser.new (Lexer.new s.toList)) = Except.ok ast) :
    Parser.parse fuel (Parser.new (Lexer.new (s ++ t).toList)) = Except.ok ast ∧
    runSource fuel (s ++ t) = runSource fuel s := by
  have happ : (s ++ t).toList = s.toList ++ t.toList := by
    cases s
    cases t
    rfl
  have h1 := Parser.parse_append s.toList t.toList fuel ast h
  rw [← happ] at h1
  refine ⟨h1, ?_⟩
  unfold runSource
  rw [h, h1]

/-- Witness of C39 on `{print(1);}` followed by ` @ {print(2);}`. -/
theorem text_after_the_block_is_not_read_witness :
    Parser.parse 50 (Parser.new (Lexer.new "{print(1);}".toList))
      = Except.ok (Node.ProgramNode (Node.BlockNode Node.null
          (Node.StmtsNode (Node.PrintNode (intLit 1)) Node.null))) ∧
    Parser.parse 50 (Parser.new (Lexer.new ("{print(1);}" ++ " @ {print(2);}").toList))
      = Except.ok (Node.ProgramNode (Node.BlockNode Node.null
          (Node.StmtsNode (Node.PrintNode (intLit 1)) Node.null))) ∧
    runSource 50 ("{print(1);}" ++ " @ {print(2);}") = ⟨["1"], none⟩ :=
  ⟨rfl,
   (text_after_the_block_is_not_read "{print(1);}" " @ {print(2);}" 50 _ rfl).1,
   by decide⟩

/-! ## Parsing terminates (C37) -/

/-- The first state of the parser weighs no more than the text is long. -/
theorem Parser.new_measure (cs : List Char) :
    (Parser.new (Lexer.new cs)).measure ≤ cs.length := by
  have h1 : (Lexer.new cs).remaining ≤ cs.length := by
    unfold Lexer.new
    exact Lexer.advance_remaining_le _
  have h2 := Lexer.nextToken_remaining (Lexer.new cs)
  unfold Parser.new Parser.advance Parser.measure
  simp only []
  omega

/-- A statement that is parsed has consumed at least one token. -/
theorem Parser.parseStmt_consumes (fuel : Nat) (p q : Parser) (n : Node)
    (h : Parser.parseStmt fuel p = Except.ok (n, q)) :
    Parser.Reach p q ∧ q.measure < p.measure := by
  have h1 := Stab.mono (fun k => Parser.parseStmt k p)
    (fun k => (Parser.stableAt k).stmt p) h (fuel + (12 * p.measure + 10)) (by omega)
  exact ((Parser.totalAt (fuel + (12 * p.measure + 10))).stmt p p
    (fun r => Parser.Reach p r.2 ∧ r.2.measure < p.measure) Parser.Reach.refl (by omega)
    (fun n q hr hm => ⟨hr, hm⟩)).ok _ h1

/-- C37: parsing terminates on every text. With fuel of twelve units for each character of
the source and ten more, `parse` returns a tree or fails with a syntax error, and more fuel
changes nothing. The reasons: the scanner never gives a character back and consumes at
least one for every token other than END and ERROR, and also for the ERROR of a single `&`
or `|`; a match of a token other than END and ERROR makes the measure of the parser
smaller, a parsed statement has made it smaller, and the states that a successful run goes
through are reached by such matches only, so that the parser never goes on past END or
ERROR. -/
theorem parsing_terminates (source : String) :
    (∀ fuel, 12 * source.length + 10 ≤ fuel →
      Parser.parse fuel (Parser.new (Lexer.new source.toList))
        = Parser.parse (12 * source.length + 10) (Parser.new (Lexer.new source.toList))) ∧
    ((∃ ast, Parser.parse (12 * source.length + 10) (Parser.new (Lexer.new source.toList))
        = Except.ok ast) ∨
     (∃ e, Parser.parse (12 * source.length + 10) (Parser.new (Lexer.new source.toList))
        = Except.error e ∧ e.isSyntax = true)) ∧
    (∀ l : Lexer, l.nextToken.2.remaining ≤ l.remaining ∧
      (l.nextToken.1 ≠ Token.END → l.nextToken.1 ≠ Token.ERROR →
        l.nextToken.2.remaining < l.remaining)) ∧
    (∀ l : Lexer, l.currentCharacter = '&' ∨ l.currentCharacter = '|' →
      l.nextToken.2.remaining < l.remaining) ∧
    (∀ p : Parser, p.currentToken ≠ Token.END → p.currentToken ≠ Token.ERROR →
      p.advance.measure < p.measure) ∧
    (∀ fuel p n q, Parser.parseStmt fuel p = Except.ok (n, q) → q.measure < p.measure) ∧
    (∀ fuel ast q, Parser.parseProgram fuel (Parser.new (Lexer.new source.toList))
        = Except.ok (ast, q) →
      Parser.Reach (Parser.new (Lexer.new source.toList)) q) := by
  have hlen : source.toList.length = source.length := by
    cases source
    rfl
  have hm := Parser.new_measure source.toList
  have hb : 12 * (Parser.new (Lexer.new source.toList)).measure + 10
      ≤ 12 * source.length + 10 := by omega
  have hT := Parser.parseProgram_total _ _ hb
  have hne : Parser.parseProgram (12 * source.length + 10)
      (Parser.new (Lexer.new source.toList)) ≠ Except.error Error.outOfFuel := by
    intro hc
    have := hT.err _ hc
    cases this
  refine ⟨?_, ?_, ?_, ?_, ?_, ?_, ?_⟩
  · intro fuel hf
    have key : Parser.parseProgram fuel (Parser.new (Lexer.new source.toList))
        = Parser.parseProgram (12 * source.length + 10)
            (Parser.new (Lexer.new source.toList)) :=
      Stab.mono_of_ne
        (fun k => Parser.parseProgram k (Parser.new (Lexer.new source.toList)))
        (fun k => Parser.parseProgram_stable k _) _ hne fuel hf
    unfold Parser.parse
    rw [key]
  · unfold Parser.parse
    cases hres : Parser.parseProgram (12 * source.length + 10)
        (Parser.new (Lexer.new source.toList)) with
    | ok r => exact Or.inl ⟨r.1, rfl⟩
    | error e => exact Or.inr ⟨e, rfl, hT.err e hres⟩
  · intro l
    have h := Lexer.nextToken_remaining l
    refine ⟨by omega, fun h1 h2 => ?_⟩
    have hw : l.nextToken.1.weight = 1 := by simp [Token.weight, h1, h2]
    omega
  · intro l hc
    have hs : isspace l.currentCharacter = false := by
      rcases hc with hc | hc <;> rw [hc] <;> decide
    have hne0 : l.currentCharacter ≠ Char.ofNat 0 := by
      rcases hc with hc | hc <;> rw [hc] <;> decide
    rw [Lexer.nextToken_unfold, Lexer.skipWhitespace_of_not_space l hs]
    rcases hc with hc | hc
    · have h2 := Lexer.twoCharacters_remaining l '&' Token.AND Token.ERROR hne0
      rw [hc]
      show (l.twoCharacters '&' Token.AND Token.ERROR).2.remaining < _
      omega
    · have h2 := Lexer.twoCharacters_remaining l '|' Token.OR Token.ERROR hne0
      rw [hc]
      show (l.twoCharacters '|' Token.OR Token.ERROR).2.remaining < _
      omega
  · exact fun p h1 h2 => Parser.measure_advance p h1 h2
  · exact fun fuel p n q h => (Parser.parseStmt_consumes fuel p q n h).2
  · exact fun fuel ast q h => Parser.parseProgram_reach fuel _ q ast h
